import Mathlib

/-!
# SSHTermbox: a shallow embedding of the terminal-control engine

The Go package `sshtermbox` (files `api.go`, `termbox.go`, `termbox_common.go`,
`terminfo.go`) is embedded as pure Lean functions over explicit state: the cell
grid, the render path (`Flush`, `Clear`, `SetCell`, `send_attr`), the input
decoder (`extract_event`, `ParseEvent`), the terminal lookup (`getTermInfo`,
`Init`), the mode setters, `Resize` and the poll functions.

Conventions of the embedding

* A Go `string` or `[]byte` is a `List Nat` of bytes; byte arithmetic is written
  with an explicit `% 256`, `int64` arithmetic that can wrap with `wrapInt64`.
* A Go `int` that holds a size, a count or an index is a `Nat`, one of its
  non-negative values: the sizes of `Init` and `Resize` are non-negative (what
  `sshterm.go` passes is converted from `uint32`). An `int` is taken to be 64
  bits wide. The product `width*height` of `cellbuf.init` can wrap and is
  reduced with an explicit `% 2^64`; the cell indices of the loops grow from 0
  in steps and reach the number of cells, where the access panics, before they
  can wrap. A coordinate that may be negative (`SetCell`, the cursor, `lastx`)
  is an `Int`.
* A `rune` is an `Int` (Go's `int32`, which may be negative).
* A Go panic (index or slice out of range, `make` with a negative length,
  `panic("unreachable")`) is the value `none` of an `Option`.
* A pointer argument that the Go function writes through (`event *Event`) is an
  argument and a component of the result.
* `t.outbuf.WriteString(s)` appends the bytes of `s`; the connection `t.out` is
  the list of the bytes written to it, and writes to it succeed.
* The types and constants of `api_common.go` (`Cell`, `Event`, key codes,
  modifiers, input-mode bits, attribute flags) are not part of the embedded
  files. The struct types have the fields that the embedded files use; a key
  code is an integer, so that `Key(0xFFFF - i)` is `0xFFFF - i`; the named
  constants are the fields of the parameter `Consts`.
* `runewidth.RuneWidth` and `runewidth.IsAmbiguousWidth` (an external package)
  are parameters `rw` and `amb` of `Flush`.
* The built-in terminal tables of `terminfo_builtin.go` are not part of the
  embedded files; they are the parameter `Builtin` of `getTermInfo` and `Init`.
* The embedding is sequential. The buffered channel `resize_comm` is the number
  of signals it holds; a send on the full channel is a call that has not
  returned. A poll function is run on the list of the values that its `select`
  statements receive, and is still waiting when the list is used up.
-/

namespace SSHTermbox

/-! ## Basic types -/

/-- The bytes of a Go `string` or `[]byte`. -/
abbrev Bytes := List Nat

/-- Go `type Attribute`: colour index in the low bits, style flags above. -/
abbrev Attribute := Nat

/-- Go `type Key`: the numeric key code, as an integer. -/
abbrev Key := Int

/-- Go `type Modifier`: a bit mask. -/
abbrev Modifier := Nat

/-- Go `type InputMode`: a bit mask. -/
abbrev InputMode := Nat

/-- Go `type EventType`: only equality of the enumerated values is used. -/
inductive EventType
  | EventKey
  | EventResize
  | EventMouse
  | EventError
  | EventInterrupt
  | EventRaw
  | EventNone
  | EventCancel
  deriving DecidableEq, Repr

/-- Go `type OutputMode`: only equality of the enumerated values is used. -/
inductive OutputMode
  | OutputCurrent
  | OutputNormal
  | Output256
  | Output216
  | OutputGrayscale
  deriving DecidableEq, Repr

/-- The named constants that the embedded files use and that are declared in
`api_common.go`. They are taken as a parameter of every function that mentions
one of them. -/
structure Consts where
  KeyEsc : Key
  KeySpace : Key
  KeyBackspace2 : Key
  MouseLeft : Key
  MouseMiddle : Key
  MouseRight : Key
  MouseRelease : Key
  MouseWheelUp : Key
  MouseWheelDown : Key
  ModAlt : Modifier
  ModMotion : Modifier
  InputEsc : InputMode
  InputAlt : InputMode
  InputMouse : InputMode
  InputCurrent : InputMode
  AttrBold : Attribute
  AttrUnderline : Attribute
  AttrReverse : Attribute
  deriving Repr

/-- The values of the constants in termbox-go, the package this one is derived
from. Used to instantiate the statements at concrete inputs. -/
def termboxConsts : Consts where
  KeyEsc := 0x1B
  KeySpace := 0x20
  KeyBackspace2 := 0x7F
  MouseLeft := 0xFFFF - 23
  MouseMiddle := 0xFFFF - 24
  MouseRight := 0xFFFF - 25
  MouseRelease := 0xFFFF - 26
  MouseWheelUp := 0xFFFF - 27
  MouseWheelDown := 0xFFFF - 28
  ModAlt := 1
  ModMotion := 2
  InputEsc := 1
  InputAlt := 2
  InputMouse := 4
  InputCurrent := 0
  AttrBold := 0x200
  AttrUnderline := 0x400
  AttrReverse := 0x800

/-- The colour value that stands for the terminal default: "In all modes, 0x00
represents the default color" (doc comment of `SetOutputMode`). -/
def ColorDefault : Attribute := 0

/-- Go `coord_invalid`. -/
def coord_invalid : Int := -2

/-- Go `attr_invalid`. -/
def attr_invalid : Attribute := 0xFFFF

/-- Go `cursor_hidden`. -/
def cursor_hidden : Int := -1

/-- Go `type Cell struct`, with the fields `Ch`, `Fg`, `Bg` in the order of the
literal `Cell{ch, fg, bg}` of `SetCell`. -/
structure Cell where
  Ch : Int
  Fg : Attribute
  Bg : Attribute
  deriving DecidableEq, Repr

/-- Go `type Event struct`: the fields the embedded files read or write. -/
structure Event where
  Type_ : EventType
  Mod : Modifier
  Key : Key
  Ch : Int
  Width : Nat
  Height : Nat
  Err : Option String
  MouseX : Int
  MouseY : Int
  N : Nat
  deriving DecidableEq, Repr

/-- The Go composite literal `Event{Type: ty}`: every other field has its zero
value. -/
def Event.ofType (ty : EventType) : Event where
  Type_ := ty
  Mod := 0
  Key := 0
  Ch := 0
  Width := 0
  Height := 0
  Err := none
  MouseX := 0
  MouseY := 0
  N := 0

/-! ## Go library functions used by the decoder -/

/-- Go `strings.HasPrefix`. -/
def HasPrefix (s pre : Bytes) : Bool :=
  pre.isPrefixOf s

/-- Go `strings.IndexAny`, for the ASCII character sets used here: the index of
the first byte of `s` that occurs in `chars`, `none` for Go's `-1`. -/
def IndexAny (s chars : Bytes) : Option Nat :=
  match s with
  | [] => none
  | b :: rest =>
    if chars.contains b then some 0
    else match IndexAny rest chars with
      | some i => some (i + 1)
      | none => none

/-- Go `strings.Index` for a one-byte separator: the first index of `c`. -/
def Index (s : Bytes) (c : Nat) : Option Nat :=
  match s with
  | [] => none
  | b :: rest =>
    if b = c then some 0
    else match Index rest c with
      | some i => some (i + 1)
      | none => none

/-- Go `strings.LastIndex` for a one-byte separator: the last index of `c`. -/
def LastIndex (s : Bytes) (c : Nat) : Option Nat :=
  match s with
  | [] => none
  | b :: rest =>
    match LastIndex rest c with
    | some i => some (i + 1)
    | none => if b = c then some 0 else none

/-- The Go slice expression `s[i:j]`; `none` when it panics. -/
def slice {α : Type} (s : List α) (i j : Nat) : Option (List α) :=
  if i ≤ j ∧ j ≤ s.length then some ((s.drop i).take (j - i)) else none

/-- The digits of Go `strconv.ParseUint(s, 10, 64)` accumulated on `acc`;
`none` when a byte is not a decimal digit. -/
def parseDigits (s : Bytes) (acc : Nat) : Option Nat :=
  match s with
  | [] => some acc
  | b :: rest =>
    if 48 ≤ b ∧ b ≤ 57 then parseDigits rest (acc * 10 + (b - 48)) else none

/-- Go `strconv.ParseInt(s, 10, 64)`; `none` when it returns an error (empty
input, a sign without digits, a byte that is no digit, or a value outside the
range of `int64`). -/
def ParseInt (s : Bytes) : Option Int :=
  match s with
  | [] => none
  | b :: rest =>
    let neg := decide (b = 45)
    let digits := if b = 43 ∨ b = 45 then rest else b :: rest
    match digits with
    | [] => none
    | d :: ds =>
      match parseDigits (d :: ds) 0 with
      | none => none
      | some un =>
        if !neg && decide (un ≥ 2 ^ 63) then none
        else if neg && decide (un > 2 ^ 63) then none
        else some (if neg then -(un : Int) else (un : Int))

/-- The value of a Go `int64` (or `int`) after an arithmetic step: the
two's-complement representative of `x`. -/
def wrapInt64 (x : Int) : Int :=
  (x + 2 ^ 63) % 2 ^ 64 - 2 ^ 63

/-- Go `utf8.RuneError`. -/
def RuneError : Int := 0xFFFD

/-- A UTF-8 continuation byte (`locb <= b <= hicb`). -/
def isCont (b : Nat) : Bool :=
  decide (0x80 ≤ b ∧ b ≤ 0xBF)

/-- Go `utf8.DecodeRune`: the rune and its width in bytes; `(RuneError, 0)` on
empty input and `(RuneError, 1)` on an invalid or incomplete encoding. -/
def DecodeRune (p : Bytes) : Int × Nat :=
  match p with
  | [] => (RuneError, 0)
  | p0 :: rest =>
    if p0 < 0x80 then ((p0 : Int), 1)
    else if p0 < 0xC2 then (RuneError, 1)
    else if p0 < 0xE0 then
      match rest with
      | b1 :: _ =>
        if isCont b1 then (((p0 % 32 * 64 + b1 % 64 : Nat) : Int), 2) else (RuneError, 1)
      | _ => (RuneError, 1)
    else if p0 < 0xF0 then
      match rest with
      | b1 :: b2 :: _ =>
        let lo := if p0 = 0xE0 then 0xA0 else 0x80
        let hi := if p0 = 0xED then 0x9F else 0xBF
        if b1 < lo ∨ hi < b1 then (RuneError, 1)
        else if !isCont b2 then (RuneError, 1)
        else (((p0 % 16 * 4096 + b1 % 64 * 64 + b2 % 64 : Nat) : Int), 3)
      | _ => (RuneError, 1)
    else if p0 < 0xF5 then
      match rest with
      | b1 :: b2 :: b3 :: _ =>
        let lo := if p0 = 0xF0 then 0x90 else 0x80
        let hi := if p0 = 0xF4 then 0x8F else 0xBF
        if b1 < lo ∨ hi < b1 then (RuneError, 1)
        else if !isCont b2 then (RuneError, 1)
        else if !isCont b3 then (RuneError, 1)
        else (((p0 % 8 * 262144 + b1 % 64 * 4096 + b2 % 64 * 64 + b3 % 64 : Nat) : Int), 4)
      | _ => (RuneError, 1)
    else (RuneError, 1)

/-- Go `utf8.EncodeRune`: the bytes written for `r`; a negative value, a
surrogate or a value above `0x10FFFF` is encoded as `RuneError`. -/
def EncodeRune (r : Int) : Bytes :=
  let i := r.toNat
  if r < 0 then [0xEF, 0xBF, 0xBD]
  else if i ≤ 0x7F then [i]
  else if i ≤ 0x7FF then [0xC0 + i / 64, 0x80 + i % 64]
  else if i > 0x10FFFF ∨ (0xD800 ≤ i ∧ i ≤ 0xDFFF) then [0xEF, 0xBF, 0xBD]
  else if i ≤ 0xFFFF then [0xE0 + i / 4096, 0x80 + i / 64 % 64, 0x80 + i % 64]
  else [0xF0 + i / 262144, 0x80 + i / 4096 % 64, 0x80 + i / 64 % 64, 0x80 + i % 64]

/-! ## The input decoder (`termbox.go`) -/

/-- The `switch b & 3` of the X10 branch of Go `parse_mouse_event`, on the byte
`b`; `none` is the `default` case. -/
def buttonOfByte (c : Consts) (b : Nat) : Option Key :=
  match b &&& 3 with
  | 0 => some (if b &&& 64 ≠ 0 then c.MouseWheelUp else c.MouseLeft)
  | 1 => some (if b &&& 64 ≠ 0 then c.MouseWheelDown else c.MouseMiddle)
  | 2 => some c.MouseRight
  | 3 => some c.MouseRelease
  | _ => none

/-- The `switch n1 & 3` of the xterm/urxvt branch of Go `parse_mouse_event`, on
the `int64` value `n1`; `none` is the `default` case. On a two's-complement
integer `n1 & 3` is `n1 mod 4` and `n1 & 64 != 0` says that `floor(n1/64)` is
odd. -/
def buttonOfInt (c : Consts) (n1 : Int) : Option Key :=
  if n1 % 4 = 0 then some (if n1 / 64 % 2 ≠ 0 then c.MouseWheelUp else c.MouseLeft)
  else if n1 % 4 = 1 then some (if n1 / 64 % 2 ≠ 0 then c.MouseWheelDown else c.MouseMiddle)
  else if n1 % 4 = 2 then some c.MouseRight
  else if n1 % 4 = 3 then some c.MouseRelease
  else none

/-- The end of the xterm/urxvt branch of Go `parse_mouse_event`, from
`switch n1 & 3` on, for the parsed numbers `n1` (already reduced by 32 for
urxvt), `n2` and `n3`. -/
def mouseOfFields (c : Consts) (event : Event) (isM : Bool) (mi : Nat) (n1 n2 n3 : Int) :
    Event × Nat × Bool :=
  match buttonOfInt c n1 with
  | none => (event, mi + 1, false)
  | some k =>
    ({ event with
       Key := if !isM then c.MouseRelease else k
       Type_ := EventType.EventMouse
       Mod := if n1 / 32 % 2 ≠ 0 then event.Mod ||| c.ModMotion else event.Mod
       MouseX := wrapInt64 (n2 - 1)
       MouseY := wrapInt64 (n3 - 1) }, mi + 1, true)

/-- The part of Go `parse_mouse_event` that follows the slicing `buf = buf[3:mi]`
(or `buf[2:mi]`): the three decimal fields are split at the first and the last
`;`, parsed and decoded. -/
def parseMouseFields (c : Consts) (event : Event) (isM isU : Bool) (mi : Nat) (buf : Bytes) :
    Option (Event × Nat × Bool) :=
  match Index buf 0x3B, LastIndex buf 0x3B with
  | some s1, some s2 =>
    if s1 = s2 then some (event, 0, false)
    else
      match slice buf 0 s1, slice buf (s1 + 1) s2, slice buf (s2 + 1) buf.length with
      | some f1, some f2, some f3 =>
        match ParseInt f1 with
        | none => some (event, 0, false)
        | some n1 =>
          match ParseInt f2 with
          | none => some (event, 0, false)
          | some n2 =>
            match ParseInt f3 with
            | none => some (event, 0, false)
            | some n3 =>
              some (mouseOfFields c event isM mi (if isU then wrapInt64 (n1 - 32) else n1) n2 n3)
      | _, _, _ => none
  | _, _ => some (event, 0, false)

/-- The X10 branch of Go `parse_mouse_event` for the bytes `buf[3]`, `buf[4]`
and `buf[5]`. -/
def mouseOfX10 (c : Consts) (event : Event) (b3 b4 b5 : Nat) : Event × Nat × Bool :=
  let b := (b3 + 256 - 32) % 256
  match buttonOfByte c b with
  | none => (event, 6, false)
  | some k =>
    ({ event with
       Key := k
       Type_ := EventType.EventMouse
       Mod := if b &&& 32 ≠ 0 then event.Mod ||| c.ModMotion else event.Mod
       MouseX := Int.ofNat b4 - 1 - 32
       MouseY := Int.ofNat b5 - 1 - 32 }, 6, true)

/-- Go `parse_mouse_event`: the event after the call, the byte count and the
success flag. -/
def parse_mouse_event (c : Consts) (event : Event) (buf : Bytes) :
    Option (Event × Nat × Bool) :=
  if HasPrefix buf [0x1B, 0x5B, 0x4D] && decide (buf.length ≥ 6) then
    -- X10 mouse encoding: \033 [ M Cb Cx Cy
    match buf[3]?, buf[4]?, buf[5]? with
    | some b3, some b4, some b5 => some (mouseOfX10 c event b3 b4 b5)
    | _, _, _ => none
  else if HasPrefix buf [0x1B, 0x5B, 0x3C] || HasPrefix buf [0x1B, 0x5B] then
    -- xterm 1006: \033 [ < Cb ; Cx ; Cy (M or m);  urxvt 1015: \033 [ Cb ; Cx ; Cy M
    match IndexAny buf [0x4D, 0x6D] with
    | none => some (event, 0, false)
    | some mi =>
      match buf[mi]?, buf[2]? with
      | some bmi, some b2 =>
        let isM := decide (bmi = 0x4D)
        match (if b2 = 0x3C then slice buf 3 mi else slice buf 2 mi) with
        | none => none
        | some fields => parseMouseFields c event isM (!decide (b2 = 0x3C)) mi fields
      | _, _ => none
  else some (event, 0, false)

/-- The loop of Go `parse_escape_sequence`: the index and the length of the
first key sequence, from index `i` on, that is a prefix of `bufstr`. -/
def matchKeys (bufstr : Bytes) : List Bytes → Nat → Option (Nat × Nat)
  | [], _ => none
  | key :: rest, i =>
    if HasPrefix bufstr key then some (i, key.length) else matchKeys bufstr rest (i + 1)

/-- Go `parse_escape_sequence`. -/
def parse_escape_sequence (c : Consts) (keys : List Bytes) (event : Event) (buf : Bytes) :
    Option (Event × Nat × Bool) :=
  match matchKeys buf keys 0 with
  | some (i, n) => some ({ event with Ch := 0, Key := 0xFFFF - (i : Int) }, n, true)
  | none => parse_mouse_event c event buf

/-- Go `extract_event`: the event after the call and the returned flag. -/
def extract_event (c : Consts) (keys : List Bytes) (input_mode : InputMode) :
    Bytes → Event → Option (Event × Bool)
  | [], event => some ({ event with N := 0 }, false)
  | b :: rest, event =>
    if b = 0x1B then
      match parse_escape_sequence c keys event (b :: rest) with
      | none => none
      | some (event, n, ok) =>
        if n ≠ 0 then some ({ event with N := n }, ok)
        else if input_mode &&& c.InputEsc ≠ 0 then
          some ({ event with Ch := 0, Key := c.KeyEsc, Mod := 0, N := 1 }, true)
        else if input_mode &&& c.InputAlt ≠ 0 then
          match extract_event c keys input_mode rest { event with Mod := c.ModAlt } with
          | none => none
          | some (event, ok) =>
            if ok then some ({ event with N := event.N + 1 }, true)
            else some ({ event with N := 0 }, false)
        else none
    else if (b : Int) ≤ c.KeySpace ∨ (b : Int) = c.KeyBackspace2 then
      some ({ event with Ch := 0, Key := (b : Int), N := 1 }, true)
    else
      match DecodeRune (b :: rest) with
      | (r, n) =>
        if r ≠ RuneError then some ({ event with Ch := r, Key := 0, N := n }, true)
        else some (event, false)

/-- Go `ParseEvent`. -/
def ParseEvent (c : Consts) (keys : List Bytes) (input_mode : InputMode) (data : Bytes) :
    Option Event :=
  match extract_event c keys input_mode data (Event.ofType EventType.EventKey) with
  | none => none
  | some (event, ok) =>
    if !ok then some { Event.ofType EventType.EventNone with N := event.N }
    else some event

/-! ## The cell grid (`termbox_common.go`) -/

/-- Go `type cellbuf struct`. The fields `width` and `height` hold the
non-negative values of Go's `int`: the sizes of the claims are non-negative, and
the sizes that `sshterm.go` passes are converted from `uint32`. -/
structure cellbuf where
  width : Nat
  height : Nat
  cells : List Cell
  deriving DecidableEq, Repr

/-- Go `cellbuf.init`. The product `width*height` is computed in `int`, taken
to be 64 bits wide, and wraps: of the product of two non-negative sizes the low
64 bits `n` are kept, and they are a negative `int` when `n ≥ 2^63`.
`make([]Cell, n)` panics (`none`) on a negative length and gives `n` zero cells
otherwise (an allocation of a non-negative length is taken to succeed). -/
def cellbuf.init (this : cellbuf) (width height : Nat) : Option cellbuf :=
  let n := width * height % 2 ^ 64
  if 2 ^ 63 ≤ n then none
  else some { this with width := width, height := height,
                        cells := List.replicate n ⟨0, 0, 0⟩ }

/-- Go `cellbuf.clear`. -/
def cellbuf.clear (this : cellbuf) (fg bg : Attribute) : cellbuf :=
  { this with cells := this.cells.map fun _ => ⟨32, fg, bg⟩ }

/-- The row loop of Go `cellbuf.resize`, with `n` iterations left and loop
variable `i`: `copy(this.cells[dsto:dsto+minw], oldcells[srco:srco+minw])`. -/
def copyRows (oldcells : List Cell) (oldw width minw : Nat) :
    Nat → Nat → List Cell → Option (List Cell)
  | 0, _, cells => some cells
  | n + 1, i, cells =>
    let srco := i * oldw
    let dsto := i * width
    match slice oldcells srco (srco + minw), slice cells dsto (dsto + minw) with
    | some src, some _ =>
      copyRows oldcells oldw width minw n (i + 1)
        (cells.take dsto ++ src ++ cells.drop (dsto + minw))
    | _, _ => none

/-- Go `cellbuf.resize`. -/
def cellbuf.resize (this : cellbuf) (width height : Nat) (fg bg : Attribute) :
    Option cellbuf :=
  if this.width = width ∧ this.height = height then some this
  else
    let oldw := this.width
    let oldh := this.height
    let oldcells := this.cells
    match this.init width height with
    | none => none
    | some this =>
      let this := this.clear fg bg
      let minw := if width < oldw then width else oldw
      let minh := if height < oldh then height else oldh
      match copyRows oldcells oldw width minw minh 0 this.cells with
      | none => none
      | some cells => some { this with cells := cells }

/-- Go `is_cursor_hidden`. -/
def is_cursor_hidden (x y : Int) : Bool :=
  decide (x = cursor_hidden) || decide (y = cursor_hidden)

/-! ## The engine state and the render path (`api.go`, `termbox.go`) -/

/-- Go `type Termbox struct`, without the channels and the lock. `out` is the
log of the bytes written to the connection so far (writes succeed); `funcs` is
the capability table, read with the empty string past its end (every table of
the package has `t_max_funcs` entries). -/
structure Termbox where
  keys : List Bytes
  funcs : List Bytes
  back_buffer : cellbuf
  front_buffer : cellbuf
  termw : Nat
  termh : Nat
  input_mode : InputMode
  output_mode : OutputMode
  out : Bytes
  lastfg : Attribute
  lastbg : Attribute
  lastx : Int
  lasty : Int
  cursor_x : Int
  cursor_y : Int
  foreground : Attribute
  background : Attribute
  inbuf : Bytes
  outbuf : Bytes
  newW : Nat
  newH : Nat
  deriving DecidableEq, Repr

/-- The indices of the capability table (`t_enter_ca = iota`, ...). -/
def t_enter_ca : Nat := 0
def t_exit_ca : Nat := 1
def t_show_cursor : Nat := 2
def t_hide_cursor : Nat := 3
def t_clear_screen : Nat := 4
def t_sgr0 : Nat := 5
def t_underline : Nat := 6
def t_bold : Nat := 7
def t_blink : Nat := 8
def t_reverse : Nat := 9
def t_enter_keypad : Nat := 10
def t_exit_keypad : Nat := 11
def t_enter_mouse : Nat := 12
def t_exit_mouse : Nat := 13
def t_max_funcs : Nat := 14

/-- The Go expression `t.funcs[i]`. -/
def Termbox.func (t : Termbox) (i : Nat) : Bytes :=
  t.funcs.getD i []

/-- The grayscale palette that `Init` stores in `t.grayscale`. -/
def grayscale : List Attribute :=
  [0, 17, 233, 234, 235, 236, 237, 238, 239, 240, 241, 242, 243, 244,
   245, 246, 247, 248, 249, 250, 251, 252, 253, 254, 255, 256, 232]

/-- Go `strconv.AppendUint(t.intbuf, n, 10)` on the empty scratch buffer: the
decimal digits of `n`. -/
def AppendUint (n : Nat) : Bytes :=
  (Nat.toDigits 10 n).map Char.toNat

/-- The Go conversion `uint64(v)` of an `int`. -/
def toUint64 (v : Int) : Nat :=
  (v % 2 ^ 64).toNat

/-- The bytes that Go `write_cursor(x, y)` appends: `ESC [ y+1 ; x+1 H`. -/
def cursorBytes (x y : Int) : Bytes :=
  [0x1B, 0x5B] ++ AppendUint (toUint64 (y + 1)) ++ [0x3B] ++ AppendUint (toUint64 (x + 1)) ++ [0x48]

/-- Go `write_cursor`. -/
def write_cursor (t : Termbox) (x y : Int) : Termbox :=
  { t with outbuf := t.outbuf ++ cursorBytes x y }

/-- The bytes that Go `write_sgr_fg(a)` appends to the output buffer:
`"\033[38;5;" a-1 "m"` in the indexed modes, `"\033[3" a-1 "m"` otherwise. The
argument is never `ColorDefault`, so `a - 1` does not wrap. -/
def write_sgr_fg (mode : OutputMode) (a : Attribute) : Bytes :=
  match mode with
  | OutputMode.Output256 | OutputMode.Output216 | OutputMode.OutputGrayscale =>
    [0x1B, 0x5B, 0x33, 0x38, 0x3B, 0x35, 0x3B] ++ AppendUint (a - 1) ++ [0x6D]
  | _ => [0x1B, 0x5B, 0x33] ++ AppendUint (a - 1) ++ [0x6D]

/-- The bytes that Go `write_sgr_bg(a)` appends to the output buffer:
`"\033[48;5;" a-1 "m"` in the indexed modes, `"\033[4" a-1 "m"` otherwise. -/
def write_sgr_bg (mode : OutputMode) (a : Attribute) : Bytes :=
  match mode with
  | OutputMode.Output256 | OutputMode.Output216 | OutputMode.OutputGrayscale =>
    [0x1B, 0x5B, 0x34, 0x38, 0x3B, 0x35, 0x3B] ++ AppendUint (a - 1) ++ [0x6D]
  | _ => [0x1B, 0x5B, 0x34] ++ AppendUint (a - 1) ++ [0x6D]

/-- The bytes that Go `write_sgr(fg, bg)` appends to the output buffer:
`"\033[38;5;" fg-1 "m" "\033[48;5;" bg-1 "m"` in the indexed modes,
`"\033[3" fg-1 ";4" bg-1 "m"` otherwise. -/
def write_sgr (mode : OutputMode) (fg bg : Attribute) : Bytes :=
  match mode with
  | OutputMode.Output256 | OutputMode.Output216 | OutputMode.OutputGrayscale =>
    [0x1B, 0x5B, 0x33, 0x38, 0x3B, 0x35, 0x3B] ++ AppendUint (fg - 1) ++ [0x6D]
      ++ [0x1B, 0x5B, 0x34, 0x38, 0x3B, 0x35, 0x3B] ++ AppendUint (bg - 1) ++ [0x6D]
  | _ => [0x1B, 0x5B, 0x33] ++ AppendUint (fg - 1) ++ [0x3B, 0x34] ++ AppendUint (bg - 1) ++ [0x6D]

/-- The colour masking of Go `send_attr`: `fgcol` (or `bgcol`) from `fg`. -/
def maskColor (mode : OutputMode) (a : Attribute) : Attribute :=
  match mode with
  | OutputMode.Output256 => a &&& 0x1FF
  | OutputMode.Output216 =>
    let col := a &&& 0xFF
    let col := if col > 216 then ColorDefault else col
    if col ≠ ColorDefault then col + 0x10 else col
  | OutputMode.OutputGrayscale =>
    let col := a &&& 0x1F
    let col := if col > 26 then ColorDefault else col
    if col ≠ ColorDefault then grayscale.getD col 0 else col
  | _ => a &&& 0x0F

/-- The colour sequence of Go `send_attr`: which of `write_sgr`, `write_sgr_fg`
and `write_sgr_bg` is called for the masked colours. -/
def colorBytes (mode : OutputMode) (fgcol bgcol : Attribute) : Bytes :=
  if fgcol ≠ ColorDefault then
    if bgcol ≠ ColorDefault then write_sgr mode fgcol bgcol else write_sgr_fg mode fgcol
  else if bgcol ≠ ColorDefault then write_sgr_bg mode bgcol
  else []

/-- The bytes that Go `send_attr(fg, bg)` appends to the output buffer when the
style differs from the last one: the writes of the Go function in their order. -/
def attrBytes (c : Consts) (t : Termbox) (fg bg : Attribute) : Bytes :=
  t.func t_sgr0
    ++ colorBytes t.output_mode (maskColor t.output_mode fg) (maskColor t.output_mode bg)
    ++ (if fg &&& c.AttrBold ≠ 0 then t.func t_bold else [])
    ++ (if bg &&& c.AttrBold ≠ 0 then t.func t_blink else [])
    ++ (if fg &&& c.AttrUnderline ≠ 0 then t.func t_underline else [])
    ++ (if (fg &&& c.AttrReverse) ||| (bg &&& c.AttrReverse) ≠ 0 then t.func t_reverse else [])

/-- Go `send_attr`. -/
def send_attr (c : Consts) (t : Termbox) (fg bg : Attribute) : Termbox :=
  if fg = t.lastfg ∧ bg = t.lastbg then t
  else { t with outbuf := t.outbuf ++ attrBytes c t fg bg, lastfg := fg, lastbg := bg }

/-- Go `send_char`: a cursor move unless the cell is right of the last one
written, then the UTF-8 bytes of `ch`. -/
def send_char (t : Termbox) (x y : Int) (ch : Int) : Termbox :=
  { t with outbuf := t.outbuf ++ (if x - 1 ≠ t.lastx ∨ y ≠ t.lasty then cursorBytes x y else [])
                       ++ EncodeRune ch,
           lastx := x, lasty := y }

/-- Go `flush`: the output buffer is copied to the connection and reset. -/
def flush (t : Termbox) : Termbox :=
  { t with out := t.out ++ t.outbuf, outbuf := [] }

/-- Go `send_clear`. -/
def send_clear (c : Consts) (t : Termbox) : Termbox :=
  let t := send_attr c t t.foreground t.background
  let t := { t with outbuf := t.outbuf ++ t.func t_clear_screen }
  let t := if !is_cursor_hidden t.cursor_x t.cursor_y then write_cursor t t.cursor_x t.cursor_y
           else t
  let t := { t with lastx := coord_invalid, lasty := coord_invalid }
  flush t

/-- Go `update_size_maybe`. -/
def update_size_maybe (c : Consts) (t : Termbox) : Option Termbox :=
  let w := t.newW
  let h := t.newH
  if w ≠ t.termw ∨ h ≠ t.termh then
    let t := { t with termw := w, termh := h }
    match t.back_buffer.resize w h t.foreground t.background with
    | none => none
    | some back =>
      let t := { t with back_buffer := back }
      match t.front_buffer.resize w h t.foreground t.background with
      | none => none
      | some front =>
        let t := { t with front_buffer := front }
        let t := { t with front_buffer := t.front_buffer.clear t.foreground t.background }
        some (send_clear c t)
  else some t

/-- The width `w` that Go `Flush` computes for a code point: `rw` stands for
`runewidth.RuneWidth` and `amb` for `runewidth.IsAmbiguousWidth`. -/
def cellWidth (rw : Int → Nat) (amb : Int → Bool) (ch : Int) : Nat :=
  let w := rw ch
  if w = 0 ∨ (w = 2 ∧ amb ch = true) then 1 else w

/-- The statement `if back.Ch < ' ' { back.Ch = ' ' }` of Go `Flush`. -/
def normCell (back : Cell) : Cell :=
  if back.Ch < 32 then { back with Ch := 32 } else back

/-- The Go assignment `t.back_buffer.cells[i] = cell`, for an index in range. -/
def setBack (t : Termbox) (i : Nat) (cell : Cell) : Termbox :=
  { t with back_buffer := { t.back_buffer with cells := t.back_buffer.cells.set i cell } }

/-- The Go assignment `t.front_buffer.cells[i] = cell`, for an index in range. -/
def setFront (t : Termbox) (i : Nat) (cell : Cell) : Termbox :=
  { t with front_buffer := { t.front_buffer with cells := t.front_buffer.cells.set i cell } }

/-- The body of the inner loop of Go `Flush` at column `x` of row `y`: the state
after the iteration and the width `w` by which `x` advances; `none` is an index
panic. -/
def flushCell (c : Consts) (rw : Int → Nat) (amb : Int → Bool) (t : Termbox) (x y : Nat) :
    Option (Termbox × Nat) :=
  let cell_offset := y * t.front_buffer.width + x
  match t.back_buffer.cells[cell_offset]?, t.front_buffer.cells[cell_offset]? with
  | some back0, some front =>
    let back := normCell back0
    let t := if back0.Ch < 32 then setBack t cell_offset back else t
    let w := cellWidth rw amb back.Ch
    if back = front then some (t, w)
    else
      let t := setFront t cell_offset back
      let t := send_attr c t back.Fg back.Bg
      if w = 2 ∧ x = t.front_buffer.width - 1 then
        some (send_char t x y 32, w)
      else
        let t := send_char t x y back.Ch
        if w = 2 then
          let next := cell_offset + 1
          if next < t.front_buffer.cells.length then
            some (setFront t next ⟨0, back.Fg, back.Bg⟩, w)
          else none
        else some (t, w)
  | _, _ => none

/-- The inner loop `for x := ...; x < t.front_buffer.width; { ... x += w }` of Go
`Flush` in row `y`. The first argument bounds the number of iterations: every
iteration advances `x` by at least one, so `t.front_buffer.width` iterations
suffice; `none` is a panic (or an exhausted bound). -/
def flushRow (c : Consts) (rw : Int → Nat) (amb : Int → Bool) (y : Nat) :
    Nat → Nat → Termbox → Option Termbox
  | 0, x, t => if x < t.front_buffer.width then none else some t
  | fuel + 1, x, t =>
    if x < t.front_buffer.width then
      match flushCell c rw amb t x y with
      | none => none
      | some (t, w) => flushRow c rw amb y fuel (x + w) t
    else some t

/-- The outer loop `for y := 0; y < t.front_buffer.height; y++` of Go `Flush`,
with `n` iterations left. -/
def flushRows (c : Consts) (rw : Int → Nat) (amb : Int → Bool) :
    Nat → Nat → Termbox → Option Termbox
  | 0, _, t => some t
  | n + 1, y, t =>
    match flushRow c rw amb y t.front_buffer.width 0 t with
    | none => none
    | some t => flushRows c rw amb n (y + 1) t

/-- The end of Go `Flush`: the cursor is positioned when it is not hidden, then
`flush()` writes the output buffer to the connection. -/
def finishFlush (t : Termbox) : Termbox :=
  flush (if !is_cursor_hidden t.cursor_x t.cursor_y then write_cursor t t.cursor_x t.cursor_y
         else t)

/-- Go `Flush`. -/
def Flush (c : Consts) (rw : Int → Nat) (amb : Int → Bool) (t : Termbox) : Option Termbox :=
  let t := { t with lastx := coord_invalid, lasty := coord_invalid }
  match update_size_maybe c t with
  | none => none
  | some t =>
    match flushRows c rw amb t.front_buffer.height 0 t with
    | none => none
    | some t => some (finishFlush t)

/-- Go `SetCell`. -/
def SetCell (t : Termbox) (x y : Int) (ch : Int) (fg bg : Attribute) : Option Termbox :=
  if x < 0 ∨ x ≥ t.back_buffer.width then some t
  else if y < 0 ∨ y ≥ t.back_buffer.height then some t
  else
    let i := (y * t.back_buffer.width + x).toNat
    if i < t.back_buffer.cells.length then some (setBack t i ⟨ch, fg, bg⟩) else none

/-! ## Specification-level definitions -/

/-- The button that the X10 rules assign to the button byte `b` (already
reduced by 32): decided by `b mod 4` and by bit 6. -/
def x10Button (c : Consts) (b : Nat) : Key :=
  if b % 4 = 0 then (if b.testBit 6 then c.MouseWheelUp else c.MouseLeft)
  else if b % 4 = 1 then (if b.testBit 6 then c.MouseWheelDown else c.MouseMiddle)
  else if b % 4 = 2 then c.MouseRight
  else c.MouseRelease

/-- The state `t` with the cell sequences of the back and the front grid
replaced. -/
def withBufs (t : Termbox) (back front : List Cell) : Termbox :=
  { t with back_buffer := { t.back_buffer with cells := back },
           front_buffer := { t.front_buffer with cells := front } }

/-- What `Flush` does to render the cell `p.2.2` at column `p.1` of row `p.2.1`:
`send_attr` with the colours of the cell, then `send_char` with its code point
(a cursor move when the cell is not right of the last one written, then the
UTF-8 bytes of the glyph). -/
def emitCell (c : Consts) (t : Termbox) (p : Nat × Nat × Cell) : Termbox :=
  send_char (send_attr c t p.2.2.Fg p.2.2.Bg) p.1 p.2.1 p.2.2.Ch

/-- The cells with row-major index below `i` whose normalised back cell differs
from the front cell, in row-major order, each with its column `j mod w`, its
row `j / w` and the normalised back cell. -/
def changedCells (back front : List Cell) (w i : Nat) : List (Nat × Nat × Cell) :=
  (List.range i).filterMap fun j =>
    match back[j]?, front[j]? with
    | some b, some f => if normCell b = f then none else some (j % w, j / w, normCell b)
    | _, _ => none

/-- The state in which the cells with row-major index below `i` have been
flushed: they are normalised in the back grid and copied to the front grid, and
the changed ones among them have been rendered in order. -/
def flushedTo (c : Consts) (t : Termbox) (i : Nat) : Termbox :=
  withBufs
    ((changedCells t.back_buffer.cells t.front_buffer.cells t.front_buffer.width i).foldl
      (emitCell c) t)
    ((t.back_buffer.cells.take i).map normCell ++ t.back_buffer.cells.drop i)
    ((t.back_buffer.cells.take i).map normCell ++ t.front_buffer.cells.drop i)

/-- The engine state used in the concrete instances of the statements: a 2 × 1
grid, front and back buffer in step, no pending resize, hidden cursor. -/
def sampleTermbox : Termbox where
  keys := [[0x1B, 0x4F, 0x50]]
  funcs := List.replicate 14 [0x21]
  back_buffer := ⟨2, 1, [⟨32, 0, 0⟩, ⟨32, 0, 0⟩]⟩
  front_buffer := ⟨2, 1, [⟨32, 0, 0⟩, ⟨32, 0, 0⟩]⟩
  termw := 2
  termh := 1
  input_mode := 1
  output_mode := OutputMode.OutputNormal
  out := []
  lastfg := attr_invalid
  lastbg := attr_invalid
  lastx := coord_invalid
  lasty := coord_invalid
  cursor_x := cursor_hidden
  cursor_y := cursor_hidden
  foreground := ColorDefault
  background := ColorDefault
  inbuf := []
  outbuf := []
  newW := 2
  newH := 1

/-- The size invariant of the engine state: both grids have the size
`termw × termh` that `Size` reports, and each holds `termw * termh` cells. -/
def WellFormed (t : Termbox) : Prop :=
  t.back_buffer.width = t.termw ∧ t.back_buffer.height = t.termh ∧
  t.front_buffer.width = t.termw ∧ t.front_buffer.height = t.termh ∧
  t.back_buffer.cells.length = t.termw * t.termh ∧
  t.front_buffer.cells.length = t.termw * t.termh

/-- The fields of the engine state that the loop of `Flush` never writes. -/
def Shape (s t : Termbox) : Prop :=
  s.front_buffer.width = t.front_buffer.width ∧ s.front_buffer.height = t.front_buffer.height ∧
  s.termw = t.termw ∧ s.termh = t.termh ∧ s.newW = t.newW ∧ s.newH = t.newH ∧
  s.cursor_x = t.cursor_x ∧ s.cursor_y = t.cursor_y ∧ s.out = t.out


/-- A state for the concrete instances of the render statements: a 2 × 1 grid
whose back buffer holds an `A` with foreground 1 and a control character, a
blank front buffer and a visible cursor. -/
def sampleDirty : Termbox :=
  { sampleTermbox with
    back_buffer := ⟨2, 1, [⟨65, 1, 0⟩, ⟨7, 0, 0⟩]⟩, cursor_x := 1, cursor_y := 0 }

/-! ## Mouse reports in decimal notation -/

/-- The decimal representation of `n` in ASCII, most significant digit first
and without leading zeros (`"0"` for zero). -/
def dec (n : Nat) : Bytes :=
  if n = 0 then [48] else (Nat.digits 10 n).reverse.map fun d => d + 48

/-- The three decimal fields of an xterm or urxvt mouse report:
`dec(b) ; dec(x) ; dec(y)`. -/
def reportFields (b x y : Nat) : Bytes :=
  dec b ++ [0x3B] ++ dec x ++ [0x3B] ++ dec y

/-- The xterm SGR (1006) mouse report `ESC [ < dec(b) ; dec(x) ; dec(y) T`. -/
def sgrReport (b x y T : Nat) : Bytes :=
  [0x1B, 0x5B, 0x3C] ++ reportFields b x y ++ [T]

/-- The urxvt (1015) mouse report `ESC [ dec(b) ; dec(x) ; dec(y) M`. -/
def urxvtReport (b x y : Nat) : Bytes :=
  [0x1B, 0x5B] ++ reportFields b x y ++ [0x4D]

/-- The mouse event that a report fills in: the event `e` with the type, the
button, the motion modifier (added to the modifiers of `e`) and the
coordinates replaced. -/
def mouseEvent (c : Consts) (e : Event) (k : Key) (motion : Bool) (x y : Int) : Event :=
  { e with
    Key := k
    Type_ := EventType.EventMouse
    Mod := if motion then e.Mod ||| c.ModMotion else e.Mod
    MouseX := x
    MouseY := y }

/-! ## Terminal lookup (`terminfo.go`) and `Init` (`api.go`) -/

/-- The bytes of an ASCII string literal. -/
def ascii (s : String) : Bytes :=
  s.toList.map Char.toNat

/-- An entry `{name, keys, funcs}` of the Go table `terms`. -/
structure TermEntry where
  name : Bytes
  keys : List Bytes
  funcs : List Bytes
  deriving DecidableEq, Repr

/-- The built-in tables of `terminfo_builtin.go`, which is not among the
embedded files: the table `terms` and the key and function tables that
`getTermInfo` names in its compatibility table. They are a parameter of
`getTermInfo` and of `Init`. -/
structure Builtin where
  terms : List TermEntry
  xterm_keys : List Bytes
  xterm_funcs : List Bytes
  rxvt_unicode_keys : List Bytes
  rxvt_unicode_funcs : List Bytes
  linux_keys : List Bytes
  linux_funcs : List Bytes
  eterm_keys : List Bytes
  eterm_funcs : List Bytes
  screen_keys : List Bytes
  screen_funcs : List Bytes
  deriving Repr

/-- An entry of the local `compat_table` of Go `getTermInfo`; `fragment` is the
Go field `partial`. -/
structure CompatEntry where
  fragment : Bytes
  keys : List Bytes
  funcs : List Bytes
  deriving DecidableEq, Repr

/-- The local variable `compat_table` of Go `getTermInfo`. -/
def compat_table (tb : Builtin) : List CompatEntry :=
  [⟨ascii "xterm", tb.xterm_keys, tb.xterm_funcs⟩,
   ⟨ascii "rxvt", tb.rxvt_unicode_keys, tb.rxvt_unicode_funcs⟩,
   ⟨ascii "linux", tb.linux_keys, tb.linux_funcs⟩,
   ⟨ascii "Eterm", tb.eterm_keys, tb.eterm_funcs⟩,
   ⟨ascii "screen", tb.screen_keys, tb.screen_funcs⟩,
   ⟨ascii "cygwin", tb.xterm_keys, tb.xterm_funcs⟩,
   ⟨ascii "st", tb.xterm_keys, tb.xterm_funcs⟩]

/-- Go `strings.Contains`. -/
def Contains (s substr : Bytes) : Bool :=
  match s with
  | [] => HasPrefix [] substr
  | b :: rest => HasPrefix (b :: rest) substr || Contains rest substr

/-- Go `errorUnknownTerm`. -/
def errorUnknownTerm : String := "termbox: Matching term not found"

/-- Go `getTermInfo`: the key table and the function table, or the error. A
`for ... range` loop that returns at the first match is `List.find?`. -/
def getTermInfo (tb : Builtin) (term : Bytes) : Except String (List Bytes × List Bytes) :=
  match tb.terms.find? (fun t => t.name = term) with
  | some t => Except.ok (t.keys, t.funcs)
  | none =>
    match (compat_table tb).find? (fun t => Contains term t.fragment) with
    | some t => Except.ok (t.keys, t.funcs)
    | none => Except.error errorUnknownTerm

/-- Go `writeString`: the bytes go to the connection at once. -/
def writeString (t : Termbox) (str : Bytes) : Termbox :=
  { t with out := t.out ++ str }

/-- The composite literal `&Termbox{...}` of Go `Init` with the tables that
`getTermInfo` returned: the grids are the zero value, the connection log is
empty. -/
def initState (c : Consts) (keys funcs : List Bytes) : Termbox where
  keys := keys
  funcs := funcs
  back_buffer := ⟨0, 0, []⟩
  front_buffer := ⟨0, 0, []⟩
  termw := 0
  termh := 0
  input_mode := c.InputEsc
  output_mode := OutputMode.OutputNormal
  out := []
  lastfg := attr_invalid
  lastbg := attr_invalid
  lastx := coord_invalid
  lasty := coord_invalid
  cursor_x := cursor_hidden
  cursor_y := cursor_hidden
  foreground := ColorDefault
  background := ColorDefault
  inbuf := []
  outbuf := []
  newW := 0
  newH := 0

/-- The four statements `termbox.writeString(termbox.funcs[...])` of Go `Init`,
in their order; `none` is the panic of an index expression on a function table
that is too short. -/
def initWrites (t : Termbox) : Option Termbox :=
  match t.funcs[t_enter_ca]? with
  | none => none
  | some enter_ca =>
    let t := writeString t enter_ca
    match t.funcs[t_enter_keypad]? with
    | none => none
    | some enter_keypad =>
      let t := writeString t enter_keypad
      match t.funcs[t_hide_cursor]? with
      | none => none
      | some hide_cursor =>
        let t := writeString t hide_cursor
        match t.funcs[t_clear_screen]? with
        | none => none
        | some clear_screen => some (writeString t clear_screen)

/-- The statements of Go `Init` from `termbox.termh = h` to the two calls of
`clear`: the sizes are stored, both grids are made and blanked; `none` is the
panic of `make` in `init`. -/
def initGrids (t : Termbox) (w h : Nat) : Option Termbox :=
  let t := { t with termh := h, termw := w, newH := h, newW := w }
  match t.back_buffer.init w h with
  | none => none
  | some back =>
    match t.front_buffer.init w h with
    | none => none
    | some front =>
      let t := { t with back_buffer := back, front_buffer := front }
      some { t with back_buffer := t.back_buffer.clear t.foreground t.background,
                    front_buffer := t.front_buffer.clear t.foreground t.background }

/-- Go `Init`, without the channels and the reader goroutine: the engine with
an empty connection log, or the error of `getTermInfo`; `none` is a panic, of
one of the four index expressions `termbox.funcs[...]` (`initWrites`) or of
`make` in `init` (`initGrids`). -/
def Init (c : Consts) (tb : Builtin) (term : Bytes) (w h : Nat) :
    Option (Except String Termbox) :=
  match getTermInfo tb term with
  | Except.error err => some (Except.error err)
  | Except.ok (keys, funcs) =>
    match initWrites (initState c keys funcs) with
    | none => none
    | some t =>
      match initGrids t w h with
      | none => none
      | some t => some (Except.ok t)

/-- The two `if` statements of Go `SetInputMode` that normalise the requested
mode. The Go `mode &^= InputAlt` clears the bits of `InputAlt`, which is `mode`
xor the bits they have in common. -/
def normInputMode (c : Consts) (mode : InputMode) : InputMode :=
  let mode := if mode &&& (c.InputEsc ||| c.InputAlt) = 0 then mode ||| c.InputEsc else mode
  if mode &&& (c.InputEsc ||| c.InputAlt) = c.InputEsc ||| c.InputAlt
  then mode ^^^ (mode &&& c.InputAlt) else mode

/-- Go `SetInputMode`: the state after the call and the returned mode. -/
def SetInputMode (c : Consts) (t : Termbox) (mode : InputMode) : Termbox × InputMode :=
  if mode = c.InputCurrent then (t, t.input_mode)
  else
    let mode := normInputMode c mode
    let t := if mode &&& c.InputMouse ≠ 0 then writeString t (t.func t_enter_mouse)
             else writeString t (t.func t_exit_mouse)
    ({ t with input_mode := mode }, mode)

/-- The engine states that are reached from the state `t0` by calls of
`SetInputMode`. -/
inductive InputModeReachable (c : Consts) (t0 : Termbox) : Termbox → Prop
  | init : InputModeReachable c t0 t0
  | step (t : Termbox) (mode : InputMode) :
      InputModeReachable c t0 t → InputModeReachable c t0 (SetInputMode c t mode).1

/-- Go `Size`. -/
def Size (t : Termbox) : Nat × Nat :=
  (t.termw, t.termh)

/-- Go `Clear`; `none` is a panic. The returned error is that of the write to
the connection, which succeeds. -/
def Clear (c : Consts) (t : Termbox) (fg bg : Attribute) : Option Termbox :=
  let t := { t with foreground := fg, background := bg }
  match update_size_maybe c t with
  | none => none
  | some t => some { t with back_buffer := t.back_buffer.clear t.foreground t.background }

/-- Built-in tables for the concrete instances of the statements: one entry of
`terms`, named `xterm-256color`, and a different one-key table for each family
of the compatibility table. -/
def sampleBuiltin : Builtin where
  terms := [⟨ascii "xterm-256color", [[0x1B, 0x4F, 0x50]], List.replicate 14 [0x21]⟩]
  xterm_keys := [[0x1B, 0x4F, 0x51]]
  xterm_funcs := List.replicate 14 [0x22]
  rxvt_unicode_keys := [[0x1B, 0x5B, 0x31, 0x31, 0x7E]]
  rxvt_unicode_funcs := List.replicate 14 [0x23]
  linux_keys := [[0x1B, 0x5B, 0x5B, 0x41]]
  linux_funcs := List.replicate 14 [0x24]
  eterm_keys := [[0x1B, 0x5B, 0x31, 0x32, 0x7E]]
  eterm_funcs := List.replicate 14 [0x25]
  screen_keys := [[0x1B, 0x4F, 0x52]]
  screen_funcs := List.replicate 14 [0x26]

/-! ## Specification-level definitions for the colour encoding -/

/-- The colour bits of an attribute that `send_attr` reads in an output mode. -/
def colorMask (mode : OutputMode) : Nat :=
  match mode with
  | OutputMode.Output256 => 0x1FF
  | OutputMode.Output216 => 0xFF
  | OutputMode.OutputGrayscale => 0x1F
  | _ => 0x0F

/-- The largest colour of an output mode, as the doc comment of `SetOutputMode`
gives it: `[1..8]`, `[1..256]`, `[1..216]`, `[1..26]`. -/
def colorRange (mode : OutputMode) : Nat :=
  match mode with
  | OutputMode.Output256 => 256
  | OutputMode.Output216 => 216
  | OutputMode.OutputGrayscale => 26
  | _ => 8

/-- The palette index that stands for the colour `col` of an indexed mode:
`col - 1` in 256 mode, `col + 15` in 216 mode, `palette[col] - 1` in Grayscale
mode. In Normal mode it is the colour digit `col - 1`. -/
def colorIndex (mode : OutputMode) (col : Nat) : Nat :=
  match mode with
  | OutputMode.Output216 => col + 15
  | OutputMode.OutputGrayscale => grayscale.getD col 0 - 1
  | _ => col - 1

/-- The SGR parameter for the foreground colour `col`: `30 + (col - 1)` in
Normal mode, `38;5;index` in the indexed modes. -/
def fgParam (mode : OutputMode) (col : Nat) : Bytes :=
  match mode with
  | OutputMode.Output256 | OutputMode.Output216 | OutputMode.OutputGrayscale =>
    ascii "38;5;" ++ AppendUint (colorIndex mode col)
  | _ => AppendUint (30 + colorIndex mode col)

/-- The SGR parameter for the background colour `col`: `40 + (col - 1)` in
Normal mode, `48;5;index` in the indexed modes. -/
def bgParam (mode : OutputMode) (col : Nat) : Bytes :=
  match mode with
  | OutputMode.Output256 | OutputMode.Output216 | OutputMode.OutputGrayscale =>
    ascii "48;5;" ++ AppendUint (colorIndex mode col)
  | _ => AppendUint (40 + colorIndex mode col)

/-- The colour sequence for the foreground `cf` and the background `cb`, where
0 is the terminal default, for which no parameter is written: `ESC [ fg m`,
`ESC [ bg m`, and for both colours `ESC [ fg ; bg m` in Normal mode and
`ESC [ fg m ESC [ bg m` in the indexed modes. -/
def sgrColors (mode : OutputMode) (cf cb : Nat) : Bytes :=
  if cf ≠ 0 then
    if cb ≠ 0 then
      match mode with
      | OutputMode.Output256 | OutputMode.Output216 | OutputMode.OutputGrayscale =>
        [0x1B, 0x5B] ++ fgParam mode cf ++ [0x6D] ++ [0x1B, 0x5B] ++ bgParam mode cb ++ [0x6D]
      | _ => [0x1B, 0x5B] ++ fgParam mode cf ++ [0x3B] ++ bgParam mode cb ++ [0x6D]
    else [0x1B, 0x5B] ++ fgParam mode cf ++ [0x6D]
  else if cb ≠ 0 then [0x1B, 0x5B] ++ bgParam mode cb ++ [0x6D]
  else []

/-- The style flags that `send_attr` writes after the colours: bold, blink
(the bold flag of the background), underline, reverse. -/
def styleBytes (c : Consts) (t : Termbox) (fg bg : Attribute) : Bytes :=
  (if fg &&& c.AttrBold ≠ 0 then t.func t_bold else [])
    ++ (if bg &&& c.AttrBold ≠ 0 then t.func t_blink else [])
    ++ (if fg &&& c.AttrUnderline ≠ 0 then t.func t_underline else [])
    ++ (if (fg &&& c.AttrReverse) ||| (bg &&& c.AttrReverse) ≠ 0 then t.func t_reverse else [])

/-! ## `Resize` and the poll loops (`termbox.go`, `api.go`) -/

/-- The result of Go `Resize`: the engine state, the number of signals that
the channel `resize_comm` holds, and whether the call has returned. When the
channel is full the send `t.resize_comm <- struct{}{}` waits for a receiver; in
a run in which no poll receives, the call does not return. -/
structure ResizeResult where
  t : Termbox
  resize_comm : Nat
  returned : Bool
  deriving DecidableEq, Repr

/-- The capacity of the channel made by `make(chan struct{}, 1)` in `Init`. -/
def resize_comm_cap : Nat := 1

/-- Go `Resize`, with the channel `resize_comm` as the number of signals it
holds; the sizes are non-negative. -/
def Resize (t : Termbox) (resize_comm : Nat) (newW newH : Nat) : ResizeResult :=
  if t.newW ≠ newW ∨ t.newH ≠ newH then
    let t := { t with newW := newW, newH := newH }
    if resize_comm < resize_comm_cap then ⟨t, resize_comm + 1, true⟩
    else ⟨t, resize_comm, false⟩
  else ⟨t, resize_comm, true⟩

/-- What a `select` statement of a poll loop receives: a value
`input_event{data, err}` from `input_comm`, a signal from `interrupt_comm`, a
signal from `resize_comm`, or the end of the context (`ctx.Done()`, a case of
`PollEventWithContext` only). -/
inductive Ready
  | input (data : Bytes) (err : Option String)
  | interrupt
  | resize
  | cancel
  deriving DecidableEq, Repr

/-- The outcome of a poll function on a finite sequence of received values: it
returns an event, or it is still waiting in `select` when the sequence is used
up, or it panics. -/
inductive PollOutcome
  | returned (event : Event) (t : Termbox)
  | waiting (t : Termbox)
  | panicked
  deriving DecidableEq, Repr

/-- The statements after a call of `extract_event` in Go `PollEvent`:
`copy(t.inbuf, t.inbuf[event.N:])` and `t.inbuf = t.inbuf[:len(t.inbuf)-event.N]`
when `event.N != 0`; `none` is a slice panic. -/
def consumeEvent (t : Termbox) (event : Event) : Option Termbox :=
  if event.N ≠ 0 then
    if event.N ≤ t.inbuf.length then some { t with inbuf := t.inbuf.drop event.N } else none
  else some t

/-- The `for { select { ... } }` loop of Go `PollEvent` (`withCtx = false`) and
of `PollEventWithContext` (`withCtx = true`), on the sequence of the values that
the `select` statements receive. The variable `event` lives across the
iterations. A `cancel` entry is not a case of the `select` of `PollEvent`. -/
def pollLoop (c : Consts) (withCtx : Bool) : List Ready → Termbox → Event → PollOutcome
  | [], t, _ => PollOutcome.waiting t
  | Ready.input data err :: rest, t, event =>
    match err with
    | some e => PollOutcome.returned { Event.ofType EventType.EventError with Err := some e } t
    | none =>
      let t := { t with inbuf := t.inbuf ++ data }
      match extract_event c t.keys t.input_mode t.inbuf event with
      | none => PollOutcome.panicked
      | some (event, ok) =>
        match consumeEvent t event with
        | none => PollOutcome.panicked
        | some t => if ok then PollOutcome.returned event t else pollLoop c withCtx rest t event
  | Ready.interrupt :: _, t, event =>
    PollOutcome.returned { event with Type_ := EventType.EventInterrupt } t
  | Ready.resize :: _, t, event =>
    PollOutcome.returned
      { event with Type_ := EventType.EventResize, Width := t.newW, Height := t.newH } t
  | Ready.cancel :: rest, t, event =>
    if withCtx then PollOutcome.returned { event with Type_ := EventType.EventCancel } t
    else pollLoop c withCtx rest t event

/-- The common body of Go `PollEvent` and `PollEventWithContext`: a decode of the
bytes already buffered, then the loop. -/
def pollEventBody (c : Consts) (withCtx : Bool) (t : Termbox) (ready : List Ready) :
    PollOutcome :=
  match extract_event c t.keys t.input_mode t.inbuf (Event.ofType EventType.EventKey) with
  | none => PollOutcome.panicked
  | some (event, ok) =>
    match consumeEvent t event with
    | none => PollOutcome.panicked
    | some t => if ok then PollOutcome.returned event t else pollLoop c withCtx ready t event

/-- Go `PollEvent`. -/
def PollEvent (c : Consts) (t : Termbox) (ready : List Ready) : PollOutcome :=
  pollEventBody c false t ready

/-- Go `PollEventWithContext`; the context is the position of the `cancel`
entries in `ready`. -/
def PollEventWithContext (c : Consts) (t : Termbox) (ready : List Ready) : PollOutcome :=
  pollEventBody c true t ready

/-- Go `extract_raw_event` for a destination slice `data`: the state, the
slice, the event and the returned flag. `copy(data, t.inbuf)` overwrites the
first `min(len(data), len(t.inbuf))` bytes of `data`. -/
def extract_raw_event (t : Termbox) (data : Bytes) (event : Event) :
    Termbox × Bytes × Event × Bool :=
  if t.inbuf.length = 0 then (t, data, event, false)
  else if data.length = 0 then (t, data, event, false)
  else
    let n := min data.length t.inbuf.length
    ({ t with inbuf := t.inbuf.drop n }, t.inbuf.take n ++ data.drop n,
     { event with N := n, Type_ := EventType.EventRaw }, true)

/-- The `for { select { ... } }` loop of Go `PollRawEvent`. -/
def rawLoop : List Ready → Termbox → Bytes → Event → PollOutcome × Bytes
  | [], t, data, _ => (PollOutcome.waiting t, data)
  | Ready.input d err :: rest, t, data, event =>
    match err with
    | some e =>
      (PollOutcome.returned { Event.ofType EventType.EventError with Err := some e } t, data)
    | none =>
      let t := { t with inbuf := t.inbuf ++ d }
      match extract_raw_event t data event with
      | (t, data, event, ok) =>
        if ok then (PollOutcome.returned event t, data) else rawLoop rest t data event
  | Ready.interrupt :: _, t, data, event =>
    (PollOutcome.returned { event with Type_ := EventType.EventInterrupt } t, data)
  | Ready.resize :: _, t, data, event =>
    (PollOutcome.returned
      { event with Type_ := EventType.EventResize, Width := t.newW, Height := t.newH } t, data)
  | Ready.cancel :: rest, t, data, event => rawLoop rest t data event

/-- Go `PollRawEvent`: the outcome and the slice `data` after the call. The
variable `var event Event` starts with the zero value of every field; its type
is set on every path that returns it. -/
def PollRawEvent (t : Termbox) (data : Bytes) (ready : List Ready) : PollOutcome × Bytes :=
  if data.length = 0 then (PollOutcome.panicked, data)
  else
    match extract_raw_event t data (Event.ofType EventType.EventKey) with
    | (t, data, event, ok) =>
      if ok then (PollOutcome.returned event t, data)
      else rawLoop ready t data event

/-- The relation between a cell of the back grid after `Flush` and the cell
before it: unchanged, or with a code point below space replaced by a space. -/
def keptUpToNorm (new old : Option Cell) : Prop :=
  new = old ∨ new = old.map normCell

/-! ## `Sync`, `SetCursor` and the reader goroutine (`api.go`) -/

/-- Go `Sync`; `none` is a panic. The error of `send_clear` is that of the
write to the connection, which succeeds. -/
def Sync (c : Consts) (rw : Int → Nat) (amb : Int → Bool) (t : Termbox) : Option Termbox :=
  let t := { t with front_buffer := t.front_buffer.clear t.foreground t.background }
  let t := send_clear c t
  Flush c rw amb t

/-- Go `SetCursor`. -/
def SetCursor (t : Termbox) (x y : Int) : Termbox :=
  let t := if is_cursor_hidden t.cursor_x t.cursor_y && !is_cursor_hidden x y
           then { t with outbuf := t.outbuf ++ t.func t_show_cursor } else t
  let t := if !is_cursor_hidden t.cursor_x t.cursor_y && is_cursor_hidden x y
           then { t with outbuf := t.outbuf ++ t.func t_hide_cursor } else t
  let t := { t with cursor_x := x, cursor_y := y }
  if !is_cursor_hidden t.cursor_x t.cursor_y then write_cursor t t.cursor_x t.cursor_y else t

/-- Go `input_event`; an `error` value is the text of its message. -/
structure input_event where
  data : Bytes
  err : Option String
  deriving DecidableEq, Repr

/-- Go `io.EOF`, as the text of its message. -/
def io_EOF : String := "EOF"

/-- What one iteration of the reader goroutine of `Init` does after
`n, err := termbox.in.Read(buf)`: it offers a value on `input_comm` (the `select`
with the send), or leaves the loop (`break`), or ends the process
(`log.Fatal(err)`, which logs the error and calls `os.Exit(1)`). -/
inductive ReaderStep
  | offer (ev : input_event)
  | exit
  | fatal (err : String)
  deriving DecidableEq, Repr

/-- The body of the loop of the reader goroutine of `Init`, from the result
`n, err` of the read up to the `select`. In the branch that sends
`input_event{buf[:n], err}` the variable `err` is `nil`. -/
def readerStep (buf : Bytes) (n : Nat) (err : Option String) : ReaderStep :=
  match err with
  | some e => if e ≠ io_EOF then ReaderStep.fatal e else ReaderStep.exit
  | none => ReaderStep.offer ⟨buf.take n, none⟩

/-- The engine states that are reached from the state `t0` by calls of
`SetCell`, `Clear`, `Flush`, `Sync`, `SetCursor` and `Resize` that return, where
every size passed to `Resize` has a product below `2^63` (it is representable
in `int`). -/
inductive SizeReachable (c : Consts) (rw : Int → Nat) (amb : Int → Bool) (t0 : Termbox) :
    Termbox → Prop
  | init : SizeReachable c rw amb t0 t0
  | setCell (t t' : Termbox) (x y ch : Int) (fg bg : Attribute) :
      SizeReachable c rw amb t0 t → SetCell t x y ch fg bg = some t' →
      SizeReachable c rw amb t0 t'
  | clear (t t' : Termbox) (fg bg : Attribute) :
      SizeReachable c rw amb t0 t → Clear c t fg bg = some t' → SizeReachable c rw amb t0 t'
  | flush (t t' : Termbox) :
      SizeReachable c rw amb t0 t → Flush c rw amb t = some t' → SizeReachable c rw amb t0 t'
  | sync (t t' : Termbox) :
      SizeReachable c rw amb t0 t → Sync c rw amb t = some t' → SizeReachable c rw amb t0 t'
  | setCursor (t : Termbox) (x y : Int) :
      SizeReachable c rw amb t0 t → SizeReachable c rw amb t0 (SetCursor t x y)
  | resize (t : Termbox) (rc w h : Nat) :
      SizeReachable c rw amb t0 t → w * h < 2 ^ 63 →
      SizeReachable c rw amb t0 (Resize t rc w h).t

/-- A state for the concrete instances of the render statements: `sampleDirty`
with a double-width glyph and a `B` in the back grid; the cursor is visible at
column 1 of row 0. -/
def sampleWide : Termbox :=
  { sampleDirty with back_buffer := ⟨2, 1, [⟨0x4E2D, 1, 0⟩, ⟨66, 0, 0⟩]⟩ }

/-- The state that `Flush` returns on `sampleWide` when the glyph `U+4E2D` has
width 2: the style of the glyph, a cursor move and its three UTF-8 bytes were
written, then the cursor position `ESC [ 1 ; 2 H`. -/
def sampleWideFlushed : Termbox :=
  { sampleWide with
    front_buffer := ⟨2, 1, [⟨0x4E2D, 1, 0⟩, ⟨0, 1, 0⟩]⟩
    lastfg := 1
    lastbg := 0
    lastx := 0
    lasty := 0
    out := [0x21, 0x1B, 0x5B, 0x33, 0x30, 0x6D, 0x1B, 0x5B, 0x31, 0x3B, 0x31, 0x48,
            0xE4, 0xB8, 0xAD, 0x1B, 0x5B, 0x31, 0x3B, 0x32, 0x48] }

/-! ## Specification-level definitions for malformed input -/

/-- A Unicode scalar value: a code point up to `0x10FFFF` that is no
surrogate. -/
def isScalar (r : Int) : Prop :=
  0 ≤ r ∧ r ≤ 0x10FFFF ∧ ¬ (0xD800 ≤ r ∧ r ≤ 0xDFFF)

/-- The leading bytes of `buf` are a valid UTF-8 encoding: the encoding of
some scalar value is a prefix of `buf`. -/
def validUtf8Head (buf : Bytes) : Prop :=
  ∃ r : Int, isScalar r ∧ EncodeRune r <+: buf

/-- An ASCII decimal digit. -/
def isDigit (b : Nat) : Bool :=
  decide (48 ≤ b ∧ b ≤ 57)

/-- The text of a decimal integer: an optional sign followed by one or more
decimal digits. -/
def isDecimalInt (s : Bytes) : Bool :=
  match s with
  | [] => false
  | b :: rest =>
    if b = 43 ∨ b = 45 then !rest.isEmpty && rest.all isDigit
    else (b :: rest).all isDigit

/-- The buffer has the form of an X10 report: `ESC [ M` and at least three more
bytes. -/
def isX10Report (buf : Bytes) : Prop :=
  [0x1B, 0x5B, 0x4D] <+: buf ∧ 6 ≤ buf.length

/-- The field text of an xterm or urxvt report whose first terminator is at
index `mi`: the bytes after `ESC [ <`, or after `ESC [` when no `<` follows, up
to the terminator. -/
def mouseFieldText (buf : Bytes) (mi : Nat) : Bytes :=
  if buf[2]? = some 0x3C then (buf.drop 3).take (mi - 3) else (buf.drop 2).take (mi - 2)

/-- An engine state for the concrete instances of the style statements: the
capability with index `i` is the single letter `a + i`, so that the style reset
is `f`, underline `g`, bold `h`, blink `i` and reverse `j`. -/
def sampleStyled : Termbox :=
  { sampleTermbox with funcs := (List.range 14).map fun i => [0x61 + i] }

/-- The engine state that `Init` returns for the terminal name `xterm`, the
tables `sampleBuiltin` and the size 2 × 1. -/
def sampleInit : Termbox where
  keys := [[0x1B, 0x4F, 0x51]]
  funcs := List.replicate 14 [0x22]
  back_buffer := ⟨2, 1, [⟨32, 0, 0⟩, ⟨32, 0, 0⟩]⟩
  front_buffer := ⟨2, 1, [⟨32, 0, 0⟩, ⟨32, 0, 0⟩]⟩
  termw := 2
  termh := 1
  input_mode := 1
  output_mode := OutputMode.OutputNormal
  out := [0x22, 0x22, 0x22, 0x22]
  lastfg := attr_invalid
  lastbg := attr_invalid
  lastx := coord_invalid
  lasty := coord_invalid
  cursor_x := cursor_hidden
  cursor_y := cursor_hidden
  foreground := ColorDefault
  background := ColorDefault
  inbuf := []
  outbuf := []
  newW := 2
  newH := 1

/-! ## Lemmas on the input decoder -/


theorem HasPrefix_iff (s pre : Bytes) : HasPrefix s pre = true ↔ pre <+: s := by
  unfold HasPrefix
  exact List.isPrefixOf_iff_prefix

theorem matchKeys_first (buf : Bytes) (keys : List Bytes) (s i : Nat) (k : Bytes)
    (hk : keys[i]? = some k) (hpre : k <+: buf)
    (hmin : ∀ j k', j < i → keys[j]? = some k' → ¬ k' <+: buf) :
    matchKeys buf keys s = some (s + i, k.length) := by
  induction keys generalizing s i with
  | nil => simp at hk
  | cons key rest ih =>
    cases i with
    | zero =>
      simp at hk
      subst hk
      simp [matchKeys, (HasPrefix_iff buf key).2 hpre]
    | succ i =>
      have h0 : ¬ key <+: buf := hmin 0 key (Nat.succ_pos i) (by simp)
      have h0' : HasPrefix buf key = false := by
        cases h : HasPrefix buf key
        · rfl
        · exact absurd ((HasPrefix_iff buf key).1 h) h0
      simp only [matchKeys, h0']
      simp at hk
      have := ih (s + 1) i hk (fun j k' hj hjk => hmin (j + 1) k' (by omega) (by simpa using hjk))
      rw [this, show s + 1 + i = s + (i + 1) by omega]
      simp

theorem matchKeys_none (buf : Bytes) (keys : List Bytes) (s : Nat)
    (hno : ∀ k ∈ keys, ¬ k <+: buf) : matchKeys buf keys s = none := by
  induction keys generalizing s with
  | nil => rfl
  | cons key rest ih =>
    have h0' : HasPrefix buf key = false := by
      cases h : HasPrefix buf key
      · rfl
      · exact absurd ((HasPrefix_iff buf key).1 h) (hno key (by simp))
    simp only [matchKeys, h0']
    exact ih (s + 1) (fun k hk => hno k (by simp [hk]))

theorem and3_lt (b : Nat) : b &&& 3 < 4 :=
  Nat.lt_succ_of_le Nat.and_le_right

theorem buttonOfByte_isSome (c : Consts) (b : Nat) : buttonOfByte c b ≠ none := by
  unfold buttonOfByte
  have hb := and3_lt b
  generalize b &&& 3 = v at *
  interval_cases v <;> simp

theorem buttonOfInt_isSome (c : Consts) (n : Int) : buttonOfInt c n ≠ none := by
  unfold buttonOfInt
  have h1 : 0 ≤ n % 4 := Int.emod_nonneg n (by decide)
  have h2 : n % 4 < 4 := Int.emod_lt_of_pos n (by decide)
  repeat' split
  all_goals first | omega | simp

theorem mouseOfFields_ok (c : Consts) (e : Event) (isM : Bool) (mi : Nat) (n1 n2 n3 : Int) :
    (mouseOfFields c e isM mi n1 n2 n3).2.2 = true := by
  unfold mouseOfFields
  cases h : buttonOfInt c n1 with
  | none => exact absurd h (buttonOfInt_isSome c n1)
  | some k => rfl

theorem mouseOfX10_ok (c : Consts) (e : Event) (b3 b4 b5 : Nat) :
    (mouseOfX10 c e b3 b4 b5).2.2 = true := by
  unfold mouseOfX10
  dsimp only
  split
  · rename_i h
    exact absurd h (buttonOfByte_isSome c _)
  · rfl

theorem parseMouseFields_fail (c : Consts) (e e' : Event) (isM isU : Bool) (mi : Nat)
    (buf : Bytes) (n : Nat)
    (h : parseMouseFields c e isM isU mi buf = some (e', n, false)) : n = 0 ∧ e' = e := by
  unfold parseMouseFields at h
  repeat' split at h
  all_goals first
    | (solve | simp at h)
    | (solve
        | (simp only [Option.some.injEq] at h
           have h2 := congrArg (fun r => r.2.2) h
           simp [mouseOfFields_ok] at h2))
    | (simp at h; exact ⟨h.2.symm, h.1.symm⟩)

theorem parse_mouse_event_fail (c : Consts) (e e' : Event) (buf : Bytes) (n : Nat)
    (h : parse_mouse_event c e buf = some (e', n, false)) : n = 0 ∧ e' = e := by
  unfold parse_mouse_event at h
  repeat' split at h
  all_goals first
    | exact parseMouseFields_fail c e e' _ _ _ _ n h
    | (solve | simp at h)
    | (solve
        | (simp only [Option.some.injEq] at h
           have h2 := congrArg (fun r => r.2.2) h
           simp [mouseOfX10_ok] at h2))
    | (simp at h; exact ⟨h.2.symm, h.1.symm⟩)

theorem mouseOfFields_mod (c : Consts) (e : Event) (isM : Bool) (mi : Nat) (n1 n2 n3 : Int)
    (m : Modifier) :
    mouseOfFields c { e with Mod := m } isM mi n1 n2 n3
      = ({ (mouseOfFields c { e with Mod := 0 } isM mi n1 n2 n3).1 with
           Mod := (mouseOfFields c { e with Mod := 0 } isM mi n1 n2 n3).1.Mod ||| m },
         (mouseOfFields c { e with Mod := 0 } isM mi n1 n2 n3).2) := by
  unfold mouseOfFields
  cases buttonOfInt c n1 with
  | none => simp
  | some k =>
    dsimp only
    split <;> simp [Nat.or_comm]

theorem mouseOfX10_mod (c : Consts) (e : Event) (b3 b4 b5 : Nat) (m : Modifier) :
    mouseOfX10 c { e with Mod := m } b3 b4 b5
      = ({ (mouseOfX10 c { e with Mod := 0 } b3 b4 b5).1 with
           Mod := (mouseOfX10 c { e with Mod := 0 } b3 b4 b5).1.Mod ||| m },
         (mouseOfX10 c { e with Mod := 0 } b3 b4 b5).2) := by
  unfold mouseOfX10
  dsimp only
  cases buttonOfByte c ((b3 + 256 - 32) % 256) with
  | none => simp
  | some k =>
    dsimp only
    split <;> simp [Nat.or_comm]

theorem parseMouseFields_mod (c : Consts) (e : Event) (isM isU : Bool) (mi : Nat)
    (buf : Bytes) (m : Modifier) :
    parseMouseFields c { e with Mod := m } isM isU mi buf
      = (parseMouseFields c { e with Mod := 0 } isM isU mi buf).map
          (fun r => ({ r.1 with Mod := r.1.Mod ||| m }, r.2)) := by
  unfold parseMouseFields
  repeat' split
  all_goals first
    | rfl
    | (solve | (simp only [Option.map]; rw [mouseOfFields_mod]))
    | (solve | simp)

theorem parse_mouse_event_mod (c : Consts) (e : Event) (buf : Bytes) (m : Modifier) :
    parse_mouse_event c { e with Mod := m } buf
      = (parse_mouse_event c { e with Mod := 0 } buf).map
          (fun r => ({ r.1 with Mod := r.1.Mod ||| m }, r.2)) := by
  unfold parse_mouse_event
  repeat' split
  all_goals first
    | rfl
    | exact parseMouseFields_mod c e _ _ _ _ m
    | (solve | (simp only [Option.map]; rw [mouseOfX10_mod]))
    | (solve | simp)

theorem parse_escape_sequence_nokey (c : Consts) (keys : List Bytes) (e : Event) (buf : Bytes)
    (hno : ∀ k ∈ keys, ¬ k <+: buf) :
    parse_escape_sequence c keys e buf = parse_mouse_event c e buf := by
  unfold parse_escape_sequence
  rw [matchKeys_none buf keys 0 hno]

/-- The event with which `ParseEvent`, `PollEvent` and `PollEventWithContext`
start a decode: `Event{Type: EventKey}`. -/
theorem extract_event_key (c : Consts) (keys : List Bytes) (mode : InputMode) (rest : Bytes)
    (e : Event) (i : Nat) (k : Bytes) (hne : k ≠ [])
    (hk : keys[i]? = some k) (hpre : k <+: 0x1B :: rest)
    (hmin : ∀ j k', j < i → keys[j]? = some k' → ¬ k' <+: 0x1B :: rest) :
    extract_event c keys mode (0x1B :: rest) e
      = some ({ e with Ch := 0, Key := 0xFFFF - (i : Int), N := k.length }, true) := by
  have hm := matchKeys_first (0x1B :: rest) keys 0 i k hk hpre hmin
  have hlen : k.length ≠ 0 := by
    intro h0
    exact hne (List.length_eq_zero.1 h0)
  simp [extract_event, parse_escape_sequence, hm, hlen]

theorem mouseOfFields_alt (c : Consts) (e : Event) (isM : Bool) (mi : Nat) (n1 n2 n3 : Int)
    (h : e.Mod ||| c.ModAlt = e.Mod) :
    (mouseOfFields c e isM mi n1 n2 n3).1.Mod ||| c.ModAlt
      = (mouseOfFields c e isM mi n1 n2 n3).1.Mod := by
  unfold mouseOfFields
  cases buttonOfInt c n1 with
  | none => simpa using h
  | some k =>
    dsimp only
    split
    · rw [Nat.or_assoc, Nat.or_comm c.ModMotion, ← Nat.or_assoc, h]
    · exact h

theorem mouseOfX10_alt (c : Consts) (e : Event) (b3 b4 b5 : Nat)
    (h : e.Mod ||| c.ModAlt = e.Mod) :
    (mouseOfX10 c e b3 b4 b5).1.Mod ||| c.ModAlt = (mouseOfX10 c e b3 b4 b5).1.Mod := by
  unfold mouseOfX10
  dsimp only
  cases buttonOfByte c ((b3 + 256 - 32) % 256) with
  | none => simpa using h
  | some k =>
    dsimp only
    split
    · rw [Nat.or_assoc, Nat.or_comm c.ModMotion, ← Nat.or_assoc, h]
    · exact h

theorem parseMouseFields_alt (c : Consts) (e e' : Event) (isM isU : Bool) (mi : Nat)
    (buf : Bytes) (n : Nat) (ok : Bool) (h : e.Mod ||| c.ModAlt = e.Mod)
    (hr : parseMouseFields c e isM isU mi buf = some (e', n, ok)) :
    e'.Mod ||| c.ModAlt = e'.Mod := by
  unfold parseMouseFields at hr
  repeat' split at hr
  all_goals first
    | (simp only [Option.some.injEq] at hr
       have h2 := congrArg (fun r => r.1) hr
       dsimp only at h2
       rw [← h2]
       exact mouseOfFields_alt c e isM mi _ _ _ h)
    | (simp only [Option.some.injEq, Prod.mk.injEq] at hr
       rw [← hr.1]
       exact h)
    | simp at hr

theorem parse_mouse_event_alt (c : Consts) (e e' : Event) (buf : Bytes) (n : Nat) (ok : Bool)
    (h : e.Mod ||| c.ModAlt = e.Mod)
    (hr : parse_mouse_event c e buf = some (e', n, ok)) :
    e'.Mod ||| c.ModAlt = e'.Mod := by
  unfold parse_mouse_event at hr
  repeat' split at hr
  all_goals first
    | exact parseMouseFields_alt c e e' _ _ _ _ n ok h hr
    | (simp only [Option.some.injEq] at hr
       have h2 := congrArg (fun r => r.1) hr
       dsimp only at h2
       rw [← h2]
       exact mouseOfX10_alt c e _ _ _ h)
    | (simp only [Option.some.injEq, Prod.mk.injEq] at hr
       rw [← hr.1]
       exact h)
    | simp at hr

theorem parse_escape_sequence_alt (c : Consts) (keys : List Bytes) (e e' : Event) (buf : Bytes)
    (n : Nat) (ok : Bool) (h : e.Mod ||| c.ModAlt = e.Mod)
    (hr : parse_escape_sequence c keys e buf = some (e', n, ok)) :
    e'.Mod ||| c.ModAlt = e'.Mod := by
  unfold parse_escape_sequence at hr
  split at hr
  · simp only [Option.some.injEq, Prod.mk.injEq] at hr
    rw [← hr.1]
    exact h
  · exact parse_mouse_event_alt c e e' buf n ok h hr

theorem parse_escape_sequence_mod (c : Consts) (keys : List Bytes) (e : Event) (buf : Bytes)
    (m : Modifier) :
    parse_escape_sequence c keys { e with Mod := m } buf
      = (parse_escape_sequence c keys { e with Mod := 0 } buf).map
          (fun r => ({ r.1 with Mod := r.1.Mod ||| m }, r.2)) := by
  unfold parse_escape_sequence
  split
  · simp
  · exact parse_mouse_event_mod c e buf m

/-- In Alt mode the decoded event keeps an Alt modifier it started with. -/
theorem extract_event_alt (c : Consts) (keys : List Bytes) (mode : InputMode)
    (hE : mode &&& c.InputEsc = 0) (buf : Bytes) :
    ∀ (e e' : Event) (ok : Bool), e.Mod ||| c.ModAlt = e.Mod →
      extract_event c keys mode buf e = some (e', ok) → e'.Mod ||| c.ModAlt = e'.Mod := by
  induction buf with
  | nil =>
    intro e e' ok h hr
    simp only [extract_event, Option.some.injEq, Prod.mk.injEq] at hr
    rw [← hr.1]
    exact h
  | cons b rest ih =>
    intro e e' ok h hr
    unfold extract_event at hr
    split at hr
    · split at hr
      · simp at hr
      · rename_i ev n ok1 hp
        have hev := parse_escape_sequence_alt c keys e ev _ n ok1 h hp
        split at hr
        · simp only [Option.some.injEq, Prod.mk.injEq] at hr
          rw [← hr.1]
          exact hev
        · split at hr
          · rename_i hesc
            exact absurd hE hesc
          · split at hr
            · split at hr
              · simp at hr
              · rename_i ev2 ok2 hrec
                have h2 := ih { ev with Mod := c.ModAlt } ev2 ok2 (Nat.or_self _) hrec
                split at hr
                · simp only [Option.some.injEq, Prod.mk.injEq] at hr
                  rw [← hr.1]
                  exact h2
                · simp only [Option.some.injEq, Prod.mk.injEq] at hr
                  rw [← hr.1]
                  exact h2
            · simp at hr
    · split at hr
      · simp only [Option.some.injEq, Prod.mk.injEq] at hr
        rw [← hr.1]
        exact h
      · split at hr
        split at hr
        · simp only [Option.some.injEq, Prod.mk.injEq] at hr
          rw [← hr.1]
          exact h
        · simp only [Option.some.injEq, Prod.mk.injEq] at hr
          rw [← hr.1]
          exact h

/-- In Alt mode, starting a decode with the Alt modifier set gives the event
of the decode that starts without a modifier, with the Alt modifier added. -/
theorem extract_event_withAlt (c : Consts) (keys : List Bytes) (mode : InputMode)
    (hE : mode &&& c.InputEsc = 0) (buf : Bytes) (e : Event) :
    extract_event c keys mode buf { e with Mod := c.ModAlt }
      = (extract_event c keys mode buf { e with Mod := 0 }).map
          (fun r => ({ r.1 with Mod := r.1.Mod ||| c.ModAlt }, r.2)) := by
  cases buf with
  | nil => simp [extract_event]
  | cons b rest =>
    unfold extract_event
    by_cases hb : b = 0x1B
    · simp only [hb, if_true]
      rw [parse_escape_sequence_mod]
      cases hp : parse_escape_sequence c keys { e with Mod := 0 } (0x1B :: rest) with
      | none => simp
      | some r =>
        obtain ⟨ev, n, ok⟩ := r
        simp only [Option.map]
        by_cases hn : n = 0
        · simp only [hn, ne_eq, not_true_eq_false, if_false, hE]
          by_cases hA : mode &&& c.InputAlt = 0
          · simp [hA]
          · simp only [hA, if_false, if_true, not_false_eq_true]
            cases hrec : extract_event c keys mode rest { ev with Mod := c.ModAlt } with
            | none => simp
            | some r2 =>
              obtain ⟨ev2, ok2⟩ := r2
              have h2 := extract_event_alt c keys mode hE rest { ev with Mod := c.ModAlt } ev2 ok2
                (Nat.or_self _) hrec
              cases ok2 <;> simp [h2]
        · simp [hn]
    · simp only [hb, if_false]
      split
      · simp
      · split
        all_goals simp

set_option maxRecDepth 100000 in
theorem byte_bit6 : ∀ b, b < 256 → ((b &&& 64 ≠ 0) ↔ b.testBit 6 = true) := by decide

set_option maxRecDepth 100000 in
theorem byte_bit5 : ∀ b, b < 256 → ((b &&& 32 ≠ 0) ↔ b.testBit 5 = true) := by decide

theorem buttonOfByte_eq (c : Consts) (b : Nat) (hb : b < 256) :
    buttonOfByte c b = some (x10Button c b) := by
  unfold buttonOfByte x10Button
  have h3 : b &&& 3 = b % 4 := Nat.and_pow_two_sub_one_eq_mod b 2
  have h6 := byte_bit6 b hb
  have hlt : b % 4 < 4 := Nat.mod_lt _ (by decide)
  rw [h3]
  generalize b % 4 = v at *
  by_cases ht : b.testBit 6 = true
  · have : b &&& 64 ≠ 0 := h6.2 ht
    interval_cases v <;> simp [ht, this]
  · have : ¬ (b &&& 64 ≠ 0) := fun h => ht (h6.1 h)
    interval_cases v <;> simp [ht, this]

/-! ## The input decoder: claims C5 to C10 -/

/-- C5: key escape sequences are matched in table order. For every key table
of non-empty sequences and every buffer that begins with ESC, if `i` is the
smallest index such that `keys[i]` is a prefix of the buffer, decoding reports a
key event with key code `0xFFFF - i`, character 0 and `N = len(keys[i])`,
whatever later entries or mouse reports would also match. -/
theorem key_sequences_matched_in_table_order (c : Consts) (keys : List Bytes)
    (mode : InputMode) (buf : Bytes) (i : Nat) (k : Bytes)
    (hne : ∀ k' ∈ keys, k' ≠ [])
    (hesc : buf.head? = some 0x1B)
    (hk : keys[i]? = some k) (hpre : k <+: buf)
    (hmin : ∀ j k', j < i → keys[j]? = some k' → ¬ k' <+: buf) :
    extract_event c keys mode buf (Event.ofType EventType.EventKey)
        = some ({ Event.ofType EventType.EventKey with
                  Key := 0xFFFF - (i : Int), Ch := 0, N := k.length }, true)
      ∧ ParseEvent c keys mode buf
        = some { Event.ofType EventType.EventKey with
                 Key := 0xFFFF - (i : Int), Ch := 0, N := k.length } := by
  cases buf with
  | nil => simp at hesc
  | cons b rest =>
    simp only [List.head?_cons, Option.some.injEq] at hesc
    subst hesc
    have hmem : k ∈ keys := List.getElem?_mem hk
    have h := extract_event_key c keys mode rest (Event.ofType EventType.EventKey) i k
      (hne k hmem) hk hpre hmin
    refine ⟨h, ?_⟩
    unfold ParseEvent
    rw [h]
    rfl

/-- An instance of C5: the second table entry `ESC O` wins over the third entry
`ESC O P`, which is a prefix of the buffer as well. -/
theorem key_sequences_matched_in_table_order_witness :
    ParseEvent termboxConsts [[0x1B, 0x5B, 0x41], [0x1B, 0x4F], [0x1B, 0x4F, 0x50]] 1
        [0x1B, 0x4F, 0x50, 0x41]
      = some { Event.ofType EventType.EventKey with Key := 0xFFFF - 1, Ch := 0, N := 2 } :=
  (key_sequences_matched_in_table_order termboxConsts
    [[0x1B, 0x5B, 0x41], [0x1B, 0x4F], [0x1B, 0x4F, 0x50]] 1 [0x1B, 0x4F, 0x50, 0x41] 1
    [0x1B, 0x4F] (by decide) (by decide) (by decide) (by decide)
    (by
      intro j k' hj hk'
      interval_cases j
      simp at hk'
      subst hk'
      decide)).2

/-- C6: in Esc input mode, a buffer that begins with ESC, has no key sequence
as a prefix and on which mouse-report parsing fails decodes to the literal Esc
key with no modifier, character 0 and `N = 1`. -/
theorem esc_mode_unmatched_escape_is_esc_key (c : Consts) (keys : List Bytes)
    (mode : InputMode) (rest : Bytes) (e0 : Event) (n0 : Nat)
    (hmode : mode &&& c.InputEsc ≠ 0)
    (hno : ∀ k ∈ keys, ¬ k <+: 0x1B :: rest)
    (hmouse : parse_mouse_event c (Event.ofType EventType.EventKey) (0x1B :: rest)
      = some (e0, n0, false)) :
    extract_event c keys mode (0x1B :: rest) (Event.ofType EventType.EventKey)
        = some ({ Event.ofType EventType.EventKey with
                  Key := c.KeyEsc, Mod := 0, Ch := 0, N := 1 }, true)
      ∧ ParseEvent c keys mode (0x1B :: rest)
        = some { Event.ofType EventType.EventKey with
                 Key := c.KeyEsc, Mod := 0, Ch := 0, N := 1 } := by
  obtain ⟨hn, he⟩ := parse_mouse_event_fail c _ _ _ _ hmouse
  subst hn
  subst he
  have h : extract_event c keys mode (0x1B :: rest) (Event.ofType EventType.EventKey)
      = some ({ Event.ofType EventType.EventKey with
                Key := c.KeyEsc, Mod := 0, Ch := 0, N := 1 }, true) := by
    unfold extract_event
    rw [parse_escape_sequence_nokey c keys _ _ hno, hmouse]
    simp [hmode]
  refine ⟨h, ?_⟩
  unfold ParseEvent
  rw [h]
  rfl

/-- An instance of C6: in Esc mode the bytes `ESC a` give the Esc key and `N = 1`. -/
theorem esc_mode_unmatched_escape_is_esc_key_witness :
    ParseEvent termboxConsts [[0x1B, 0x4F, 0x50]] 1 [0x1B, 0x61]
      = some { Event.ofType EventType.EventKey with Key := 0x1B, Mod := 0, Ch := 0, N := 1 } :=
  (esc_mode_unmatched_escape_is_esc_key termboxConsts [[0x1B, 0x4F, 0x50]] 1 [0x61]
    (Event.ofType EventType.EventKey) 0 (by decide) (by decide) (by decide)).2

/-- C7: in Alt input mode, for a buffer `ESC·rest` that has no key sequence as a
prefix and on which mouse-report parsing fails, decoding `ESC·rest` succeeds
exactly when decoding `rest` succeeds; on success the event is the one decoded
from `rest` with the Alt modifier added and a consumed count one larger, and on
failure the consumed count is 0. -/
theorem alt_mode_unmatched_escape_redecodes (c : Consts) (keys : List Bytes)
    (mode : InputMode) (rest : Bytes) (e0 : Event) (n0 : Nat)
    (hE : mode &&& c.InputEsc = 0) (hA : mode &&& c.InputAlt ≠ 0)
    (hno : ∀ k ∈ keys, ¬ k <+: 0x1B :: rest)
    (hmouse : parse_mouse_event c (Event.ofType EventType.EventKey) (0x1B :: rest)
      = some (e0, n0, false)) :
    (∀ e, extract_event c keys mode rest (Event.ofType EventType.EventKey) = some (e, true) →
        extract_event c keys mode (0x1B :: rest) (Event.ofType EventType.EventKey)
            = some ({ e with Mod := e.Mod ||| c.ModAlt, N := e.N + 1 }, true)
          ∧ ParseEvent c keys mode (0x1B :: rest)
            = some { e with Mod := e.Mod ||| c.ModAlt, N := e.N + 1 })
      ∧ (∀ e, extract_event c keys mode rest (Event.ofType EventType.EventKey)
            = some (e, false) →
          (∃ e', extract_event c keys mode (0x1B :: rest) (Event.ofType EventType.EventKey)
              = some (e', false) ∧ e'.N = 0)
            ∧ ParseEvent c keys mode (0x1B :: rest) = some (Event.ofType EventType.EventNone))
      ∧ (extract_event c keys mode rest (Event.ofType EventType.EventKey) = none →
          ParseEvent c keys mode (0x1B :: rest) = none) := by
  obtain ⟨hn, he⟩ := parse_mouse_event_fail c _ _ _ _ hmouse
  subst hn
  subst he
  have hinner := extract_event_withAlt c keys mode hE rest (Event.ofType EventType.EventKey)
  have hfresh : ({ Event.ofType EventType.EventKey with Mod := 0 } : Event)
      = Event.ofType EventType.EventKey := rfl
  rw [hfresh] at hinner
  have hstep : extract_event c keys mode (0x1B :: rest) (Event.ofType EventType.EventKey)
      = match extract_event c keys mode rest
            { Event.ofType EventType.EventKey with Mod := c.ModAlt } with
        | none => none
        | some (event, ok) =>
          if ok then some ({ event with N := event.N + 1 }, true)
          else some ({ event with N := 0 }, false) := by
    conv => lhs; unfold extract_event
    rw [parse_escape_sequence_nokey c keys _ _ hno, hmouse]
    simp [hE, hA]
  refine ⟨?_, ?_, ?_⟩
  · intro e hr
    rw [hr] at hinner
    have h : extract_event c keys mode (0x1B :: rest) (Event.ofType EventType.EventKey)
        = some ({ e with Mod := e.Mod ||| c.ModAlt, N := e.N + 1 }, true) := by
      rw [hstep, hinner]
      rfl
    refine ⟨h, ?_⟩
    unfold ParseEvent
    rw [h]
    rfl
  · intro e hr
    rw [hr] at hinner
    have h : extract_event c keys mode (0x1B :: rest) (Event.ofType EventType.EventKey)
        = some ({ e with Mod := e.Mod ||| c.ModAlt, N := 0 }, false) := by
      rw [hstep, hinner]
      rfl
    refine ⟨⟨_, h, rfl⟩, ?_⟩
    unfold ParseEvent
    rw [h]
    rfl
  · intro hr
    rw [hr] at hinner
    unfold ParseEvent
    rw [hstep, hinner]
    rfl

/-- An instance of C7: in Alt mode the bytes `ESC a` give the character `a` with
the Alt modifier and `N = 2`. -/
theorem alt_mode_unmatched_escape_redecodes_witness :
    ParseEvent termboxConsts [[0x1B, 0x4F, 0x50]] 2 [0x1B, 0x61]
      = some { Event.ofType EventType.EventKey with Ch := 0x61, Mod := 1, N := 2 } :=
  ((alt_mode_unmatched_escape_redecodes termboxConsts [[0x1B, 0x4F, 0x50]] 2 [0x61]
    (Event.ofType EventType.EventKey) 0 (by decide) (by decide) (by decide) (by decide)).1
    { Event.ofType EventType.EventKey with Ch := 0x61, N := 1 } (by decide)).2

/-- C9: single-byte functional keys. For every non-empty buffer whose first
byte `b` is not ESC and satisfies `b <= KeySpace` or `b = KeyBackspace2`,
decoding reports a key event with key code `b`, character 0 and `N = 1`, in
every input mode and whatever bytes follow. -/
theorem single_byte_functional_key (c : Consts) (keys : List Bytes) (mode : InputMode)
    (b : Nat) (rest : Bytes) (hb : b ≠ 0x1B)
    (hkey : (b : Int) ≤ c.KeySpace ∨ (b : Int) = c.KeyBackspace2) :
    extract_event c keys mode (b :: rest) (Event.ofType EventType.EventKey)
        = some ({ Event.ofType EventType.EventKey with Key := (b : Int), Ch := 0, N := 1 }, true)
      ∧ ParseEvent c keys mode (b :: rest)
        = some { Event.ofType EventType.EventKey with Key := (b : Int), Ch := 0, N := 1 } := by
  have h : extract_event c keys mode (b :: rest) (Event.ofType EventType.EventKey)
      = some ({ Event.ofType EventType.EventKey with Key := (b : Int), Ch := 0, N := 1 }, true) := by
    unfold extract_event
    simp [hb, hkey]
  refine ⟨h, ?_⟩
  unfold ParseEvent
  rw [h]
  rfl

/-- An instance of C9: the byte `0x7F` gives the key `0x7F` and `N = 1`, in Alt
mode and with a key sequence behind it. -/
theorem single_byte_functional_key_witness :
    ParseEvent termboxConsts [[0x1B, 0x4F, 0x50]] 2 [0x7F, 0x1B, 0x4F, 0x50]
      = some { Event.ofType EventType.EventKey with Key := 0x7F, Ch := 0, N := 1 } :=
  (single_byte_functional_key termboxConsts [[0x1B, 0x4F, 0x50]] 2 0x7F [0x1B, 0x4F, 0x50]
    (by decide) (by decide)).2

/-- C10: X10 mouse decode. Every buffer `ESC [ M b3 b4 b5 ...` that has no key
sequence as a prefix decodes to a mouse event that consumes 6 bytes; with
`b = (b3 - 32) mod 256` the button follows `b mod 4` and bit 6 of `b`, the
motion modifier is set exactly when bit 5 of `b` is set, and the coordinates are
`(b4 - 33, b5 - 33)`. -/
theorem x10_mouse_decode (c : Consts) (keys : List Bytes) (mode : InputMode)
    (b3 b4 b5 : Nat) (rest : Bytes)
    (hno : ∀ k ∈ keys, ¬ k <+: 0x1B :: 0x5B :: 0x4D :: b3 :: b4 :: b5 :: rest) :
    extract_event c keys mode (0x1B :: 0x5B :: 0x4D :: b3 :: b4 :: b5 :: rest)
          (Event.ofType EventType.EventKey)
        = some ({ Event.ofType EventType.EventKey with
                  Type_ := EventType.EventMouse
                  Key := x10Button c (((b3 : Int) - 32) % 256).toNat
                  Mod := if (((b3 : Int) - 32) % 256).toNat.testBit 5 then c.ModMotion else 0
                  MouseX := (b4 : Int) - 33
                  MouseY := (b5 : Int) - 33
                  N := 6 }, true)
      ∧ ParseEvent c keys mode (0x1B :: 0x5B :: 0x4D :: b3 :: b4 :: b5 :: rest)
        = some { Event.ofType EventType.EventKey with
                 Type_ := EventType.EventMouse
                 Key := x10Button c (((b3 : Int) - 32) % 256).toNat
                 Mod := if (((b3 : Int) - 32) % 256).toNat.testBit 5 then c.ModMotion else 0
                 MouseX := (b4 : Int) - 33
                 MouseY := (b5 : Int) - 33
                 N := 6 } := by
  have hb : (b3 + 256 - 32) % 256 = (((b3 : Int) - 32) % 256).toNat := by omega
  have hlt : (((b3 : Int) - 32) % 256).toNat < 256 := by omega
  have hm : parse_mouse_event c (Event.ofType EventType.EventKey)
      (0x1B :: 0x5B :: 0x4D :: b3 :: b4 :: b5 :: rest)
      = some ({ Event.ofType EventType.EventKey with
                Type_ := EventType.EventMouse
                Key := x10Button c (((b3 : Int) - 32) % 256).toNat
                Mod := if (((b3 : Int) - 32) % 256).toNat.testBit 5 then c.ModMotion else 0
                MouseX := (b4 : Int) - 33
                MouseY := (b5 : Int) - 33 }, 6, true) := by
    have hp : HasPrefix (0x1B :: 0x5B :: 0x4D :: b3 :: b4 :: b5 :: rest) [0x1B, 0x5B, 0x4D]
        = true := by
      simp [HasPrefix, List.isPrefixOf]
    unfold parse_mouse_event
    rw [hp]
    simp only [List.length_cons, ge_iff_le, Bool.true_and, List.getElem?_cons_succ,
      List.getElem?_cons_zero]
    have hlen : decide (6 ≤ rest.length + 1 + 1 + 1 + 1 + 1 + 1) = true := by
      apply decide_eq_true
      omega
    rw [hlen]
    simp only [if_true]
    unfold mouseOfX10
    simp only [hb, buttonOfByte_eq c _ hlt]
    have h5 := byte_bit5 _ hlt
    by_cases ht : (((b3 : Int) - 32) % 256).toNat.testBit 5 = true
    · have h5' := h5.2 ht
      simp [ht, h5', Event.ofType]
      omega
    · have h5' : ¬ ((((b3 : Int) - 32) % 256).toNat &&& 32 ≠ 0) := fun h => ht (h5.1 h)
      simp [ht, h5', Event.ofType]
      omega
  have h : extract_event c keys mode (0x1B :: 0x5B :: 0x4D :: b3 :: b4 :: b5 :: rest)
      (Event.ofType EventType.EventKey)
      = some ({ Event.ofType EventType.EventKey with
                Type_ := EventType.EventMouse
                Key := x10Button c (((b3 : Int) - 32) % 256).toNat
                Mod := if (((b3 : Int) - 32) % 256).toNat.testBit 5 then c.ModMotion else 0
                MouseX := (b4 : Int) - 33
                MouseY := (b5 : Int) - 33
                N := 6 }, true) := by
    unfold extract_event
    rw [parse_escape_sequence_nokey c keys _ _ hno, hm]
    simp
  refine ⟨h, ?_⟩
  unfold ParseEvent
  rw [h]
  rfl

/-- An instance of C10: `ESC [ M` followed by the bytes 32, 37, 35 is a left press
at `(4, 2)` that consumes 6 bytes. -/
theorem x10_mouse_decode_witness :
    ParseEvent termboxConsts [[0x1B, 0x4F, 0x50]] 1 [0x1B, 0x5B, 0x4D, 32, 37, 35]
      = some { Event.ofType EventType.EventKey with
               Type_ := EventType.EventMouse
               Key := termboxConsts.MouseLeft
               Mod := 0
               MouseX := 4
               MouseY := 2
               N := 6 } :=
  (x10_mouse_decode termboxConsts [[0x1B, 0x4F, 0x50]] 1 32 37 35 [] (by decide)).2

/-- C8 at the input `EF BF BD`, the UTF-8 encoding of the scalar value U+FFFD:
`DecodeRune` returns `(U+FFFD, 3)`, which `extract_event` takes for a decode
error, so no key event is reported and no byte is consumed, whatever follows. -/
theorem utf8_replacement_character_rejected (keys : List Bytes) (mode : InputMode)
    (s : Bytes) :
    EncodeRune 0xFFFD = [0xEF, 0xBF, 0xBD]
      ∧ DecodeRune ([0xEF, 0xBF, 0xBD] ++ s) = (0xFFFD, 3)
      ∧ extract_event termboxConsts keys mode ([0xEF, 0xBF, 0xBD] ++ s)
          (Event.ofType EventType.EventKey) = some (Event.ofType EventType.EventKey, false)
      ∧ ParseEvent termboxConsts keys mode ([0xEF, 0xBF, 0xBD] ++ s)
          = some (Event.ofType EventType.EventNone) := by
  have hd : DecodeRune ([0xEF, 0xBF, 0xBD] ++ s) = (0xFFFD, 3) := by
    simp [DecodeRune, isCont]
  have he : extract_event termboxConsts keys mode ([0xEF, 0xBF, 0xBD] ++ s)
      (Event.ofType EventType.EventKey) = some (Event.ofType EventType.EventKey, false) := by
    have hd' : DecodeRune (0xEF :: 0xBF :: 0xBD :: s) = (0xFFFD, 3) := hd
    simp only [List.cons_append, List.nil_append]
    unfold extract_event
    rw [hd']
    simp [termboxConsts, RuneError]
  refine ⟨by decide, hd, he, ?_⟩
  unfold ParseEvent
  rw [he]
  rfl

/-! ## Lemmas on decimal mouse reports -/

theorem parseDigits_append (xs ys : Bytes) (acc : Nat) :
    parseDigits (xs ++ ys) acc = (parseDigits xs acc).bind (parseDigits ys) := by
  induction xs generalizing acc with
  | nil => rfl
  | cons b rest ih =>
    simp only [List.cons_append, parseDigits]
    split
    · exact ih _
    · rfl

theorem parseDigits_digits (L : List Nat) (hL : ∀ d ∈ L, d < 10) :
    parseDigits (L.reverse.map fun d => d + 48) 0 = some (Nat.ofDigits 10 L) := by
  induction L with
  | nil => rfl
  | cons d L ih =>
    have hd : d < 10 := hL d (List.mem_cons_self _ _)
    have ih' := ih (fun e he => hL e (List.mem_cons_of_mem _ he))
    simp only [List.reverse_cons, List.map_append, List.map_cons, List.map_nil]
    rw [parseDigits_append, ih']
    have h1 : 48 ≤ d + 48 ∧ d + 48 ≤ 57 := by omega
    simp only [Option.some_bind, parseDigits, h1, and_self, if_true, Nat.ofDigits_cons]
    congr 1
    omega

theorem dec_digit (n d : Nat) (hd : d ∈ dec n) : 48 ≤ d ∧ d ≤ 57 := by
  unfold dec at hd
  split at hd
  · simp at hd
    omega
  · simp only [List.mem_map, List.mem_reverse] at hd
    obtain ⟨e, he, rfl⟩ := hd
    have := Nat.digits_lt_base (by decide : 1 < 10) he
    omega

theorem dec_ne_nil (n : Nat) : dec n ≠ [] := by
  unfold dec
  split
  · simp
  · rename_i h
    simp [Nat.digits_ne_nil_iff_ne_zero, h]

theorem parseDigits_dec (n : Nat) : parseDigits (dec n) 0 = some n := by
  unfold dec
  split
  · rename_i h
    subst h
    rfl
  · rw [parseDigits_digits _ (fun d hd => Nat.digits_lt_base (by decide) hd),
      Nat.ofDigits_digits]

theorem ParseInt_dec (n : Nat) (hn : n < 2 ^ 63) : ParseInt (dec n) = some (n : Int) := by
  have hne := dec_ne_nil n
  have hp := parseDigits_dec n
  cases hdec : dec n with
  | nil => exact absurd hdec hne
  | cons b rest =>
    have hb : 48 ≤ b ∧ b ≤ 57 := dec_digit n b (by rw [hdec]; exact List.mem_cons_self _ _)
    rw [hdec] at hp
    have h43 : ¬ (b = 43 ∨ b = 45) := by omega
    have h45 : ¬ b = 45 := by omega
    have h43' : ¬ b = 43 := by omega
    have hlt : ¬ 9223372036854775808 ≤ n := by omega
    simp [ParseInt, h43', h45, hp, hlt]

theorem Index_append (xs ys : Bytes) (c : Nat) (hx : c ∉ xs) :
    Index (xs ++ c :: ys) c = some xs.length := by
  induction xs with
  | nil => simp [Index]
  | cons b rest ih =>
    have hb : ¬ b = c := fun h => hx (by simp [h])
    have hr : c ∉ rest := fun h => hx (List.mem_cons_of_mem _ h)
    simp [Index, hb, ih hr]

theorem LastIndex_none (ys : Bytes) (c : Nat) (hy : c ∉ ys) : LastIndex ys c = none := by
  induction ys with
  | nil => rfl
  | cons b rest ih =>
    have hb : ¬ b = c := fun h => hy (by simp [h])
    have hr : c ∉ rest := fun h => hy (List.mem_cons_of_mem _ h)
    simp [LastIndex, hb, ih hr]

theorem LastIndex_append (xs ys : Bytes) (c : Nat) (hy : c ∉ ys) :
    LastIndex (xs ++ c :: ys) c = some xs.length := by
  induction xs with
  | nil => simp [LastIndex, LastIndex_none ys c hy]
  | cons b rest ih => simp [LastIndex, ih]

theorem IndexAny_append (xs ys chars : Bytes) (t : Nat) (hx : ∀ b ∈ xs, b ∉ chars)
    (ht : t ∈ chars) : IndexAny (xs ++ t :: ys) chars = some xs.length := by
  induction xs with
  | nil => simp [IndexAny, ht]
  | cons b rest ih =>
    have hb : b ∉ chars := hx b (List.mem_cons_self _ _)
    have hr := ih (fun e he => hx e (List.mem_cons_of_mem _ he))
    simp [IndexAny, hb, hr]

theorem slice_mid {α : Type} (s xs ys zs : List α) (i j : Nat) (hs : s = xs ++ ys ++ zs)
    (hi : i = xs.length) (hj : j = xs.length + ys.length) : slice s i j = some ys := by
  subst hs hi hj
  simp [slice]

/-- The three fields `f1 ; f2 ; f3` of a report, none of which holds a `;`, are
split at the two separators and parsed. -/
theorem parseMouseFields_split (c : Consts) (e : Event) (isM isU : Bool) (mi : Nat)
    (f1 f2 f3 : Bytes) (n1 n2 n3 : Int)
    (h1 : 0x3B ∉ f1) (h3 : 0x3B ∉ f3)
    (p1 : ParseInt f1 = some n1) (p2 : ParseInt f2 = some n2) (p3 : ParseInt f3 = some n3) :
    parseMouseFields c e isM isU mi (f1 ++ [0x3B] ++ f2 ++ [0x3B] ++ f3)
      = some (mouseOfFields c e isM mi (if isU then wrapInt64 (n1 - 32) else n1) n2 n3) := by
  have hi : Index (f1 ++ [0x3B] ++ f2 ++ [0x3B] ++ f3) 0x3B = some f1.length := by
    have := Index_append f1 (f2 ++ [0x3B] ++ f3) 0x3B h1
    simpa using this
  have hl : LastIndex (f1 ++ [0x3B] ++ f2 ++ [0x3B] ++ f3) 0x3B
      = some (f1.length + 1 + f2.length) := by
    have := LastIndex_append (f1 ++ [0x3B] ++ f2) f3 0x3B h3
    have hl2 : (f1 ++ [0x3B] ++ f2).length = f1.length + 1 + f2.length := by
      simp
      omega
    rw [hl2] at this
    rw [← this]
    simp
  have s1 : slice (f1 ++ [0x3B] ++ f2 ++ [0x3B] ++ f3) 0 f1.length = some f1 :=
    slice_mid _ [] f1 ([0x3B] ++ f2 ++ [0x3B] ++ f3) _ _ (by simp) rfl (by simp)
  have s2 : slice (f1 ++ [0x3B] ++ f2 ++ [0x3B] ++ f3) (f1.length + 1)
      (f1.length + 1 + f2.length) = some f2 :=
    slice_mid _ (f1 ++ [0x3B]) f2 ([0x3B] ++ f3) _ _ (by simp) (by simp) (by simp)
  have s3 : slice (f1 ++ [0x3B] ++ f2 ++ [0x3B] ++ f3) (f1.length + 1 + f2.length + 1)
      (f1 ++ [0x3B] ++ f2 ++ [0x3B] ++ f3).length = some f3 :=
    slice_mid _ (f1 ++ [0x3B] ++ f2 ++ [0x3B]) f3 [] _ _ (by simp) (by simp; omega)
      (by simp; omega)
  have hne : ¬ f1.length = f1.length + 1 + f2.length := by omega
  unfold parseMouseFields
  rw [hi, hl]
  simp only [hne, if_false, s1, s2, s3, p1, p2, p3]
/-- The xterm branch of `parse_mouse_event` on `ESC [ < fields T ...`, where `T`
is the first `M` or `m` of the buffer. -/
theorem parse_mouse_event_sgr (c : Consts) (e : Event) (fields suffix : Bytes) (T : Nat)
    (hf : ∀ b ∈ fields, b ∉ [0x4D, 0x6D]) (hT : T = 0x4D ∨ T = 0x6D) :
    parse_mouse_event c e ([0x1B, 0x5B, 0x3C] ++ fields ++ [T] ++ suffix)
      = parseMouseFields c e (decide (T = 0x4D)) false (3 + fields.length) fields := by
  have hx : ∀ b ∈ [0x1B, 0x5B, 0x3C] ++ fields, b ∉ [0x4D, 0x6D] := by
    intro b hb
    rcases List.mem_append.1 hb with h | h
    · simp at h
      rcases h with h | h | h <;> subst h <;> decide
    · exact hf b h
  have hTm : T ∈ [0x4D, 0x6D] := by
    rcases hT with h | h <;> subst h <;> decide
  have hi : IndexAny ([0x1B, 0x5B, 0x3C] ++ fields ++ [T] ++ suffix) [0x4D, 0x6D]
      = some (3 + fields.length) := by
    have := IndexAny_append ([0x1B, 0x5B, 0x3C] ++ fields) suffix [0x4D, 0x6D] T hx hTm
    have hl : ([0x1B, 0x5B, 0x3C] ++ fields).length = 3 + fields.length := by
      simp
      omega
    rw [hl] at this
    rw [← this]
    simp
  have hg : ([0x1B, 0x5B, 0x3C] ++ fields ++ [T] ++ suffix)[3 + fields.length]? = some T := by
    have hl : 3 + fields.length = ([0x1B, 0x5B, 0x3C] ++ fields).length := by
      simp
      omega
    rw [hl, List.append_assoc, List.getElem?_append_right (Nat.le_refl _)]
    simp
  have hs : slice ([0x1B, 0x5B, 0x3C] ++ fields ++ [T] ++ suffix) 3 (3 + fields.length)
      = some fields :=
    slice_mid _ [0x1B, 0x5B, 0x3C] fields ([T] ++ suffix) _ _ (by simp) rfl rfl
  unfold parse_mouse_event
  rw [hi]
  simp only [hg]
  have hp : HasPrefix ([0x1B, 0x5B, 0x3C] ++ fields ++ [T] ++ suffix) [0x1B, 0x5B, 0x4D]
      = false := by
    simp [HasPrefix, List.isPrefixOf]
  have hp2 : HasPrefix ([0x1B, 0x5B, 0x3C] ++ fields ++ [T] ++ suffix) [0x1B, 0x5B, 0x3C]
      = true := by
    simp [HasPrefix, List.isPrefixOf]
  have h2 : ([0x1B, 0x5B, 0x3C] ++ fields ++ [T] ++ suffix)[2]? = some 0x3C := by
    simp
  rw [hp, hp2, h2]
  simp only [Bool.false_and, Bool.true_or, if_true, hs]
  simp

/-- The urxvt branch of `parse_mouse_event` on `ESC [ d fields T ...`, where `d`
is neither `<` nor `M` and `T` is the first `M` or `m` of the buffer. -/
theorem parse_mouse_event_urxvt (c : Consts) (e : Event) (d : Nat) (fields suffix : Bytes)
    (T : Nat) (hd : d ≠ 0x3C)
    (hf : ∀ b ∈ d :: fields, b ∉ [0x4D, 0x6D]) (hT : T = 0x4D ∨ T = 0x6D) :
    parse_mouse_event c e ([0x1B, 0x5B] ++ (d :: fields) ++ [T] ++ suffix)
      = parseMouseFields c e (decide (T = 0x4D)) true (2 + (d :: fields).length)
          (d :: fields) := by
  have hx : ∀ b ∈ [0x1B, 0x5B] ++ (d :: fields), b ∉ [0x4D, 0x6D] := by
    intro b hb
    rcases List.mem_append.1 hb with h | h
    · simp at h
      rcases h with h | h <;> subst h <;> decide
    · exact hf b h
  have hTm : T ∈ [0x4D, 0x6D] := by
    rcases hT with h | h <;> subst h <;> decide
  have hdM : ¬ d = 0x4D := by
    intro h
    exact hf d (List.mem_cons_self _ _) (by simp [h])
  have hi : IndexAny ([0x1B, 0x5B] ++ (d :: fields) ++ [T] ++ suffix) [0x4D, 0x6D]
      = some (2 + (d :: fields).length) := by
    have := IndexAny_append ([0x1B, 0x5B] ++ (d :: fields)) suffix [0x4D, 0x6D] T hx hTm
    have hl : ([0x1B, 0x5B] ++ (d :: fields)).length = 2 + (d :: fields).length := by
      simp
      omega
    rw [hl] at this
    rw [← this]
    simp
  have hg : ([0x1B, 0x5B] ++ (d :: fields) ++ [T] ++ suffix)[2 + (d :: fields).length]?
      = some T := by
    have hl : 2 + (d :: fields).length = ([0x1B, 0x5B] ++ (d :: fields)).length := by
      simp
      omega
    rw [hl, List.append_assoc, List.getElem?_append_right (Nat.le_refl _)]
    simp
  have hs : slice ([0x1B, 0x5B] ++ (d :: fields) ++ [T] ++ suffix) 2
      (2 + (d :: fields).length) = some (d :: fields) :=
    slice_mid _ [0x1B, 0x5B] (d :: fields) ([T] ++ suffix) _ _ (by simp) rfl rfl
  unfold parse_mouse_event
  rw [hi]
  simp only [hg]
  have hp : HasPrefix ([0x1B, 0x5B] ++ (d :: fields) ++ [T] ++ suffix) [0x1B, 0x5B, 0x4D]
      = false := by
    have hdM' : ¬ 0x4D = d := fun h => hdM h.symm
    simp [HasPrefix, List.isPrefixOf, hdM']
  have hp2 : HasPrefix ([0x1B, 0x5B] ++ (d :: fields) ++ [T] ++ suffix) [0x1B, 0x5B]
      = true := by
    simp [HasPrefix, List.isPrefixOf]
  have h2 : ([0x1B, 0x5B] ++ (d :: fields) ++ [T] ++ suffix)[2]? = some d := by
    simp
  rw [hp, hp2, h2]
  simp only [Bool.false_and, Bool.or_true, if_true, hs, hd, if_false]
  simp [hd]
theorem buttonOfInt_nat (c : Consts) (b : Nat) :
    buttonOfInt c (b : Int) = some (x10Button c b) := by
  unfold buttonOfInt x10Button
  rw [Nat.testBit_to_div_mod]
  have h4 : b % 4 < 4 := Nat.mod_lt _ (by decide)
  have h2 : b / 2 ^ 6 % 2 < 2 := Nat.mod_lt _ (by decide)
  have e1 : ((b : Int) % 4 = 0) ↔ b % 4 = 0 := by omega
  have e2 : ((b : Int) % 4 = 1) ↔ b % 4 = 1 := by omega
  have e3 : ((b : Int) % 4 = 2) ↔ b % 4 = 2 := by omega
  have e4 : ((b : Int) % 4 = 3) ↔ b % 4 = 3 := by omega
  have e5 : ((b : Int) / 64 % 2 ≠ 0) ↔ b / 2 ^ 6 % 2 = 1 := by omega
  simp only [e1, e2, e3, e4, e5, decide_eq_true_eq]
  repeat' split
  all_goals first | rfl | omega

theorem mouseOfFields_nat (c : Consts) (e : Event) (isM : Bool) (mi b x y : Nat)
    (hx : x < 2 ^ 63) (hy : y < 2 ^ 63) :
    mouseOfFields c e isM mi (b : Int) (x : Int) (y : Int)
      = (mouseEvent c e (if isM then x10Button c b else c.MouseRelease) (b.testBit 5)
          ((x : Int) - 1) ((y : Int) - 1), mi + 1, true) := by
  have hwx : wrapInt64 ((x : Int) - 1) = (x : Int) - 1 := by
    unfold wrapInt64
    omega
  have hwy : wrapInt64 ((y : Int) - 1) = (y : Int) - 1 := by
    unfold wrapInt64
    omega
  have e5 : ((b : Int) / 32 % 2 ≠ 0) ↔ b.testBit 5 = true := by
    rw [Nat.testBit_to_div_mod]
    simp only [decide_eq_true_eq]
    omega
  unfold mouseOfFields mouseEvent
  rw [buttonOfInt_nat, hwx, hwy]
  cases isM <;> by_cases h5 : b.testBit 5 = true <;> simp [e5, h5]

theorem reportFields_noM (b x y : Nat) : ∀ d ∈ reportFields b x y, d ∉ [0x4D, 0x6D] := by
  intro d hd
  unfold reportFields at hd
  simp only [List.mem_append, List.mem_singleton] at hd
  have key : d = 0x3B ∨ (48 ≤ d ∧ d ≤ 57) := by
    rcases hd with (((h | h) | h) | h) | h
    · exact Or.inr (dec_digit _ _ h)
    · exact Or.inl h
    · exact Or.inr (dec_digit _ _ h)
    · exact Or.inl h
    · exact Or.inr (dec_digit _ _ h)
  simp only [List.mem_cons, List.mem_singleton, List.not_mem_nil, or_false]
  omega

theorem dec_noSemi (n : Nat) : 0x3B ∉ dec n := by
  intro h
  have := dec_digit n _ h
  omega

/-- The SGR report with fields below `2^63` parses to the mouse event of its
fields and consumes the report. -/
theorem parse_mouse_event_sgrReport (c : Consts) (e : Event) (b x y T : Nat) (suffix : Bytes)
    (hb : b < 2 ^ 63) (hx : x < 2 ^ 63) (hy : y < 2 ^ 63) (hT : T = 0x4D ∨ T = 0x6D) :
    parse_mouse_event c e (sgrReport b x y T ++ suffix)
      = some (mouseEvent c e (if T = 0x4D then x10Button c b else c.MouseRelease)
          (b.testBit 5) ((x : Int) - 1) ((y : Int) - 1), (sgrReport b x y T).length, true) := by
  have h := parse_mouse_event_sgr c e (reportFields b x y) suffix T (reportFields_noM b x y) hT
  unfold sgrReport
  rw [h]
  have hs := parseMouseFields_split c e (decide (T = 0x4D)) false (3 + (reportFields b x y).length)
    (dec b) (dec x) (dec y) b x y (dec_noSemi b) (dec_noSemi y)
    (ParseInt_dec b hb) (ParseInt_dec x hx) (ParseInt_dec y hy)
  unfold reportFields at hs ⊢
  rw [hs]
  simp only [Bool.false_eq_true, if_false]
  rw [mouseOfFields_nat c e _ _ b x y hx hy]
  simp
  omega

/-- The urxvt report with fields below `2^63` and a button field of at least 32
parses to the mouse event of its fields, the button field reduced by 32, and
consumes the report. -/
theorem parse_mouse_event_urxvtReport (c : Consts) (e : Event) (b x y : Nat) (suffix : Bytes)
    (hb32 : 32 ≤ b) (hb : b < 2 ^ 63) (hx : x < 2 ^ 63) (hy : y < 2 ^ 63) :
    parse_mouse_event c e (urxvtReport b x y ++ suffix)
      = some (mouseEvent c e (x10Button c (b - 32)) ((b - 32).testBit 5)
          ((x : Int) - 1) ((y : Int) - 1), (urxvtReport b x y).length, true) := by
  have hne : reportFields b x y ≠ [] := by
    unfold reportFields
    simp
  cases hf : reportFields b x y with
  | nil => exact absurd hf hne
  | cons d fields =>
    have hdm : d ∈ dec b := by
      have hdb := dec_ne_nil b
      unfold reportFields at hf
      cases hdec : dec b with
      | nil => exact absurd hdec hdb
      | cons d0 r =>
        rw [hdec] at hf
        simp at hf
        rw [← hf.1]
        exact List.mem_cons_self _ _
    have hd := dec_digit b d hdm
    have hnoM : ∀ z ∈ d :: fields, z ∉ [0x4D, 0x6D] := by
      rw [← hf]
      exact reportFields_noM b x y
    have h := parse_mouse_event_urxvt c e d fields suffix 0x4D (by omega) hnoM (Or.inl rfl)
    unfold urxvtReport
    rw [hf, h, ← hf]
    have hs := parseMouseFields_split c e (decide (0x4D = 0x4D)) true
      (2 + (reportFields b x y).length)
      (dec b) (dec x) (dec y) b x y (dec_noSemi b) (dec_noSemi y)
      (ParseInt_dec b hb) (ParseInt_dec x hx) (ParseInt_dec y hy)
    have hw : wrapInt64 ((b : Int) - 32) = ((b - 32 : Nat) : Int) := by
      unfold wrapInt64
      omega
    unfold reportFields at hs ⊢
    rw [hs]
    simp only [if_true, hw]
    rw [mouseOfFields_nat c e _ _ (b - 32) x y hx hy]
    simp
    omega
/-- A report that no key sequence prefixes and that `parse_mouse_event` accepts
with a byte count other than zero is the result of `extract_event`. -/
theorem extract_event_mouse (c : Consts) (keys : List Bytes) (mode : InputMode)
    (buf rest : Bytes) (e ev : Event) (n : Nat) (hbuf : buf = 0x1B :: rest)
    (hno : ∀ k ∈ keys, ¬ k <+: buf)
    (hm : parse_mouse_event c e buf = some (ev, n, true)) (hn : n ≠ 0) :
    extract_event c keys mode buf e = some ({ ev with N := n }, true) := by
  subst hbuf
  unfold extract_event
  rw [parse_escape_sequence_nokey c keys _ _ hno, hm]
  simp [hn]

theorem IndexAny_none (s chars : Bytes) (h : ∀ b ∈ s, b ∉ chars) : IndexAny s chars = none := by
  induction s with
  | nil => rfl
  | cons b rest ih =>
    have hb : b ∉ chars := h b (List.mem_cons_self _ _)
    have hr := ih (fun e he => h e (List.mem_cons_of_mem _ he))
    simp [IndexAny, hb, hr]


/-! ## The input decoder: claims C11 to C13 -/

/-- C11, for fields below `2^63`: xterm SGR (1006) mouse decode. For all natural
numbers `b`, `x`, `y` below `2^63`, every terminator `T` among `M` and `m` and
every byte suffix, the buffer `ESC [ < dec(b) ; dec(x) ; dec(y) T suffix`, when no
key sequence is a prefix of it, decodes to a mouse event at `(x-1, y-1)` that
consumes the report up to and including `T`; the motion modifier is set exactly
when bit 5 of `b` is set, the button is release when `T` is `m` and is otherwise
decoded from `b mod 4` and bit 6 of `b` by the X10 rules. -/
theorem sgr_mouse_decode (c : Consts) (keys : List Bytes) (mode : InputMode)
    (b x y T : Nat) (suffix : Bytes)
    (hb : b < 2 ^ 63) (hx : x < 2 ^ 63) (hy : y < 2 ^ 63) (hT : T = 0x4D ∨ T = 0x6D)
    (hno : ∀ k ∈ keys, ¬ k <+: sgrReport b x y T ++ suffix) :
    extract_event c keys mode (sgrReport b x y T ++ suffix) (Event.ofType EventType.EventKey)
        = some ({ Event.ofType EventType.EventKey with
                  Type_ := EventType.EventMouse
                  Key := if T = 0x6D then c.MouseRelease else x10Button c b
                  Mod := if b.testBit 5 then c.ModMotion else 0
                  MouseX := (x : Int) - 1
                  MouseY := (y : Int) - 1
                  N := (sgrReport b x y T).length }, true)
      ∧ ParseEvent c keys mode (sgrReport b x y T ++ suffix)
        = some { Event.ofType EventType.EventKey with
                 Type_ := EventType.EventMouse
                 Key := if T = 0x6D then c.MouseRelease else x10Button c b
                 Mod := if b.testBit 5 then c.ModMotion else 0
                 MouseX := (x : Int) - 1
                 MouseY := (y : Int) - 1
                 N := (sgrReport b x y T).length } := by
  have hm := parse_mouse_event_sgrReport c (Event.ofType EventType.EventKey) b x y T suffix
    hb hx hy hT
  have hlen : (sgrReport b x y T).length ≠ 0 := by
    simp [sgrReport]
  have hbuf : sgrReport b x y T ++ suffix
      = 0x1B :: ([0x5B, 0x3C] ++ reportFields b x y ++ [T] ++ suffix) := by
    simp [sgrReport]
  have h := extract_event_mouse c keys mode _ _ _ _ _ hbuf hno hm hlen
  have hk : (if T = 0x4D then x10Button c b else c.MouseRelease)
      = (if T = 0x6D then c.MouseRelease else x10Button c b) := by
    rcases hT with h | h <;> subst h <;> simp
  have hev : ({ mouseEvent c (Event.ofType EventType.EventKey)
        (if T = 0x4D then x10Button c b else c.MouseRelease) (b.testBit 5)
        ((x : Int) - 1) ((y : Int) - 1) with N := (sgrReport b x y T).length } : Event)
      = { Event.ofType EventType.EventKey with
          Type_ := EventType.EventMouse
          Key := if T = 0x6D then c.MouseRelease else x10Button c b
          Mod := if b.testBit 5 then c.ModMotion else 0
          MouseX := (x : Int) - 1
          MouseY := (y : Int) - 1
          N := (sgrReport b x y T).length } := by
    rw [hk]
    simp [mouseEvent, Event.ofType]
  rw [hev] at h
  refine ⟨h, ?_⟩
  unfold ParseEvent
  rw [h]
  rfl

/-- Instances of C11: `ESC[<0;5;3M` is a left press at `(4, 2)` and
`ESC[<0;5;3m` is a release at `(4, 2)`; both consume 9 bytes. -/
theorem sgr_mouse_decode_witness :
    ParseEvent termboxConsts [[0x1B, 0x4F, 0x50]] 1
        [0x1B, 0x5B, 0x3C, 0x30, 0x3B, 0x35, 0x3B, 0x33, 0x4D]
      = some { Event.ofType EventType.EventKey with
               Type_ := EventType.EventMouse
               Key := termboxConsts.MouseLeft
               MouseX := 4
               MouseY := 2
               N := 9 }
    ∧ ParseEvent termboxConsts [[0x1B, 0x4F, 0x50]] 1
        [0x1B, 0x5B, 0x3C, 0x30, 0x3B, 0x35, 0x3B, 0x33, 0x6D]
      = some { Event.ofType EventType.EventKey with
               Type_ := EventType.EventMouse
               Key := termboxConsts.MouseRelease
               MouseX := 4
               MouseY := 2
               N := 9 } := by
  have hM : sgrReport 0 5 3 0x4D ++ [] = [0x1B, 0x5B, 0x3C, 0x30, 0x3B, 0x35, 0x3B, 0x33, 0x4D] := by
    simp [sgrReport, reportFields, dec]
  have hm : sgrReport 0 5 3 0x6D ++ [] = [0x1B, 0x5B, 0x3C, 0x30, 0x3B, 0x35, 0x3B, 0x33, 0x6D] := by
    simp [sgrReport, reportFields, dec]
  have h1 := (sgr_mouse_decode termboxConsts [[0x1B, 0x4F, 0x50]] 1 0 5 3 0x4D [] (by decide)
    (by decide) (by decide) (by decide) (by rw [hM]; decide)).2
  have h2 := (sgr_mouse_decode termboxConsts [[0x1B, 0x4F, 0x50]] 1 0 5 3 0x6D [] (by decide)
    (by decide) (by decide) (by decide) (by rw [hm]; decide)).2
  rw [hM] at h1
  rw [hm] at h2
  rw [h1, h2]
  simp only [List.append_nil] at hM hm
  rw [hM, hm]
  decide
/-- C11 as stated, at `b = 2^63`: the button field of
`ESC[<9223372036854775808;5;3M` is outside the range of `int64`, `ParseInt`
rejects it and the report is not decoded as a mouse event; in Esc mode the
decoder reports the Esc key and consumes one byte. -/
theorem sgr_mouse_decode_field_above_int64 :
    sgrReport (2 ^ 63) 5 3 0x4D
        = [0x1B, 0x5B, 0x3C, 57, 50, 50, 51, 51, 55, 50, 48, 51, 54, 56, 53, 52, 55, 55, 53,
           56, 48, 56, 0x3B, 0x35, 0x3B, 0x33, 0x4D]
      ∧ ParseEvent termboxConsts [] termboxConsts.InputEsc (sgrReport (2 ^ 63) 5 3 0x4D)
        = some { Event.ofType EventType.EventKey with Key := termboxConsts.KeyEsc, N := 1 } := by
  have h : sgrReport (2 ^ 63) 5 3 0x4D
      = [0x1B, 0x5B, 0x3C, 57, 50, 50, 51, 51, 55, 50, 48, 51, 54, 56, 53, 52, 55, 55, 53,
         56, 48, 56, 0x3B, 0x35, 0x3B, 0x33, 0x4D] := by
    simp [sgrReport, reportFields, dec]
  refine ⟨h, ?_⟩
  rw [h]
  decide

/-- C12, for fields below `2^63`: urxvt (1015) mouse decode agrees with SGR up to
the offset 32. For all natural numbers `32 <= b < 2^63` and `x`, `y` below
`2^63`, `parse_mouse_event` accepts `ESC [ dec(b) ; dec(x) ; dec(y) M` and the SGR
report `ESC [ < dec(b-32) ; dec(x) ; dec(y) M` with the same button, modifier and
coordinates, each time consuming the whole report; and when no key sequence is a
prefix of either buffer, the decoder returns for both the same mouse event up
to the consumed count, which is the length of the report. -/
theorem urxvt_mouse_decode_agrees_with_sgr (c : Consts) (keys : List Bytes) (mode : InputMode)
    (b x y : Nat) (su ss : Bytes) (e : Event)
    (hb32 : 32 ≤ b) (hb : b < 2 ^ 63) (hx : x < 2 ^ 63) (hy : y < 2 ^ 63) :
    parse_mouse_event c e (urxvtReport b x y ++ su)
        = some (mouseEvent c e (x10Button c (b - 32)) ((b - 32).testBit 5)
            ((x : Int) - 1) ((y : Int) - 1), (urxvtReport b x y).length, true)
      ∧ parse_mouse_event c e (sgrReport (b - 32) x y 0x4D ++ ss)
        = some (mouseEvent c e (x10Button c (b - 32)) ((b - 32).testBit 5)
            ((x : Int) - 1) ((y : Int) - 1), (sgrReport (b - 32) x y 0x4D).length, true)
      ∧ ((∀ k ∈ keys, ¬ k <+: urxvtReport b x y ++ su) →
          (∀ k ∈ keys, ¬ k <+: sgrReport (b - 32) x y 0x4D ++ ss) →
          extract_event c keys mode (urxvtReport b x y ++ su) e
            = some ({ mouseEvent c e (x10Button c (b - 32)) ((b - 32).testBit 5)
                        ((x : Int) - 1) ((y : Int) - 1) with
                      N := (urxvtReport b x y).length }, true)
          ∧ extract_event c keys mode (sgrReport (b - 32) x y 0x4D ++ ss) e
            = some ({ mouseEvent c e (x10Button c (b - 32)) ((b - 32).testBit 5)
                        ((x : Int) - 1) ((y : Int) - 1) with
                      N := (sgrReport (b - 32) x y 0x4D).length }, true)) := by
  have hu := parse_mouse_event_urxvtReport c e b x y su hb32 hb hx hy
  have hs := parse_mouse_event_sgrReport c e (b - 32) x y 0x4D ss (by omega) hx hy (Or.inl rfl)
  simp only [if_true] at hs
  refine ⟨hu, hs, ?_⟩
  intro hnu hns
  have hlu : (urxvtReport b x y).length ≠ 0 := by
    simp [urxvtReport]
  have hls : (sgrReport (b - 32) x y 0x4D).length ≠ 0 := by
    simp [sgrReport]
  have hbu : urxvtReport b x y ++ su
      = 0x1B :: ([0x5B] ++ reportFields b x y ++ [0x4D] ++ su) := by
    simp [urxvtReport]
  have hbs : sgrReport (b - 32) x y 0x4D ++ ss
      = 0x1B :: ([0x5B, 0x3C] ++ reportFields (b - 32) x y ++ [0x4D] ++ ss) := by
    simp [sgrReport]
  exact ⟨extract_event_mouse c keys mode _ _ _ _ _ hbu hnu hu hlu,
    extract_event_mouse c keys mode _ _ _ _ _ hbs hns hs hls⟩

/-- An instance of C12: `ESC[32;5;3M` is a left press at `(4, 2)` that consumes
the 9 bytes of the report, as `ESC[<0;5;3M` is. -/
theorem urxvt_mouse_decode_agrees_with_sgr_witness :
    extract_event termboxConsts [[0x1B, 0x4F, 0x50]] 1
        [0x1B, 0x5B, 0x33, 0x32, 0x3B, 0x35, 0x3B, 0x33, 0x4D]
        (Event.ofType EventType.EventKey)
      = some ({ Event.ofType EventType.EventKey with
                Type_ := EventType.EventMouse
                Key := termboxConsts.MouseLeft
                MouseX := 4
                MouseY := 2
                N := 9 }, true) := by
  have hU : urxvtReport 32 5 3 ++ []
      = [0x1B, 0x5B, 0x33, 0x32, 0x3B, 0x35, 0x3B, 0x33, 0x4D] := by
    simp [urxvtReport, reportFields, dec]
  have hS : sgrReport (32 - 32) 5 3 0x4D ++ []
      = [0x1B, 0x5B, 0x3C, 0x30, 0x3B, 0x35, 0x3B, 0x33, 0x4D] := by
    simp [sgrReport, reportFields, dec]
  have h := ((urxvt_mouse_decode_agrees_with_sgr termboxConsts [[0x1B, 0x4F, 0x50]] 1 32 5 3
    [] [] (Event.ofType EventType.EventKey) (by decide) (by decide) (by decide)
    (by decide)).2.2 (by rw [hU]; decide) (by rw [hS]; decide)).1
  rw [hU] at h
  rw [h]
  simp only [List.append_nil] at hU
  rw [hU]
  decide

/-- C12 as stated, at `b = 2^63`: the urxvt report
`ESC[9223372036854775808;5;3M` is not decoded as a mouse event (in Esc mode it
gives the Esc key, one byte consumed), while the SGR report with the button
field `2^63 - 32` is a mouse event that consumes its 27 bytes. -/
theorem urxvt_mouse_decode_field_above_int64 :
    urxvtReport (2 ^ 63) 5 3
        = [0x1B, 0x5B, 57, 50, 50, 51, 51, 55, 50, 48, 51, 54, 56, 53, 52, 55, 55, 53,
           56, 48, 56, 0x3B, 0x35, 0x3B, 0x33, 0x4D]
      ∧ ParseEvent termboxConsts [] termboxConsts.InputEsc (urxvtReport (2 ^ 63) 5 3)
        = some { Event.ofType EventType.EventKey with Key := termboxConsts.KeyEsc, N := 1 }
      ∧ ParseEvent termboxConsts [] termboxConsts.InputEsc (sgrReport (2 ^ 63 - 32) 5 3 0x4D)
        = some { Event.ofType EventType.EventKey with
                 Type_ := EventType.EventMouse
                 Key := termboxConsts.MouseWheelUp
                 Mod := termboxConsts.ModMotion
                 MouseX := 4
                 MouseY := 2
                 N := 27 } := by
  have hu : urxvtReport (2 ^ 63) 5 3
      = [0x1B, 0x5B, 57, 50, 50, 51, 51, 55, 50, 48, 51, 54, 56, 53, 52, 55, 55, 53,
         56, 48, 56, 0x3B, 0x35, 0x3B, 0x33, 0x4D] := by
    simp [urxvtReport, reportFields, dec]
  have hs : sgrReport (2 ^ 63 - 32) 5 3 0x4D
      = [0x1B, 0x5B, 0x3C, 57, 50, 50, 51, 51, 55, 50, 48, 51, 54, 56, 53, 52, 55, 55, 53,
         55, 55, 54, 0x3B, 0x35, 0x3B, 0x33, 0x4D] := by
    simp [sgrReport, reportFields, dec]
  refine ⟨hu, ?_, ?_⟩
  · rw [hu]
    decide
  · rw [hs]
    decide
/-- C13, as the code decodes it: an incomplete mouse report is handled as an
unmatched ESC. For every buffer `ESC [ rest` that has no key sequence as a prefix
and holds no `M` and no `m`, `parse_mouse_event` reports failure with 0 bytes
consumed; the decoder then does not wait: in Esc mode it reports the Esc key
with one byte consumed, and in Alt mode it decodes the `[` with the Alt modifier
and two bytes consumed (a functional key when `[` is at most `KeySpace` or is
`KeyBackspace2`, a character otherwise). -/
theorem incomplete_mouse_report_is_unmatched_escape (c : Consts) (keys : List Bytes)
    (mode : InputMode) (rest : Bytes)
    (hno : ∀ k ∈ keys, ¬ k <+: 0x1B :: 0x5B :: rest)
    (hM : ∀ b ∈ rest, b ≠ 0x4D ∧ b ≠ 0x6D) :
    parse_mouse_event c (Event.ofType EventType.EventKey) (0x1B :: 0x5B :: rest)
        = some (Event.ofType EventType.EventKey, 0, false)
      ∧ (mode &&& c.InputEsc ≠ 0 →
          extract_event c keys mode (0x1B :: 0x5B :: rest) (Event.ofType EventType.EventKey)
            = some ({ Event.ofType EventType.EventKey with Key := c.KeyEsc, N := 1 }, true))
      ∧ (mode &&& c.InputEsc = 0 → mode &&& c.InputAlt ≠ 0 →
          extract_event c keys mode (0x1B :: 0x5B :: rest) (Event.ofType EventType.EventKey)
            = some ({ Event.ofType EventType.EventKey with
                      Mod := c.ModAlt
                      Key := if (0x5B : Int) ≤ c.KeySpace ∨ (0x5B : Int) = c.KeyBackspace2
                             then 0x5B else 0
                      Ch := if (0x5B : Int) ≤ c.KeySpace ∨ (0x5B : Int) = c.KeyBackspace2
                            then 0 else 0x5B
                      N := 2 }, true)) := by
  have hall : ∀ b ∈ 0x1B :: 0x5B :: rest, b ∉ [0x4D, 0x6D] := by
    intro b hb
    simp only [List.mem_cons] at hb
    simp only [List.mem_cons, List.mem_singleton, List.not_mem_nil, or_false]
    rcases hb with h | h | h
    · omega
    · omega
    · have := hM b h
      omega
  have hp : HasPrefix (0x1B :: 0x5B :: rest) [0x1B, 0x5B, 0x4D] = false := by
    cases rest with
    | nil => simp [HasPrefix, List.isPrefixOf]
    | cons d r =>
      have hd : ¬ 0x4D = d := fun h => (hM d (List.mem_cons_self _ _)).1 h.symm
      simp [HasPrefix, List.isPrefixOf, hd]
  have hp2 : HasPrefix (0x1B :: 0x5B :: rest) [0x1B, 0x5B] = true := by
    simp [HasPrefix, List.isPrefixOf]
  have hm : parse_mouse_event c (Event.ofType EventType.EventKey) (0x1B :: 0x5B :: rest)
      = some (Event.ofType EventType.EventKey, 0, false) := by
    unfold parse_mouse_event
    rw [hp, hp2, IndexAny_none _ _ hall]
    simp
  refine ⟨hm, ?_, ?_⟩
  · intro hesc
    unfold extract_event
    rw [parse_escape_sequence_nokey c keys _ _ hno, hm]
    simp [hesc, Event.ofType]
  · intro hesc halt
    unfold extract_event
    rw [parse_escape_sequence_nokey c keys _ _ hno, hm]
    simp only [if_true, ne_eq, not_true_eq_false, if_false, hesc, halt, not_false_eq_true]
    unfold extract_event
    by_cases hk : (0x5B : Int) ≤ c.KeySpace ∨ (0x5B : Int) = c.KeyBackspace2
    · simp [hk, Event.ofType]
    · simp [hk, Event.ofType, DecodeRune, RuneError]

/-- An instance of C13: in Esc mode the incomplete report `ESC[<0;5` gives the
Esc key with one byte consumed. -/
theorem incomplete_mouse_report_is_unmatched_escape_witness :
    extract_event termboxConsts [[0x1B, 0x4F, 0x50]] termboxConsts.InputEsc
        [0x1B, 0x5B, 0x3C, 0x30, 0x3B, 0x35] (Event.ofType EventType.EventKey)
      = some ({ Event.ofType EventType.EventKey with Key := termboxConsts.KeyEsc, N := 1 },
          true) :=
  (incomplete_mouse_report_is_unmatched_escape termboxConsts [[0x1B, 0x4F, 0x50]]
    termboxConsts.InputEsc [0x3C, 0x30, 0x3B, 0x35] (by decide) (by decide)).2.1 (by decide)

/-- C13 as stated, at the buffer `ESC[<0;5`: decoding does not report failure.
In Esc mode `ParseEvent` returns the Esc key with one byte consumed; in Alt mode
it returns the character `[` with the Alt modifier and two bytes consumed. -/
theorem incomplete_mouse_report_not_awaited :
    ParseEvent termboxConsts [] termboxConsts.InputEsc [0x1B, 0x5B, 0x3C, 0x30, 0x3B, 0x35]
        = some { Event.ofType EventType.EventKey with Key := termboxConsts.KeyEsc, N := 1 }
      ∧ ParseEvent termboxConsts [] termboxConsts.InputAlt
          [0x1B, 0x5B, 0x3C, 0x30, 0x3B, 0x35]
        = some { Event.ofType EventType.EventKey with
                 Mod := termboxConsts.ModAlt, Ch := 0x5B, N := 2 } := by
  decide

/-! ## The decoder never panics on a mouse report -/

theorem Index_lt (s : Bytes) (c i : Nat) (h : Index s c = some i) : i < s.length := by
  induction s generalizing i with
  | nil => simp [Index] at h
  | cons b rest ih =>
    unfold Index at h
    split at h
    · simp only [Option.some.injEq] at h
      subst h
      simp
    · split at h
      · rename_i k hk
        simp only [Option.some.injEq] at h
        subst h
        have := ih k hk
        simp
        omega
      · simp at h

theorem LastIndex_lt (s : Bytes) (c i : Nat) (h : LastIndex s c = some i) : i < s.length := by
  induction s generalizing i with
  | nil => simp [LastIndex] at h
  | cons b rest ih =>
    unfold LastIndex at h
    split at h
    · rename_i k hk
      simp only [Option.some.injEq] at h
      subst h
      have := ih k hk
      simp
      omega
    · split at h
      · simp only [Option.some.injEq] at h
        subst h
        simp
      · simp at h

theorem LastIndex_of_Index (s : Bytes) (c k : Nat) (hk : Index s c = some k) :
    LastIndex s c ≠ none := by
  induction s generalizing k with
  | nil => simp [Index] at hk
  | cons a r ih =>
    unfold Index at hk
    unfold LastIndex
    split at hk
    · rename_i hac
      split <;> simp [hac]
    · split at hk
      · rename_i k' hk'
        have := ih k' hk'
        cases hl : LastIndex r c with
        | none => exact absurd hl this
        | some l => simp
      · simp at hk

theorem Index_le_LastIndex (s : Bytes) (c i j : Nat) (hi : Index s c = some i)
    (hj : LastIndex s c = some j) : i ≤ j := by
  induction s generalizing i j with
  | nil => simp [Index] at hi
  | cons b rest ih =>
    unfold Index at hi
    unfold LastIndex at hj
    split at hi
    · simp only [Option.some.injEq] at hi
      omega
    · split at hi
      · rename_i k hk
        simp only [Option.some.injEq] at hi
        split at hj
        · rename_i l hl
          simp only [Option.some.injEq] at hj
          have := ih k l hk hl
          omega
        · rename_i hl
          exact absurd hl (LastIndex_of_Index rest c k hk)
      · simp at hi

theorem IndexAny_spec (s chars : Bytes) (i : Nat) (h : IndexAny s chars = some i) :
    ∃ b, s[i]? = some b ∧ b ∈ chars := by
  induction s generalizing i with
  | nil => simp [IndexAny] at h
  | cons b rest ih =>
    unfold IndexAny at h
    split at h
    · rename_i hb
      simp only [Option.some.injEq] at h
      subst h
      exact ⟨b, by simp, by simpa using hb⟩
    · split at h
      · rename_i k hk
        simp only [Option.some.injEq] at h
        subst h
        simpa using ih k hk
      · simp at h

theorem parseMouseFields_isSome (c : Consts) (e : Event) (isM isU : Bool) (mi : Nat)
    (buf : Bytes) : parseMouseFields c e isM isU mi buf ≠ none := by
  unfold parseMouseFields
  cases h1 : Index buf 0x3B with
  | none => simp
  | some s1 =>
    cases h2 : LastIndex buf 0x3B with
    | none => simp
    | some s2 =>
      have l1 := Index_lt buf _ _ h1
      have l2 := LastIndex_lt buf _ _ h2
      have l3 := Index_le_LastIndex buf _ _ _ h1 h2
      by_cases hs : s1 = s2
      · simp [hs]
      · have a1 : slice buf 0 s1 = some ((buf.drop 0).take (s1 - 0)) := by
          unfold slice
          rw [if_pos ⟨Nat.zero_le _, by omega⟩]
        have a2 : slice buf (s1 + 1) s2 = some ((buf.drop (s1 + 1)).take (s2 - (s1 + 1))) := by
          unfold slice
          rw [if_pos ⟨by omega, by omega⟩]
        have a3 : slice buf (s2 + 1) buf.length
            = some ((buf.drop (s2 + 1)).take (buf.length - (s2 + 1))) := by
          unfold slice
          rw [if_pos ⟨by omega, Nat.le_refl _⟩]
        simp only [hs, if_false, a1, a2, a3]
        repeat' split
        all_goals simp

theorem parse_mouse_event_isSome (c : Consts) (e : Event) (buf : Bytes) :
    parse_mouse_event c e buf ≠ none := by
  unfold parse_mouse_event
  split
  · rename_i h
    simp only [Bool.and_eq_true, decide_eq_true_eq] at h
    have h3 : 3 < buf.length := by omega
    have h4 : 4 < buf.length := by omega
    have h5 : 5 < buf.length := by omega
    simp [List.getElem?_eq_getElem h3, List.getElem?_eq_getElem h4,
      List.getElem?_eq_getElem h5]
  · split
    · rename_i hx hp
      have hpre : [0x1B, 0x5B] <+: buf := by
        simp only [Bool.or_eq_true] at hp
        rcases hp with h | h
        · have := (HasPrefix_iff _ _).1 h
          exact List.IsPrefix.trans ⟨[0x3C], rfl⟩ this
        · exact (HasPrefix_iff _ _).1 h
      obtain ⟨tl, htl⟩ := hpre
      cases hi : IndexAny buf [0x4D, 0x6D] with
      | none => simp
      | some mi =>
        obtain ⟨bmi, hbmi, hmem⟩ := IndexAny_spec buf _ mi hi
        have hmem' : bmi = 0x4D ∨ bmi = 0x6D := by simpa using hmem
        have hmi2 : 2 ≤ mi := by
          subst htl
          by_contra hlt
          have : mi = 0 ∨ mi = 1 := by omega
          rcases this with h | h
          · subst h
            simp at hbmi
            omega
          · subst h
            simp at hbmi
            omega
        have hlen : mi < buf.length := by
          by_contra hge
          rw [List.getElem?_eq_none (by omega)] at hbmi
          exact Option.noConfusion hbmi
        have h2 : 2 < buf.length := by omega
        simp only [hbmi, List.getElem?_eq_getElem h2]
        by_cases hb2 : buf[2] = 0x3C
        · have hmi3 : 3 ≤ mi := by
            by_contra hlt
            have hm : mi = 2 := by omega
            subst hm
            rw [List.getElem?_eq_getElem h2] at hbmi
            simp only [Option.some.injEq] at hbmi
            omega
          have hs : slice buf 3 mi = some ((buf.drop 3).take (mi - 3)) := by
            unfold slice
            rw [if_pos ⟨hmi3, by omega⟩]
          simp only [hb2, if_true, hs]
          exact parseMouseFields_isSome _ _ _ _ _ _
        · have hs : slice buf 2 mi = some ((buf.drop 2).take (mi - 2)) := by
            unfold slice
            rw [if_pos ⟨hmi2, by omega⟩]
          simp only [hb2, if_false, hs]
          exact parseMouseFields_isSome _ _ _ _ _ _
    · simp

theorem parse_escape_sequence_isSome (c : Consts) (keys : List Bytes) (e : Event)
    (buf : Bytes) : parse_escape_sequence c keys e buf ≠ none := by
  unfold parse_escape_sequence
  split
  · simp
  · exact parse_mouse_event_isSome c e buf

/-- With the Esc bit or the Alt bit set in the input mode, `extract_event` does
not reach `panic("unreachable")`, nor any other panic. -/
theorem extract_event_isSome (c : Consts) (keys : List Bytes) (mode : InputMode)
    (hmode : mode &&& c.InputEsc ≠ 0 ∨ mode &&& c.InputAlt ≠ 0) (buf : Bytes) (e : Event) :
    extract_event c keys mode buf e ≠ none := by
  induction buf generalizing e with
  | nil => simp [extract_event]
  | cons b rest ih =>
    unfold extract_event
    split
    · cases hp : parse_escape_sequence c keys e (b :: rest) with
      | none => exact absurd hp (parse_escape_sequence_isSome c keys e _)
      | some r =>
        obtain ⟨ev, n, ok⟩ := r
        simp only
        split
        · simp
        · split
          · simp
          · split
            · cases hr : extract_event c keys mode rest { ev with Mod := c.ModAlt } with
              | none => exact absurd hr (ih _)
              | some r2 =>
                obtain ⟨ev2, ok2⟩ := r2
                simp only
                split <;> simp
            · rename_i h1 h2
              rcases hmode with h | h
              · exact absurd h h1
              · exact absurd h h2
    · split
      · simp
      · split
        rename_i r n hd
        split <;> simp

/-! ## Lemmas on the cell grid -/

/-- With a product of the sizes below `2^63`, `init` returns a grid of
`width*height` zero cells. -/
theorem init_fits (g : cellbuf) (w h : Nat) (hfit : w * h < 2 ^ 63) :
    g.init w h = some ⟨w, h, List.replicate (w * h) ⟨0, 0, 0⟩⟩ := by
  have hm : w * h % 2 ^ 64 = w * h := Nat.mod_eq_of_lt (by omega)
  unfold cellbuf.init
  simp only [hm]
  rw [if_neg (by omega)]

/-- The grid that `init` returns does not depend on the grid it is called on. -/
theorem init_some (g g' : cellbuf) (w h : Nat) (hi : g.init w h = some g') :
    g' = ⟨w, h, List.replicate (w * h % 2 ^ 64) ⟨0, 0, 0⟩⟩
      ∧ ∀ g0 : cellbuf, g0.init w h = some g' := by
  unfold cellbuf.init at hi
  dsimp only at hi
  split at hi
  · exact Option.noConfusion hi
  · rename_i hn
    injection hi with hi
    subst hi
    refine ⟨rfl, fun g0 => ?_⟩
    unfold cellbuf.init
    dsimp only
    rw [if_neg hn]

theorem splice_length {α : Type} (cells src : List α) (d m : Nat)
    (hd : d + m ≤ cells.length) (hs : src.length = m) :
    (cells.take d ++ src ++ cells.drop (d + m)).length = cells.length := by
  simp only [List.length_append, List.length_take, List.length_drop, hs]
  omega

theorem splice_getElem? {α : Type} (cells src : List α) (d m : Nat)
    (hd : d + m ≤ cells.length) (hs : src.length = m) (j : Nat) :
    (cells.take d ++ src ++ cells.drop (d + m))[j]?
      = if d ≤ j ∧ j < d + m then src[j - d]? else cells[j]? := by
  have hlt : (cells.take d).length = d := by
    rw [List.length_take]; omega
  by_cases h1 : j < d
  · rw [List.append_assoc, List.getElem?_append_left (by omega)]
    rw [List.getElem?_take_of_lt h1]
    simp [show ¬ (d ≤ j ∧ j < d + m) by omega]
  · by_cases h2 : j < d + m
    · rw [List.append_assoc, List.getElem?_append_right (by omega), hlt]
      rw [List.getElem?_append_left (by omega)]
      simp [show d ≤ j ∧ j < d + m by omega]
    · rw [List.getElem?_append_right (by simp only [List.length_append, hlt, hs]; omega)]
      simp only [List.length_append, hlt, hs, List.getElem?_drop]
      rw [show d + m + (j - (d + m)) = j by omega]
      simp [show ¬ (d ≤ j ∧ j < d + m) by omega]

theorem row_index_lt (w x y i : Nat) (hx : x < w) : y * w + x < i * w ↔ y < i := by
  constructor
  · intro h
    by_contra hc
    have : i * w ≤ y * w := Nat.mul_le_mul_right w (by omega)
    omega
  · intro h
    have : (y + 1) * w ≤ i * w := Nat.mul_le_mul_right w (by omega)
    rw [Nat.add_mul] at this
    omega

theorem copyRows_spec (old : List Cell) (oldw oldh w' h' minw minh : Nat) (fg bg : Attribute)
    (hminh1 : minh ≤ h') (hminh2 : minh ≤ oldh) (hminw1 : minw ≤ w') (hminw2 : minw ≤ oldw)
    (hold : old.length = oldw * oldh) :
    ∀ (n i : Nat) (cells : List Cell), i + n ≤ minh →
      cells.length = w' * h' →
      (∀ x y, x < w' → y < h' →
        cells[y * w' + x]? = if x < minw ∧ y < i then old[y * oldw + x]? else some ⟨32, fg, bg⟩) →
      ∃ cells', copyRows old oldw w' minw n i cells = some cells' ∧
        cells'.length = w' * h' ∧
        (∀ x y, x < w' → y < h' →
          cells'[y * w' + x]?
            = if x < minw ∧ y < i + n then old[y * oldw + x]? else some ⟨32, fg, bg⟩) := by
  intro n
  induction n with
  | zero =>
    intro i cells _ hlen hinv
    exact ⟨cells, rfl, hlen, by simpa using hinv⟩
  | succ n ih =>
    intro i cells hin hlen hinv
    have hsrc : i * oldw + minw ≤ old.length := by
      have h1 : (i + 1) * oldw ≤ oldh * oldw := Nat.mul_le_mul_right oldw (by omega)
      rw [Nat.add_mul] at h1
      rw [hold, Nat.mul_comm oldw oldh]
      omega
    have hdst : i * w' + minw ≤ cells.length := by
      have h1 : (i + 1) * w' ≤ h' * w' := Nat.mul_le_mul_right w' (by omega)
      rw [Nat.add_mul] at h1
      rw [hlen, Nat.mul_comm w' h']
      omega
    have hslen : ((old.drop (i * oldw)).take minw).length = minw := by
      rw [List.length_take, List.length_drop]
      omega
    have hstep : copyRows old oldw w' minw (n + 1) i cells
        = copyRows old oldw w' minw n (i + 1)
            (cells.take (i * w') ++ (old.drop (i * oldw)).take minw
              ++ cells.drop (i * w' + minw)) := by
      simp [copyRows, slice, hsrc, hdst]
    rw [hstep]
    have hlen' := splice_length cells ((old.drop (i * oldw)).take minw) (i * w') minw hdst hslen
    obtain ⟨cells', hc, hl, hi⟩ := ih (i + 1) _ (by omega) (hlen'.trans hlen) (by
      intro x y hx hy
      rw [splice_getElem? cells _ (i * w') minw hdst hslen]
      have hcell := hinv x y hx hy
      by_cases hyi : y = i
      · subst hyi
        by_cases hxm : x < minw
        · rw [if_pos ⟨by omega, by omega⟩, if_pos ⟨hxm, by omega⟩]
          rw [show y * w' + x - y * w' = x by omega]
          rw [List.getElem?_take_of_lt hxm, List.getElem?_drop]
        · rw [if_neg (by omega), if_neg (by omega), hcell, if_neg (by omega)]
      · have hnot : ¬ (i * w' ≤ y * w' + x ∧ y * w' + x < i * w' + minw) := by
          rcases Nat.lt_or_gt_of_ne hyi with hlt | hgt
          · have := (row_index_lt w' x y i hx).2 hlt
            omega
          · have h1 : (i + 1) * w' ≤ y * w' := Nat.mul_le_mul_right w' (by omega)
            rw [Nat.add_mul] at h1
            omega
        rw [if_neg hnot, hcell]
        by_cases hxm : x < minw
        · by_cases hlt : y < i
          · rw [if_pos ⟨hxm, hlt⟩, if_pos ⟨hxm, by omega⟩]
          · rw [if_neg (by omega), if_neg (by omega)]
        · rw [if_neg (by omega), if_neg (by omega)])
    exact ⟨cells', hc, hl, by
      intro x y hx hy
      rw [hi x y hx hy, show i + 1 + n = i + (n + 1) by omega]⟩


/-! ## The cell grid: claims C3 and C4 -/

/-- C3 as stated fails: the length `w'*h'` of the new cell sequence is computed
in `int`. Resizing a 2 × 1 grid to `0xFFFFFFFF × 0xFFFFFFFF` panics, because the
product wraps to a negative length; resizing the empty grid to `2^32 × 2^32`
returns a grid of that size with no cell at all, because the product wraps to
0. -/
theorem resize_to_wrapping_size_gives_no_grid :
    (cellbuf.mk 2 1 [⟨65, 1, 0⟩, ⟨66, 2, 0⟩]).resize 0xFFFFFFFF 0xFFFFFFFF 0 0 = none
      ∧ (cellbuf.mk 0 0 []).resize (2 ^ 32) (2 ^ 32) 0 0 = some ⟨2 ^ 32, 2 ^ 32, []⟩
      ∧ (⟨2 ^ 32, 2 ^ 32, []⟩ : cellbuf).cells[0 * 2 ^ 32 + 0]? = none := by
  decide

/-- C3, amended: grid resize preserves the overlapping top-left rectangle. For
every grid of size `w × h` with `len(cells) = w*h`, every new size `w' × h'`
with `w'*h' < 2^63` and every `(fg, bg)`, `resize` returns a grid of size
`w' × h'` with `w'*h'` cells whose cell at `(x, y)` is the old cell at `(x, y)`
when `x < min(w, w')` and `y < min(h, h')` and is a space with colours
`(fg, bg)` otherwise. -/
theorem resize_preserves_overlap (g : cellbuf) (w' h' : Nat) (fg bg : Attribute)
    (hwf : g.cells.length = g.width * g.height) (hfit : w' * h' < 2 ^ 63) :
    ∃ g', g.resize w' h' fg bg = some g' ∧ g'.width = w' ∧ g'.height = h' ∧
      g'.cells.length = w' * h' ∧
      ∀ x y, x < w' → y < h' →
        g'.cells[y * w' + x]?
          = if x < min g.width w' ∧ y < min g.height h' then g.cells[y * g.width + x]?
            else some ⟨32, fg, bg⟩ := by
  unfold cellbuf.resize
  by_cases hsame : g.width = w' ∧ g.height = h'
  · rw [if_pos hsame]
    obtain ⟨hw, hh⟩ := hsame
    refine ⟨g, rfl, hw, hh, by rw [hwf, hw, hh], ?_⟩
    intro x y hx hy
    rw [if_pos ⟨by omega, by omega⟩, hw]
  · rw [if_neg hsame, init_fits g w' h' hfit]
    dsimp only
    have hcleared : (cellbuf.clear ⟨w', h', List.replicate (w' * h') ⟨0, 0, 0⟩⟩ fg bg).cells
        = List.replicate (w' * h') ⟨32, fg, bg⟩ := by
      simp [cellbuf.clear, List.map_replicate]
    obtain ⟨cells', hc, hl, hi⟩ := copyRows_spec g.cells g.width g.height w' h'
      (if w' < g.width then w' else g.width) (if h' < g.height then h' else g.height) fg bg
      (by split <;> omega) (by split <;> omega) (by split <;> omega) (by split <;> omega) hwf
      (if h' < g.height then h' else g.height) 0
      (cellbuf.clear ⟨w', h', List.replicate (w' * h') ⟨0, 0, 0⟩⟩ fg bg).cells
      (by omega) (by rw [hcleared, List.length_replicate])
      (by
        intro x y hx hy
        rw [hcleared, if_neg (by omega), List.getElem?_replicate_of_lt]
        have h1 : (y + 1) * w' ≤ h' * w' := Nat.mul_le_mul_right w' (by omega)
        rw [Nat.add_mul] at h1
        rw [Nat.mul_comm w' h']
        omega)
    simp only [hc]
    refine ⟨_, rfl, rfl, rfl, hl, ?_⟩
    intro x y hx hy
    have := hi x y hx hy
    simp only [Nat.zero_add] at this
    rw [this]
    by_cases hcond : x < min g.width w' ∧ y < min g.height h'
    · rw [if_pos hcond, if_pos (by constructor <;> split <;> omega)]
    · rw [if_neg hcond, if_neg (by
        intro hc2
        apply hcond
        obtain ⟨h1, h2⟩ := hc2
        constructor
        · split at h1 <;> omega
        · split at h2 <;> omega)]

/-- An instance of C3: a 2 × 2 grid resized to 3 × 1 keeps `A` and `B` of its
first row and gets a blank third cell. -/
theorem resize_preserves_overlap_witness :
    (cellbuf.mk 2 2 [⟨65, 1, 0⟩, ⟨66, 2, 0⟩, ⟨67, 3, 0⟩, ⟨68, 4, 0⟩]).resize 3 1 7 8
        = some ⟨3, 1, [⟨65, 1, 0⟩, ⟨66, 2, 0⟩, ⟨32, 7, 8⟩]⟩
      ∧ ∃ g', (cellbuf.mk 2 2 [⟨65, 1, 0⟩, ⟨66, 2, 0⟩, ⟨67, 3, 0⟩, ⟨68, 4, 0⟩]).resize 3 1 7 8
          = some g' ∧ g'.width = 3 ∧ g'.height = 1 ∧ g'.cells.length = 3 * 1 ∧
        ∀ x y, x < 3 → y < 1 →
          g'.cells[y * 3 + x]?
            = if x < min (cellbuf.mk 2 2 [⟨65, 1, 0⟩, ⟨66, 2, 0⟩, ⟨67, 3, 0⟩, ⟨68, 4, 0⟩]).width 3
                  ∧ y < min (cellbuf.mk 2 2 [⟨65, 1, 0⟩, ⟨66, 2, 0⟩, ⟨67, 3, 0⟩, ⟨68, 4, 0⟩]).height 1
              then (cellbuf.mk 2 2 [⟨65, 1, 0⟩, ⟨66, 2, 0⟩, ⟨67, 3, 0⟩, ⟨68, 4, 0⟩]).cells[y * 2 + x]?
              else some ⟨32, 7, 8⟩ :=
  ⟨by decide,
   resize_preserves_overlap (cellbuf.mk 2 2 [⟨65, 1, 0⟩, ⟨66, 2, 0⟩, ⟨67, 3, 0⟩, ⟨68, 4, 0⟩])
    3 1 7 8 (by decide) (by decide)⟩

/-- C4 as stated fails: a `SetCell` with in-range coordinates that writes the
value the cell already holds leaves the engine state unchanged. -/
theorem setcell_in_range_may_leave_state_unchanged :
    ¬ (SetCell sampleTermbox 0 0 32 0 0 ≠ some sampleTermbox
        ↔ ((0 : Int) ≤ 0 ∧ (0 : Int) < sampleTermbox.back_buffer.width
            ∧ (0 : Int) ≤ 0 ∧ (0 : Int) < sampleTermbox.back_buffer.height)) := by
  decide

/-- C4, amended: `SetCell` never panics on a well-formed back grid; out-of-range
coordinates (negative ones included) leave the state unchanged; in-range
coordinates replace exactly the back cell at index `y*width + x` by
`{ch, fg, bg}` (`setBack`) and leave every other back cell, the front grid and all other
state unchanged; so the state changes exactly when the coordinates are in range
and that cell held another value. -/
theorem setcell_frame (t : Termbox) (x y : Int) (ch : Int) (fg bg : Attribute)
    (hwf : t.back_buffer.cells.length = t.back_buffer.width * t.back_buffer.height) :
    ((0 ≤ x ∧ x < t.back_buffer.width ∧ 0 ≤ y ∧ y < t.back_buffer.height) →
        y.toNat * t.back_buffer.width + x.toNat < t.back_buffer.cells.length
        ∧ SetCell t x y ch fg bg
          = some (setBack t (y.toNat * t.back_buffer.width + x.toNat) ⟨ch, fg, bg⟩))
      ∧ (¬ (0 ≤ x ∧ x < t.back_buffer.width ∧ 0 ≤ y ∧ y < t.back_buffer.height) →
        SetCell t x y ch fg bg = some t)
      ∧ (SetCell t x y ch fg bg ≠ some t ↔
          (0 ≤ x ∧ x < t.back_buffer.width ∧ 0 ≤ y ∧ y < t.back_buffer.height)
            ∧ t.back_buffer.cells[y.toNat * t.back_buffer.width + x.toNat]?
                ≠ some ⟨ch, fg, bg⟩) := by
  have hin : (0 ≤ x ∧ x < t.back_buffer.width ∧ 0 ≤ y ∧ y < t.back_buffer.height) →
      y.toNat * t.back_buffer.width + x.toNat < t.back_buffer.cells.length
        ∧ SetCell t x y ch fg bg
          = some (setBack t (y.toNat * t.back_buffer.width + x.toNat) ⟨ch, fg, bg⟩) := by
    rintro ⟨hx0, hx1, hy0, hy1⟩
    have hidx : (y * t.back_buffer.width + x).toNat
        = y.toNat * t.back_buffer.width + x.toNat := by
      obtain ⟨yn, rfl⟩ := Int.eq_ofNat_of_zero_le hy0
      obtain ⟨xn, rfl⟩ := Int.eq_ofNat_of_zero_le hx0
      simp only [Int.toNat_ofNat]
      rw [← Int.ofNat_mul, ← Int.ofNat_add, Int.toNat_ofNat]
    have hlt : y.toNat * t.back_buffer.width + x.toNat < t.back_buffer.cells.length := by
      have h1 : (y.toNat + 1) * t.back_buffer.width
          ≤ t.back_buffer.height * t.back_buffer.width :=
        Nat.mul_le_mul_right _ (by omega)
      rw [Nat.add_mul] at h1
      rw [hwf, Nat.mul_comm t.back_buffer.width]
      omega
    refine ⟨hlt, ?_⟩
    unfold SetCell
    rw [if_neg (by omega), if_neg (by omega)]
    simp only [hidx, hlt, if_true]
  have hout : ¬ (0 ≤ x ∧ x < t.back_buffer.width ∧ 0 ≤ y ∧ y < t.back_buffer.height) →
      SetCell t x y ch fg bg = some t := by
    intro h
    unfold SetCell
    by_cases hx : x < 0 ∨ x ≥ t.back_buffer.width
    · rw [if_pos hx]
    · rw [if_neg hx, if_pos (by omega)]
  refine ⟨hin, hout, ?_⟩
  constructor
  · intro hne
    by_cases hr : 0 ≤ x ∧ x < t.back_buffer.width ∧ 0 ≤ y ∧ y < t.back_buffer.height
    · refine ⟨hr, ?_⟩
      intro hsame
      apply hne
      rw [(hin hr).2]
      unfold setBack
      have hset : t.back_buffer.cells.set (y.toNat * t.back_buffer.width + x.toNat) ⟨ch, fg, bg⟩
          = t.back_buffer.cells := by
        apply List.ext_getElem?
        intro j
        rw [List.getElem?_set]
        split
        · rename_i hj
          subst hj
          rw [if_pos (hin hr).1, hsame]
        · rfl
      rw [hset]
    · exact absurd (hout hr) hne
  · rintro ⟨hr, hcell⟩ heq
    rw [(hin hr).2] at heq
    apply hcell
    have hc := congrArg (fun s => s.map (fun u => u.back_buffer.cells)) heq
    simp only [Option.map, Option.some.injEq, setBack] at hc
    rw [← hc, List.getElem?_set_self (hin hr).1]

/-- An instance of the amended C4: a write to the cell `(1, 0)` of a 2 × 1 grid. -/
theorem setcell_frame_witness :
    SetCell sampleTermbox 1 0 65 3 4
      = some { sampleTermbox with back_buffer := ⟨2, 1, [⟨32, 0, 0⟩, ⟨65, 3, 4⟩]⟩ } :=
  ((setcell_frame sampleTermbox 1 0 65 3 4 (by decide)).1 (by decide)).2

/-! ## Lemmas on the render path -/

theorem Shape.refl (t : Termbox) : Shape t t :=
  ⟨rfl, rfl, rfl, rfl, rfl, rfl, rfl, rfl, rfl⟩

theorem Shape.trans {r s t : Termbox} (h1 : Shape r s) (h2 : Shape s t) : Shape r t := by
  unfold Shape at *
  obtain ⟨a1, a2, a3, a4, a5, a6, a7, a8, a9⟩ := h1
  obtain ⟨b1, b2, b3, b4, b5, b6, b7, b8, b9⟩ := h2
  exact ⟨a1.trans b1, a2.trans b2, a3.trans b3, a4.trans b4, a5.trans b5, a6.trans b6,
    a7.trans b7, a8.trans b8, a9.trans b9⟩

theorem send_attr_eq (c : Consts) (t : Termbox) (fg bg : Attribute) :
    send_attr c t fg bg
      = { t with outbuf := (send_attr c t fg bg).outbuf,
                 lastfg := (send_attr c t fg bg).lastfg,
                 lastbg := (send_attr c t fg bg).lastbg } := by
  unfold send_attr
  split <;> rfl

theorem send_char_eq (t : Termbox) (x y ch : Int) :
    send_char t x y ch
      = { t with outbuf := (send_char t x y ch).outbuf, lastx := x, lasty := y } := rfl

theorem emitCell_eq (c : Consts) (t : Termbox) (p : Nat × Nat × Cell) :
    emitCell c t p
      = { t with outbuf := (emitCell c t p).outbuf,
                 lastfg := (emitCell c t p).lastfg,
                 lastbg := (emitCell c t p).lastbg,
                 lastx := (emitCell c t p).lastx,
                 lasty := (emitCell c t p).lasty } := by
  unfold emitCell
  rw [send_char_eq, send_attr_eq]

theorem emitCell_bufs (c : Consts) (t : Termbox) (p : Nat × Nat × Cell) :
    (emitCell c t p).back_buffer = t.back_buffer
      ∧ (emitCell c t p).front_buffer = t.front_buffer ∧ Shape (emitCell c t p) t := by
  rw [emitCell_eq]
  exact ⟨rfl, rfl, Shape.refl _⟩


@[simp] theorem send_attr_front (c : Consts) (t : Termbox) (fg bg : Attribute) :
    (send_attr c t fg bg).front_buffer = t.front_buffer := by rw [send_attr_eq]

@[simp] theorem send_attr_back (c : Consts) (t : Termbox) (fg bg : Attribute) :
    (send_attr c t fg bg).back_buffer = t.back_buffer := by rw [send_attr_eq]

theorem send_attr_shape (c : Consts) (t : Termbox) (fg bg : Attribute) :
    Shape (send_attr c t fg bg) t := by
  rw [send_attr_eq]; exact Shape.refl _

theorem normCell_ch (b : Cell) : ¬ (normCell b).Ch < 32 := by
  unfold normCell
  split
  · simp
  · assumption

theorem normCell_of_ge (b : Cell) (h : ¬ b.Ch < 32) : normCell b = b := by
  unfold normCell
  rw [if_neg h]

theorem cellWidth_pos (rw : Int → Nat) (amb : Int → Bool) (ch : Int) : 1 ≤ cellWidth rw amb ch := by
  unfold cellWidth
  dsimp only
  split
  · exact Nat.le_refl 1
  · rename_i h
    have : rw ch ≠ 0 := fun h0 => h (Or.inl h0)
    omega

@[simp] theorem send_char_front (t : Termbox) (x y ch : Int) :
    (send_char t x y ch).front_buffer = t.front_buffer := rfl

@[simp] theorem send_char_back (t : Termbox) (x y ch : Int) :
    (send_char t x y ch).back_buffer = t.back_buffer := rfl

theorem send_char_shape (t : Termbox) (x y ch : Int) : Shape (send_char t x y ch) t :=
  Shape.refl _

@[simp] theorem setBack_front (t : Termbox) (i : Nat) (cell : Cell) :
    (setBack t i cell).front_buffer = t.front_buffer := rfl

@[simp] theorem setBack_back_cells (t : Termbox) (i : Nat) (cell : Cell) :
    (setBack t i cell).back_buffer.cells = t.back_buffer.cells.set i cell := rfl

theorem setBack_shape (t : Termbox) (i : Nat) (cell : Cell) : Shape (setBack t i cell) t :=
  Shape.refl _

@[simp] theorem setFront_back (t : Termbox) (i : Nat) (cell : Cell) :
    (setFront t i cell).back_buffer = t.back_buffer := rfl

@[simp] theorem setFront_front_cells (t : Termbox) (i : Nat) (cell : Cell) :
    (setFront t i cell).front_buffer.cells = t.front_buffer.cells.set i cell := rfl

@[simp] theorem setFront_front_width (t : Termbox) (i : Nat) (cell : Cell) :
    (setFront t i cell).front_buffer.width = t.front_buffer.width := rfl

theorem setFront_shape (t : Termbox) (i : Nat) (cell : Cell) : Shape (setFront t i cell) t :=
  Shape.refl _

/-- The state after the normalisation step of the loop body. -/
theorem normStep_post (t : Termbox) (i : Nat) (back0 : Cell)
    (hb : t.back_buffer.cells[i]? = some back0) :
    Shape (if back0.Ch < 32 then setBack t i (normCell back0) else t) t
      ∧ (if back0.Ch < 32 then setBack t i (normCell back0) else t).front_buffer = t.front_buffer
      ∧ (if back0.Ch < 32 then setBack t i (normCell back0) else t).back_buffer.cells[i]?
          = some (normCell back0)
      ∧ ∀ j, j ≠ i →
          (if back0.Ch < 32 then setBack t i (normCell back0) else t).back_buffer.cells[j]?
            = t.back_buffer.cells[j]? := by
  have hbl : i < t.back_buffer.cells.length := by
    by_contra hc
    rw [List.getElem?_eq_none (by omega)] at hb
    simp at hb
  by_cases hlt : back0.Ch < 32
  · rw [if_pos hlt]
    refine ⟨setBack_shape _ _ _, rfl, ?_, ?_⟩
    · rw [setBack_back_cells, List.getElem?_set_self hbl]
    · intro j hj
      rw [setBack_back_cells, List.getElem?_set_ne (Ne.symm hj)]
  · rw [if_neg hlt]
    refine ⟨Shape.refl _, rfl, ?_, fun _ _ => rfl⟩
    rw [hb, normCell_of_ge _ hlt]

/-- One iteration of the inner loop of `Flush`: it leaves the cells before the
current one and the shape of the state alone, and afterwards the front cell
equals the (normalised) back cell. -/
theorem flushCell_post (c : Consts) (rw : Int → Nat) (amb : Int → Bool) (t t' : Termbox)
    (x y w : Nat) (h : flushCell c rw amb t x y = some (t', w)) :
    Shape t' t ∧ 1 ≤ w
      ∧ (∃ back, t'.back_buffer.cells[y * t.front_buffer.width + x]? = some back
            ∧ t'.front_buffer.cells[y * t.front_buffer.width + x]? = some back
            ∧ ¬ back.Ch < 32 ∧ w = cellWidth rw amb back.Ch)
      ∧ (∀ j, j < y * t.front_buffer.width + x →
            t'.back_buffer.cells[j]? = t.back_buffer.cells[j]?
              ∧ t'.front_buffer.cells[j]? = t.front_buffer.cells[j]?) := by
  cases hb : t.back_buffer.cells[y * t.front_buffer.width + x]? with
  | none => simp [flushCell, hb] at h
  | some back0 =>
    cases hf : t.front_buffer.cells[y * t.front_buffer.width + x]? with
    | none => simp [flushCell, hb, hf] at h
    | some front =>
      have hfl : y * t.front_buffer.width + x < t.front_buffer.cells.length := by
        by_contra hc
        rw [List.getElem?_eq_none (by omega)] at hf
        simp at hf
      obtain ⟨hs, hfr, hbk, hoth⟩ := normStep_post t _ back0 hb
      simp only [flushCell, hb, hf] at h
      generalize (if back0.Ch < 32 then setBack t (y * t.front_buffer.width + x) (normCell back0)
        else t) = ta at h hs hfr hbk hoth
      by_cases heq : normCell back0 = front
      · simp only [heq, if_true, Option.some.injEq, Prod.mk.injEq] at h
        obtain ⟨rfl, rfl⟩ := h
        refine ⟨hs, cellWidth_pos _ _ _, ⟨front, ?_, ?_, ?_, rfl⟩, ?_⟩
        · rw [← heq]; exact hbk
        · rw [hfr]; exact hf
        · rw [← heq]; exact normCell_ch _
        · intro j hj
          exact ⟨hoth j (by omega), by rw [hfr]⟩
      · simp only [heq, if_false] at h
        have hfl' : y * t.front_buffer.width + x < ta.front_buffer.cells.length := by
          rw [hfr]; exact hfl
        have hsh : ∀ u : Termbox, Shape u (send_attr c (setFront ta (y * t.front_buffer.width + x)
            (normCell back0)) (normCell back0).Fg (normCell back0).Bg) → Shape u t := fun u hu =>
          (hu.trans (send_attr_shape _ _ _ _)).trans ((setFront_shape _ _ _).trans hs)
        have hfin : ∀ u : Termbox, u.back_buffer = ta.back_buffer →
            u.front_buffer.cells = ta.front_buffer.cells.set (y * t.front_buffer.width + x)
              (normCell back0) →
            (∃ back, u.back_buffer.cells[y * t.front_buffer.width + x]? = some back
              ∧ u.front_buffer.cells[y * t.front_buffer.width + x]? = some back
              ∧ ¬ back.Ch < 32
              ∧ cellWidth rw amb (normCell back0).Ch = cellWidth rw amb back.Ch)
            ∧ (∀ j, j < y * t.front_buffer.width + x →
              u.back_buffer.cells[j]? = t.back_buffer.cells[j]?
                ∧ u.front_buffer.cells[j]? = t.front_buffer.cells[j]?) := by
          intro u hub huf
          refine ⟨⟨normCell back0, ?_, ?_, normCell_ch _, rfl⟩, ?_⟩
          · rw [hub]; exact hbk
          · rw [huf, List.getElem?_set_self hfl']
          · intro j hj
            refine ⟨by rw [hub]; exact hoth j (by omega), ?_⟩
            rw [huf, List.getElem?_set_ne (by omega), hfr]
        split at h
        · simp only [Option.some.injEq, Prod.mk.injEq] at h
          obtain ⟨rfl, rfl⟩ := h
          obtain ⟨h1, h2⟩ := hfin (send_char (send_attr c (setFront ta
            (y * t.front_buffer.width + x) (normCell back0)) (normCell back0).Fg
            (normCell back0).Bg) x y 32) (by simp) (by simp)
          exact ⟨hsh _ (send_char_shape _ _ _ _), cellWidth_pos _ _ _, h1, h2⟩
        · split at h
          · split at h
            · simp only [Option.some.injEq, Prod.mk.injEq] at h
              obtain ⟨rfl, rfl⟩ := h
              refine ⟨hsh _ ((setFront_shape _ _ _).trans (send_char_shape _ _ _ _)),
                cellWidth_pos _ _ _, ⟨normCell back0, ?_, ?_, normCell_ch _, rfl⟩, ?_⟩
              · simp only [setFront_back, send_char_back, send_attr_back]
                exact hbk
              · simp only [setFront_front_cells, send_char_front, send_attr_front]
                rw [List.getElem?_set_ne (by omega), List.getElem?_set_self hfl']
              · intro j hj
                refine ⟨?_, ?_⟩
                · simp only [setFront_back, send_char_back, send_attr_back]
                  exact hoth j (by omega)
                · simp only [setFront_front_cells, send_char_front, send_attr_front]
                  rw [List.getElem?_set_ne (by omega), List.getElem?_set_ne (by omega), hfr]
            · simp at h
          · simp only [Option.some.injEq, Prod.mk.injEq] at h
            obtain ⟨rfl, rfl⟩ := h
            obtain ⟨h1, h2⟩ := hfin (send_char (send_attr c (setFront ta
              (y * t.front_buffer.width + x) (normCell back0)) (normCell back0).Fg
              (normCell back0).Bg) x y (normCell back0).Ch) (by simp) (by simp)
            exact ⟨hsh _ (send_char_shape _ _ _ _), cellWidth_pos _ _ _, h1, h2⟩


/-- A cell whose front copy equals its normalised back copy is skipped. -/
theorem flushCell_clean (c : Consts) (rw : Int → Nat) (amb : Int → Bool) (s : Termbox)
    (x y : Nat) (back : Cell)
    (hb : s.back_buffer.cells[y * s.front_buffer.width + x]? = some back)
    (hf : s.front_buffer.cells[y * s.front_buffer.width + x]? = some back)
    (hn : ¬ back.Ch < 32) :
    flushCell c rw amb s x y = some (s, cellWidth rw amb back.Ch) := by
  simp [flushCell, hb, hf, normCell_of_ge back hn, hn]

/-- The inner loop from column `x` on leaves the shape of the state and the
cells before column `x` of row `y` alone. -/
theorem flushRow_frame (c : Consts) (rw : Int → Nat) (amb : Int → Bool) (y : Nat) :
    ∀ (fuel x : Nat) (t t1 : Termbox), flushRow c rw amb y fuel x t = some t1 →
      Shape t1 t ∧ ∀ j, j < y * t.front_buffer.width + x →
        t1.back_buffer.cells[j]? = t.back_buffer.cells[j]?
          ∧ t1.front_buffer.cells[j]? = t.front_buffer.cells[j]? := by
  intro fuel
  induction fuel with
  | zero =>
    intro x t t1 h
    unfold flushRow at h
    split at h
    · simp at h
    · simp only [Option.some.injEq] at h
      subst h
      exact ⟨Shape.refl _, fun _ _ => ⟨rfl, rfl⟩⟩
  | succ fuel ih =>
    intro x t t1 h
    unfold flushRow at h
    split at h
    · cases hc : flushCell c rw amb t x y with
      | none => simp [hc] at h
      | some r =>
        obtain ⟨t', w⟩ := r
        simp only [hc] at h
        obtain ⟨hs, _, _, hfr⟩ := flushCell_post c rw amb t t' x y w hc
        obtain ⟨hs2, hfr2⟩ := ih (x + w) t' t1 h
        refine ⟨hs2.trans hs, ?_⟩
        intro j hj
        have hw : t'.front_buffer.width = t.front_buffer.width := hs.1
        have h2 := hfr2 j (by rw [hw]; omega)
        have h1 := hfr j hj
        exact ⟨h2.1.trans h1.1, h2.2.trans h1.2⟩
    · simp only [Option.some.injEq] at h
      subst h
      exact ⟨Shape.refl _, fun _ _ => ⟨rfl, rfl⟩⟩

/-- A second pass over a row that the inner loop has processed changes
nothing: it holds in every state that agrees with the processed one on the
cells of the row from column `x` on. -/
theorem flushRow_clean (c : Consts) (rw : Int → Nat) (amb : Int → Bool) (y : Nat) :
    ∀ (fuel x : Nat) (t t1 : Termbox), flushRow c rw amb y fuel x t = some t1 →
      ∀ s : Termbox, s.front_buffer.width = t.front_buffer.width →
        (∀ j, y * t.front_buffer.width + x ≤ j →
          j < y * t.front_buffer.width + t.front_buffer.width →
          s.back_buffer.cells[j]? = t1.back_buffer.cells[j]?
            ∧ s.front_buffer.cells[j]? = t1.front_buffer.cells[j]?) →
        flushRow c rw amb y fuel x s = some s := by
  intro fuel
  induction fuel with
  | zero =>
    intro x t t1 h s hw _
    unfold flushRow at h
    split at h
    · simp at h
    · rename_i hx
      unfold flushRow
      rw [hw, if_neg hx]
  | succ fuel ih =>
    intro x t t1 h s hw hag
    unfold flushRow at h
    split at h
    · rename_i hx
      cases hc : flushCell c rw amb t x y with
      | none => simp [hc] at h
      | some r =>
        obtain ⟨t', w⟩ := r
        simp only [hc] at h
        obtain ⟨hs, hw1, ⟨back, hb, hf, hn, hwd⟩, _⟩ := flushCell_post c rw amb t t' x y w hc
        have hw' : t'.front_buffer.width = t.front_buffer.width := hs.1
        obtain ⟨_, hfr2⟩ := flushRow_frame c rw amb y fuel (x + w) t' t1 h
        have h2 := hfr2 (y * t.front_buffer.width + x) (by rw [hw']; omega)
        have hsa := hag (y * t.front_buffer.width + x) (by omega) (by omega)
        have hsb : s.back_buffer.cells[y * s.front_buffer.width + x]? = some back := by
          rw [hw, hsa.1, h2.1, hb]
        have hsf : s.front_buffer.cells[y * s.front_buffer.width + x]? = some back := by
          rw [hw, hsa.2, h2.2, hf]
        have hcs := flushCell_clean c rw amb s x y back hsb hsf hn
        unfold flushRow
        rw [hw, if_pos hx, hcs]
        simp only
        rw [← hwd]
        apply ih (x + w) t' t1 h s (by rw [hw, hw'])
        intro j hj1 hj2
        rw [hw'] at hj1 hj2
        exact hag j (by omega) hj2
    · rename_i hx
      unfold flushRow
      rw [hw, if_neg hx]

/-- The outer loop from row `y` on leaves the shape of the state and the cells
of the rows before `y` alone. -/
theorem flushRows_frame (c : Consts) (rw : Int → Nat) (amb : Int → Bool) :
    ∀ (n y : Nat) (t t1 : Termbox), flushRows c rw amb n y t = some t1 →
      Shape t1 t ∧ ∀ j, j < y * t.front_buffer.width →
        t1.back_buffer.cells[j]? = t.back_buffer.cells[j]?
          ∧ t1.front_buffer.cells[j]? = t.front_buffer.cells[j]? := by
  intro n
  induction n with
  | zero =>
    intro y t t1 h
    simp only [flushRows, Option.some.injEq] at h
    subst h
    exact ⟨Shape.refl _, fun _ _ => ⟨rfl, rfl⟩⟩
  | succ n ih =>
    intro y t t1 h
    unfold flushRows at h
    cases hr : flushRow c rw amb y t.front_buffer.width 0 t with
    | none => simp [hr] at h
    | some tm =>
      simp only [hr] at h
      obtain ⟨hs, hfr⟩ := flushRow_frame c rw amb y _ 0 t tm hr
      obtain ⟨hs2, hfr2⟩ := ih (y + 1) tm t1 h
      have hw : tm.front_buffer.width = t.front_buffer.width := hs.1
      refine ⟨hs2.trans hs, ?_⟩
      intro j hj
      have h2 := hfr2 j (by rw [hw, Nat.add_mul]; omega)
      have h1 := hfr j (by omega)
      exact ⟨h2.1.trans h1.1, h2.2.trans h1.2⟩

/-- A second pass of the outer loop over rows that it has processed changes
nothing. -/
theorem flushRows_clean (c : Consts) (rw : Int → Nat) (amb : Int → Bool) :
    ∀ (n y : Nat) (t t1 : Termbox), flushRows c rw amb n y t = some t1 →
      ∀ s : Termbox, s.front_buffer.width = t.front_buffer.width →
        (∀ j, y * t.front_buffer.width ≤ j →
          s.back_buffer.cells[j]? = t1.back_buffer.cells[j]?
            ∧ s.front_buffer.cells[j]? = t1.front_buffer.cells[j]?) →
        flushRows c rw amb n y s = some s := by
  intro n
  induction n with
  | zero =>
    intro y t t1 _ s _ _
    rfl
  | succ n ih =>
    intro y t t1 h s hw hag
    unfold flushRows at h
    cases hr : flushRow c rw amb y t.front_buffer.width 0 t with
    | none => simp [hr] at h
    | some tm =>
      simp only [hr] at h
      obtain ⟨hs, _⟩ := flushRow_frame c rw amb y _ 0 t tm hr
      have hwm : tm.front_buffer.width = t.front_buffer.width := hs.1
      obtain ⟨_, hfr2⟩ := flushRows_frame c rw amb n (y + 1) tm t1 h
      have hrow := flushRow_clean c rw amb y _ 0 t tm hr s hw (by
        intro j hj1 hj2
        have h2 := hfr2 j (by rw [hwm, Nat.add_mul]; omega)
        have hsa := hag j (by omega)
        exact ⟨hsa.1.trans h2.1, hsa.2.trans h2.2⟩)
      unfold flushRows
      rw [hw, hrow]
      simp only
      apply ih (y + 1) tm t1 h s (by rw [hw, hwm])
      intro j hj
      rw [hwm, Nat.add_mul] at hj
      exact hag j (by omega)


theorem send_clear_eq (c : Consts) (t : Termbox) :
    send_clear c t
      = { t with out := (send_clear c t).out, outbuf := [],
                 lastfg := (send_clear c t).lastfg, lastbg := (send_clear c t).lastbg,
                 lastx := coord_invalid, lasty := coord_invalid } := by
  unfold send_clear flush write_cursor
  dsimp only
  rw [send_attr_eq]
  split <;> rfl

/-- After `update_size_maybe` no resize is pending. -/
theorem update_size_maybe_synced (c : Consts) (t tu : Termbox)
    (h : update_size_maybe c t = some tu) : tu.newW = tu.termw ∧ tu.newH = tu.termh := by
  unfold update_size_maybe at h
  dsimp only at h
  split at h
  · split at h
    · simp at h
    · split at h
      · simp at h
      · simp only [Option.some.injEq] at h
        subst h
        rw [send_clear_eq]
        exact ⟨rfl, rfl⟩
  · rename_i hc
    simp only [Option.some.injEq] at h
    subst h
    constructor <;> omega

/-- Without a pending resize `update_size_maybe` does nothing. -/
theorem update_size_maybe_noop (c : Consts) (t : Termbox)
    (hw : t.newW = t.termw) (hh : t.newH = t.termh) : update_size_maybe c t = some t := by
  unfold update_size_maybe
  dsimp only
  rw [if_neg (by omega)]

/-- The second of two consecutive calls of `Flush` writes the cursor sequence
(when the cursor is visible) and nothing else. -/
theorem Flush_second (c : Consts) (rw : Int → Nat) (amb : Int → Bool) (t t1 : Termbox)
    (h : Flush c rw amb t = some t1) :
    Flush c rw amb t1
      = some { t1 with
               lastx := coord_invalid, lasty := coord_invalid,
               out := t1.out ++ (if is_cursor_hidden t1.cursor_x t1.cursor_y then []
                                 else cursorBytes t1.cursor_x t1.cursor_y) } := by
  unfold Flush at h
  dsimp only at h
  cases hu : update_size_maybe c { t with lastx := coord_invalid, lasty := coord_invalid } with
  | none => simp [hu] at h
  | some tu =>
    simp only [hu] at h
    cases hr : flushRows c rw amb tu.front_buffer.height 0 tu with
    | none => simp [hr] at h
    | some tr =>
      simp only [hr, Option.some.injEq] at h
      obtain ⟨hsw, hsh⟩ := update_size_maybe_synced c _ tu hu
      obtain ⟨hshape, _⟩ := flushRows_frame c rw amb _ 0 tu tr hr
      obtain ⟨hfw, hfh, htw, hth, hnw, hnh, hcx, hcy, _⟩ := hshape
      -- the fields of `t1`
      have hfront : t1.front_buffer = tr.front_buffer := by
        rw [← h]; unfold finishFlush flush write_cursor; split <;> rfl
      have hback : t1.back_buffer = tr.back_buffer := by
        rw [← h]; unfold finishFlush flush write_cursor; split <;> rfl
      have h1nw : t1.newW = t1.termw := by
        have e1 : t1.newW = tr.newW := by rw [← h]; unfold finishFlush flush write_cursor; split <;> rfl
        have e2 : t1.termw = tr.termw := by rw [← h]; unfold finishFlush flush write_cursor; split <;> rfl
        omega
      have h1nh : t1.newH = t1.termh := by
        have e1 : t1.newH = tr.newH := by rw [← h]; unfold finishFlush flush write_cursor; split <;> rfl
        have e2 : t1.termh = tr.termh := by rw [← h]; unfold finishFlush flush write_cursor; split <;> rfl
        omega
      have hob : t1.outbuf = [] := by
        rw [← h]; unfold finishFlush flush write_cursor; split <;> rfl
      -- the second call
      have hu2 : update_size_maybe c { t1 with lastx := coord_invalid, lasty := coord_invalid }
          = some { t1 with lastx := coord_invalid, lasty := coord_invalid } :=
        update_size_maybe_noop c _ h1nw h1nh
      have hr2 : flushRows c rw amb t1.front_buffer.height 0
          { t1 with lastx := coord_invalid, lasty := coord_invalid }
          = some { t1 with lastx := coord_invalid, lasty := coord_invalid } := by
        have := flushRows_clean c rw amb tu.front_buffer.height 0 tu tr hr
          { t1 with lastx := coord_invalid, lasty := coord_invalid }
          (by show t1.front_buffer.width = _; rw [hfront, hfw])
          (by
            intro j _
            show t1.back_buffer.cells[j]? = _ ∧ t1.front_buffer.cells[j]? = _
            rw [hfront, hback]
            exact ⟨rfl, rfl⟩)
        have hh : t1.front_buffer.height = tu.front_buffer.height := by rw [hfront, hfh]
        rw [hh]
        exact this
      unfold Flush
      dsimp only
      rw [hu2]
      dsimp only
      rw [hr2]
      dsimp only
      unfold finishFlush flush write_cursor
      cases hhid : is_cursor_hidden t1.cursor_x t1.cursor_y <;> simp [hob]


/-- On a grid with `width*height` cells `resize` to a size whose product is
below `2^63` returns a grid of the new size with `width*height` cells. -/
theorem resize_wf (g : cellbuf) (w' h' : Nat) (fg bg : Attribute)
    (hwf : g.cells.length = g.width * g.height) (hfit : w' * h' < 2 ^ 63) :
    ∃ g', g.resize w' h' fg bg = some g' ∧ g'.width = w' ∧ g'.height = h' ∧
      g'.cells.length = w' * h' := by
  unfold cellbuf.resize
  by_cases hsame : g.width = w' ∧ g.height = h'
  · rw [if_pos hsame]
    exact ⟨g, rfl, hsame.1, hsame.2, by rw [hwf, hsame.1, hsame.2]⟩
  · rw [if_neg hsame, init_fits g w' h' hfit]
    dsimp only
    have hcleared : (cellbuf.clear ⟨w', h', List.replicate (w' * h') ⟨0, 0, 0⟩⟩ fg bg).cells
        = List.replicate (w' * h') ⟨32, fg, bg⟩ := by
      simp [cellbuf.clear, List.map_replicate]
    obtain ⟨cells', hc, hl, _⟩ := copyRows_spec g.cells g.width g.height w' h'
      (if w' < g.width then w' else g.width) (if h' < g.height then h' else g.height) fg bg
      (by split <;> omega) (by split <;> omega) (by split <;> omega) (by split <;> omega) hwf
      (if h' < g.height then h' else g.height) 0
      (cellbuf.clear ⟨w', h', List.replicate (w' * h') ⟨0, 0, 0⟩⟩ fg bg).cells
      (by omega) (by rw [hcleared, List.length_replicate])
      (by
        intro x y hx hy
        rw [hcleared, if_neg (by omega), List.getElem?_replicate_of_lt]
        have h1 : (y + 1) * w' ≤ h' * w' := Nat.mul_le_mul_right w' (by omega)
        rw [Nat.add_mul] at h1
        rw [Nat.mul_comm w' h']
        omega)
    simp only [hc]
    exact ⟨_, rfl, rfl, rfl, hl⟩

/-- The size invariant survives `update_size_maybe`, which does not panic on a
well-formed state whose pending size has a product below `2^63`. -/
theorem update_size_maybe_wf (c : Consts) (t : Termbox) (hwf : WellFormed t)
    (hfit : t.newW * t.newH < 2 ^ 63) :
    ∃ tu, update_size_maybe c t = some tu ∧ WellFormed tu := by
  obtain ⟨hbw, hbh, hfw, hfh, hbl, hfl⟩ := hwf
  unfold update_size_maybe
  dsimp only
  split
  · obtain ⟨back, hb, hb1, hb2, hb3⟩ := resize_wf t.back_buffer t.newW t.newH t.foreground
      t.background (by rw [hbl, hbw, hbh]) hfit
    obtain ⟨front, hf, hf1, hf2, hf3⟩ := resize_wf t.front_buffer t.newW t.newH t.foreground
      t.background (by rw [hfl, hfw, hfh]) hfit
    rw [hb]
    dsimp only
    rw [hf]
    dsimp only
    refine ⟨_, rfl, ?_⟩
    rw [send_clear_eq]
    unfold WellFormed
    dsimp only
    refine ⟨hb1, hb2, hf1, hf2, hb3, ?_⟩
    simp [cellbuf.clear, hf3]
  · exact ⟨t, rfl, hbw, hbh, hfw, hfh, hbl, hfl⟩

/-- The loop body does not panic on a cell inside the grids, and it keeps the
number of cells of both grids. -/
theorem flushCell_total (c : Consts) (rw : Int → Nat) (amb : Int → Bool) (t : Termbox)
    (x y : Nat) (hx : x < t.front_buffer.width)
    (hb : y * t.front_buffer.width + x < t.back_buffer.cells.length)
    (hf : y * t.front_buffer.width + x < t.front_buffer.cells.length)
    (hnext : x + 1 < t.front_buffer.width →
      y * t.front_buffer.width + x + 1 < t.front_buffer.cells.length) :
    ∃ t' w, flushCell c rw amb t x y = some (t', w)
      ∧ t'.back_buffer.cells.length = t.back_buffer.cells.length
      ∧ t'.front_buffer.cells.length = t.front_buffer.cells.length := by
  have hb' : t.back_buffer.cells[y * t.front_buffer.width + x]?
      = some (t.back_buffer.cells[y * t.front_buffer.width + x]) :=
    List.getElem?_eq_getElem hb
  have hf' : t.front_buffer.cells[y * t.front_buffer.width + x]?
      = some (t.front_buffer.cells[y * t.front_buffer.width + x]) :=
    List.getElem?_eq_getElem hf
  generalize t.back_buffer.cells[y * t.front_buffer.width + x] = back0 at hb'
  generalize t.front_buffer.cells[y * t.front_buffer.width + x] = front at hf'
  simp only [flushCell, hb', hf']
  have hta : (if back0.Ch < 32 then setBack t (y * t.front_buffer.width + x) (normCell back0)
      else t).back_buffer.cells.length = t.back_buffer.cells.length
      ∧ (if back0.Ch < 32 then setBack t (y * t.front_buffer.width + x) (normCell back0)
      else t).front_buffer = t.front_buffer := by
    split
    · exact ⟨by simp, rfl⟩
    · exact ⟨rfl, rfl⟩
  generalize (if back0.Ch < 32 then setBack t (y * t.front_buffer.width + x) (normCell back0)
      else t) = ta at hta
  obtain ⟨hta1, hta2⟩ := hta
  split
  · exact ⟨_, _, rfl, hta1, by rw [hta2]⟩
  · split
    · exact ⟨_, _, rfl, by simp [hta1], by simp [hta2]⟩
    · rename_i hnl
      split
      · rename_i hw2
        have hx1 : x + 1 < t.front_buffer.width := by
          simp only [send_attr_front, setFront_front_width, hta2] at hnl
          by_contra hc
          exact hnl ⟨hw2, by omega⟩
        have hn := hnext hx1
        rw [if_pos (by simp [hta2]; omega)]
        exact ⟨_, _, rfl, by simp [hta1], by simp [hta2]⟩
      · exact ⟨_, _, rfl, by simp [hta1], by simp [hta2]⟩

/-- The inner loop does not panic and does not run out of iterations on a row
inside the grids. -/
theorem flushRow_total (c : Consts) (rw : Int → Nat) (amb : Int → Bool) (y : Nat) :
    ∀ (fuel x : Nat) (t : Termbox), t.front_buffer.width - x ≤ fuel →
      (y + 1) * t.front_buffer.width ≤ t.back_buffer.cells.length →
      (y + 1) * t.front_buffer.width ≤ t.front_buffer.cells.length →
      ∃ t1, flushRow c rw amb y fuel x t = some t1
        ∧ t1.back_buffer.cells.length = t.back_buffer.cells.length
        ∧ t1.front_buffer.cells.length = t.front_buffer.cells.length := by
  intro fuel
  induction fuel with
  | zero =>
    intro x t hfuel _ _
    unfold flushRow
    rw [if_neg (by omega)]
    exact ⟨t, rfl, rfl, rfl⟩
  | succ fuel ih =>
    intro x t hfuel hbl hfl
    unfold flushRow
    by_cases hx : x < t.front_buffer.width
    · rw [if_pos hx]
      rw [Nat.add_mul] at hbl hfl
      obtain ⟨t', w, hc, hl1, hl2⟩ := flushCell_total c rw amb t x y hx (by omega) (by omega)
        (by intro _; omega)
      obtain ⟨hs, hw1, _, _⟩ := flushCell_post c rw amb t t' x y w hc
      have hw : t'.front_buffer.width = t.front_buffer.width := hs.1
      rw [hc]
      dsimp only
      obtain ⟨t1, hr, hr1, hr2⟩ := ih (x + w) t' (by rw [hw]; omega)
        (by rw [hw, hl1, Nat.add_mul]; omega) (by rw [hw, hl2, Nat.add_mul]; omega)
      exact ⟨t1, hr, hr1.trans hl1, hr2.trans hl2⟩
    · rw [if_neg hx]
      exact ⟨t, rfl, rfl, rfl⟩

/-- The outer loop does not panic on rows inside the grids. -/
theorem flushRows_total (c : Consts) (rw : Int → Nat) (amb : Int → Bool) :
    ∀ (n y : Nat) (t : Termbox),
      (y + n) * t.front_buffer.width ≤ t.back_buffer.cells.length →
      (y + n) * t.front_buffer.width ≤ t.front_buffer.cells.length →
      ∃ t1, flushRows c rw amb n y t = some t1 := by
  intro n
  induction n with
  | zero =>
    intro y t _ _
    exact ⟨t, rfl⟩
  | succ n ih =>
    intro y t hbl hfl
    have h1 : (y + 1) * t.front_buffer.width ≤ (y + (n + 1)) * t.front_buffer.width :=
      Nat.mul_le_mul_right _ (by omega)
    obtain ⟨tm, hr, hl1, hl2⟩ := flushRow_total c rw amb y t.front_buffer.width 0 t
      (by omega) (by omega) (by omega)
    obtain ⟨hs, _⟩ := flushRow_frame c rw amb y _ 0 t tm hr
    have hw : tm.front_buffer.width = t.front_buffer.width := hs.1
    unfold flushRows
    rw [hr]
    dsimp only
    exact ih (y + 1) tm (by rw [hw, hl1, show y + 1 + n = y + (n + 1) by omega]; exact hbl)
      (by rw [hw, hl2, show y + 1 + n = y + (n + 1) by omega]; exact hfl)

/-- On a well-formed state whose pending size has a product below `2^63`,
`Flush` returns. -/
theorem Flush_total (c : Consts) (rw : Int → Nat) (amb : Int → Bool) (t : Termbox)
    (hwf : WellFormed t) (hfit : t.newW * t.newH < 2 ^ 63) :
    ∃ t1, Flush c rw amb t = some t1 := by
  obtain ⟨tu, hu, hwfu⟩ := update_size_maybe_wf c
    { t with lastx := coord_invalid, lasty := coord_invalid } hwf hfit
  obtain ⟨_, _, hfw, hfh, hbl, hfl⟩ := hwfu
  obtain ⟨tr, hr⟩ := flushRows_total c rw amb tu.front_buffer.height 0 tu
    (by rw [hbl, hfw, hfh, Nat.zero_add, Nat.mul_comm])
    (by rw [hfl, hfw, hfh, Nat.zero_add, Nat.mul_comm])
  unfold Flush
  dsimp only
  rw [hu]
  dsimp only
  rw [hr]
  exact ⟨_, rfl⟩


theorem emitCell_withBufs (c : Consts) (t : Termbox) (B F : List Cell) (p : Nat × Nat × Cell) :
    emitCell c (withBufs t B F) p = withBufs (emitCell c t p) B F := by
  unfold emitCell send_char send_attr withBufs
  dsimp only
  split <;> rfl

theorem foldl_emitCell_bufs (c : Consts) (l : List (Nat × Nat × Cell)) :
    ∀ t : Termbox, (l.foldl (emitCell c) t).back_buffer = t.back_buffer
      ∧ (l.foldl (emitCell c) t).front_buffer = t.front_buffer
      ∧ Shape (l.foldl (emitCell c) t) t := by
  induction l with
  | nil => intro t; exact ⟨rfl, rfl, Shape.refl _⟩
  | cons p l ih =>
    intro t
    simp only [List.foldl_cons]
    obtain ⟨h1, h2, h3⟩ := ih (emitCell c t p)
    obtain ⟨e1, e2, e3⟩ := emitCell_bufs c t p
    exact ⟨h1.trans e1, h2.trans e2, h3.trans e3⟩

theorem changedCells_succ (B F : List Cell) (w i : Nat) :
    changedCells B F w (i + 1)
      = changedCells B F w i ++
          (match B[i]?, F[i]? with
            | some b, some f => if normCell b = f then [] else [(i % w, i / w, normCell b)]
            | _, _ => []) := by
  unfold changedCells
  rw [List.range_succ, List.filterMap_append]
  congr 1
  cases hb : B[i]? with
  | none => simp [List.filterMap_cons, hb]
  | some b =>
    cases hf : F[i]? with
    | none => simp [List.filterMap_cons, hb, hf]
    | some f =>
      by_cases he : normCell b = f
      · simp [List.filterMap_cons, hb, hf, he]
      · simp [List.filterMap_cons, hb, hf, he]

theorem set_prefix_cons {α : Type} (P R : List α) (i : Nat) (a v : α) (hP : P.length = i) :
    (P ++ a :: R).set i v = P ++ v :: R := by
  rw [List.set_append_right i v (by omega), hP, Nat.sub_self, List.set_cons_zero]

theorem getElem?_prefix_cons {α : Type} (P R : List α) (i : Nat) (a : α) (hP : P.length = i) :
    (P ++ a :: R)[i]? = some a := by
  rw [List.getElem?_append_right (by omega), hP, Nat.sub_self, List.getElem?_cons_zero]

theorem map_take_succ {α : Type} (f : α → α) (B : List α) (i : Nat) (b0 : α)
    (hb : B[i]? = some b0) :
    (B.take (i + 1)).map f = (B.take i).map f ++ [f b0] := by
  rw [List.take_succ, hb, List.map_append]
  rfl

theorem drop_of_getElem? {α : Type} (B : List α) (i : Nat) (b0 : α) (hb : B[i]? = some b0) :
    B.drop i = b0 :: B.drop (i + 1) := by
  obtain ⟨hlt, he⟩ := List.getElem?_eq_some.1 hb
  rw [List.drop_eq_getElem_cons hlt, he]

/-- The loop body at the cell with row-major index `i = y*width + x`, run in
the state in which the cells below `i` are flushed, gives the state in which
the cells below `i + 1` are flushed, when the cell has display width 1. -/
theorem flushCell_flushedTo (c : Consts) (rw : Int → Nat) (amb : Int → Bool) (t0 : Termbox)
    (x y : Nat) (b0 f0 : Cell) (hx : x < t0.front_buffer.width)
    (hb : t0.back_buffer.cells[y * t0.front_buffer.width + x]? = some b0)
    (hf : t0.front_buffer.cells[y * t0.front_buffer.width + x]? = some f0)
    (hwid : cellWidth rw amb (normCell b0).Ch = 1) :
    flushCell c rw amb (flushedTo c t0 (y * t0.front_buffer.width + x)) x y
      = some (flushedTo c t0 (y * t0.front_buffer.width + x + 1), 1) := by
  generalize hi : y * t0.front_buffer.width + x = i at hb hf
  have hlt : i < t0.back_buffer.cells.length := (List.getElem?_eq_some.1 hb).1
  have hP : ((t0.back_buffer.cells.take i).map normCell).length = i := by
    rw [List.length_map, List.length_take]; omega
  have hmod : i % t0.front_buffer.width = x := by
    rw [← hi, Nat.add_comm, Nat.add_mul_mod_self_right, Nat.mod_eq_of_lt hx]
  have hdiv : i / t0.front_buffer.width = y := by
    rw [← hi, Nat.add_comm, Nat.add_mul_div_right _ _ (by omega), Nat.div_eq_of_lt hx,
      Nat.zero_add]
  -- the state before and after, with the grids in the form `P ++ cell :: rest`
  have hpre : flushedTo c t0 i
      = withBufs ((changedCells t0.back_buffer.cells t0.front_buffer.cells
            t0.front_buffer.width i).foldl (emitCell c) t0)
          ((t0.back_buffer.cells.take i).map normCell ++ b0 :: t0.back_buffer.cells.drop (i + 1))
          ((t0.back_buffer.cells.take i).map normCell ++ f0 :: t0.front_buffer.cells.drop (i + 1)) := by
    unfold flushedTo
    rw [drop_of_getElem? _ i b0 hb, drop_of_getElem? _ i f0 hf]
  have hpost : flushedTo c t0 (i + 1)
      = withBufs ((changedCells t0.back_buffer.cells t0.front_buffer.cells
            t0.front_buffer.width (i + 1)).foldl (emitCell c) t0)
          ((t0.back_buffer.cells.take i).map normCell
            ++ normCell b0 :: t0.back_buffer.cells.drop (i + 1))
          ((t0.back_buffer.cells.take i).map normCell
            ++ normCell b0 :: t0.front_buffer.cells.drop (i + 1)) := by
    unfold flushedTo
    rw [map_take_succ normCell _ i b0 hb, List.append_assoc, List.append_assoc]
    rfl
  have hPw : ((changedCells t0.back_buffer.cells t0.front_buffer.cells
      t0.front_buffer.width i).foldl (emitCell c) t0).front_buffer.width
      = t0.front_buffer.width := by
    rw [(foldl_emitCell_bufs c _ t0).2.1]
  rw [hpre, hpost, changedCells_succ, hb, hf, List.foldl_append]
  generalize (changedCells t0.back_buffer.cells t0.front_buffer.cells
    t0.front_buffer.width i).foldl (emitCell c) t0 = P at hPw ⊢
  generalize (t0.back_buffer.cells.take i).map normCell = Pre at hP ⊢
  generalize t0.back_buffer.cells.drop (i + 1) = RB
  generalize t0.front_buffer.cells.drop (i + 1) = RF
  have hoff : y * (withBufs P (Pre ++ b0 :: RB) (Pre ++ f0 :: RF)).front_buffer.width + x = i := by
    show y * P.front_buffer.width + x = i
    rw [hPw, hi]
  have hbi : (withBufs P (Pre ++ b0 :: RB) (Pre ++ f0 :: RF)).back_buffer.cells[i]? = some b0 :=
    getElem?_prefix_cons Pre RB i b0 hP
  have hfi : (withBufs P (Pre ++ b0 :: RB) (Pre ++ f0 :: RF)).front_buffer.cells[i]? = some f0 :=
    getElem?_prefix_cons Pre RF i f0 hP
  have hta : (if b0.Ch < 32 then setBack (withBufs P (Pre ++ b0 :: RB) (Pre ++ f0 :: RF)) i
        (normCell b0) else withBufs P (Pre ++ b0 :: RB) (Pre ++ f0 :: RF))
      = withBufs P (Pre ++ normCell b0 :: RB) (Pre ++ f0 :: RF) := by
    split
    · show withBufs P ((Pre ++ b0 :: RB).set i (normCell b0)) (Pre ++ f0 :: RF) = _
      rw [set_prefix_cons Pre RB i b0 _ hP]
    · rename_i h32
      rw [normCell_of_ge b0 h32]
  simp only [flushCell, hoff, hbi, hfi, hta, hwid]
  by_cases heq : normCell b0 = f0
  · simp only [heq, if_true, List.foldl_nil]
  · simp only [heq, if_false, List.foldl_cons, List.foldl_nil]
    have h12 : ¬ ((1 : Nat) = 2) := by decide
    simp only [h12, false_and, if_false, hmod, hdiv]
    rw [← emitCell_withBufs]
    show some (emitCell c (withBufs P (Pre ++ normCell b0 :: RB)
      ((Pre ++ f0 :: RF).set i (normCell b0))) (x, y, normCell b0), 1) = _
    rw [set_prefix_cons Pre RF i f0 _ hP]


/-- The inner loop over a row of width-1 cells, started in the state in which
the cells before column `x` of row `y` are flushed, ends in the state in which
the whole row is flushed. -/
theorem flushRow_flushedTo (c : Consts) (rw : Int → Nat) (amb : Int → Bool) (t0 : Termbox)
    (y : Nat)
    (hbl : (y + 1) * t0.front_buffer.width ≤ t0.back_buffer.cells.length)
    (hfl : (y + 1) * t0.front_buffer.width ≤ t0.front_buffer.cells.length)
    (hwid : ∀ cell ∈ t0.back_buffer.cells, cellWidth rw amb (normCell cell).Ch = 1) :
    ∀ (fuel x : Nat), x ≤ t0.front_buffer.width → t0.front_buffer.width - x ≤ fuel →
      flushRow c rw amb y fuel x (flushedTo c t0 (y * t0.front_buffer.width + x))
        = some (flushedTo c t0 ((y + 1) * t0.front_buffer.width)) := by
  have hW : ∀ i, (flushedTo c t0 i).front_buffer.width = t0.front_buffer.width := by
    intro i
    show ((changedCells t0.back_buffer.cells t0.front_buffer.cells
      t0.front_buffer.width i).foldl (emitCell c) t0).front_buffer.width = _
    rw [(foldl_emitCell_bufs c _ t0).2.1]
  intro fuel
  induction fuel with
  | zero =>
    intro x hx hfuel
    have hxe : x = t0.front_buffer.width := by omega
    unfold flushRow
    rw [hW, if_neg (by omega), hxe, Nat.add_mul, Nat.one_mul]
  | succ fuel ih =>
    intro x hx hfuel
    unfold flushRow
    rw [hW]
    by_cases hlt : x < t0.front_buffer.width
    · rw [if_pos hlt]
      rw [Nat.add_mul, Nat.one_mul] at hbl hfl
      have hb := List.getElem?_eq_getElem
        (show y * t0.front_buffer.width + x < t0.back_buffer.cells.length by omega)
      have hf := List.getElem?_eq_getElem
        (show y * t0.front_buffer.width + x < t0.front_buffer.cells.length by omega)
      have hw1 := hwid _ (List.getElem?_mem hb)
      rw [flushCell_flushedTo c rw amb t0 x y _ _ hlt hb hf hw1]
      dsimp only
      rw [Nat.add_assoc]
      exact ih (x + 1) (by omega) (by omega)
    · rw [if_neg hlt]
      have hxe : x = t0.front_buffer.width := by omega
      rw [hxe, Nat.add_mul, Nat.one_mul]

/-- The outer loop over rows of width-1 cells, started in the state in which the
rows before `y` are flushed, ends in the state in which `n` more rows are
flushed. -/
theorem flushRows_flushedTo (c : Consts) (rw : Int → Nat) (amb : Int → Bool) (t0 : Termbox)
    (hwid : ∀ cell ∈ t0.back_buffer.cells, cellWidth rw amb (normCell cell).Ch = 1) :
    ∀ (n y : Nat),
      (y + n) * t0.front_buffer.width ≤ t0.back_buffer.cells.length →
      (y + n) * t0.front_buffer.width ≤ t0.front_buffer.cells.length →
      flushRows c rw amb n y (flushedTo c t0 (y * t0.front_buffer.width))
        = some (flushedTo c t0 ((y + n) * t0.front_buffer.width)) := by
  have hW : ∀ i, (flushedTo c t0 i).front_buffer.width = t0.front_buffer.width := by
    intro i
    show ((changedCells t0.back_buffer.cells t0.front_buffer.cells
      t0.front_buffer.width i).foldl (emitCell c) t0).front_buffer.width = _
    rw [(foldl_emitCell_bufs c _ t0).2.1]
  intro n
  induction n with
  | zero =>
    intro y _ _
    rfl
  | succ n ih =>
    intro y hbl hfl
    have h1 : (y + 1) * t0.front_buffer.width ≤ (y + (n + 1)) * t0.front_buffer.width :=
      Nat.mul_le_mul_right _ (by omega)
    have hrow := flushRow_flushedTo c rw amb t0 y (by omega) (by omega) hwid
      t0.front_buffer.width 0 (by omega) (by omega)
    rw [Nat.add_zero] at hrow
    unfold flushRows
    rw [hW, hrow]
    dsimp only
    rw [show y + (n + 1) = y + 1 + n by omega]
    exact ih (y + 1) (by rw [show y + 1 + n = y + (n + 1) by omega]; exact hbl)
      (by rw [show y + 1 + n = y + (n + 1) by omega]; exact hfl)

theorem flushedTo_zero (c : Consts) (t0 : Termbox) : flushedTo c t0 0 = t0 := rfl

theorem flushedTo_all (c : Consts) (t0 : Termbox) (n : Nat)
    (hbl : t0.back_buffer.cells.length = n) (hfl : t0.front_buffer.cells.length = n) :
    flushedTo c t0 n
      = withBufs ((changedCells t0.back_buffer.cells t0.front_buffer.cells
            t0.front_buffer.width n).foldl (emitCell c) t0)
          (t0.back_buffer.cells.map normCell) (t0.back_buffer.cells.map normCell) := by
  unfold flushedTo
  rw [List.take_of_length_le (by omega), List.drop_of_length_le (by omega),
    List.drop_of_length_le (by omega), List.append_nil]


/-! ## The render path: claims C1 and C2 -/

/-- C1: Flush renders exactly the changed cells. For every engine state with
no pending resize whose back and front grids have the same dimensions (and
`width*height` cells each) and whose back cells all have display width 1,
`Flush` returns; it normalises the back grid (code points below space become
space), leaves the front grid equal to the back grid cell for cell, and its
output is that of rendering (`emitCell`: style change if any, cursor move if
any, then the UTF-8 bytes of the glyph) exactly the cells whose normalised back
cell differed from the front cell, each once and in row-major order, followed
by the cursor positioning and the write of the output buffer. -/
theorem flush_renders_exactly_the_changed_cells (c : Consts) (rw : Int → Nat)
    (amb : Int → Bool) (t : Termbox)
    (hnw : t.newW = t.termw) (hnh : t.newH = t.termh)
    (hdw : t.back_buffer.width = t.front_buffer.width)
    (hdh : t.back_buffer.height = t.front_buffer.height)
    (hbl : t.back_buffer.cells.length = t.back_buffer.width * t.back_buffer.height)
    (hfl : t.front_buffer.cells.length = t.front_buffer.width * t.front_buffer.height)
    (hwid : ∀ cell ∈ t.back_buffer.cells, cellWidth rw amb (normCell cell).Ch = 1) :
    Flush c rw amb t
        = some (finishFlush
            (withBufs
              ((changedCells t.back_buffer.cells t.front_buffer.cells t.front_buffer.width
                  (t.front_buffer.width * t.front_buffer.height)).foldl (emitCell c)
                { t with lastx := coord_invalid, lasty := coord_invalid })
              (t.back_buffer.cells.map normCell) (t.back_buffer.cells.map normCell)))
      ∧ ∀ (s : Termbox) (x y : Nat) (cell : Cell),
          (emitCell c s (x, y, cell)).outbuf
            = s.outbuf
              ++ (if cell.Fg = s.lastfg ∧ cell.Bg = s.lastbg then []
                  else attrBytes c s cell.Fg cell.Bg)
              ++ (if (x : Int) - 1 ≠ s.lastx ∨ (y : Int) ≠ s.lasty then cursorBytes x y else [])
              ++ EncodeRune cell.Ch := by
  constructor
  · have hu := update_size_maybe_noop c
      { t with lastx := coord_invalid, lasty := coord_invalid } hnw hnh
    have hbl' : t.back_buffer.cells.length = t.front_buffer.width * t.front_buffer.height := by
      rw [hbl, hdw, hdh]
    have hrows := flushRows_flushedTo c rw amb
      { t with lastx := coord_invalid, lasty := coord_invalid } hwid
      t.front_buffer.height 0
      (by
        show (0 + t.front_buffer.height) * t.front_buffer.width ≤ t.back_buffer.cells.length
        rw [hbl', Nat.zero_add, Nat.mul_comm])
      (by
        show (0 + t.front_buffer.height) * t.front_buffer.width ≤ t.front_buffer.cells.length
        rw [hfl, Nat.zero_add, Nat.mul_comm])
    rw [Nat.zero_mul, flushedTo_zero, Nat.zero_add] at hrows
    have hall := flushedTo_all c { t with lastx := coord_invalid, lasty := coord_invalid }
      (t.front_buffer.height * t.front_buffer.width)
      (by show t.back_buffer.cells.length = _; rw [hbl', Nat.mul_comm])
      (by show t.front_buffer.cells.length = _; rw [hfl, Nat.mul_comm])
    unfold Flush
    dsimp only
    rw [hu]
    dsimp only
    have hrows' : flushRows c rw amb t.front_buffer.height 0
        { t with lastx := coord_invalid, lasty := coord_invalid }
        = some (flushedTo c { t with lastx := coord_invalid, lasty := coord_invalid }
            (t.front_buffer.height * t.front_buffer.width)) := hrows
    rw [hrows', hall, Nat.mul_comm t.front_buffer.height]
  · intro s x y cell
    unfold emitCell send_char send_attr
    dsimp only
    split
    · simp
    · simp

/-- An instance of C1: of the two back cells only the `A` differs from the front
grid after normalisation; `Flush` writes its style, a cursor move and the glyph,
then the cursor position. -/
theorem flush_renders_exactly_the_changed_cells_witness :
    Flush termboxConsts (fun _ => 1) (fun _ => false) sampleDirty
      = some { sampleDirty with
               back_buffer := ⟨2, 1, [⟨65, 1, 0⟩, ⟨32, 0, 0⟩]⟩
               front_buffer := ⟨2, 1, [⟨65, 1, 0⟩, ⟨32, 0, 0⟩]⟩
               lastfg := 1
               lastbg := 0
               lastx := 0
               lasty := 0
               out := [0x21, 0x1B, 0x5B, 0x33, 0x30, 0x6D, 0x1B, 0x5B, 0x31, 0x3B, 0x31, 0x48, 0x41,
                       0x1B, 0x5B, 0x31, 0x3B, 0x32, 0x48] } :=
  (flush_renders_exactly_the_changed_cells termboxConsts (fun _ => 1) (fun _ => false)
    sampleDirty (by decide) (by decide) (by decide) (by decide) (by decide) (by decide)
    (by decide)).1

/-- C2: Flush is idempotent on output. For every rune-width function and every
engine state, a `Flush` that immediately follows a `Flush` that returned
returns as well, changes neither grid nor the last emitted style, and writes to
the connection the cursor-position sequence `ESC [ y+1 ; x+1 H` when the cursor
is visible and nothing when it is hidden. The first `Flush` does return on
every state that satisfies the size invariant and whose pending size has a
product below `2^63`. -/
theorem flush_after_flush_emits_only_cursor (c : Consts) (rw : Int → Nat) (amb : Int → Bool)
    (t : Termbox) (hwf : WellFormed t) (hfit : t.newW * t.newH < 2 ^ 63) :
    (∃ t1, Flush c rw amb t = some t1)
      ∧ ∀ s s1 : Termbox, Flush c rw amb s = some s1 →
          Flush c rw amb s1
            = some { s1 with
                     lastx := coord_invalid, lasty := coord_invalid,
                     out := s1.out ++
                       (if is_cursor_hidden s1.cursor_x s1.cursor_y then []
                        else [0x1B, 0x5B] ++ AppendUint (toUint64 (s1.cursor_y + 1)) ++ [0x3B]
                               ++ AppendUint (toUint64 (s1.cursor_x + 1)) ++ [0x48]) } :=
  ⟨Flush_total c rw amb t hwf hfit, fun s s1 h => Flush_second c rw amb s s1 h⟩

/-- An instance of C2, with a double-width glyph in the grid and the cursor
visible at column 1 of row 0: the first `Flush` writes the glyph and the cursor
position, the second one writes `ESC [ 1 ; 2 H` and nothing else. With the
cursor hidden (`sampleTermbox`) the second `Flush` writes nothing. -/
theorem flush_after_flush_emits_only_cursor_witness :
    Flush termboxConsts (fun ch => if ch > 0x1000 then 2 else 1) (fun _ => false) sampleWide
        = some sampleWideFlushed
      ∧ Flush termboxConsts (fun ch => if ch > 0x1000 then 2 else 1) (fun _ => false)
          sampleWideFlushed
        = some { sampleWideFlushed with
                 lastx := coord_invalid, lasty := coord_invalid,
                 out := sampleWideFlushed.out ++ [0x1B, 0x5B, 0x31, 0x3B, 0x32, 0x48] }
      ∧ Flush termboxConsts (fun _ => 1) (fun _ => false) sampleTermbox = some sampleTermbox
      ∧ Flush termboxConsts (fun _ => 1) (fun _ => false) sampleTermbox
        = some { sampleTermbox with out := sampleTermbox.out ++ [] } :=
  have h := flush_after_flush_emits_only_cursor termboxConsts
    (fun ch => if ch > 0x1000 then 2 else 1) (fun _ => false) sampleWide
    (by unfold WellFormed; decide) (by decide)
  have g := flush_after_flush_emits_only_cursor termboxConsts (fun _ => 1) (fun _ => false)
    sampleTermbox (by unfold WellFormed; decide) (by decide)
  have h1 : Flush termboxConsts (fun ch => if ch > 0x1000 then 2 else 1) (fun _ => false)
      sampleWide = some sampleWideFlushed := by decide
  have g1 : Flush termboxConsts (fun _ => 1) (fun _ => false) sampleTermbox
      = some sampleTermbox := by decide
  ⟨h1, h.2 sampleWide sampleWideFlushed h1, g1, g.2 sampleTermbox sampleTermbox g1⟩

/-! ## Lemmas on `Init` -/

/-- The four writes of `Init` return exactly on a function table with more than
`t_enter_keypad` entries, and they change the connection log only. -/
theorem initWrites_spec (t : Termbox) :
    (t.funcs.length ≤ t_enter_keypad → initWrites t = none)
      ∧ (t_enter_keypad < t.funcs.length →
          ∃ s0 s1 s2 s3, t.funcs[t_enter_ca]? = some s0 ∧ t.funcs[t_enter_keypad]? = some s1
            ∧ t.funcs[t_hide_cursor]? = some s2 ∧ t.funcs[t_clear_screen]? = some s3
            ∧ initWrites t = some { t with out := t.out ++ s0 ++ s1 ++ s2 ++ s3 }) := by
  constructor
  · intro hlen
    have hlen' : t.funcs.length ≤ 10 := hlen
    have e1 : t.funcs[t_enter_keypad]? = none := List.getElem?_eq_none hlen'
    unfold initWrites
    cases e0 : t.funcs[t_enter_ca]? with
    | none => rfl
    | some s0 => simp only [writeString, e1]
  · intro hlen
    have hlen' : 10 < t.funcs.length := hlen
    have e0 : t.funcs[t_enter_ca]? = some (t.funcs[0]) :=
      List.getElem?_eq_getElem (show 0 < t.funcs.length by omega)
    have e1 : t.funcs[t_enter_keypad]? = some (t.funcs[10]) := List.getElem?_eq_getElem hlen'
    have e2 : t.funcs[t_hide_cursor]? = some (t.funcs[3]) :=
      List.getElem?_eq_getElem (show 3 < t.funcs.length by omega)
    have e3 : t.funcs[t_clear_screen]? = some (t.funcs[4]) :=
      List.getElem?_eq_getElem (show 4 < t.funcs.length by omega)
    refine ⟨_, _, _, _, e0, e1, e2, e3, ?_⟩
    unfold initWrites
    simp only [e0, e1, e2, e3, writeString]

/-- The grids of `Init` are made exactly when `init` returns, and then the state
has the sizes `w` and `h`, live and pending, and two blank grids. -/
theorem initGrids_spec (t : Termbox) (w h : Nat) :
    (cellbuf.init ⟨0, 0, []⟩ w h = none → initGrids t w h = none)
      ∧ ∀ g, cellbuf.init ⟨0, 0, []⟩ w h = some g →
          initGrids t w h
            = some { t with termh := h, termw := w, newH := h, newW := w,
                            back_buffer := g.clear t.foreground t.background,
                            front_buffer := g.clear t.foreground t.background } := by
  constructor
  · intro hn
    have hb : t.back_buffer.init w h = none := by
      cases hb : t.back_buffer.init w h with
      | none => rfl
      | some g =>
        rw [(init_some _ g w h hb).2 ⟨0, 0, []⟩] at hn
        exact Option.noConfusion hn
    unfold initGrids
    simp only [hb]
  · intro g hg
    have hb : t.back_buffer.init w h = some g := (init_some _ g w h hg).2 _
    have hf : t.front_buffer.init w h = some g := (init_some _ g w h hg).2 _
    unfold initGrids
    simp only [hb, hf]

/-- The result of `Init`, by cases on the lookup, the four writes and the
allocation of the grids. -/
theorem Init_cases (c : Consts) (tb : Builtin) (term : Bytes) (w h : Nat) :
    (∃ err, getTermInfo tb term = Except.error err
        ∧ Init c tb term w h = some (Except.error err))
      ∨ (∃ keys funcs, getTermInfo tb term = Except.ok (keys, funcs)
          ∧ ((funcs.length ≤ t_enter_keypad ∨ cellbuf.init ⟨0, 0, []⟩ w h = none)
              ∧ Init c tb term w h = none
            ∨ ∃ g t0, t_enter_keypad < funcs.length ∧ cellbuf.init ⟨0, 0, []⟩ w h = some g
                ∧ Init c tb term w h = some (Except.ok t0)
                ∧ t0.keys = keys ∧ t0.funcs = funcs
                ∧ t0.back_buffer = g.clear ColorDefault ColorDefault
                ∧ t0.front_buffer = g.clear ColorDefault ColorDefault
                ∧ t0.termw = w ∧ t0.termh = h ∧ t0.newW = w ∧ t0.newH = h
                ∧ t0.input_mode = c.InputEsc)) := by
  unfold Init
  cases hg : getTermInfo tb term with
  | error e => exact Or.inl ⟨e, rfl, rfl⟩
  | ok r =>
    obtain ⟨keys, funcs⟩ := r
    refine Or.inr ⟨keys, funcs, rfl, ?_⟩
    dsimp only
    by_cases hlen : t_enter_keypad < funcs.length
    · obtain ⟨s0, s1, s2, s3, _, _, _, _, hw⟩ :=
        (initWrites_spec (initState c keys funcs)).2 hlen
      rw [hw]
      dsimp only
      cases hi : cellbuf.init ⟨0, 0, []⟩ w h with
      | none =>
        rw [(initGrids_spec _ w h).1 hi]
        exact Or.inl ⟨Or.inr rfl, rfl⟩
      | some g =>
        rw [(initGrids_spec _ w h).2 g hi]
        exact Or.inr ⟨g, _, hlen, rfl, rfl, rfl, rfl, rfl, rfl, rfl, rfl, rfl, rfl, rfl⟩
    · have hle : funcs.length ≤ t_enter_keypad := Nat.le_of_not_lt hlen
      rw [(initWrites_spec (initState c keys funcs)).1 hle]
      exact Or.inl ⟨Or.inl hle, rfl⟩

/-! ## Terminal lookup: claim C14 -/

theorem Contains_iff (s substr : Bytes) : Contains s substr = true ↔ substr <:+: s := by
  induction s with
  | nil =>
    simp [Contains, HasPrefix_iff]
  | cons b rest ih =>
    simp only [Contains, Bool.or_eq_true, HasPrefix_iff, ih, List.infix_cons_iff]

theorem find?_first {α : Type} (p : α → Bool) (l : List α) (i : Nat) (e : α)
    (hi : l[i]? = some e) (hp : p e = true)
    (hmin : ∀ j e', j < i → l[j]? = some e' → p e' = false) : l.find? p = some e := by
  induction l generalizing i with
  | nil => simp at hi
  | cons a rest ih =>
    cases i with
    | zero =>
      simp only [List.getElem?_cons_zero, Option.some.injEq] at hi
      subst hi
      simp [List.find?, hp]
    | succ i =>
      have ha : p a = false := hmin 0 a (Nat.succ_pos _) (by simp)
      simp only [List.getElem?_cons_succ] at hi
      simp only [List.find?, ha]
      exact ih i hi (fun j e' hj he' => hmin (j + 1) e' (Nat.succ_lt_succ hj) (by simpa using he'))

/-- C14: the capability lookup rule. `getTermInfo` returns the tables of the
first entry of `terms` whose name equals the terminal name; when there is none,
the tables of the first entry of the compatibility table, whose fragments are
in order xterm, rxvt, linux, Eterm, screen, cygwin, st, whose fragment is a
substring of the name; it fails, with the unknown-terminal error, exactly when
neither exists. `Init` then returns that error and no engine, for every size,
and it returns an error in no other case. When the lookup succeeds, `Init`
returns an engine with the tables found if the function table has the entries
that `Init` reads (up to `t_enter_keypad`) and the product of the sizes is
below `2^63`; it panics on a shorter function table. The empty name fails when
no entry of `terms` is named `""`, and the lookup of the name `xterm` succeeds
for every table. -/
theorem getTermInfo_lookup_rule (c : Consts) (tb : Builtin) (term : Bytes) (w h : Nat) :
    (∀ (i : Nat) (e : TermEntry), tb.terms[i]? = some e → e.name = term →
        (∀ (j : Nat) (e' : TermEntry), j < i → tb.terms[j]? = some e' → e'.name ≠ term) →
        getTermInfo tb term = Except.ok (e.keys, e.funcs))
      ∧ (compat_table tb).map (fun e => e.fragment)
          = [ascii "xterm", ascii "rxvt", ascii "linux", ascii "Eterm", ascii "screen",
             ascii "cygwin", ascii "st"]
      ∧ ((∀ e ∈ tb.terms, e.name ≠ term) →
          ∀ (i : Nat) (e : CompatEntry), (compat_table tb)[i]? = some e → e.fragment <:+: term →
            (∀ (j : Nat) (e' : CompatEntry), j < i → (compat_table tb)[j]? = some e' → ¬ e'.fragment <:+: term) →
            getTermInfo tb term = Except.ok (e.keys, e.funcs))
      ∧ (getTermInfo tb term = Except.error errorUnknownTerm ↔
          (∀ e ∈ tb.terms, e.name ≠ term) ∧ ∀ e ∈ compat_table tb, ¬ e.fragment <:+: term)
      ∧ (∀ err, getTermInfo tb term = Except.error err → err = errorUnknownTerm)
      ∧ (∀ err, Init c tb term w h = some (Except.error err) ↔
          getTermInfo tb term = Except.error err)
      ∧ (∀ keys funcs, getTermInfo tb term = Except.ok (keys, funcs) →
          (t_enter_keypad < funcs.length → w * h < 2 ^ 63 →
            ∃ t, Init c tb term w h = some (Except.ok t) ∧ t.keys = keys ∧ t.funcs = funcs)
          ∧ (funcs.length ≤ t_enter_keypad → Init c tb term w h = none))
      ∧ ((∀ e ∈ tb.terms, e.name ≠ []) →
          Init c tb [] w h = some (Except.error errorUnknownTerm))
      ∧ (∃ keys funcs, getTermInfo tb (ascii "xterm") = Except.ok (keys, funcs)
          ∧ ∀ err, Init c tb (ascii "xterm") w h ≠ some (Except.error err)) := by
  have hexact : ∀ (i : Nat) (e : TermEntry), tb.terms[i]? = some e → e.name = term →
      (∀ (j : Nat) (e' : TermEntry), j < i → tb.terms[j]? = some e' → e'.name ≠ term) →
      getTermInfo tb term = Except.ok (e.keys, e.funcs) := by
    intro i e hi hn hmin
    have hf := find?_first (fun t : TermEntry => decide (t.name = term)) tb.terms i e hi
      (by simp [hn]) (fun j e' hj he' => by simp [hmin j e' hj he'])
    unfold getTermInfo
    rw [hf]
  have hnone : (∀ e ∈ tb.terms, e.name ≠ term) →
      tb.terms.find? (fun t => decide (t.name = term)) = none := by
    intro hne
    rw [List.find?_eq_none]
    intro e he
    simp [hne e he]
  have hcompat : (∀ e ∈ tb.terms, e.name ≠ term) →
      ∀ (i : Nat) (e : CompatEntry), (compat_table tb)[i]? = some e → e.fragment <:+: term →
        (∀ (j : Nat) (e' : CompatEntry), j < i → (compat_table tb)[j]? = some e' → ¬ e'.fragment <:+: term) →
        getTermInfo tb term = Except.ok (e.keys, e.funcs) := by
    intro hne i e hi hsub hmin
    have hf := find?_first (fun t : CompatEntry => Contains term t.fragment) (compat_table tb)
      i e hi ((Contains_iff _ _).2 hsub)
      (fun j e' hj he' => by
        have := hmin j e' hj he'
        rw [← Contains_iff] at this
        simpa using this)
    unfold getTermInfo
    rw [hnone hne, hf]
  have hfail : getTermInfo tb term = Except.error errorUnknownTerm ↔
      (∀ e ∈ tb.terms, e.name ≠ term) ∧ ∀ e ∈ compat_table tb, ¬ e.fragment <:+: term := by
    unfold getTermInfo
    cases h1 : tb.terms.find? (fun t => decide (t.name = term)) with
    | some t =>
      have hm := List.mem_of_find?_eq_some h1
      have hp := List.find?_some h1
      simp only [decide_eq_true_eq] at hp
      simp only [false_iff, not_and, reduceCtorEq]
      intro hall
      exact absurd hp (hall t hm)
    | none =>
      rw [List.find?_eq_none] at h1
      have h1' : ∀ e ∈ tb.terms, e.name ≠ term := fun e he => by simpa using h1 e he
      cases h2 : (compat_table tb).find? (fun t => Contains term t.fragment) with
      | some t =>
        have hm := List.mem_of_find?_eq_some h2
        have hp := List.find?_some h2
        simp only [false_iff, not_and, reduceCtorEq]
        intro _ hall
        exact hall t hm ((Contains_iff _ _).1 hp)
      | none =>
        rw [List.find?_eq_none] at h2
        simp only [true_iff]
        refine ⟨h1', fun e he hsub => ?_⟩
        exact h2 e he ((Contains_iff _ _).2 hsub)
  have herr : ∀ err, getTermInfo tb term = Except.error err → err = errorUnknownTerm := by
    intro err he
    unfold getTermInfo at he
    repeat' split at he
    all_goals first
      | (solve | simp at he)
      | (simp only [Except.error.injEq] at he
         exact he.symm)
  have hinit : ∀ (name : Bytes) (err : String),
      Init c tb name w h = some (Except.error err) ↔ getTermInfo tb name = Except.error err := by
    intro name err
    rcases Init_cases c tb name w h with ⟨e, hg, hi⟩ | ⟨keys, funcs, hg, hcase⟩
    · rw [hg, hi]
      simp
    · rw [hg]
      rcases hcase with ⟨_, hi⟩ | ⟨g, t0, _, _, hi, _⟩
      · rw [hi]
        simp
      · rw [hi]
        simp
  have hok : ∀ keys funcs, getTermInfo tb term = Except.ok (keys, funcs) →
      (t_enter_keypad < funcs.length → w * h < 2 ^ 63 →
        ∃ t, Init c tb term w h = some (Except.ok t) ∧ t.keys = keys ∧ t.funcs = funcs)
      ∧ (funcs.length ≤ t_enter_keypad → Init c tb term w h = none) := by
    intro keys funcs he
    rcases Init_cases c tb term w h with ⟨e, hg, _⟩ | ⟨keys', funcs', hg, hcase⟩
    · rw [he] at hg
      exact Except.noConfusion hg
    · rw [he] at hg
      injection hg with hg
      injection hg with hk hf
      subst hk
      subst hf
      constructor
      · intro hlen hfit
        rcases hcase with ⟨hbad, _⟩ | ⟨g, t0, _, _, hi, hk, hf, _⟩
        · rcases hbad with hbad | hbad
          · omega
          · rw [init_fits _ w h hfit] at hbad
            exact Option.noConfusion hbad
        · exact ⟨t0, hi, hk, hf⟩
      · intro hlen
        rcases hcase with ⟨_, hi⟩ | ⟨g, t0, hlt, _⟩
        · exact hi
        · omega
  refine ⟨hexact, rfl, hcompat, hfail, herr, hinit term, hok, ?_, ?_⟩
  · intro hne
    have hg : getTermInfo tb [] = Except.error errorUnknownTerm := by
      unfold getTermInfo
      have h1 : tb.terms.find? (fun t => decide (t.name = [])) = none := by
        rw [List.find?_eq_none]
        intro e he
        simp [hne e he]
      rw [h1]
      rfl
    unfold Init
    rw [hg]
  · have hg : ∃ keys funcs, getTermInfo tb (ascii "xterm") = Except.ok (keys, funcs) := by
      unfold getTermInfo
      cases h1 : tb.terms.find? (fun t => decide (t.name = ascii "xterm")) with
      | some t => exact ⟨_, _, rfl⟩
      | none => exact ⟨_, _, rfl⟩
    obtain ⟨keys, funcs, hg⟩ := hg
    refine ⟨keys, funcs, hg, ?_⟩
    intro err herr2
    rw [hinit (ascii "xterm") err, hg] at herr2
    exact Except.noConfusion herr2

/-- Instances of C14 with the tables `sampleBuiltin`: the name `rxvt-unicode`,
which no entry of `terms` has and which contains `rxvt` but not `xterm`, gets
the rxvt tables; `Init` with the empty name returns the unknown-terminal
error; and `Init` with the name `xterm` and the size 2 × 1 returns the engine
`sampleInit`. -/
theorem getTermInfo_lookup_rule_witness :
    getTermInfo sampleBuiltin (ascii "rxvt-unicode")
        = Except.ok (sampleBuiltin.rxvt_unicode_keys, sampleBuiltin.rxvt_unicode_funcs)
      ∧ Init termboxConsts sampleBuiltin [] 80 24 = some (Except.error errorUnknownTerm)
      ∧ Init termboxConsts sampleBuiltin (ascii "xterm") 2 1 = some (Except.ok sampleInit)
      ∧ ∃ t, Init termboxConsts sampleBuiltin (ascii "xterm") 2 1 = some (Except.ok t)
          ∧ t.keys = sampleBuiltin.xterm_keys ∧ t.funcs = sampleBuiltin.xterm_funcs :=
  ⟨(getTermInfo_lookup_rule termboxConsts sampleBuiltin (ascii "rxvt-unicode") 80 24).2.2.1
      (by decide) 1 ⟨ascii "rxvt", sampleBuiltin.rxvt_unicode_keys,
        sampleBuiltin.rxvt_unicode_funcs⟩ rfl (by decide)
      (fun j e' hj he' => by
        have hj0 : j = 0 := by omega
        subst hj0
        simp only [compat_table, List.getElem?_cons_zero, Option.some.injEq] at he'
        subst he'
        decide),
   (getTermInfo_lookup_rule termboxConsts sampleBuiltin [] 80 24).2.2.2.2.2.2.2.1
      (by decide),
   rfl,
   ((getTermInfo_lookup_rule termboxConsts sampleBuiltin (ascii "xterm") 2 1).2.2.2.2.2.2.1
      sampleBuiltin.xterm_keys sampleBuiltin.xterm_funcs rfl).1 (by decide) (by decide)⟩

/-! ## Input mode: claim C15 -/

theorem and_two_pow_ne_zero (m i : Nat) : m &&& 2 ^ i ≠ 0 ↔ m.testBit i = true := by
  constructor
  · intro h
    obtain ⟨n, hn⟩ := Nat.ne_zero_implies_bit_true h
    simp only [Nat.testBit_and, Nat.testBit_two_pow, Bool.and_eq_true, decide_eq_true_eq] at hn
    rw [hn.2]
    exact hn.1
  · intro h h0
    have := congrArg (fun v => v.testBit i) h0
    simp [h, Nat.testBit_two_pow_self] at this

theorem and_two_pow_eq_zero (m i : Nat) : m &&& 2 ^ i = 0 ↔ m.testBit i = false := by
  have := and_two_pow_ne_zero m i
  constructor
  · intro h
    by_contra hb
    exact (this.2 (by simpa using hb)) h
  · intro h
    by_contra hb
    rw [this.1 hb] at h
    exact Bool.noConfusion h

theorem and_mask_eq_zero (m i j : Nat) :
    m &&& (2 ^ i ||| 2 ^ j) = 0 ↔ (m.testBit i = false ∧ m.testBit j = false) := by
  constructor
  · intro h
    have hi := congrArg (fun v => v.testBit i) h
    have hj := congrArg (fun v => v.testBit j) h
    simp [Nat.testBit_two_pow] at hi hj
    exact ⟨hi, hj⟩
  · intro ⟨hi, hj⟩
    apply Nat.eq_of_testBit_eq
    intro n
    simp only [Nat.testBit_and, Nat.testBit_or, Nat.testBit_two_pow, Nat.zero_testBit]
    by_cases h1 : i = n
    · subst h1
      simp [hi]
    · by_cases h2 : j = n
      · subst h2
        simp [hj]
      · simp [h1, h2]

theorem and_mask_eq_mask (m i j : Nat) :
    m &&& (2 ^ i ||| 2 ^ j) = 2 ^ i ||| 2 ^ j ↔ (m.testBit i = true ∧ m.testBit j = true) := by
  constructor
  · intro h
    have hi := congrArg (fun v => v.testBit i) h
    have hj := congrArg (fun v => v.testBit j) h
    simp [Nat.testBit_two_pow] at hi hj
    exact ⟨hi, hj⟩
  · intro ⟨hi, hj⟩
    apply Nat.eq_of_testBit_eq
    intro n
    simp only [Nat.testBit_and, Nat.testBit_or, Nat.testBit_two_pow]
    by_cases h1 : i = n
    · subst h1
      simp [hi]
    · by_cases h2 : j = n
      · subst h2
        simp [hj]
      · simp [h1, h2]

/-- The normalised mode, bit by bit: the Esc bit is set when it was requested
or the Alt bit was not, the Alt bit is set when it was requested without the
Esc bit, every other bit is as requested. -/
theorem normInputMode_testBit (c : Consts) (i j : Nat) (hE : c.InputEsc = 2 ^ i)
    (hA : c.InputAlt = 2 ^ j) (hij : i ≠ j) (m n : Nat) :
    (normInputMode c m).testBit n
      = if n = i then (m.testBit i || !m.testBit j)
        else if n = j then (m.testBit j && !m.testBit i)
        else m.testBit n := by
  unfold normInputMode
  rw [hE, hA]
  simp only [and_mask_eq_zero, and_mask_eq_mask]
  have hji : j ≠ i := fun h => hij h.symm
  by_cases h1 : n = i
  · subst h1
    cases ha : m.testBit n <;> cases hb : m.testBit j <;>
      simp [ha, hb, Nat.testBit_two_pow, hij, hji, Nat.testBit_two_pow_self]
  · by_cases h2 : n = j
    · subst h2
      cases ha : m.testBit i <;> cases hb : m.testBit n <;>
        simp [ha, hb, Nat.testBit_two_pow, hij, hji, Nat.testBit_two_pow_self]
    · have h1' : ¬ i = n := fun h => h1 h.symm
      have h2' : ¬ j = n := fun h => h2 h.symm
      cases ha : m.testBit i <;> cases hb : m.testBit j <;>
        simp [ha, hb, Nat.testBit_two_pow, h1, h2, h1', h2', hij, hji]
theorem SetInputMode_mode (c : Consts) (t : Termbox) (m : InputMode)
    (hm : m ≠ c.InputCurrent) :
    (SetInputMode c t m).1.input_mode = normInputMode c m
      ∧ (SetInputMode c t m).2 = normInputMode c m := by
  unfold SetInputMode
  rw [if_neg hm]
  exact ⟨rfl, rfl⟩

/-- C15: input-mode normalisation, for input-mode constants that are three
different single bits. In every state reached from `Init` by `SetInputMode`
calls the stored mode has exactly one of the Esc and Alt bits set.
`SetInputMode(m)` for `m != InputCurrent` stores and returns the same mode:
`m` with the Esc bit added when neither bit was set, `m` with the Alt bit
cleared when both were set, and `m` itself otherwise; the Mouse bit is as
requested. `SetInputMode(InputCurrent)` returns the stored mode and leaves the
state as it is. Consequently `extract_event` never reaches
`panic("unreachable")` in such a state. -/
theorem input_mode_normalised (c : Consts) (tb : Builtin) (term : Bytes) (w h i j k : Nat)
    (hE : c.InputEsc = 2 ^ i) (hA : c.InputAlt = 2 ^ j) (hM : c.InputMouse = 2 ^ k)
    (hij : i ≠ j) (hki : k ≠ i) (hkj : k ≠ j) :
    (∀ t0 t, Init c tb term w h = some (Except.ok t0) → InputModeReachable c t0 t →
        (t.input_mode &&& c.InputEsc ≠ 0 ↔ t.input_mode &&& c.InputAlt = 0))
      ∧ (∀ (t : Termbox) (m : InputMode), m ≠ c.InputCurrent →
          (SetInputMode c t m).1.input_mode = (SetInputMode c t m).2
          ∧ (m &&& c.InputEsc = 0 → m &&& c.InputAlt = 0 →
              (SetInputMode c t m).2 = m ||| c.InputEsc)
          ∧ (m &&& c.InputEsc ≠ 0 → m &&& c.InputAlt ≠ 0 →
              ∀ n, ((SetInputMode c t m).2).testBit n = (m.testBit n && decide (n ≠ j)))
          ∧ ((m &&& c.InputEsc ≠ 0 ↔ m &&& c.InputAlt = 0) → (SetInputMode c t m).2 = m)
          ∧ (SetInputMode c t m).2 &&& c.InputMouse = m &&& c.InputMouse
          ∧ ((SetInputMode c t m).2 &&& c.InputEsc ≠ 0
              ↔ (SetInputMode c t m).2 &&& c.InputAlt = 0))
      ∧ (∀ t : Termbox, SetInputMode c t c.InputCurrent = (t, t.input_mode))
      ∧ (∀ t0 t, Init c tb term w h = some (Except.ok t0) → InputModeReachable c t0 t →
          ∀ buf e, extract_event c t.keys t.input_mode buf e ≠ none) := by
  have hbit := normInputMode_testBit c i j hE hA hij
  have hji : j ≠ i := fun h => hij h.symm
  have hone : ∀ m, (normInputMode c m &&& c.InputEsc ≠ 0
      ↔ normInputMode c m &&& c.InputAlt = 0) := by
    intro m
    rw [hE, hA, and_two_pow_ne_zero, and_two_pow_eq_zero, hbit, hbit]
    simp only [if_true, if_neg hji]
    cases m.testBit i <;> cases m.testBit j <;> simp
  have hset : ∀ (t : Termbox) (m : InputMode), m ≠ c.InputCurrent →
      (SetInputMode c t m).1.input_mode = (SetInputMode c t m).2
      ∧ (m &&& c.InputEsc = 0 → m &&& c.InputAlt = 0 →
          (SetInputMode c t m).2 = m ||| c.InputEsc)
      ∧ (m &&& c.InputEsc ≠ 0 → m &&& c.InputAlt ≠ 0 →
          ∀ n, ((SetInputMode c t m).2).testBit n = (m.testBit n && decide (n ≠ j)))
      ∧ ((m &&& c.InputEsc ≠ 0 ↔ m &&& c.InputAlt = 0) → (SetInputMode c t m).2 = m)
      ∧ (SetInputMode c t m).2 &&& c.InputMouse = m &&& c.InputMouse
      ∧ ((SetInputMode c t m).2 &&& c.InputEsc ≠ 0
          ↔ (SetInputMode c t m).2 &&& c.InputAlt = 0) := by
    intro t m hm
    obtain ⟨h1, h2⟩ := SetInputMode_mode c t m hm
    rw [h1, h2]
    refine ⟨rfl, ?_, ?_, ?_, ?_, hone m⟩
    · intro he ha
      rw [hE, and_two_pow_eq_zero] at he
      rw [hA, and_two_pow_eq_zero] at ha
      apply Nat.eq_of_testBit_eq
      intro n
      rw [hbit, hE]
      simp only [Nat.testBit_or, Nat.testBit_two_pow, he, ha]
      by_cases h1 : n = i
      · subst h1
        simp [he]
      · by_cases h2 : n = j
        · subst h2
          simp [ha, hij, h1]
        · have h1' : ¬ i = n := fun h => h1 h.symm
          simp [h1, h2, h1']
    · intro he ha n
      rw [hE, and_two_pow_ne_zero] at he
      rw [hA, and_two_pow_ne_zero] at ha
      rw [hbit]
      by_cases h1 : n = i
      · subst h1
        simp [he, hij]
      · by_cases h2 : n = j
        · subst h2
          simp [he, ha, h1]
        · simp [h1, h2]
    · intro hx
      rw [hE, hA, and_two_pow_ne_zero, and_two_pow_eq_zero] at hx
      apply Nat.eq_of_testBit_eq
      intro n
      rw [hbit]
      by_cases h1 : n = i
      · subst h1
        cases ha : m.testBit n <;> cases hb : m.testBit j <;> simp_all
      · by_cases h2 : n = j
        · subst h2
          cases ha : m.testBit i <;> cases hb : m.testBit n <;> simp_all
        · simp [h1, h2]
    · rw [hM]
      apply Nat.eq_of_testBit_eq
      intro n
      simp only [Nat.testBit_and, Nat.testBit_two_pow]
      by_cases hn : k = n
      · subst hn
        rw [hbit]
        simp [hki, hkj]
      · simp [hn]
  have hinv : ∀ t0 t, Init c tb term w h = some (Except.ok t0) → InputModeReachable c t0 t →
      (t.input_mode &&& c.InputEsc ≠ 0 ↔ t.input_mode &&& c.InputAlt = 0) := by
    intro t0 t h0 hr
    induction hr with
    | init =>
      have hmode : t0.input_mode = c.InputEsc := by
        rcases Init_cases c tb term w h with ⟨e, _, hi⟩ | ⟨keys, funcs, _, hcase⟩
        · rw [hi] at h0
          injection h0 with h0
          exact Except.noConfusion h0
        · rcases hcase with ⟨_, hi⟩ | ⟨g, t1, _, _, hi, _, _, _, _, _, _, _, _, hm⟩
          · rw [hi] at h0
            exact Option.noConfusion h0
          · rw [hi] at h0
            injection h0 with h0
            injection h0 with h0
            rw [← h0]
            exact hm
      rw [hmode, hE, hA, and_two_pow_ne_zero, and_two_pow_eq_zero]
      simp [Nat.testBit_two_pow, hij]
    | step t m _ ih =>
      by_cases hm : m = c.InputCurrent
      · have : SetInputMode c t m = (t, t.input_mode) := by
          unfold SetInputMode
          rw [if_pos hm]
        rw [this]
        exact ih
      · have hs := hset t m hm
        rw [hs.1]
        exact hs.2.2.2.2.2
  refine ⟨hinv, hset, ?_, ?_⟩
  · intro t
    unfold SetInputMode
    rw [if_pos rfl]
  · intro t0 t h0 hr buf e
    have hx := hinv t0 t h0 hr
    apply extract_event_isSome
    by_cases hesc : t.input_mode &&& c.InputEsc ≠ 0
    · exact Or.inl hesc
    · right
      intro halt
      exact hesc (hx.2 halt)

/-- An instance of C15 with the termbox-go constants (Esc = 1, Alt = 2,
Mouse = 4): `SetInputMode(InputMouse)`, in which neither the Esc nor the Alt bit
is set, returns the mode with the Esc bit added. -/
theorem input_mode_normalised_witness :
    (SetInputMode termboxConsts sampleTermbox 4).2 = 4 ||| termboxConsts.InputEsc :=
  ((input_mode_normalised termboxConsts sampleBuiltin (ascii "xterm") 80 24 0 1 2 (by decide)
    (by decide) (by decide) (by decide) (by decide) (by decide)).2.1 sampleTermbox 4
    (by decide)).2.1 (by decide) (by decide)

/-! ## Colour encoding: claims C16 and C17 -/

set_option maxRecDepth 100000 in
theorem parseDigits_AppendUint : ∀ n, n < 300 → parseDigits (AppendUint n) 0 = some n := by
  decide

theorem AppendUint_inj (a b : Nat) (ha : a < 300) (hb : b < 300)
    (h : AppendUint a = AppendUint b) : a = b := by
  have h1 := parseDigits_AppendUint a ha
  have h2 := parseDigits_AppendUint b hb
  rw [h] at h1
  rw [h1] at h2
  exact Option.some.inj h2

theorem grayscale_pos : ∀ col, 1 ≤ col → col ≤ 26 → grayscale.getD col 0 ≠ 0 := by
  decide

theorem normal_digit : ∀ col, col < 10 →
    [0x33] ++ AppendUint col = AppendUint (30 + col)
      ∧ [0x34] ++ AppendUint col = AppendUint (40 + col) := by
  decide

/-- The masked colour of `send_attr` for a colour `col = a & mask` that is the
default or lies in the range of the mode: it is the default exactly when `col`
is, and otherwise one more than the palette index of `col`. -/
theorem maskColor_inrange (mode : OutputMode) (a : Attribute)
    (hmode : mode ≠ OutputMode.OutputCurrent)
    (hr : a &&& colorMask mode ≤ colorRange mode) :
    (maskColor mode a = ColorDefault ↔ a &&& colorMask mode = 0)
      ∧ (a &&& colorMask mode ≠ 0 →
          maskColor mode a - 1 = colorIndex mode (a &&& colorMask mode)) := by
  cases mode with
  | OutputCurrent => exact absurd rfl hmode
  | OutputNormal =>
    simp [maskColor, colorMask, colorIndex, ColorDefault]
  | Output256 =>
    simp [maskColor, colorMask, colorIndex, ColorDefault]
  | Output216 =>
    simp only [colorMask, colorRange] at hr
    have hgt : ¬ a &&& 0xFF > 216 := Nat.not_lt.2 hr
    simp only [maskColor, colorMask, colorIndex, ColorDefault, hgt, if_false]
    by_cases h0 : a &&& 0xFF = 0
    · simp [h0]
    · simp [h0]
  | OutputGrayscale =>
    simp only [colorMask, colorRange] at hr
    have hgt : ¬ a &&& 0x1F > 26 := Nat.not_lt.2 hr
    simp only [maskColor, colorMask, colorIndex, ColorDefault, hgt, if_false]
    by_cases h0 : a &&& 0x1F = 0
    · simp [h0]
    · have := grayscale_pos (a &&& 0x1F) (Nat.pos_of_ne_zero h0) hr
      simp only [List.getD_eq_getElem?_getD] at this
      simp [h0, this]

/-- For colours that are the default or in the range of the mode, the colour
sequence of `send_attr` is the one that `sgrColors` describes. -/
theorem colorBytes_inrange (mode : OutputMode) (fg bg : Attribute)
    (hmode : mode ≠ OutputMode.OutputCurrent)
    (hf : fg &&& colorMask mode ≤ colorRange mode)
    (hb : bg &&& colorMask mode ≤ colorRange mode) :
    colorBytes mode (maskColor mode fg) (maskColor mode bg)
      = sgrColors mode (fg &&& colorMask mode) (bg &&& colorMask mode) := by
  obtain ⟨f0, f1⟩ := maskColor_inrange mode fg hmode hf
  obtain ⟨b0, b1⟩ := maskColor_inrange mode bg hmode hb
  have hfn : fg &&& colorMask mode ≠ 0 → colorIndex mode (fg &&& colorMask mode) < 10
      ∨ mode ≠ OutputMode.OutputNormal := by
    intro _
    cases mode <;> simp [colorMask, colorRange, colorIndex] at hf ⊢
    exact Nat.lt_of_le_of_lt (Nat.sub_le _ _) (Nat.lt_of_le_of_lt hf (by decide))
  have hbn : bg &&& colorMask mode ≠ 0 → colorIndex mode (bg &&& colorMask mode) < 10
      ∨ mode ≠ OutputMode.OutputNormal := by
    intro _
    cases mode <;> simp [colorMask, colorRange, colorIndex] at hb ⊢
    exact Nat.lt_of_le_of_lt (Nat.sub_le _ _) (Nat.lt_of_le_of_lt hb (by decide))
  unfold colorBytes sgrColors
  by_cases hf0 : fg &&& colorMask mode = 0
  · have hfd : maskColor mode fg = ColorDefault := f0.2 hf0
    by_cases hb0 : bg &&& colorMask mode = 0
    · have hbd : maskColor mode bg = ColorDefault := b0.2 hb0
      simp [hf0, hb0, hfd, hbd]
    · have hbd : maskColor mode bg ≠ ColorDefault := fun h => hb0 (b0.1 h)
      have hbi := b1 hb0
      simp only [hf0, hb0, hfd, hbd, ne_eq, not_true_eq_false, not_false_eq_true, if_true,
        if_false]
      unfold write_sgr_bg bgParam
      rw [hbi]
      cases mode with
      | OutputCurrent => exact absurd rfl hmode
      | OutputNormal =>
        rcases hbn hb0 with h | h
        · have := (normal_digit _ h).2
          simp only [List.append_assoc]
          rw [← this]
          simp
        · exact absurd rfl h
      | Output256 => simp [ascii]
      | Output216 => simp [ascii]
      | OutputGrayscale => simp [ascii]
  · have hfd : maskColor mode fg ≠ ColorDefault := fun h => hf0 (f0.1 h)
    have hfi := f1 hf0
    by_cases hb0 : bg &&& colorMask mode = 0
    · have hbd : maskColor mode bg = ColorDefault := b0.2 hb0
      simp only [hf0, hb0, hfd, hbd, ne_eq, not_true_eq_false, not_false_eq_true, if_true,
        if_false]
      unfold write_sgr_fg fgParam
      rw [hfi]
      cases mode with
      | OutputCurrent => exact absurd rfl hmode
      | OutputNormal =>
        rcases hfn hf0 with h | h
        · have := (normal_digit _ h).1
          simp only [List.append_assoc]
          rw [← this]
          simp
        · exact absurd rfl h
      | Output256 => simp [ascii]
      | Output216 => simp [ascii]
      | OutputGrayscale => simp [ascii]
    · have hbd : maskColor mode bg ≠ ColorDefault := fun h => hb0 (b0.1 h)
      have hbi := b1 hb0
      simp only [hf0, hb0, hfd, hbd, ne_eq, not_true_eq_false, not_false_eq_true, if_true,
        if_false]
      unfold write_sgr fgParam bgParam
      rw [hfi, hbi]
      cases mode with
      | OutputCurrent => exact absurd rfl hmode
      | OutputNormal =>
        rcases hfn hf0 with h | h
        · rcases hbn hb0 with h' | h'
          · have t1 := (normal_digit _ h).1
            have t2 := (normal_digit _ h').2
            simp only [List.append_assoc]
            rw [← t1, ← t2]
            simp
          · exact absurd rfl h'
        · exact absurd rfl h
      | Output256 => simp [ascii]
      | Output216 => simp [ascii]
      | OutputGrayscale => simp [ascii]

/-- The colour sequence of `send_attr` for a foreground in the range of the
mode starts with `ESC [` and the foreground parameter, which ends at an `m` or
a `;`, whatever the background is. -/
theorem colorBytes_fg (mode : OutputMode) (fg : Attribute) (vb : Attribute)
    (hmode : mode ≠ OutputMode.OutputCurrent)
    (h1 : 1 ≤ fg &&& colorMask mode) (h2 : fg &&& colorMask mode ≤ colorRange mode) :
    ∃ tail, colorBytes mode (maskColor mode fg) vb
        = [0x1B, 0x5B] ++ fgParam mode (fg &&& colorMask mode) ++ tail
      ∧ (tail.head? = some 0x6D ∨ tail.head? = some 0x3B) := by
  obtain ⟨f0, f1⟩ := maskColor_inrange mode fg hmode h2
  have hne : fg &&& colorMask mode ≠ 0 := Nat.pos_iff_ne_zero.1 h1
  have hfd : maskColor mode fg ≠ ColorDefault := fun h => hne (f0.1 h)
  have hfi := f1 hne
  have hdig : mode = OutputMode.OutputNormal →
      [0x33] ++ AppendUint (colorIndex mode (fg &&& colorMask mode))
        = AppendUint (30 + colorIndex mode (fg &&& colorMask mode)) := by
    intro hm
    subst hm
    apply (normal_digit _ _).1
    simp only [colorMask, colorRange, colorIndex] at h2 ⊢
    exact Nat.lt_of_le_of_lt (Nat.sub_le _ _) (Nat.lt_of_le_of_lt h2 (by decide))
  unfold colorBytes
  rw [if_pos hfd]
  by_cases hb : vb ≠ ColorDefault
  · rw [if_pos hb]
    unfold write_sgr fgParam
    rw [hfi]
    cases mode with
    | OutputCurrent => exact absurd rfl hmode
    | OutputNormal =>
      refine ⟨[0x3B, 0x34] ++ AppendUint (vb - 1) ++ [0x6D], ?_, Or.inr (by simp)⟩
      rw [← hdig rfl]
      simp
    | Output256 =>
      exact ⟨[0x6D] ++ [0x1B, 0x5B, 0x34, 0x38, 0x3B, 0x35, 0x3B] ++ AppendUint (vb - 1)
        ++ [0x6D], by simp [ascii], Or.inl (by simp)⟩
    | Output216 =>
      exact ⟨[0x6D] ++ [0x1B, 0x5B, 0x34, 0x38, 0x3B, 0x35, 0x3B] ++ AppendUint (vb - 1)
        ++ [0x6D], by simp [ascii], Or.inl (by simp)⟩
    | OutputGrayscale =>
      exact ⟨[0x6D] ++ [0x1B, 0x5B, 0x34, 0x38, 0x3B, 0x35, 0x3B] ++ AppendUint (vb - 1)
        ++ [0x6D], by simp [ascii], Or.inl (by simp)⟩
  · rw [if_neg hb]
    unfold write_sgr_fg fgParam
    rw [hfi]
    cases mode with
    | OutputCurrent => exact absurd rfl hmode
    | OutputNormal =>
      refine ⟨[0x6D], ?_, Or.inl (by simp)⟩
      rw [← hdig rfl]
      simp
    | Output256 => exact ⟨[0x6D], by simp [ascii], Or.inl (by simp)⟩
    | Output216 => exact ⟨[0x6D], by simp [ascii], Or.inl (by simp)⟩
    | OutputGrayscale => exact ⟨[0x6D], by simp [ascii], Or.inl (by simp)⟩

/-- The colour sequence of `send_attr` for a background in the range of the
mode ends with the background parameter and `m`, whatever the foreground
is. -/
theorem colorBytes_bg (mode : OutputMode) (bg : Attribute) (vf : Attribute)
    (hmode : mode ≠ OutputMode.OutputCurrent)
    (h1 : 1 ≤ bg &&& colorMask mode) (h2 : bg &&& colorMask mode ≤ colorRange mode) :
    ∃ pre, colorBytes mode vf (maskColor mode bg)
        = pre ++ bgParam mode (bg &&& colorMask mode) ++ [0x6D]
      ∧ ∃ p, pre = p ++ [0x5B] ∨ pre = p ++ [0x3B] := by
  obtain ⟨b0, b1⟩ := maskColor_inrange mode bg hmode h2
  have hne : bg &&& colorMask mode ≠ 0 := Nat.pos_iff_ne_zero.1 h1
  have hbd : maskColor mode bg ≠ ColorDefault := fun h => hne (b0.1 h)
  have hbi := b1 hne
  have hdig : mode = OutputMode.OutputNormal →
      [0x34] ++ AppendUint (colorIndex mode (bg &&& colorMask mode))
        = AppendUint (40 + colorIndex mode (bg &&& colorMask mode)) := by
    intro hm
    subst hm
    apply (normal_digit _ _).2
    simp only [colorMask, colorRange, colorIndex] at h2 ⊢
    exact Nat.lt_of_le_of_lt (Nat.sub_le _ _) (Nat.lt_of_le_of_lt h2 (by decide))
  unfold colorBytes
  by_cases hf : vf ≠ ColorDefault
  · rw [if_pos hf, if_pos hbd]
    unfold write_sgr bgParam
    rw [hbi]
    cases mode with
    | OutputCurrent => exact absurd rfl hmode
    | OutputNormal =>
      refine ⟨[0x1B, 0x5B, 0x33] ++ AppendUint (vf - 1) ++ [0x3B], ?_,
        [0x1B, 0x5B, 0x33] ++ AppendUint (vf - 1), Or.inr rfl⟩
      rw [← hdig rfl]
      simp
    | Output256 =>
      exact ⟨[0x1B, 0x5B, 0x33, 0x38, 0x3B, 0x35, 0x3B] ++ AppendUint (vf - 1) ++ [0x6D]
        ++ [0x1B, 0x5B], by simp [ascii],
        [0x1B, 0x5B, 0x33, 0x38, 0x3B, 0x35, 0x3B] ++ AppendUint (vf - 1) ++ [0x6D] ++ [0x1B],
        Or.inl (by simp)⟩
    | Output216 =>
      exact ⟨[0x1B, 0x5B, 0x33, 0x38, 0x3B, 0x35, 0x3B] ++ AppendUint (vf - 1) ++ [0x6D]
        ++ [0x1B, 0x5B], by simp [ascii],
        [0x1B, 0x5B, 0x33, 0x38, 0x3B, 0x35, 0x3B] ++ AppendUint (vf - 1) ++ [0x6D] ++ [0x1B],
        Or.inl (by simp)⟩
    | OutputGrayscale =>
      exact ⟨[0x1B, 0x5B, 0x33, 0x38, 0x3B, 0x35, 0x3B] ++ AppendUint (vf - 1) ++ [0x6D]
        ++ [0x1B, 0x5B], by simp [ascii],
        [0x1B, 0x5B, 0x33, 0x38, 0x3B, 0x35, 0x3B] ++ AppendUint (vf - 1) ++ [0x6D] ++ [0x1B],
        Or.inl (by simp)⟩
  · rw [if_neg hf, if_pos hbd]
    unfold write_sgr_bg bgParam
    rw [hbi]
    cases mode with
    | OutputCurrent => exact absurd rfl hmode
    | OutputNormal =>
      refine ⟨[0x1B, 0x5B], ?_, [0x1B], Or.inl rfl⟩
      rw [← hdig rfl]
      simp
    | Output256 => exact ⟨[0x1B, 0x5B], by simp [ascii], [0x1B], Or.inl rfl⟩
    | Output216 => exact ⟨[0x1B, 0x5B], by simp [ascii], [0x1B], Or.inl rfl⟩
    | OutputGrayscale => exact ⟨[0x1B, 0x5B], by simp [ascii], [0x1B], Or.inl rfl⟩

theorem send_attr_outbuf (c : Consts) (t : Termbox) (fg bg : Attribute)
    (hch : ¬ (fg = t.lastfg ∧ bg = t.lastbg)) :
    (send_attr c t fg bg).outbuf
      = t.outbuf ++ t.func t_sgr0
          ++ colorBytes t.output_mode (maskColor t.output_mode fg) (maskColor t.output_mode bg)
          ++ styleBytes c t fg bg := by
  unfold send_attr
  rw [if_neg hch]
  simp [attrBytes, styleBytes, List.append_assoc]

theorem colorIndex_lt : ∀ (mode : OutputMode) (col : Nat), col ≤ colorRange mode →
    colorIndex mode col < 257 := by
  intro mode col h
  cases mode
  case OutputGrayscale =>
    simp only [colorRange] at h
    revert col
    decide
  all_goals
    simp only [colorRange, colorIndex] at h ⊢
    omega

set_option maxRecDepth 100000 in
theorem grayscale_inj : ∀ c1, c1 ≤ 26 → ∀ c2, c2 ≤ 26 → 1 ≤ c1 → 1 ≤ c2 →
    colorIndex OutputMode.OutputGrayscale c1 = colorIndex OutputMode.OutputGrayscale c2 →
    c1 = c2 := by
  decide

theorem colorIndex_inj (mode : OutputMode) (c1 c2 : Nat) (h1 : 1 ≤ c1)
    (h1' : c1 ≤ colorRange mode) (h2 : 1 ≤ c2) (h2' : c2 ≤ colorRange mode)
    (h : colorIndex mode c1 = colorIndex mode c2) : c1 = c2 := by
  cases mode
  case OutputGrayscale =>
    simp only [colorRange] at h1' h2'
    exact grayscale_inj c1 h1' c2 h2' h1 h2 h
  all_goals
    simp only [colorRange, colorIndex] at h h1' h2'
    omega

/-- C16: colour encoding per output mode. For a style that differs from the last
emitted one, `send_attr` appends the style reset, a colour sequence and the
style flags. For a foreground whose masked colour `c` is in the range of the
mode the colour sequence starts with `ESC [` and the foreground parameter:
`30 + (c - 1)` in Normal mode, `38;5;(c - 1)` in 256 mode, `38;5;(c + 15)` in 216
mode and `38;5;(palette[c] - 1)` in Grayscale mode; for a background in range it
ends with the background parameter, the same with `40 +` and `48;5;`, and `m`.
When both colours are the default or in range the colour sequence is
`sgrColors`. The grayscale indices are 16, then 232 to 255, then 231. Within a
mode, different colours of the range have different parameters. -/
theorem colour_encoding_per_mode (c : Consts) (t : Termbox) (fg bg : Attribute)
    (hmode : t.output_mode ≠ OutputMode.OutputCurrent)
    (hch : ¬ (fg = t.lastfg ∧ bg = t.lastbg)) :
    (1 ≤ fg &&& colorMask t.output_mode → fg &&& colorMask t.output_mode ≤ colorRange t.output_mode →
        ∃ tail, (send_attr c t fg bg).outbuf
            = t.outbuf ++ t.func t_sgr0
                ++ ([0x1B, 0x5B] ++ fgParam t.output_mode (fg &&& colorMask t.output_mode) ++ tail)
                ++ styleBytes c t fg bg
          ∧ (tail.head? = some 0x6D ∨ tail.head? = some 0x3B))
      ∧ (1 ≤ bg &&& colorMask t.output_mode →
          bg &&& colorMask t.output_mode ≤ colorRange t.output_mode →
          ∃ pre, (send_attr c t fg bg).outbuf
              = t.outbuf ++ t.func t_sgr0
                  ++ (pre ++ bgParam t.output_mode (bg &&& colorMask t.output_mode) ++ [0x6D])
                  ++ styleBytes c t fg bg
            ∧ ∃ p, pre = p ++ [0x5B] ∨ pre = p ++ [0x3B])
      ∧ (fg &&& colorMask t.output_mode ≤ colorRange t.output_mode →
          bg &&& colorMask t.output_mode ≤ colorRange t.output_mode →
          (send_attr c t fg bg).outbuf
            = t.outbuf ++ t.func t_sgr0
                ++ sgrColors t.output_mode (fg &&& colorMask t.output_mode)
                    (bg &&& colorMask t.output_mode)
                ++ styleBytes c t fg bg)
      ∧ (List.range' 1 26).map (colorIndex OutputMode.OutputGrayscale)
          = 16 :: (List.range' 232 24 ++ [231])
      ∧ (∀ mode c1 c2, 1 ≤ c1 → c1 ≤ colorRange mode → 1 ≤ c2 → c2 ≤ colorRange mode →
          (fgParam mode c1 = fgParam mode c2 ∨ bgParam mode c1 = bgParam mode c2) →
          c1 = c2) := by
  have hout := send_attr_outbuf c t fg bg hch
  refine ⟨?_, ?_, ?_, by decide, ?_⟩
  · intro h1 h2
    obtain ⟨tail, ht, hh⟩ := colorBytes_fg t.output_mode fg (maskColor t.output_mode bg)
      hmode h1 h2
    exact ⟨tail, by rw [hout, ht], hh⟩
  · intro h1 h2
    obtain ⟨pre, hp, hh⟩ := colorBytes_bg t.output_mode bg (maskColor t.output_mode fg)
      hmode h1 h2
    exact ⟨pre, by rw [hout, hp], hh⟩
  · intro hf hb
    rw [hout, colorBytes_inrange t.output_mode fg bg hmode hf hb]
  · intro mode c1 c2 h1 h1' h2 h2' h
    have l1 := colorIndex_lt mode c1 h1'
    have l2 := colorIndex_lt mode c2 h2'
    apply colorIndex_inj mode c1 c2 h1 h1' h2 h2'
    cases mode with
    | OutputCurrent | OutputNormal =>
      simp only [fgParam, bgParam] at h
      rcases h with h | h
      · have := AppendUint_inj _ _ (by omega) (by omega) h
        omega
      · have := AppendUint_inj _ _ (by omega) (by omega) h
        omega
    | Output256 | Output216 | OutputGrayscale =>
      simp only [fgParam, bgParam, List.append_cancel_left_eq] at h
      rcases h with h | h
      · exact AppendUint_inj _ _ (by omega) (by omega) h
      · exact AppendUint_inj _ _ (by omega) (by omega) h

/-- An instance of C16: in Normal mode the foreground 2 with the default
background is written as the style reset followed by `ESC [ 31 m`. -/
theorem colour_encoding_per_mode_witness :
    (send_attr termboxConsts sampleTermbox 2 0).outbuf
      = [0x21, 0x1B, 0x5B, 0x33, 0x31, 0x6D] := by
  have h := (colour_encoding_per_mode termboxConsts sampleTermbox 2 0 (by decide)
    (by decide)).2.2.1 (by decide) (by decide)
  rw [h]
  decide

/-- The 216-colour and the Grayscale branch of the `switch` of `send_attr`
compare the masked colour with the range of the mode: an attribute whose masked
colour lies above the range (216, 26) is treated as the terminal default, and
`send_attr` writes no colour parameter for it, only the style reset, the
parameter of the other colour when that is not the default, and the style
flags. -/
theorem out_of_range_colour_is_default (c : Consts) (t : Termbox) (fg bg : Attribute)
    (hmode : t.output_mode = OutputMode.Output216
      ∨ t.output_mode = OutputMode.OutputGrayscale)
    (hch : ¬ (fg = t.lastfg ∧ bg = t.lastbg)) :
    (∀ a, colorRange t.output_mode < a &&& colorMask t.output_mode →
        maskColor t.output_mode a = ColorDefault)
      ∧ (colorRange t.output_mode < fg &&& colorMask t.output_mode →
          (send_attr c t fg bg).outbuf
            = t.outbuf ++ t.func t_sgr0
                ++ (if maskColor t.output_mode bg ≠ ColorDefault
                    then write_sgr_bg t.output_mode (maskColor t.output_mode bg) else [])
                ++ styleBytes c t fg bg)
      ∧ (colorRange t.output_mode < bg &&& colorMask t.output_mode →
          (send_attr c t fg bg).outbuf
            = t.outbuf ++ t.func t_sgr0
                ++ (if maskColor t.output_mode fg ≠ ColorDefault
                    then write_sgr_fg t.output_mode (maskColor t.output_mode fg) else [])
                ++ styleBytes c t fg bg)
      ∧ (colorRange t.output_mode < fg &&& colorMask t.output_mode →
          colorRange t.output_mode < bg &&& colorMask t.output_mode →
          (send_attr c t fg bg).outbuf = t.outbuf ++ t.func t_sgr0 ++ styleBytes c t fg bg) := by
  have hdef : ∀ a, colorRange t.output_mode < a &&& colorMask t.output_mode →
      maskColor t.output_mode a = ColorDefault := by
    intro a ha
    rcases hmode with h | h
    · rw [h] at ha ⊢
      simp only [colorRange, colorMask] at ha
      simp [maskColor, ha]
    · rw [h] at ha ⊢
      simp only [colorRange, colorMask] at ha
      simp [maskColor, ha]
  have hout := send_attr_outbuf c t fg bg hch
  refine ⟨hdef, ?_, ?_, ?_⟩
  · intro hf
    rw [hout, hdef fg hf]
    simp [colorBytes]
  · intro hb
    rw [hout, hdef bg hb]
    by_cases h0 : maskColor t.output_mode fg = ColorDefault
    · simp [colorBytes, h0]
    · simp [colorBytes, h0]
  · intro hf hb
    rw [hout, hdef fg hf, hdef bg hb]
    simp [colorBytes]

/-- An instance of the clamp of the Grayscale branch: the foreground 27 with
the default background is written as the style reset alone. -/
theorem out_of_range_colour_is_default_witness :
    (send_attr termboxConsts { sampleTermbox with output_mode := OutputMode.OutputGrayscale }
        27 0).outbuf = [0x21] := by
  have h := (out_of_range_colour_is_default termboxConsts
    { sampleTermbox with output_mode := OutputMode.OutputGrayscale } 27 0 (Or.inr rfl)
    (by decide)).2.1 (by decide)
  rw [h]
  decide

/-- C17: out-of-range colours collapse to the default in the 216-colour and the
Grayscale branch of `send_attr`, but not in the Normal and the 256-colour branch
of the same `switch`, which do not compare the masked colour with the range. In
Normal mode the foreground 9 (above 8) is written as `ESC [ 38 m`, and in
256-colour mode the foreground 257 (above 256) is written as
`ESC [ 38;5;256 m`: a colour parameter follows the style reset. In 216-colour
mode the foreground 217 and in Grayscale mode the foreground 27 are written as
the style reset alone. -/
theorem out_of_range_colour_emitted_in_normal_and_256 :
    (send_attr termboxConsts sampleTermbox 9 0).outbuf
        = [0x21, 0x1B, 0x5B, 0x33, 0x38, 0x6D]
      ∧ (send_attr termboxConsts { sampleTermbox with output_mode := OutputMode.Output256 }
          257 0).outbuf
        = [0x21, 0x1B, 0x5B, 0x33, 0x38, 0x3B, 0x35, 0x3B, 0x32, 0x35, 0x36, 0x6D]
      ∧ (send_attr termboxConsts { sampleTermbox with output_mode := OutputMode.Output216 }
          217 0).outbuf = [0x21]
      ∧ (send_attr termboxConsts
          { sampleTermbox with output_mode := OutputMode.OutputGrayscale } 27 0).outbuf
        = [0x21] := by
  decide

/-! ## Resize: claims C18 and C19 -/

theorem normCell_idem (b : Cell) : normCell (normCell b) = normCell b :=
  normCell_of_ge _ (normCell_ch b)

theorem keptUpToNorm_refl (a : Option Cell) : keptUpToNorm a a := Or.inl rfl

theorem keptUpToNorm_trans (a b d : Option Cell) (h1 : keptUpToNorm a b)
    (h2 : keptUpToNorm b d) : keptUpToNorm a d := by
  unfold keptUpToNorm at *
  rcases h1 with h1 | h1 <;> rcases h2 with h2 | h2
  · exact Or.inl (h1.trans h2)
  · exact Or.inr (h1.trans h2)
  · right
    rw [h1, h2]
  · right
    rw [h1, h2]
    cases d with
    | none => rfl
    | some v => simp [normCell_idem]

/-- The loop body of `Flush` changes the back grid at most in the cell it
visits, which it normalises. -/
theorem flushCell_back (c : Consts) (rw : Int → Nat) (amb : Int → Bool) (t t' : Termbox)
    (x y w : Nat) (h : flushCell c rw amb t x y = some (t', w)) :
    t'.back_buffer.width = t.back_buffer.width ∧ t'.back_buffer.height = t.back_buffer.height
      ∧ t'.front_buffer.cells.length = t.front_buffer.cells.length
      ∧ ∀ j : Nat, keptUpToNorm t'.back_buffer.cells[j]? t.back_buffer.cells[j]? := by
  unfold flushCell at h
  dsimp only at h
  split at h
  · rename_i back0 front hb hf
    have hstep : ∀ j : Nat, keptUpToNorm
        (if back0.Ch < 32 then setBack t (y * t.front_buffer.width + x) (normCell back0)
          else t).back_buffer.cells[j]? t.back_buffer.cells[j]? := by
      intro j
      obtain ⟨_, _, hat, hne⟩ := normStep_post t (y * t.front_buffer.width + x) back0 hb
      by_cases hj : j = y * t.front_buffer.width + x
      · subst hj
        right
        rw [hat, hb]
        rfl
      · left
        exact hne j hj
    have hwh : (if back0.Ch < 32
          then setBack t (y * t.front_buffer.width + x) (normCell back0) else t).back_buffer.width
          = t.back_buffer.width
        ∧ (if back0.Ch < 32
          then setBack t (y * t.front_buffer.width + x) (normCell back0) else t).back_buffer.height
          = t.back_buffer.height
        ∧ (if back0.Ch < 32
          then setBack t (y * t.front_buffer.width + x) (normCell back0) else t).front_buffer
          = t.front_buffer := by
      split <;> exact ⟨rfl, rfl, rfl⟩
    have hback : t'.back_buffer
        = (if back0.Ch < 32 then setBack t (y * t.front_buffer.width + x) (normCell back0)
            else t).back_buffer
        ∧ t'.front_buffer.cells.length
        = (if back0.Ch < 32 then setBack t (y * t.front_buffer.width + x) (normCell back0)
            else t).front_buffer.cells.length := by
      generalize (if back0.Ch < 32
        then setBack t (y * t.front_buffer.width + x) (normCell back0) else t) = T at h ⊢
      repeat' split at h
      all_goals first
        | (solve | simp at h)
        | (simp only [Option.some.injEq, Prod.mk.injEq] at h
           obtain ⟨h1, _⟩ := h
           subst h1
           first | exact ⟨rfl, rfl⟩ | simp)
    rw [hback.1, hback.2, hwh.1, hwh.2.1, hwh.2.2]
    exact ⟨rfl, rfl, rfl, hstep⟩
  · simp at h

theorem flushRow_back (c : Consts) (rw : Int → Nat) (amb : Int → Bool) (y : Nat) :
    ∀ (fuel x : Nat) (t t1 : Termbox), flushRow c rw amb y fuel x t = some t1 →
      t1.back_buffer.width = t.back_buffer.width ∧ t1.back_buffer.height = t.back_buffer.height
        ∧ t1.front_buffer.cells.length = t.front_buffer.cells.length
        ∧ ∀ j : Nat, keptUpToNorm t1.back_buffer.cells[j]? t.back_buffer.cells[j]? := by
  intro fuel
  induction fuel with
  | zero =>
    intro x t t1 h
    unfold flushRow at h
    split at h
    · simp at h
    · simp only [Option.some.injEq] at h
      subst h
      exact ⟨rfl, rfl, rfl, fun _ => keptUpToNorm_refl _⟩
  | succ fuel ih =>
    intro x t t1 h
    unfold flushRow at h
    split at h
    · cases hc : flushCell c rw amb t x y with
      | none => simp [hc] at h
      | some r =>
        obtain ⟨t', w⟩ := r
        simp only [hc] at h
        obtain ⟨a1, a2, a3, a4⟩ := ih (x + w) t' t1 h
        obtain ⟨b1, b2, b3, b4⟩ := flushCell_back c rw amb t t' x y w hc
        exact ⟨a1.trans b1, a2.trans b2, a3.trans b3,
          fun j => keptUpToNorm_trans _ _ _ (a4 j) (b4 j)⟩
    · simp only [Option.some.injEq] at h
      subst h
      exact ⟨rfl, rfl, rfl, fun _ => keptUpToNorm_refl _⟩

theorem flushRows_back (c : Consts) (rw : Int → Nat) (amb : Int → Bool) :
    ∀ (n y : Nat) (t t1 : Termbox), flushRows c rw amb n y t = some t1 →
      t1.back_buffer.width = t.back_buffer.width ∧ t1.back_buffer.height = t.back_buffer.height
        ∧ t1.front_buffer.cells.length = t.front_buffer.cells.length
        ∧ ∀ j : Nat, keptUpToNorm t1.back_buffer.cells[j]? t.back_buffer.cells[j]? := by
  intro n
  induction n with
  | zero =>
    intro y t t1 h
    unfold flushRows at h
    simp only [Option.some.injEq] at h
    subst h
    exact ⟨rfl, rfl, rfl, fun _ => keptUpToNorm_refl _⟩
  | succ n ih =>
    intro y t t1 h
    unfold flushRows at h
    cases hr : flushRow c rw amb y t.front_buffer.width 0 t with
    | none => simp [hr] at h
    | some t' =>
      simp only [hr] at h
      obtain ⟨a1, a2, a3, a4⟩ := ih (y + 1) t' t1 h
      obtain ⟨b1, b2, b3, b4⟩ := flushRow_back c rw amb y _ 0 t t' hr
      exact ⟨a1.trans b1, a2.trans b2, a3.trans b3,
        fun j => keptUpToNorm_trans _ _ _ (a4 j) (b4 j)⟩
/-- The cells of a grid resized to a size whose product is below `2^63`: the
old cell inside the overlap of the two sizes, a blank outside it. -/
theorem resize_cells (g : cellbuf) (w' h' : Nat) (fg bg : Attribute)
    (hwf : g.cells.length = g.width * g.height) (hfit : w' * h' < 2 ^ 63) :
    ∃ g', g.resize w' h' fg bg = some g' ∧ g'.width = w' ∧ g'.height = h' ∧
      g'.cells.length = w' * h' ∧
      ∀ x y, x < w' → y < h' →
        g'.cells[y * w' + x]?
          = if x < min g.width w' ∧ y < min g.height h' then g.cells[y * g.width + x]?
            else some ⟨32, fg, bg⟩ := by
  unfold cellbuf.resize
  by_cases hsame : g.width = w' ∧ g.height = h'
  · rw [if_pos hsame]
    obtain ⟨hw, hh⟩ := hsame
    refine ⟨g, rfl, hw, hh, by rw [hwf, hw, hh], ?_⟩
    intro x y hx hy
    rw [if_pos ⟨by omega, by omega⟩, hw]
  · rw [if_neg hsame, init_fits g w' h' hfit]
    dsimp only
    have hcleared : (cellbuf.clear ⟨w', h', List.replicate (w' * h') ⟨0, 0, 0⟩⟩ fg bg).cells
        = List.replicate (w' * h') ⟨32, fg, bg⟩ := by
      simp [cellbuf.clear, List.map_replicate]
    obtain ⟨cells', hc, hl, hi⟩ := copyRows_spec g.cells g.width g.height w' h'
      (if w' < g.width then w' else g.width) (if h' < g.height then h' else g.height) fg bg
      (by split <;> omega) (by split <;> omega) (by split <;> omega) (by split <;> omega) hwf
      (if h' < g.height then h' else g.height) 0
      (cellbuf.clear ⟨w', h', List.replicate (w' * h') ⟨0, 0, 0⟩⟩ fg bg).cells
      (by omega) (by rw [hcleared, List.length_replicate])
      (by
        intro x y hx hy
        rw [hcleared, if_neg (by omega), List.getElem?_replicate_of_lt]
        have h1 : (y + 1) * w' ≤ h' * w' := Nat.mul_le_mul_right w' (by omega)
        rw [Nat.add_mul] at h1
        rw [Nat.mul_comm w' h']
        omega)
    simp only [hc]
    refine ⟨_, rfl, rfl, rfl, hl, ?_⟩
    intro x y hx hy
    have := hi x y hx hy
    simp only [Nat.zero_add] at this
    rw [this]
    by_cases hcond : x < min g.width w' ∧ y < min g.height h'
    · rw [if_pos hcond, if_pos (by constructor <;> split <;> omega)]
    · rw [if_neg hcond, if_neg (by
        intro hc2
        apply hcond
        obtain ⟨h1, h2⟩ := hc2
        constructor
        · split at h1 <;> omega
        · split at h2 <;> omega)]

/-- What `update_size_maybe` does on a well-formed state whose pending size
has a product below `2^63`: the pending size
becomes the live size, both grids get that size, and the back grid keeps the
overlap of its content. -/
theorem update_size_maybe_spec (c : Consts) (t : Termbox) (hwf : WellFormed t)
    (hfit : t.newW * t.newH < 2 ^ 63) :
    ∃ tu, update_size_maybe c t = some tu ∧ WellFormed tu
      ∧ tu.termw = t.newW ∧ tu.termh = t.newH
      ∧ tu.foreground = t.foreground ∧ tu.background = t.background
      ∧ ∀ x y, x < t.newW → y < t.newH →
          tu.back_buffer.cells[y * t.newW + x]?
            = if x < min t.termw t.newW ∧ y < min t.termh t.newH
              then t.back_buffer.cells[y * t.termw + x]?
              else some ⟨32, t.foreground, t.background⟩ := by
  obtain ⟨hbw, hbh, hfw, hfh, hbl, hfl⟩ := hwf
  unfold update_size_maybe
  dsimp only
  split
  · obtain ⟨back, hb, hb1, hb2, hb3, hb4⟩ := resize_cells t.back_buffer t.newW t.newH
      t.foreground t.background (by rw [hbl, hbw, hbh]) hfit
    obtain ⟨front, hf, hf1, hf2, hf3⟩ := resize_wf t.front_buffer t.newW t.newH t.foreground
      t.background (by rw [hfl, hfw, hfh]) hfit
    rw [hb]
    dsimp only
    rw [hf]
    dsimp only
    refine ⟨_, rfl, ?_⟩
    rw [send_clear_eq]
    unfold WellFormed
    dsimp only
    refine ⟨⟨hb1, hb2, hf1, hf2, hb3, ?_⟩, rfl, rfl, rfl, rfl, ?_⟩
    · simp [cellbuf.clear, hf3]
    · intro x y hx hy
      rw [hb4 x y hx hy, hbw, hbh]
  · rename_i hsame
    have hw : t.newW = t.termw := by
      by_contra h
      exact hsame (Or.inl h)
    have hh : t.newH = t.termh := by
      by_contra h
      exact hsame (Or.inr h)
    refine ⟨t, rfl, ⟨hbw, hbh, hfw, hfh, hbl, hfl⟩, hw.symm, hh.symm, rfl, rfl, ?_⟩
    intro x y hx hy
    rw [if_pos ⟨by omega, by omega⟩, hw]

/-- `Flush` on a well-formed state whose pending size has a product below
`2^63` returns; the live size is the pending size of
before, both grids have that size, and every cell of the back grid in the
overlap of the old and the new size is the old cell, up to the normalisation
of the cells that the loop visits; outside the overlap it is a blank. -/
theorem Flush_adopts_size (c : Consts) (rw : Int → Nat) (amb : Int → Bool) (t : Termbox)
    (hwf : WellFormed t) (hfit : t.newW * t.newH < 2 ^ 63) :
    ∃ t1, Flush c rw amb t = some t1 ∧ WellFormed t1
      ∧ t1.termw = t.newW ∧ t1.termh = t.newH
      ∧ ∀ x y, x < t.newW → y < t.newH →
          if x < min t.termw t.newW ∧ y < min t.termh t.newH
          then keptUpToNorm t1.back_buffer.cells[y * t.newW + x]?
                 t.back_buffer.cells[y * t.termw + x]?
          else t1.back_buffer.cells[y * t.newW + x]?
                 = some ⟨32, t.foreground, t.background⟩ := by
  have hwf0 : WellFormed { t with lastx := coord_invalid, lasty := coord_invalid } := hwf
  obtain ⟨tu, hu, hwfu, hw, hh, _, _, hcells⟩ := update_size_maybe_spec c _ hwf0 hfit
  dsimp only at hw hh hcells
  obtain ⟨ubw, ubh, ufw, ufh, ubl, ufl⟩ := hwfu
  obtain ⟨t1, h1⟩ := flushRows_total c rw amb tu.front_buffer.height 0 tu
    (by rw [ubl, ufw, ufh, Nat.zero_add, Nat.mul_comm])
    (by rw [ufl, ufw, ufh, Nat.zero_add, Nat.mul_comm])
  obtain ⟨hs, _⟩ := flushRows_frame c rw amb _ 0 tu t1 h1
  obtain ⟨k1, k2, k3, k4⟩ := flushRows_back c rw amb _ 0 tu t1 h1
  obtain ⟨s1, s2, s3, s4, _⟩ := hs
  have hlen : t1.back_buffer.cells.length = tu.back_buffer.cells.length := by
    apply Nat.le_antisymm
    · by_contra hlt
      have hlt' : tu.back_buffer.cells.length < t1.back_buffer.cells.length := by omega
      have hk := k4 tu.back_buffer.cells.length
      rw [List.getElem?_eq_getElem hlt', List.getElem?_eq_none (Nat.le_refl _)] at hk
      rcases hk with hk | hk <;> simp at hk
    · by_contra hlt
      have hlt' : t1.back_buffer.cells.length < tu.back_buffer.cells.length := by omega
      have hk := k4 t1.back_buffer.cells.length
      rw [List.getElem?_eq_getElem hlt', List.getElem?_eq_none (Nat.le_refl _)] at hk
      rcases hk with hk | hk <;> simp at hk
  have hfin : (finishFlush t1).back_buffer = t1.back_buffer
      ∧ (finishFlush t1).front_buffer = t1.front_buffer
      ∧ (finishFlush t1).termw = t1.termw ∧ (finishFlush t1).termh = t1.termh := by
    unfold finishFlush flush
    split <;> exact ⟨rfl, rfl, rfl, rfl⟩
  obtain ⟨f1, f2, f3, f4⟩ := hfin
  refine ⟨finishFlush t1, ?_, ?_, ?_, ?_, ?_⟩
  · unfold Flush
    dsimp only
    rw [hu]
    dsimp only
    rw [h1]
  · unfold WellFormed
    rw [f1, f2, f3, f4, k1, k2, k3, hlen, s1, s2, s3, s4]
    exact ⟨ubw, ubh, ufw, ufh, ubl, ufl⟩
  · rw [f3, s3, hw]
  · rw [f4, s4, hh]
  · intro x y hx hy
    rw [f1]
    have hc := hcells x y hx hy
    have hk := k4 (y * t.newW + x)
    by_cases hcond : x < min t.termw t.newW ∧ y < min t.termh t.newH
    · rw [if_pos hcond]
      rw [if_pos hcond] at hc
      rw [← hc]
      exact hk
    · rw [if_neg hcond]
      rw [if_neg hcond] at hc
      rw [hc] at hk
      rcases hk with hk | hk
      · exact hk
      · rw [hk]
        rfl
/-- `Clear` on a well-formed state whose pending size has a product below
`2^63` returns; the live size is the pending size of
before, both grids have that size and the back grid is blank. -/
theorem Clear_adopts_size (c : Consts) (t : Termbox) (fg bg : Attribute) (hwf : WellFormed t)
    (hfit : t.newW * t.newH < 2 ^ 63) :
    ∃ t1, Clear c t fg bg = some t1 ∧ WellFormed t1
      ∧ t1.termw = t.newW ∧ t1.termh = t.newH
      ∧ t1.back_buffer.cells = List.replicate (t.newW * t.newH) ⟨32, fg, bg⟩ := by
  have hwf0 : WellFormed { t with foreground := fg, background := bg } := hwf
  obtain ⟨tu, hu, hwfu, hw, hh, hfg, hbg, _⟩ := update_size_maybe_spec c _ hwf0 hfit
  dsimp only at hw hh hfg hbg
  obtain ⟨ubw, ubh, ufw, ufh, ubl, ufl⟩ := hwfu
  refine ⟨{ tu with back_buffer := tu.back_buffer.clear tu.foreground tu.background },
    ?_, ?_, hw, hh, ?_⟩
  · unfold Clear
    dsimp only
    rw [hu]
  · unfold WellFormed
    dsimp only
    exact ⟨ubw, ubh, ufw, ufh, by simp [cellbuf.clear, ubl], ufl⟩
  · dsimp only
    rw [hfg, hbg]
    simp only [cellbuf.clear]
    rw [← hw, ← hh, ← ubl]
    exact List.map_const' _ _

theorem Resize_state (t : Termbox) (rc w h : Nat) :
    (Resize t rc w h).t = { t with newW := w, newH := h } := by
  unfold Resize
  split
  · split <;> rfl
  · rename_i hsame
    have hw : t.newW = w := by
      by_contra hne
      exact hsame (Or.inl hne)
    have hh : t.newH = h := by
      by_contra hne
      exact hsame (Or.inr hne)
    subst hw hh
    rfl

/-- C18 as stated fails twice. On a back grid that holds a control character:
the 2 × 1 back grid `A`, `BEL` is resized to 3 × 1 by `Resize(3, 1)` and
`Flush`; the cell at `(1, 0)` lies in the overlap, and after the `Flush` it
holds a space, not the earlier `BEL`. And with a pending size whose product
does not fit in `int`: after `Resize(0xFFFFFFFF, 0xFFFFFFFF)` neither `Flush`
nor `Clear` returns, because `make` panics on the wrapped, negative length. -/
theorem flush_after_resize_normalises_kept_cells :
    sampleDirty.back_buffer.cells = [⟨65, 1, 0⟩, ⟨7, 0, 0⟩]
      ∧ (Flush termboxConsts (fun _ => 1) (fun _ => false) (Resize sampleDirty 0 3 1).t).map
          (fun t1 => t1.back_buffer.cells)
        = some [⟨65, 1, 0⟩, ⟨32, 0, 0⟩, ⟨32, 0, 0⟩]
      ∧ Flush termboxConsts (fun _ => 1) (fun _ => false)
          (Resize sampleDirty 0 0xFFFFFFFF 0xFFFFFFFF).t = none
      ∧ Clear termboxConsts (Resize sampleDirty 0 0xFFFFFFFF 0xFFFFFFFF).t 0 0 = none := by
  decide

/-- C18, amended: a resize request is not live until the next render call.
`Resize(w, h)` changes only the pending size (and the resize signal): `Size()`,
the back grid and the front grid are as before. When `w*h < 2^63`, after the
next `Flush` or `Clear` on a state whose grids have the reported size, `Size()`
returns `(w, h)` and both grids are `w × h` with `w*h` cells. After `Flush`
every cell of the back grid in the top-left overlap of the old and the new size
is the earlier cell, or the earlier cell with its code point below space
replaced by a space, and every other cell is a blank in the clear colours;
after `Clear` the back grid is blank. -/
theorem resize_takes_effect_at_next_render (c : Consts) (rw : Int → Nat) (amb : Int → Bool)
    (t : Termbox) (rc w h : Nat) (hwf : WellFormed t) (hfit : w * h < 2 ^ 63) :
    (Resize t rc w h).t = { t with newW := w, newH := h }
      ∧ Size (Resize t rc w h).t = Size t
      ∧ (Resize t rc w h).t.back_buffer = t.back_buffer
      ∧ (Resize t rc w h).t.front_buffer = t.front_buffer
      ∧ (∃ t1, Flush c rw amb (Resize t rc w h).t = some t1 ∧ Size t1 = (w, h)
          ∧ t1.back_buffer.width = w ∧ t1.back_buffer.height = h
          ∧ t1.back_buffer.cells.length = w * h
          ∧ t1.front_buffer.width = w ∧ t1.front_buffer.height = h
          ∧ t1.front_buffer.cells.length = w * h
          ∧ ∀ x y, x < w → y < h →
              if x < min t.termw w ∧ y < min t.termh h
              then keptUpToNorm t1.back_buffer.cells[y * w + x]?
                     t.back_buffer.cells[y * t.termw + x]?
              else t1.back_buffer.cells[y * w + x]? = some ⟨32, t.foreground, t.background⟩)
      ∧ (∀ fg bg, ∃ t1, Clear c (Resize t rc w h).t fg bg = some t1 ∧ Size t1 = (w, h)
          ∧ t1.back_buffer.width = w ∧ t1.back_buffer.height = h
          ∧ t1.front_buffer.width = w ∧ t1.front_buffer.height = h
          ∧ t1.front_buffer.cells.length = w * h
          ∧ t1.back_buffer.cells = List.replicate (w * h) ⟨32, fg, bg⟩) := by
  have hst := Resize_state t rc w h
  have hwf' : WellFormed (Resize t rc w h).t := by
    rw [hst]
    exact hwf
  have hfit' : (Resize t rc w h).t.newW * (Resize t rc w h).t.newH < 2 ^ 63 := by
    rw [hst]
    exact hfit
  refine ⟨hst, by rw [hst]; rfl, by rw [hst], by rw [hst], ?_, ?_⟩
  · obtain ⟨t1, h1, ⟨bw, bh, fw, fh, bl, fl⟩, hw, hh, hcells⟩ :=
      Flush_adopts_size c rw amb _ hwf' hfit'
    rw [hst] at hw hh hcells
    dsimp only at hw hh hcells
    refine ⟨t1, h1, ?_, ?_, ?_, ?_, ?_, ?_, ?_, hcells⟩
    · unfold Size
      rw [hw, hh]
    · rw [bw, hw]
    · rw [bh, hh]
    · rw [bl, hw, hh]
    · rw [fw, hw]
    · rw [fh, hh]
    · rw [fl, hw, hh]
  · intro fg bg
    obtain ⟨t1, h1, ⟨bw, bh, fw, fh, bl, fl⟩, hw, hh, hcells⟩ :=
      Clear_adopts_size c _ fg bg hwf' hfit'
    rw [hst] at hw hh hcells
    dsimp only at hw hh hcells
    refine ⟨t1, h1, ?_, ?_, ?_, ?_, ?_, ?_, hcells⟩
    · unfold Size
      rw [hw, hh]
    · rw [bw, hw]
    · rw [bh, hh]
    · rw [fw, hw]
    · rw [fh, hh]
    · rw [fl, hw, hh]

/-- An instance of C18: after `Resize(3, 1)` on the 2 × 1 engine `sampleDirty`,
whose back grid holds `A` and `BEL`, `Size()` still returns `(2, 1)` and the
grids are as before; the next `Flush` returns an engine of size `(3, 1)` whose
back grid holds `A`, a space and a blank, and the next `Clear` one whose back
grid is blank. -/
theorem resize_takes_effect_at_next_render_witness :
    Size (Resize sampleDirty 0 3 1).t = (2, 1)
      ∧ (Resize sampleDirty 0 3 1).t.back_buffer = sampleDirty.back_buffer
      ∧ (Flush termboxConsts (fun _ => 1) (fun _ => false) (Resize sampleDirty 0 3 1).t).map
          (fun t1 => (Size t1, t1.back_buffer, t1.front_buffer))
        = some ((3, 1), ⟨3, 1, [⟨65, 1, 0⟩, ⟨32, 0, 0⟩, ⟨32, 0, 0⟩]⟩,
            ⟨3, 1, [⟨65, 1, 0⟩, ⟨32, 0, 0⟩, ⟨32, 0, 0⟩]⟩)
      ∧ ∃ t1, Clear termboxConsts (Resize sampleDirty 0 3 1).t 7 8 = some t1
          ∧ Size t1 = (3, 1)
          ∧ t1.back_buffer.cells = [⟨32, 7, 8⟩, ⟨32, 7, 8⟩, ⟨32, 7, 8⟩] :=
  have h := resize_takes_effect_at_next_render termboxConsts (fun _ => 1) (fun _ => false)
    sampleDirty 0 3 1 (by unfold WellFormed; decide) (by decide)
  ⟨h.2.1, h.2.2.1, by decide,
    let ⟨t1, h1, h2, _, _, _, _, _, h3⟩ := h.2.2.2.2.2 7 8
    ⟨t1, h1, h2, h3⟩⟩

/-- C19, with the blocking send of the code: resize signalling on a channel of
capacity 1 that holds `rc` signals. `Resize(w, h)` with the pending size leaves
the channel untouched and returns. `Resize(w, h)` with a different size stores
the pending size; when the channel is empty it puts one signal and returns;
when the earlier signal has not been received the send waits for a poll, the
call has not returned, and the channel still holds exactly one signal. The
channel never holds more than one signal. -/
theorem resize_signal_slot (t : Termbox) (rc w h : Nat) (hrc : rc ≤ resize_comm_cap) :
    (t.newW = w ∧ t.newH = h → Resize t rc w h = ⟨t, rc, true⟩)
      ∧ (¬ (t.newW = w ∧ t.newH = h) → rc = 0 →
          Resize t rc w h = ⟨{ t with newW := w, newH := h }, 1, true⟩)
      ∧ (¬ (t.newW = w ∧ t.newH = h) → rc = 1 →
          Resize t rc w h = ⟨{ t with newW := w, newH := h }, 1, false⟩)
      ∧ (Resize t rc w h).resize_comm ≤ resize_comm_cap := by
  unfold resize_comm_cap at hrc
  refine ⟨?_, ?_, ?_, ?_⟩
  · intro ⟨hw, hh⟩
    unfold Resize
    rw [if_neg (by simp [hw, hh])]
  · intro hne h0
    subst h0
    have hch : t.newW ≠ w ∨ t.newH ≠ h := by
      by_contra hno
      simp only [not_or, ne_eq, not_not] at hno
      exact hne hno
    unfold Resize resize_comm_cap
    rw [if_pos hch]
    rfl
  · intro hne h1
    subst h1
    have hch : t.newW ≠ w ∨ t.newH ≠ h := by
      by_contra hno
      simp only [not_or, ne_eq, not_not] at hno
      exact hne hno
    unfold Resize resize_comm_cap
    rw [if_pos hch]
    rfl
  · unfold Resize resize_comm_cap
    split
    · split
      · dsimp only
        omega
      · exact hrc
    · exact hrc

/-- An instance of C19: on an empty channel `Resize(80, 24)` of a 2 × 1 engine
returns and leaves one signal. -/
theorem resize_signal_slot_witness :
    Resize sampleTermbox 0 80 24 = ⟨{ sampleTermbox with newW := 80, newH := 24 }, 1, true⟩ :=
  (resize_signal_slot sampleTermbox 0 80 24 (by decide)).2.1 (by decide) rfl

/-- C19 as stated, at `Resize(80, 24)` then `Resize(100, 30)` with no poll in
between: the first call returns and leaves one signal in the channel; the
second call stores the pending size `(100, 30)` and does not return, because its
send finds the channel full. -/
theorem second_resize_waits_for_a_poll :
    (Resize sampleTermbox 0 80 24).returned = true
      ∧ (Resize sampleTermbox 0 80 24).resize_comm = 1
      ∧ (Resize (Resize sampleTermbox 0 80 24).t (Resize sampleTermbox 0 80 24).resize_comm
          100 30).returned = false
      ∧ (Resize (Resize sampleTermbox 0 80 24).t (Resize sampleTermbox 0 80 24).resize_comm
          100 30).t.newW = 100 := by
  decide

/-! ## The poll loops: claim C20 -/

theorem mouseOfFields_type (c : Consts) (e : Event) (isM : Bool) (mi : Nat) (n1 n2 n3 : Int) :
    (mouseOfFields c e isM mi n1 n2 n3).1.Type_ = e.Type_
      ∨ (mouseOfFields c e isM mi n1 n2 n3).1.Type_ = EventType.EventMouse := by
  unfold mouseOfFields
  split
  · exact Or.inl rfl
  · exact Or.inr rfl

theorem mouseOfX10_type (c : Consts) (e : Event) (b3 b4 b5 : Nat) :
    (mouseOfX10 c e b3 b4 b5).1.Type_ = e.Type_
      ∨ (mouseOfX10 c e b3 b4 b5).1.Type_ = EventType.EventMouse := by
  unfold mouseOfX10
  dsimp only
  split
  · exact Or.inl rfl
  · exact Or.inr rfl

theorem parseMouseFields_type (c : Consts) (e e' : Event) (isM isU : Bool) (mi : Nat)
    (buf : Bytes) (n : Nat) (ok : Bool)
    (h : parseMouseFields c e isM isU mi buf = some (e', n, ok)) :
    e'.Type_ = e.Type_ ∨ e'.Type_ = EventType.EventMouse := by
  unfold parseMouseFields at h
  repeat' split at h
  all_goals first
    | (solve | simp at h)
    | (solve
        | (simp only [Option.some.injEq] at h
           have h2 := congrArg (fun r => r.1.Type_) h
           simp only at h2
           rw [← h2]
           exact mouseOfFields_type _ _ _ _ _ _ _))
    | (simp only [Option.some.injEq, Prod.mk.injEq] at h
       rw [← h.1]
       exact Or.inl rfl)

theorem parse_mouse_event_type (c : Consts) (e e' : Event) (buf : Bytes) (n : Nat) (ok : Bool)
    (h : parse_mouse_event c e buf = some (e', n, ok)) :
    e'.Type_ = e.Type_ ∨ e'.Type_ = EventType.EventMouse := by
  unfold parse_mouse_event at h
  repeat' split at h
  all_goals first
    | exact parseMouseFields_type c e e' _ _ _ _ n ok h
    | (solve | simp at h)
    | (solve
        | (simp only [Option.some.injEq] at h
           have h2 := congrArg (fun r => r.1.Type_) h
           simp only at h2
           rw [← h2]
           exact mouseOfX10_type _ _ _ _ _))
    | (simp only [Option.some.injEq, Prod.mk.injEq] at h
       rw [← h.1]
       exact Or.inl rfl)

theorem parse_escape_sequence_type (c : Consts) (keys : List Bytes) (e e' : Event)
    (buf : Bytes) (n : Nat) (ok : Bool)
    (h : parse_escape_sequence c keys e buf = some (e', n, ok)) :
    e'.Type_ = e.Type_ ∨ e'.Type_ = EventType.EventMouse := by
  unfold parse_escape_sequence at h
  split at h
  · simp only [Option.some.injEq, Prod.mk.injEq] at h
    rw [← h.1]
    exact Or.inl rfl
  · exact parse_mouse_event_type c e e' buf n ok h

theorem parse_escape_sequence_fail (c : Consts) (keys : List Bytes) (e e' : Event)
    (buf : Bytes) (n : Nat)
    (h : parse_escape_sequence c keys e buf = some (e', n, false)) : n = 0 := by
  unfold parse_escape_sequence at h
  split at h
  · simp at h
  · exact (parse_mouse_event_fail c e e' buf n h).1

/-- The type of the event after `extract_event` is the type before it or
`EventMouse`. -/
theorem extract_event_type (c : Consts) (keys : List Bytes) (mode : InputMode) (buf : Bytes) :
    ∀ (e e' : Event) (ok : Bool), extract_event c keys mode buf e = some (e', ok) →
      e'.Type_ = e.Type_ ∨ e'.Type_ = EventType.EventMouse := by
  induction buf with
  | nil =>
    intro e e' ok h
    simp only [extract_event, Option.some.injEq, Prod.mk.injEq] at h
    rw [← h.1]
    exact Or.inl rfl
  | cons b rest ih =>
    intro e e' ok h
    unfold extract_event at h
    split at h
    · cases hp : parse_escape_sequence c keys e (b :: rest) with
      | none => simp [hp] at h
      | some r =>
        obtain ⟨ev, n, okp⟩ := r
        have ht := parse_escape_sequence_type c keys e ev _ n okp hp
        simp only [hp] at h
        split at h
        · simp only [Option.some.injEq, Prod.mk.injEq] at h
          rw [← h.1]
          exact ht
        · split at h
          · simp only [Option.some.injEq, Prod.mk.injEq] at h
            rw [← h.1]
            exact ht
          · split at h
            · cases hr : extract_event c keys mode rest { ev with Mod := c.ModAlt } with
              | none => simp [hr] at h
              | some r2 =>
                obtain ⟨ev2, ok2⟩ := r2
                have ht2 := ih _ ev2 ok2 hr
                simp only [hr] at h
                have ht3 : ev2.Type_ = e.Type_ ∨ ev2.Type_ = EventType.EventMouse := by
                  rcases ht2 with h2 | h2
                  · rcases ht with h1 | h1
                    · exact Or.inl (h2.trans h1)
                    · exact Or.inr (h2.trans h1)
                  · exact Or.inr h2
                split at h
                · simp only [Option.some.injEq, Prod.mk.injEq] at h
                  rw [← h.1]
                  exact ht3
                · simp only [Option.some.injEq, Prod.mk.injEq] at h
                  rw [← h.1]
                  exact ht3
            · simp at h
    · split at h
      · simp only [Option.some.injEq, Prod.mk.injEq] at h
        rw [← h.1]
        exact Or.inl rfl
      · split at h
        split at h
        · simp only [Option.some.injEq, Prod.mk.injEq] at h
          rw [← h.1]
          exact Or.inl rfl
        · simp only [Option.some.injEq, Prod.mk.injEq] at h
          rw [← h.1]
          exact Or.inl rfl

/-- A failed `extract_event` on an event with `N = 0` leaves `N = 0`. -/
theorem extract_event_fail_N (c : Consts) (keys : List Bytes) (mode : InputMode)
    (buf : Bytes) :
    ∀ (e e' : Event), e.N = 0 → extract_event c keys mode buf e = some (e', false) →
      e'.N = 0 := by
  induction buf with
  | nil =>
    intro e e' _ h
    simp only [extract_event, Option.some.injEq, Prod.mk.injEq] at h
    rw [← h.1]
  | cons b rest ih =>
    intro e e' he h
    unfold extract_event at h
    split at h
    · cases hp : parse_escape_sequence c keys e (b :: rest) with
      | none => simp [hp] at h
      | some r =>
        obtain ⟨ev, n, okp⟩ := r
        simp only [hp] at h
        split at h
        · rename_i hn
          simp only [Option.some.injEq, Prod.mk.injEq] at h
          rw [h.2] at hp
          exact absurd (parse_escape_sequence_fail c keys e ev _ n hp) hn
        · split at h
          · simp at h
          · split at h
            · cases hr : extract_event c keys mode rest { ev with Mod := c.ModAlt } with
              | none => simp [hr] at h
              | some r2 =>
                obtain ⟨ev2, ok2⟩ := r2
                simp only [hr] at h
                split at h
                · simp at h
                · simp only [Option.some.injEq, Prod.mk.injEq] at h
                  rw [← h.1]
            · simp at h
    · split at h
      · simp at h
      · split at h
        split at h
        · simp at h
        · simp only [Option.some.injEq, Prod.mk.injEq] at h
          rw [← h.1]
          exact he
theorem consumeEvent_zero (t : Termbox) (event : Event) (h : event.N = 0) :
    consumeEvent t event = some t := by
  unfold consumeEvent
  rw [if_neg (by simp [h])]

/-- The loop of `PollEvent` and `PollEventWithContext`: when it returns an
Interrupt, Resize or Cancel event, the buffer of before is a prefix of the
buffer at the return, the pending size is untouched, and a Resize event
carries it. -/
theorem pollLoop_out_of_band (c : Consts) (withCtx : Bool) (ev : Event) (t' : Termbox)
    (hoob : ev.Type_ = EventType.EventInterrupt ∨ ev.Type_ = EventType.EventResize
      ∨ ev.Type_ = EventType.EventCancel) :
    ∀ (ready : List Ready) (t : Termbox) (event : Event), event.N = 0 →
      (event.Type_ = EventType.EventKey ∨ event.Type_ = EventType.EventMouse) →
      pollLoop c withCtx ready t event = PollOutcome.returned ev t' →
      t.inbuf <+: t'.inbuf ∧ t'.newW = t.newW ∧ t'.newH = t.newH
        ∧ (ev.Type_ = EventType.EventResize → ev.Width = t.newW ∧ ev.Height = t.newH) := by
  have hnot : ∀ e : Event, (e.Type_ = EventType.EventKey ∨ e.Type_ = EventType.EventMouse) →
      e = ev → False := by
    intro e he heq
    subst heq
    rcases he with h | h <;> rcases hoob with h' | h' | h' <;> rw [h] at h' <;>
      exact EventType.noConfusion h'
  intro ready
  induction ready with
  | nil =>
    intro t event _ _ h
    simp [pollLoop] at h
  | cons r rest ih =>
    intro t event hN hT h
    cases r with
    | input data err =>
      cases err with
      | some e =>
        simp only [pollLoop, PollOutcome.returned.injEq] at h
        have hty : ev.Type_ = EventType.EventError := by
          rw [← h.1]
          rfl
        rcases hoob with h' | h' | h' <;> rw [hty] at h' <;> exact EventType.noConfusion h'
      | none =>
        simp only [pollLoop] at h
        cases hx : extract_event c t.keys t.input_mode (t.inbuf ++ data) event with
        | none => simp [hx] at h
        | some r2 =>
          obtain ⟨e2, ok⟩ := r2
          simp only [hx] at h
          have hT2 : e2.Type_ = EventType.EventKey ∨ e2.Type_ = EventType.EventMouse := by
            rcases extract_event_type c _ _ _ event e2 ok hx with h2 | h2
            · rw [h2]
              exact hT
            · exact Or.inr h2
          cases ok with
          | true =>
            cases hce : consumeEvent { t with inbuf := t.inbuf ++ data } e2 with
            | none => simp [hce] at h
            | some t3 =>
              simp only [hce, if_true, PollOutcome.returned.injEq] at h
              exact (hnot e2 hT2 h.1).elim
          | false =>
            have hN2 := extract_event_fail_N c _ _ _ event e2 hN hx
            rw [consumeEvent_zero _ _ hN2] at h
            simp only [Bool.false_eq_true, if_false] at h
            obtain ⟨a1, a2, a3, a4⟩ := ih _ e2 hN2 hT2 h
            exact ⟨List.IsPrefix.trans (List.prefix_append _ _) a1, a2, a3, a4⟩
    | interrupt =>
      simp only [pollLoop, PollOutcome.returned.injEq] at h
      obtain ⟨h1, h2⟩ := h
      subst h2
      refine ⟨List.prefix_refl _, rfl, rfl, ?_⟩
      intro hr
      rw [← h1] at hr
      exact EventType.noConfusion hr
    | resize =>
      simp only [pollLoop, PollOutcome.returned.injEq] at h
      obtain ⟨h1, h2⟩ := h
      subst h2
      refine ⟨List.prefix_refl _, rfl, rfl, ?_⟩
      intro _
      rw [← h1]
      exact ⟨rfl, rfl⟩
    | cancel =>
      simp only [pollLoop] at h
      cases withCtx with
      | true =>
        simp only [if_true, PollOutcome.returned.injEq] at h
        obtain ⟨h1, h2⟩ := h
        subst h2
        refine ⟨List.prefix_refl _, rfl, rfl, ?_⟩
        intro hr
        rw [← h1] at hr
        exact EventType.noConfusion hr
      | false =>
        simp only [Bool.false_eq_true, if_false] at h
        exact ih t event hN hT h

theorem pollEventBody_out_of_band (c : Consts) (withCtx : Bool) (ev : Event) (t t' : Termbox)
    (ready : List Ready)
    (hoob : ev.Type_ = EventType.EventInterrupt ∨ ev.Type_ = EventType.EventResize
      ∨ ev.Type_ = EventType.EventCancel)
    (h : pollEventBody c withCtx t ready = PollOutcome.returned ev t') :
    t.inbuf <+: t'.inbuf ∧ t'.newW = t.newW ∧ t'.newH = t.newH
      ∧ (ev.Type_ = EventType.EventResize → ev.Width = t.newW ∧ ev.Height = t.newH) := by
  unfold pollEventBody at h
  cases hx : extract_event c t.keys t.input_mode t.inbuf (Event.ofType EventType.EventKey) with
  | none => simp [hx] at h
  | some r2 =>
    obtain ⟨e2, ok⟩ := r2
    simp only [hx] at h
    have hT2 : e2.Type_ = EventType.EventKey ∨ e2.Type_ = EventType.EventMouse := by
      rcases extract_event_type c _ _ _ _ e2 ok hx with h2 | h2
      · exact Or.inl h2
      · exact Or.inr h2
    cases ok with
    | true =>
      cases hce : consumeEvent t e2 with
      | none => simp [hce] at h
      | some t3 =>
        simp only [hce, if_true, PollOutcome.returned.injEq] at h
        obtain ⟨h1, _⟩ := h
        subst h1
        rcases hT2 with h2 | h2 <;> rcases hoob with h' | h' | h' <;> rw [h2] at h' <;>
          exact EventType.noConfusion h'
    | false =>
      have hN2 := extract_event_fail_N c _ _ _ _ e2 rfl hx
      rw [consumeEvent_zero _ _ hN2] at h
      simp only [Bool.false_eq_true, if_false] at h
      exact pollLoop_out_of_band c withCtx ev t' hoob ready t e2 hN2 hT2 h

theorem rawLoop_out_of_band (ev : Event) (t' : Termbox)
    (hoob : ev.Type_ = EventType.EventInterrupt ∨ ev.Type_ = EventType.EventResize
      ∨ ev.Type_ = EventType.EventCancel) :
    ∀ (ready : List Ready) (t : Termbox) (data : Bytes) (event : Event),
      (rawLoop ready t data event).1 = PollOutcome.returned ev t' →
      t.inbuf <+: t'.inbuf ∧ t'.newW = t.newW ∧ t'.newH = t.newH
        ∧ (ev.Type_ = EventType.EventResize → ev.Width = t.newW ∧ ev.Height = t.newH) := by
  intro ready
  induction ready with
  | nil =>
    intro t data event h
    simp [rawLoop] at h
  | cons r rest ih =>
    intro t data event h
    cases r with
    | input d err =>
      cases err with
      | some e =>
        simp only [rawLoop, PollOutcome.returned.injEq] at h
        have hty : ev.Type_ = EventType.EventError := by
          rw [← h.1]
          rfl
        rcases hoob with h' | h' | h' <;> rw [hty] at h' <;> exact EventType.noConfusion h'
      | none =>
        simp only [rawLoop] at h
        unfold extract_raw_event at h
        dsimp only at h
        split at h
        · simp only [Bool.false_eq_true, if_false] at h
          obtain ⟨a1, a2, a3, a4⟩ := ih _ _ _ h
          exact ⟨List.IsPrefix.trans (List.prefix_append _ _) a1, a2, a3, a4⟩
        · split at h
          · simp only [Bool.false_eq_true, if_false] at h
            obtain ⟨a1, a2, a3, a4⟩ := ih _ _ _ h
            exact ⟨List.IsPrefix.trans (List.prefix_append _ _) a1, a2, a3, a4⟩
          · simp only [if_true, PollOutcome.returned.injEq] at h
            have hty : ev.Type_ = EventType.EventRaw := by
              rw [← h.1]
            rcases hoob with h' | h' | h' <;> rw [hty] at h' <;>
              exact EventType.noConfusion h'
    | interrupt =>
      simp only [rawLoop, PollOutcome.returned.injEq] at h
      obtain ⟨h1, h2⟩ := h
      subst h2
      refine ⟨List.prefix_refl _, rfl, rfl, ?_⟩
      intro hr
      rw [← h1] at hr
      exact EventType.noConfusion hr
    | resize =>
      simp only [rawLoop, PollOutcome.returned.injEq] at h
      obtain ⟨h1, h2⟩ := h
      subst h2
      refine ⟨List.prefix_refl _, rfl, rfl, ?_⟩
      intro _
      rw [← h1]
      exact ⟨rfl, rfl⟩
    | cancel =>
      simp only [rawLoop] at h
      exact ih t data event h

theorem extract_raw_event_spec (t : Termbox) (data : Bytes) (e : Event) :
    extract_raw_event t data e = (t, data, e, false)
      ∨ ((extract_raw_event t data e).2.2.2 = true
          ∧ (extract_raw_event t data e).2.2.1.Type_ = EventType.EventRaw) := by
  unfold extract_raw_event
  split
  · exact Or.inl rfl
  · split
    · exact Or.inl rfl
    · exact Or.inr ⟨rfl, rfl⟩

theorem PollRawEvent_out_of_band (ev : Event) (t t' : Termbox) (data : Bytes)
    (ready : List Ready)
    (hoob : ev.Type_ = EventType.EventInterrupt ∨ ev.Type_ = EventType.EventResize
      ∨ ev.Type_ = EventType.EventCancel)
    (h : (PollRawEvent t data ready).1 = PollOutcome.returned ev t') :
    t.inbuf <+: t'.inbuf ∧ t'.newW = t.newW ∧ t'.newH = t.newH
      ∧ (ev.Type_ = EventType.EventResize → ev.Width = t.newW ∧ ev.Height = t.newH) := by
  unfold PollRawEvent at h
  split at h
  · simp at h
  · rcases extract_raw_event_spec t data (Event.ofType EventType.EventKey) with hx | ⟨hok, hty⟩
    · rw [hx] at h
      simp only [Bool.false_eq_true, if_false] at h
      exact rawLoop_out_of_band ev t' hoob ready t data _ h
    · generalize extract_raw_event t data (Event.ofType EventType.EventKey) = r at h hok hty
      obtain ⟨t2, d2, e2, ok2⟩ := r
      simp only at hok hty h
      subst hok
      simp only [if_true, PollOutcome.returned.injEq] at h
      rw [h.1] at hty
      rcases hoob with h' | h' | h' <;> rw [hty] at h' <;> exact EventType.noConfusion h'
/-- C20: out-of-band events never consume input. Whenever `PollEvent`,
`PollEventWithContext` or `PollRawEvent` returns an Interrupt, Resize or Cancel
event, the accumulation buffer at the call is a prefix of the buffer at the
return, so no byte of it has been removed or altered; a Resize event carries
the pending width and height, which are those of the latest `Resize` call. -/
theorem out_of_band_events_keep_input (c : Consts) (t t' : Termbox) (data : Bytes)
    (ready : List Ready) (ev : Event)
    (hoob : ev.Type_ = EventType.EventInterrupt ∨ ev.Type_ = EventType.EventResize
      ∨ ev.Type_ = EventType.EventCancel)
    (hret : PollEvent c t ready = PollOutcome.returned ev t'
      ∨ PollEventWithContext c t ready = PollOutcome.returned ev t'
      ∨ (PollRawEvent t data ready).1 = PollOutcome.returned ev t') :
    t.inbuf <+: t'.inbuf
      ∧ (ev.Type_ = EventType.EventResize → ev.Width = t.newW ∧ ev.Height = t.newH)
      ∧ (∀ t0 rc w h, t = (Resize t0 rc w h).t → ev.Type_ = EventType.EventResize →
          ev.Width = w ∧ ev.Height = h) := by
  have key : t.inbuf <+: t'.inbuf ∧ t'.newW = t.newW ∧ t'.newH = t.newH
      ∧ (ev.Type_ = EventType.EventResize → ev.Width = t.newW ∧ ev.Height = t.newH) := by
    rcases hret with h | h | h
    · exact pollEventBody_out_of_band c false ev t t' ready hoob h
    · exact pollEventBody_out_of_band c true ev t t' ready hoob h
    · exact PollRawEvent_out_of_band ev t t' data ready hoob h
  obtain ⟨k1, _, _, k4⟩ := key
  refine ⟨k1, k4, ?_⟩
  intro t0 rc w h ht hr
  have hst := Resize_state t0 rc w h
  have hv := k4 hr
  rw [ht, hst] at hv
  exact hv

/-- An instance of C20: the buffer holds the first two bytes `E2 82` of a
three-byte character; an input of `A` arrives, which does not complete it, and
then a resize signal. `PollEvent` returns a Resize event with the pending size
`2 × 1`, and the buffer `E2 82 41` at the return starts with the buffer of
before. -/
theorem out_of_band_events_keep_input_witness :
    PollEvent termboxConsts { sampleTermbox with inbuf := [0xE2, 0x82] }
        [Ready.input [0x41] none, Ready.resize]
      = PollOutcome.returned
          { Event.ofType EventType.EventKey with
            Type_ := EventType.EventResize, Width := 2, Height := 1 }
          { sampleTermbox with inbuf := [0xE2, 0x82, 0x41] }
      ∧ ([0xE2, 0x82] : Bytes) <+: [0xE2, 0x82, 0x41] :=
  ⟨by decide,
   (out_of_band_events_keep_input termboxConsts
      { sampleTermbox with inbuf := [0xE2, 0x82] }
      { sampleTermbox with inbuf := [0xE2, 0x82, 0x41] } []
      [Ready.input [0x41] none, Ready.resize]
      { Event.ofType EventType.EventKey with
        Type_ := EventType.EventResize, Width := 2, Height := 1 }
      (Or.inr (Or.inl rfl)) (Or.inl (by decide))).1⟩

/-! ## The reader goroutine and the cancellable poll: claims C21 and C22 -/

/-- C21 at a read that fails with an error other than `io.EOF`: the reader
goroutine ends the process with `log.Fatal(err)` and offers nothing on
`input_comm`; the only values it ever offers carry no error. The poll loops do
have the path of the claim: a value with an error that arrives on `input_comm`
is returned as an event of type Error that carries it. -/
theorem read_error_is_fatal_in_reader (c : Consts) (withCtx : Bool) (buf data : Bytes)
    (n : Nat) (msg : String) (rest : List Ready) (t : Termbox) (event : Event) :
    readerStep buf n (some msg) = (if msg ≠ io_EOF then ReaderStep.fatal msg else ReaderStep.exit)
      ∧ readerStep buf n none = ReaderStep.offer ⟨buf.take n, none⟩
      ∧ readerStep [] 0 (some "connection reset by peer")
          = ReaderStep.fatal "connection reset by peer"
      ∧ pollLoop c withCtx (Ready.input data (some msg) :: rest) t event
          = PollOutcome.returned { Event.ofType EventType.EventError with Err := some msg } t
      ∧ (rawLoop (Ready.input data (some msg) :: rest) t buf event).1
          = PollOutcome.returned { Event.ofType EventType.EventError with Err := some msg } t := by
  refine ⟨rfl, rfl, by decide, ?_, ?_⟩
  · simp [pollLoop]
  · simp [rawLoop]

/-- C22: a cancellable poll returns on a fired token. In a state whose input mode
has the Esc or the Alt bit and whose accumulation buffer holds no decodable
event, `PollEventWithContext` whose `select` receives the end of the context
first (no input, interrupt or resize signal is taken before it) returns an
event of type Cancel, and the engine state, the accumulation buffer included,
is as before. -/
theorem cancelled_poll_returns_cancel (c : Consts) (t : Termbox) (rest : List Ready)
    (hmode : t.input_mode &&& c.InputEsc ≠ 0 ∨ t.input_mode &&& c.InputAlt ≠ 0)
    (hnone : ∀ e, extract_event c t.keys t.input_mode t.inbuf
      (Event.ofType EventType.EventKey) ≠ some (e, true)) :
    ∃ e0, extract_event c t.keys t.input_mode t.inbuf (Event.ofType EventType.EventKey)
        = some (e0, false)
      ∧ PollEventWithContext c t (Ready.cancel :: rest)
        = PollOutcome.returned { e0 with Type_ := EventType.EventCancel } t := by
  cases hx : extract_event c t.keys t.input_mode t.inbuf (Event.ofType EventType.EventKey) with
  | none => exact absurd hx (extract_event_isSome c t.keys t.input_mode hmode _ _)
  | some r =>
    obtain ⟨e0, ok⟩ := r
    cases ok with
    | true => exact absurd hx (hnone e0)
    | false =>
      refine ⟨e0, rfl, ?_⟩
      have hN := extract_event_fail_N c _ _ _ _ e0 rfl hx
      unfold PollEventWithContext pollEventBody
      rw [hx]
      simp only [consumeEvent_zero _ _ hN, Bool.false_eq_true, if_false, pollLoop, if_true]

/-- An instance of C22: the buffer holds the first two bytes `E2 82` of a
three-byte character, and the context is already cancelled. -/
theorem cancelled_poll_returns_cancel_witness :
    ∃ e0, extract_event termboxConsts sampleTermbox.keys 1 [0xE2, 0x82]
        (Event.ofType EventType.EventKey) = some (e0, false)
      ∧ PollEventWithContext termboxConsts { sampleTermbox with inbuf := [0xE2, 0x82] }
          [Ready.cancel]
        = PollOutcome.returned { e0 with Type_ := EventType.EventCancel }
            { sampleTermbox with inbuf := [0xE2, 0x82] } :=
  cancelled_poll_returns_cancel termboxConsts { sampleTermbox with inbuf := [0xE2, 0x82] } []
    (Or.inl (by decide))
    (fun e h => by
      have hx : extract_event termboxConsts sampleTermbox.keys 1 [0xE2, 0x82]
          (Event.ofType EventType.EventKey)
          = some (Event.ofType EventType.EventKey, false) := by decide
      rw [show extract_event termboxConsts
          ({ sampleTermbox with inbuf := [0xE2, 0x82] } : Termbox).keys
          ({ sampleTermbox with inbuf := [0xE2, 0x82] } : Termbox).input_mode
          ({ sampleTermbox with inbuf := [0xE2, 0x82] } : Termbox).inbuf
          (Event.ofType EventType.EventKey)
          = some (Event.ofType EventType.EventKey, false) from hx] at h
      simp at h)

/-! ## Style flags: claim C27 -/

theorem or_ne_zero (a b : Nat) : a ||| b ≠ 0 ↔ a ≠ 0 ∨ b ≠ 0 := by
  constructor
  · intro h
    by_contra hn
    simp only [not_or, ne_eq, not_not] at hn
    rw [hn.1, hn.2] at h
    exact h rfl
  · intro h h0
    have hbits : ∀ i, (a ||| b).testBit i = false := by
      intro i
      rw [h0]
      exact Nat.zero_testBit i
    simp only [Nat.testBit_or, Bool.or_eq_false_iff] at hbits
    rcases h with h | h
    · exact h (Nat.zero_of_testBit_eq_false fun i => (hbits i).1)
    · exact h (Nat.zero_of_testBit_eq_false fun i => (hbits i).2)

/-- C27: style-flag emission depends on which attribute carries the flag. For
every `(fg, bg)` that differs from the last emitted style, `send_attr` appends,
after the style reset and the colour sequence and in this order: the bold
capability exactly when `fg` has the bold flag, the blink capability exactly
when `bg` has the bold flag, the underline capability exactly when `fg` has the
underline flag, and the reverse capability exactly when `fg` or `bg` has the
reverse flag. The underline flag of `bg` is not read: changing it changes
nothing in what is written. -/
theorem style_flags_by_attribute (c : Consts) (t : Termbox) (fg bg : Attribute)
    (hch : ¬ (fg = t.lastfg ∧ bg = t.lastbg)) :
    (send_attr c t fg bg).outbuf
        = t.outbuf ++ t.func t_sgr0
            ++ colorBytes t.output_mode (maskColor t.output_mode fg)
                (maskColor t.output_mode bg)
            ++ (if fg &&& c.AttrBold ≠ 0 then t.func t_bold else [])
            ++ (if bg &&& c.AttrBold ≠ 0 then t.func t_blink else [])
            ++ (if fg &&& c.AttrUnderline ≠ 0 then t.func t_underline else [])
            ++ (if fg &&& c.AttrReverse ≠ 0 ∨ bg &&& c.AttrReverse ≠ 0 then t.func t_reverse
                else [])
      ∧ (fg &&& c.AttrUnderline = 0 →
          (send_attr c t fg bg).outbuf
            = t.outbuf ++ t.func t_sgr0
                ++ colorBytes t.output_mode (maskColor t.output_mode fg)
                    (maskColor t.output_mode bg)
                ++ (if fg &&& c.AttrBold ≠ 0 then t.func t_bold else [])
                ++ (if bg &&& c.AttrBold ≠ 0 then t.func t_blink else [])
                ++ (if fg &&& c.AttrReverse ≠ 0 ∨ bg &&& c.AttrReverse ≠ 0
                    then t.func t_reverse else [])) := by
  have hout := send_attr_outbuf c t fg bg hch
  have hrev : ((fg &&& c.AttrReverse) ||| (bg &&& c.AttrReverse) ≠ 0)
      ↔ (fg &&& c.AttrReverse ≠ 0 ∨ bg &&& c.AttrReverse ≠ 0) := or_ne_zero _ _
  have h1 : (send_attr c t fg bg).outbuf
      = t.outbuf ++ t.func t_sgr0
          ++ colorBytes t.output_mode (maskColor t.output_mode fg)
              (maskColor t.output_mode bg)
          ++ (if fg &&& c.AttrBold ≠ 0 then t.func t_bold else [])
          ++ (if bg &&& c.AttrBold ≠ 0 then t.func t_blink else [])
          ++ (if fg &&& c.AttrUnderline ≠ 0 then t.func t_underline else [])
          ++ (if fg &&& c.AttrReverse ≠ 0 ∨ bg &&& c.AttrReverse ≠ 0 then t.func t_reverse
              else []) := by
    rw [hout]
    unfold styleBytes
    simp only [hrev, List.append_assoc]
  refine ⟨h1, ?_⟩
  intro hu
  rw [h1]
  simp [hu]

/-- Instances of C27 with the termbox-go flags (bold `0x200`, underline `0x400`,
reverse `0x800`) and the capabilities `f` (reset), `g` (underline), `h` (bold),
`i` (blink), `j` (reverse): a bold and underlined foreground on a bold,
underlined and reversed background gives reset, bold, blink, underline,
reverse; an underlined background alone gives the reset only. -/
theorem style_flags_by_attribute_witness :
    (send_attr termboxConsts sampleStyled 0x600 0xE00).outbuf
        = [0x66, 0x68, 0x69, 0x67, 0x6A]
      ∧ (send_attr termboxConsts sampleStyled 0 0x400).outbuf = [0x66] := by
  have h1 := (style_flags_by_attribute termboxConsts sampleStyled 0x600 0xE00 (by decide)).1
  have h2 := (style_flags_by_attribute termboxConsts sampleStyled 0 0x400 (by decide)).2
    (by decide)
  rw [h1, h2]
  decide

/-! ## The size invariant: claim C23 -/

theorem Init_wf (c : Consts) (tb : Builtin) (term : Bytes) (w h : Nat) (t0 : Termbox)
    (hfit : w * h < 2 ^ 63) (h0 : Init c tb term w h = some (Except.ok t0)) :
    WellFormed t0 ∧ Size t0 = (w, h) ∧ t0.newW = w ∧ t0.newH = h
      ∧ t_enter_keypad < t0.funcs.length := by
  rcases Init_cases c tb term w h with ⟨e, _, hi⟩ | ⟨keys, funcs, _, hcase⟩
  · rw [hi] at h0
    injection h0 with h0
    exact Except.noConfusion h0
  · rcases hcase with ⟨_, hi⟩ | ⟨g, t1, hlen, hg, hi, _, hfu, hb, hf, htw, hth, hnw, hnh, _⟩
    · rw [hi] at h0
      exact Option.noConfusion h0
    · rw [hi] at h0
      injection h0 with h0
      injection h0 with h0
      subst h0
      rw [init_fits _ w h hfit] at hg
      injection hg with hg
      subst hg
      refine ⟨?_, ?_, hnw, hnh, by rw [hfu]; exact hlen⟩
      · unfold WellFormed
        rw [hb, hf, htw, hth]
        simp [cellbuf.clear]
      · unfold Size
        rw [htw, hth]

theorem SetCell_wf (t : Termbox) (x y ch : Int) (fg bg : Attribute) (hwf : WellFormed t) :
    ∃ t', SetCell t x y ch fg bg = some t' ∧ WellFormed t' := by
  obtain ⟨bw, bh, fw, fh, bl, fl⟩ := hwf
  unfold SetCell
  split
  · exact ⟨t, rfl, bw, bh, fw, fh, bl, fl⟩
  · split
    · exact ⟨t, rfl, bw, bh, fw, fh, bl, fl⟩
    · rename_i hx hy
      have hx0 : 0 ≤ x := by omega
      have hy0 : 0 ≤ y := by omega
      obtain ⟨xn, rfl⟩ := Int.eq_ofNat_of_zero_le hx0
      obtain ⟨yn, rfl⟩ := Int.eq_ofNat_of_zero_le hy0
      have hxw : xn < t.back_buffer.width := by omega
      have hyh : yn < t.back_buffer.height := by omega
      have hidx : ((yn : Int) * (t.back_buffer.width : Int) + (xn : Int)).toNat
          = yn * t.back_buffer.width + xn := by
        have : (yn : Int) * (t.back_buffer.width : Int) + (xn : Int)
            = ((yn * t.back_buffer.width + xn : Nat) : Int) := by push_cast; rfl
        rw [this, Int.toNat_ofNat]
      have hlt : yn * t.back_buffer.width + xn < t.back_buffer.cells.length := by
        rw [bl, ← bw, ← bh, Nat.mul_comm t.back_buffer.width]
        exact (row_index_lt t.back_buffer.width xn yn t.back_buffer.height hxw).2 hyh
      dsimp only
      rw [hidx, if_pos hlt]
      refine ⟨_, rfl, ?_⟩
      unfold WellFormed
      simp only [setBack, List.length_set]
      exact ⟨bw, bh, fw, fh, bl, fl⟩

theorem SetCursor_bufs (t : Termbox) (x y : Int) :
    (SetCursor t x y).back_buffer = t.back_buffer
      ∧ (SetCursor t x y).front_buffer = t.front_buffer
      ∧ (SetCursor t x y).termw = t.termw ∧ (SetCursor t x y).termh = t.termh
      ∧ (SetCursor t x y).newW = t.newW ∧ (SetCursor t x y).newH = t.newH := by
  unfold SetCursor write_cursor
  dsimp only
  repeat' split
  all_goals exact ⟨rfl, rfl, rfl, rfl, rfl, rfl⟩

/-! ## The capability table is never written -/

theorem send_attr_funcs (c : Consts) (t : Termbox) (fg bg : Attribute) :
    (send_attr c t fg bg).funcs = t.funcs := by
  rw [send_attr_eq]

theorem send_clear_funcs (c : Consts) (t : Termbox) : (send_clear c t).funcs = t.funcs := by
  rw [send_clear_eq]

theorem flushCell_funcs (c : Consts) (rw : Int → Nat) (amb : Int → Bool) (t t' : Termbox)
    (x y w : Nat) (h : flushCell c rw amb t x y = some (t', w)) : t'.funcs = t.funcs := by
  cases hb : t.back_buffer.cells[y * t.front_buffer.width + x]? with
  | none => simp [flushCell, hb] at h
  | some back0 =>
    cases hf : t.front_buffer.cells[y * t.front_buffer.width + x]? with
    | none => simp [flushCell, hb, hf] at h
    | some front =>
      simp only [flushCell, hb, hf] at h
      have hta : (if back0.Ch < 32
          then setBack t (y * t.front_buffer.width + x) (normCell back0) else t).funcs
          = t.funcs := by
        split <;> rfl
      generalize (if back0.Ch < 32 then setBack t (y * t.front_buffer.width + x) (normCell back0)
        else t) = ta at h hta
      repeat' split at h
      all_goals first
        | (solve | simp at h)
        | (simp only [Option.some.injEq, Prod.mk.injEq] at h
           obtain ⟨h1, _⟩ := h
           subst h1
           first
            | exact hta
            | exact (send_attr_funcs c _ _ _).trans hta)

theorem flushRow_funcs (c : Consts) (rw : Int → Nat) (amb : Int → Bool) (y : Nat) :
    ∀ (fuel x : Nat) (t t1 : Termbox), flushRow c rw amb y fuel x t = some t1 →
      t1.funcs = t.funcs := by
  intro fuel
  induction fuel with
  | zero =>
    intro x t t1 h
    unfold flushRow at h
    split at h
    · simp at h
    · rw [← Option.some.inj h]
  | succ fuel ih =>
    intro x t t1 h
    unfold flushRow at h
    split at h
    · cases hc : flushCell c rw amb t x y with
      | none => simp [hc] at h
      | some r =>
        obtain ⟨t', w⟩ := r
        simp only [hc] at h
        exact (ih (x + w) t' t1 h).trans (flushCell_funcs c rw amb t t' x y w hc)
    · rw [← Option.some.inj h]

theorem flushRows_funcs (c : Consts) (rw : Int → Nat) (amb : Int → Bool) :
    ∀ (n y : Nat) (t t1 : Termbox), flushRows c rw amb n y t = some t1 →
      t1.funcs = t.funcs := by
  intro n
  induction n with
  | zero =>
    intro y t t1 h
    simp only [flushRows, Option.some.injEq] at h
    rw [← h]
  | succ n ih =>
    intro y t t1 h
    unfold flushRows at h
    cases hr : flushRow c rw amb y t.front_buffer.width 0 t with
    | none => simp [hr] at h
    | some t' =>
      simp only [hr] at h
      exact (ih (y + 1) t' t1 h).trans (flushRow_funcs c rw amb y _ 0 t t' hr)

theorem update_size_maybe_funcs (c : Consts) (t tu : Termbox)
    (h : update_size_maybe c t = some tu) : tu.funcs = t.funcs := by
  unfold update_size_maybe at h
  dsimp only at h
  split at h
  · split at h
    · simp at h
    · split at h
      · simp at h
      · simp only [Option.some.injEq] at h
        subst h
        rw [send_clear_funcs]
  · rw [← Option.some.inj h]

theorem Flush_funcs (c : Consts) (rw : Int → Nat) (amb : Int → Bool) (t t1 : Termbox)
    (h : Flush c rw amb t = some t1) : t1.funcs = t.funcs := by
  unfold Flush at h
  dsimp only at h
  cases hu : update_size_maybe c { t with lastx := coord_invalid, lasty := coord_invalid } with
  | none => simp [hu] at h
  | some tu =>
    simp only [hu] at h
    cases hr : flushRows c rw amb tu.front_buffer.height 0 tu with
    | none => simp [hr] at h
    | some tr =>
      simp only [hr, Option.some.injEq] at h
      have e : t1.funcs = tr.funcs := by
        rw [← h]
        unfold finishFlush flush write_cursor
        split <;> rfl
      rw [e, flushRows_funcs c rw amb _ 0 tu tr hr, update_size_maybe_funcs c _ tu hu]

theorem Clear_funcs (c : Consts) (t t1 : Termbox) (fg bg : Attribute)
    (h : Clear c t fg bg = some t1) : t1.funcs = t.funcs := by
  unfold Clear at h
  dsimp only at h
  cases hu : update_size_maybe c { t with foreground := fg, background := bg } with
  | none => simp [hu] at h
  | some tu =>
    simp only [hu, Option.some.injEq] at h
    rw [← h]
    exact update_size_maybe_funcs c { t with foreground := fg, background := bg } tu hu

theorem Sync_funcs (c : Consts) (rw : Int → Nat) (amb : Int → Bool) (t t1 : Termbox)
    (h : Sync c rw amb t = some t1) : t1.funcs = t.funcs := by
  unfold Sync at h
  dsimp only at h
  rw [Flush_funcs c rw amb _ t1 h, send_clear_funcs]

theorem SetCell_funcs (t t1 : Termbox) (x y ch : Int) (fg bg : Attribute)
    (h : SetCell t x y ch fg bg = some t1) :
    t1.funcs = t.funcs ∧ t1.newW = t.newW ∧ t1.newH = t.newH := by
  unfold SetCell at h
  split at h
  · rw [← Option.some.inj h]
    exact ⟨rfl, rfl, rfl⟩
  · split at h
    · rw [← Option.some.inj h]
      exact ⟨rfl, rfl, rfl⟩
    · dsimp only at h
      split at h
      · rw [← Option.some.inj h]
        exact ⟨rfl, rfl, rfl⟩
      · exact Option.noConfusion h

theorem SetCursor_funcs (t : Termbox) (x y : Int) : (SetCursor t x y).funcs = t.funcs := by
  unfold SetCursor write_cursor
  dsimp only
  repeat' split
  all_goals rfl

/-! ## The invariant in the reachable states -/

/-- After a `Flush` that returned no resize is pending. -/
theorem Flush_synced (c : Consts) (rw : Int → Nat) (amb : Int → Bool) (t t1 : Termbox)
    (h : Flush c rw amb t = some t1) : t1.newW = t1.termw ∧ t1.newH = t1.termh := by
  unfold Flush at h
  dsimp only at h
  cases hu : update_size_maybe c { t with lastx := coord_invalid, lasty := coord_invalid } with
  | none => simp [hu] at h
  | some tu =>
    simp only [hu] at h
    cases hr : flushRows c rw amb tu.front_buffer.height 0 tu with
    | none => simp [hr] at h
    | some tr =>
      simp only [hr, Option.some.injEq] at h
      obtain ⟨hs, _⟩ := flushRows_frame c rw amb _ 0 tu tr hr
      obtain ⟨_, _, htw, hth, hnw, hnh, _⟩ := hs
      obtain ⟨u1, u2⟩ := update_size_maybe_synced c _ tu hu
      have e : t1.newW = tr.newW ∧ t1.newH = tr.newH ∧ t1.termw = tr.termw
          ∧ t1.termh = tr.termh := by
        rw [← h]
        unfold finishFlush flush write_cursor
        split <;> exact ⟨rfl, rfl, rfl, rfl⟩
      obtain ⟨e1, e2, e3, e4⟩ := e
      exact ⟨by rw [e1, e3, hnw, htw, u1], by rw [e2, e4, hnh, hth, u2]⟩

/-- The size invariant with a pending size that fits survives `Flush`, which
returns. -/
theorem Flush_inv (c : Consts) (rw : Int → Nat) (amb : Int → Bool) (t : Termbox)
    (hwf : WellFormed t) (hfit : t.newW * t.newH < 2 ^ 63) :
    ∃ t1, Flush c rw amb t = some t1 ∧ WellFormed t1 ∧ t1.newW * t1.newH < 2 ^ 63 := by
  obtain ⟨t1, h1, hw1, e1, e2, _⟩ := Flush_adopts_size c rw amb t hwf hfit
  obtain ⟨s1, s2⟩ := Flush_synced c rw amb t t1 h1
  exact ⟨t1, h1, hw1, by rw [s1, s2, e1, e2]; exact hfit⟩

/-- The size invariant with a pending size that fits survives `Clear`, which
returns. -/
theorem Clear_inv (c : Consts) (t : Termbox) (fg bg : Attribute)
    (hwf : WellFormed t) (hfit : t.newW * t.newH < 2 ^ 63) :
    ∃ t1, Clear c t fg bg = some t1 ∧ WellFormed t1 ∧ t1.newW * t1.newH < 2 ^ 63 := by
  obtain ⟨t1, h1, hw1, e1, e2, _⟩ := Clear_adopts_size c t fg bg hwf hfit
  refine ⟨t1, h1, hw1, ?_⟩
  unfold Clear at h1
  dsimp only at h1
  cases hu : update_size_maybe c { t with foreground := fg, background := bg } with
  | none => simp [hu] at h1
  | some tu =>
    simp only [hu, Option.some.injEq] at h1
    obtain ⟨u1, u2⟩ := update_size_maybe_synced c _ tu hu
    have e : t1.newW = tu.newW ∧ t1.newH = tu.newH ∧ t1.termw = tu.termw
        ∧ t1.termh = tu.termh := by
      rw [← h1]
      exact ⟨rfl, rfl, rfl, rfl⟩
    obtain ⟨f1, f2, f3, f4⟩ := e
    have a1 : t1.newW = t.newW := by rw [f1, u1, ← f3, e1]
    have a2 : t1.newH = t.newH := by rw [f2, u2, ← f4, e2]
    rw [a1, a2]
    exact hfit

/-- The size invariant with a pending size that fits survives `Sync`, which
returns. -/
theorem Sync_inv (c : Consts) (rw : Int → Nat) (amb : Int → Bool) (t : Termbox)
    (hwf : WellFormed t) (hfit : t.newW * t.newH < 2 ^ 63) :
    ∃ t1, Sync c rw amb t = some t1 ∧ WellFormed t1 ∧ t1.newW * t1.newH < 2 ^ 63 := by
  obtain ⟨bw, bh, fw, fh, bl, fl⟩ := hwf
  have hwf1 : WellFormed
      (send_clear c { t with front_buffer := t.front_buffer.clear t.foreground t.background }) := by
    rw [send_clear_eq]
    unfold WellFormed
    dsimp only
    exact ⟨bw, bh, fw, fh, bl, by simp [cellbuf.clear, fl]⟩
  have hfit1 : (send_clear c
        { t with front_buffer := t.front_buffer.clear t.foreground t.background }).newW
      * (send_clear c
        { t with front_buffer := t.front_buffer.clear t.foreground t.background }).newH
      < 2 ^ 63 := by
    rw [send_clear_eq]
    exact hfit
  exact Flush_inv c rw amb _ hwf1 hfit1

/-- The invariant `WellFormed`, with a pending size whose product is below
`2^63` and a function table that has the entries up to `t_enter_keypad`, holds
in every state reached from the result of `Init`. -/
theorem SizeReachable_wf (c : Consts) (rw : Int → Nat) (amb : Int → Bool) (tb : Builtin)
    (term : Bytes) (w h : Nat) (t0 t : Termbox) (hfit : w * h < 2 ^ 63)
    (h0 : Init c tb term w h = some (Except.ok t0))
    (hr : SizeReachable c rw amb t0 t) :
    WellFormed t ∧ t.newW * t.newH < 2 ^ 63 ∧ t_enter_keypad < t.funcs.length := by
  induction hr with
  | init =>
    obtain ⟨a1, _, a3, a4, a5⟩ := Init_wf c tb term w h t0 hfit h0
    exact ⟨a1, by rw [a3, a4]; exact hfit, a5⟩
  | setCell t t' x y ch fg bg _ hs ih =>
    obtain ⟨t'', h1, hw⟩ := SetCell_wf t x y ch fg bg ih.1
    rw [h1] at hs
    have := Option.some.inj hs
    subst this
    obtain ⟨n1, n2, n3⟩ := SetCell_funcs t t'' x y ch fg bg h1
    exact ⟨hw, by rw [n2, n3]; exact ih.2.1, by rw [n1]; exact ih.2.2⟩
  | clear t t' fg bg _ hs ih =>
    obtain ⟨t'', h1, hw, hf⟩ := Clear_inv c t fg bg ih.1 ih.2.1
    rw [h1] at hs
    have := Option.some.inj hs
    subst this
    exact ⟨hw, hf, by rw [Clear_funcs c t t'' fg bg h1]; exact ih.2.2⟩
  | flush t t' _ hs ih =>
    obtain ⟨t'', h1, hw, hf⟩ := Flush_inv c rw amb t ih.1 ih.2.1
    rw [h1] at hs
    have := Option.some.inj hs
    subst this
    exact ⟨hw, hf, by rw [Flush_funcs c rw amb t t'' h1]; exact ih.2.2⟩
  | sync t t' _ hs ih =>
    obtain ⟨t'', h1, hw, hf⟩ := Sync_inv c rw amb t ih.1 ih.2.1
    rw [h1] at hs
    have := Option.some.inj hs
    subst this
    exact ⟨hw, hf, by rw [Sync_funcs c rw amb t t'' h1]; exact ih.2.2⟩
  | setCursor t x y _ ih =>
    obtain ⟨b1, b2, b3, b4, b5, b6⟩ := SetCursor_bufs t x y
    refine ⟨?_, by rw [b5, b6]; exact ih.2.1, by rw [SetCursor_funcs]; exact ih.2.2⟩
    unfold WellFormed
    rw [b1, b2, b3, b4]
    exact ih.1
  | resize t rc w' h' _ hfit' ih =>
    rw [Resize_state]
    exact ⟨ih.1, hfit', ih.2.2⟩

/-- C23 as stated fails: the number of cells of a grid is the product of the
sizes computed in `int`. `Init("xterm", 2^32, 2^32)` returns an engine whose
`Size()` is `(2^32, 2^32)` and whose grids hold no cell, because the product
wraps to 0, and `Flush` on it panics at the first cell index. After
`Resize(0xFFFFFFFF, 0xFFFFFFFF)` on the engine `sampleInit` of size 2 × 1
`Flush` panics as well, in `make`, because the product wraps to a negative
length. -/
theorem wrapping_size_breaks_size_invariant :
    (∃ t0, Init termboxConsts sampleBuiltin (ascii "xterm") (2 ^ 32) (2 ^ 32)
          = some (Except.ok t0)
        ∧ Size t0 = (2 ^ 32, 2 ^ 32)
        ∧ t0.back_buffer.cells.length = 0
        ∧ t0.back_buffer.cells.length ≠ t0.back_buffer.width * t0.back_buffer.height
        ∧ Flush termboxConsts (fun _ => 1) (fun _ => false) t0 = none)
      ∧ Init termboxConsts sampleBuiltin (ascii "xterm") 2 1 = some (Except.ok sampleInit)
      ∧ Flush termboxConsts (fun _ => 1) (fun _ => false)
          (Resize sampleInit 0 0xFFFFFFFF 0xFFFFFFFF).t = none := by
  refine ⟨⟨_, rfl, by decide, by decide, by decide, by decide⟩, rfl, by decide⟩

/-- C23, amended: the size invariant of the engine. In every state reached from
the result of `Init(w, h)` with `w*h < 2^63` by calls of `SetCell`, `Clear`,
`Flush`, `Sync`, `SetCursor` and `Resize` with sizes whose product is below
`2^63`, the back grid and the front grid have the width and the height that
`Size()` reports, and each holds `width * height` cells. Hence every index
`y * width + x` of a cell inside the grid, and the index of the following cell
when `x + 1 < width`, is within both cell sequences, and `Flush` returns
without an index panic; so do `SetCell`, `Clear` and `Sync`. The function table
of such a state has the entries up to `t_enter_keypad`, among them every entry
that these calls read. -/
theorem size_invariant (c : Consts) (rw : Int → Nat) (amb : Int → Bool) (tb : Builtin)
    (term : Bytes) (w h : Nat) (t0 t : Termbox) (hfit : w * h < 2 ^ 63)
    (h0 : Init c tb term w h = some (Except.ok t0))
    (hr : SizeReachable c rw amb t0 t) :
    Size t0 = (w, h)
      ∧ t.back_buffer.width = (Size t).1 ∧ t.back_buffer.height = (Size t).2
      ∧ t.front_buffer.width = (Size t).1 ∧ t.front_buffer.height = (Size t).2
      ∧ t.back_buffer.cells.length = t.back_buffer.width * t.back_buffer.height
      ∧ t.front_buffer.cells.length = t.front_buffer.width * t.front_buffer.height
      ∧ (∀ x y, x < t.front_buffer.width → y < t.front_buffer.height →
          y * t.front_buffer.width + x < t.back_buffer.cells.length
          ∧ y * t.front_buffer.width + x < t.front_buffer.cells.length
          ∧ (x + 1 < t.front_buffer.width →
              y * t.front_buffer.width + x + 1 < t.front_buffer.cells.length))
      ∧ (∃ t1, Flush c rw amb t = some t1)
      ∧ (∀ x y ch fg bg, ∃ t1, SetCell t x y ch fg bg = some t1)
      ∧ (∀ fg bg, ∃ t1, Clear c t fg bg = some t1)
      ∧ (∃ t1, Sync c rw amb t = some t1)
      ∧ t_enter_keypad < t.funcs.length := by
  obtain ⟨hwf, hpend, hfuncs⟩ := SizeReachable_wf c rw amb tb term w h t0 t hfit h0 hr
  obtain ⟨bw, bh, fw, fh, bl, fl⟩ := hwf
  refine ⟨(Init_wf c tb term w h t0 hfit h0).2.1, bw, bh, fw, fh, by rw [bl, bw, bh],
    by rw [fl, fw, fh], ?_, ?_, ?_, ?_, ?_, hfuncs⟩
  · intro x y hx hy
    have h1 : y * t.front_buffer.width + x < t.front_buffer.height * t.front_buffer.width :=
      (row_index_lt t.front_buffer.width x y t.front_buffer.height hx).2 hy
    have hlen : t.front_buffer.height * t.front_buffer.width = t.termw * t.termh := by
      rw [fw, fh, Nat.mul_comm]
    refine ⟨by rw [bl, ← hlen]; exact h1, by rw [fl, ← hlen]; exact h1, ?_⟩
    intro hx1
    have h2 : y * t.front_buffer.width + (x + 1)
        < t.front_buffer.height * t.front_buffer.width :=
      (row_index_lt t.front_buffer.width (x + 1) y t.front_buffer.height hx1).2 hy
    rw [fl, ← hlen]
    exact h2
  · obtain ⟨t1, h1, _⟩ := Flush_inv c rw amb t ⟨bw, bh, fw, fh, bl, fl⟩ hpend
    exact ⟨t1, h1⟩
  · intro x y ch fg bg
    obtain ⟨t1, h1, _⟩ := SetCell_wf t x y ch fg bg ⟨bw, bh, fw, fh, bl, fl⟩
    exact ⟨t1, h1⟩
  · intro fg bg
    obtain ⟨t1, h1, _⟩ := Clear_inv c t fg bg ⟨bw, bh, fw, fh, bl, fl⟩ hpend
    exact ⟨t1, h1⟩
  · obtain ⟨t1, h1, _⟩ := Sync_inv c rw amb t ⟨bw, bh, fw, fh, bl, fl⟩ hpend
    exact ⟨t1, h1⟩

/-- An instance of C23: `Init` with the name `xterm` and the size 2 × 1 returns
the engine `sampleInit`; after a `Resize(3, 1)` the grids still hold `2 * 1`
cells, and `Flush` returns, with an engine of size `(3, 1)` whose grids hold
three cells each. -/
theorem size_invariant_witness :
    Init termboxConsts sampleBuiltin (ascii "xterm") 2 1 = some (Except.ok sampleInit)
      ∧ (Resize sampleInit 0 3 1).t.back_buffer.cells.length
        = (Resize sampleInit 0 3 1).t.back_buffer.width
            * (Resize sampleInit 0 3 1).t.back_buffer.height
      ∧ (∃ t1, Flush termboxConsts (fun _ => 1) (fun _ => false) (Resize sampleInit 0 3 1).t
          = some t1)
      ∧ (Flush termboxConsts (fun _ => 1) (fun _ => false) (Resize sampleInit 0 3 1).t).map
          (fun t1 => (Size t1, t1.back_buffer.cells.length, t1.front_buffer.cells.length))
        = some ((3, 1), 3, 3) :=
  ⟨rfl,
   (size_invariant termboxConsts (fun _ => 1) (fun _ => false) sampleBuiltin (ascii "xterm")
      2 1 sampleInit (Resize sampleInit 0 3 1).t (by decide) rfl
      (SizeReachable.resize _ 0 3 1 SizeReachable.init (by decide))).2.2.2.2.2.1,
   (size_invariant termboxConsts (fun _ => 1) (fun _ => false) sampleBuiltin (ascii "xterm")
      2 1 sampleInit (Resize sampleInit 0 3 1).t (by decide) rfl
      (SizeReachable.resize _ 0 3 1 SizeReachable.init (by decide))).2.2.2.2.2.2.2.2.1,
   by decide⟩

/-! ## Malformed mouse reports: claim C24 -/

theorem parseDigits_all (s : Bytes) :
    ∀ acc, parseDigits s acc ≠ none → s.all isDigit = true := by
  induction s with
  | nil => intro _ _; rfl
  | cons b rest ih =>
    intro acc h
    unfold parseDigits at h
    split at h
    · rename_i hb
      simp only [List.all_cons, Bool.and_eq_true]
      exact ⟨by simp [isDigit, hb], ih _ h⟩
    · exact absurd rfl h

theorem ParseInt_decimal (s : Bytes) (h : ParseInt s ≠ none) : isDecimalInt s = true := by
  unfold ParseInt at h
  split at h
  · exact absurd rfl h
  · rename_i b rest
    dsimp only at h
    simp only [isDecimalInt]
    by_cases hs : b = 43 ∨ b = 45
    · rw [if_pos hs] at h
      rw [if_pos hs]
      cases rest with
      | nil => exact absurd rfl h
      | cons d ds =>
        simp only at h
        cases hp : parseDigits (d :: ds) 0 with
        | none => simp [hp] at h
        | some v =>
          have := parseDigits_all (d :: ds) 0 (by rw [hp]; simp)
          simp only [List.isEmpty_cons, Bool.not_false, Bool.true_and]
          exact this
    · rw [if_neg hs] at h
      rw [if_neg hs]
      simp only at h
      cases hp : parseDigits (b :: rest) 0 with
      | none => simp [hp] at h
      | some v => exact parseDigits_all (b :: rest) 0 (by rw [hp]; simp)

theorem isDecimalInt_noSemi (s : Bytes) (h : isDecimalInt s = true) : 0x3B ∉ s := by
  unfold isDecimalInt at h
  split at h
  · simp at h
  · rename_i b rest
    intro hm
    have hdig : ∀ x ∈ rest, isDigit x = true → x ≠ 0x3B := by
      intro x _ hx hx2
      subst hx2
      simp [isDigit] at hx
    split at h
    · rename_i hs
      simp only [Bool.and_eq_true, List.all_eq_true] at h
      rcases List.mem_cons.1 hm with h1 | h1
      · omega
      · exact hdig _ h1 (h.2 _ h1) rfl
    · simp only [List.all_cons, Bool.and_eq_true, List.all_eq_true] at h
      rcases List.mem_cons.1 hm with h1 | h1
      · rw [← h1] at h
        simp [isDigit] at h
      · exact hdig _ h1 (h.2 _ h1) rfl

theorem Index_spec (s : Bytes) (c i : Nat) (h : Index s c = some i) :
    s = s.take i ++ c :: s.drop (i + 1) ∧ c ∉ s.take i := by
  induction s generalizing i with
  | nil => simp [Index] at h
  | cons b rest ih =>
    unfold Index at h
    split at h
    · rename_i hb
      simp only [Option.some.injEq] at h
      subst h
      subst hb
      simp
    · rename_i hb
      split at h
      · rename_i k hk
        simp only [Option.some.injEq] at h
        subst h
        obtain ⟨h1, h2⟩ := ih k hk
        refine ⟨?_, ?_⟩
        · simp only [List.take_succ_cons, List.drop_succ_cons, List.cons_append]
          rw [← h1]
        · simp only [List.take_succ_cons, List.mem_cons, not_or]
          exact ⟨fun hc => hb hc.symm, h2⟩
      · simp at h

theorem LastIndex_spec (s : Bytes) (c j : Nat) (h : LastIndex s c = some j) :
    s = s.take j ++ c :: s.drop (j + 1) ∧ c ∉ s.drop (j + 1) := by
  induction s generalizing j with
  | nil => simp [LastIndex] at h
  | cons b rest ih =>
    unfold LastIndex at h
    split at h
    · rename_i k hk
      simp only [Option.some.injEq] at h
      subst h
      obtain ⟨h1, h2⟩ := ih k hk
      refine ⟨?_, ?_⟩
      · simp only [List.take_succ_cons, List.drop_succ_cons, List.cons_append]
        rw [← h1]
      · simpa using h2
    · rename_i hk
      split at h
      · rename_i hb
        simp only [Option.some.injEq] at h
        subst h
        subst hb
        refine ⟨by simp, ?_⟩
        simp only [Nat.zero_add, List.drop_succ_cons, List.drop_zero]
        intro hm
        obtain ⟨k, hk2⟩ : ∃ k, Index rest b = some k := by
          clear ih hk
          induction rest with
          | nil => simp at hm
          | cons a r ihr =>
            unfold Index
            by_cases ha : a = b
            · exact ⟨0, by simp [ha]⟩
            · have hr : b ∈ r := by
                rcases List.mem_cons.1 hm with h1 | h1
                · exact absurd h1.symm ha
                · exact h1
              obtain ⟨k, hk⟩ := ihr hr
              exact ⟨k + 1, by simp [ha, hk]⟩
        exact LastIndex_of_Index rest b k hk2 hk
      · simp at h
theorem get_of_split (s a b : Bytes) (c : Nat) (h : s = a ++ c :: b) :
    s[a.length]? = some c := by
  subst h
  rw [List.getElem?_append_right (Nat.le_refl _)]
  simp

/-- When `parseMouseFields` succeeds the text is three fields without a `;`,
separated by two `;`, and `ParseInt` accepts each of them. -/
theorem parseMouseFields_success (c : Consts) (e e' : Event) (isM isU : Bool) (mi n : Nat)
    (s : Bytes) (h : parseMouseFields c e isM isU mi s = some (e', n, true)) :
    ∃ f1 f2 f3, s = f1 ++ [0x3B] ++ f2 ++ [0x3B] ++ f3
      ∧ 0x3B ∉ f1 ∧ 0x3B ∉ f2 ∧ 0x3B ∉ f3
      ∧ ParseInt f1 ≠ none ∧ ParseInt f2 ≠ none ∧ ParseInt f3 ≠ none := by
  unfold parseMouseFields at h
  cases h1 : Index s 0x3B with
  | none => simp [h1] at h
  | some s1 =>
    cases h2 : LastIndex s 0x3B with
    | none => simp [h1, h2] at h
    | some s2 =>
      simp only [h1, h2] at h
      have l1 := Index_lt s _ _ h1
      have l2 := LastIndex_lt s _ _ h2
      have l3 := Index_le_LastIndex s _ _ _ h1 h2
      by_cases hs : s1 = s2
      · simp [hs] at h
      · have a1 : slice s 0 s1 = some (s.take s1) := by
          unfold slice
          rw [if_pos ⟨Nat.zero_le _, by omega⟩]
          simp
        have a2 : slice s (s1 + 1) s2 = some ((s.drop (s1 + 1)).take (s2 - (s1 + 1))) := by
          unfold slice
          rw [if_pos ⟨by omega, by omega⟩]
        have a3 : slice s (s2 + 1) s.length = some (s.drop (s2 + 1)) := by
          unfold slice
          rw [if_pos ⟨by omega, Nat.le_refl _⟩]
          simp
        simp only [hs, if_false, a1, a2, a3] at h
        obtain ⟨i1, i2⟩ := Index_spec s _ _ h1
        obtain ⟨j1, j2⟩ := LastIndex_spec s _ _ h2
        cases p1 : ParseInt (s.take s1) with
        | none => simp [p1] at h
        | some n1 =>
          cases p2 : ParseInt ((s.drop (s1 + 1)).take (s2 - (s1 + 1))) with
          | none => simp [p1, p2] at h
          | some n2 =>
            cases p3 : ParseInt (s.drop (s2 + 1)) with
            | none => simp [p1, p2, p3] at h
            | some n3 =>
              have hmid : s.drop (s1 + 1)
                  = (s.drop (s1 + 1)).take (s2 - (s1 + 1)) ++ 0x3B :: s.drop (s2 + 1) := by
                have hd : (s.drop (s1 + 1)).drop (s2 - (s1 + 1)) = s.drop s2 := by
                  rw [List.drop_drop]
                  congr 1
                  omega
                have hd2 : s.drop s2 = 0x3B :: s.drop (s2 + 1) := by
                  have hg := get_of_split s (s.take s2) (s.drop (s2 + 1)) 0x3B j1
                  rw [List.length_take, Nat.min_eq_left (Nat.le_of_lt l2),
                    List.getElem?_eq_getElem l2] at hg
                  rw [List.drop_eq_getElem_cons l2, Option.some.inj hg]
                rw [← hd2, ← hd, List.take_append_drop]
              refine ⟨s.take s1, (s.drop (s1 + 1)).take (s2 - (s1 + 1)), s.drop (s2 + 1),
                ?_, i2, ?_, j2, by rw [p1]; simp, by rw [p2]; simp, by rw [p3]; simp⟩
              · have := i1
                rw [hmid] at this
                simpa [List.append_assoc] using this
              · exact isDecimalInt_noSemi _ (ParseInt_decimal _ (by rw [p2]; simp))

theorem parseMouseFields_result (c : Consts) (e : Event) (isM isU : Bool) (mi : Nat)
    (s : Bytes) :
    parseMouseFields c e isM isU mi s = some (e, 0, false)
      ∨ ∃ e' n, parseMouseFields c e isM isU mi s = some (e', n, true) := by
  cases h : parseMouseFields c e isM isU mi s with
  | none => exact absurd h (parseMouseFields_isSome c e isM isU mi s)
  | some r =>
    obtain ⟨e', n, ok⟩ := r
    cases ok with
    | true => exact Or.inr ⟨e', n, rfl⟩
    | false =>
      obtain ⟨hn, he⟩ := parseMouseFields_fail c e e' isM isU mi s n h
      subst hn he
      exact Or.inl rfl

theorem sep_unique (c : Nat) (f g r r' : Bytes) (hf : c ∉ f) (hg : c ∉ g)
    (h : f ++ c :: r = g ++ c :: r') : f = g ∧ r = r' := by
  induction f generalizing g with
  | nil =>
    cases g with
    | nil => simpa using h
    | cons b g' =>
      simp only [List.nil_append, List.cons_append, List.cons.injEq] at h
      exact absurd (by simp [h.1]) hg
  | cons a f' ih =>
    cases g with
    | nil =>
      simp only [List.nil_append, List.cons_append, List.cons.injEq] at h
      exact absurd (by simp [h.1]) hf
    | cons b g' =>
      simp only [List.cons_append, List.cons.injEq] at h
      obtain ⟨h1, h2⟩ := ih g' (fun hm => hf (List.mem_cons_of_mem _ hm))
        (fun hm => hg (List.mem_cons_of_mem _ hm)) h.2
      exact ⟨by rw [h.1, h1], h2⟩

/-- A field text that does not consist of three fields, or one of whose three
fields is not the text of a decimal integer, makes `parseMouseFields` fail with
0 bytes consumed. -/
theorem parseMouseFields_malformed (c : Consts) (e : Event) (isM isU : Bool) (mi : Nat)
    (s : Bytes) :
    (s.count 0x3B ≠ 2 → parseMouseFields c e isM isU mi s = some (e, 0, false))
      ∧ (∀ f1 f2 f3, s = f1 ++ [0x3B] ++ f2 ++ [0x3B] ++ f3 →
          (isDecimalInt f1 = false ∨ isDecimalInt f2 = false ∨ isDecimalInt f3 = false) →
          parseMouseFields c e isM isU mi s = some (e, 0, false)) := by
  have hshape : ∀ e' n, parseMouseFields c e isM isU mi s = some (e', n, true) →
      s.count 0x3B = 2 := by
    intro e' n h
    obtain ⟨f1, f2, f3, hs, n1, n2, n3, _⟩ := parseMouseFields_success c e e' isM isU mi n s h
    rw [hs]
    simp [List.count_append, List.count_eq_zero_of_not_mem n1,
      List.count_eq_zero_of_not_mem n2, List.count_eq_zero_of_not_mem n3]
  constructor
  · intro hc
    rcases parseMouseFields_result c e isM isU mi s with h | ⟨e', n, h⟩
    · exact h
    · exact absurd (hshape e' n h) hc
  · intro g1 g2 g3 hs hbad
    rcases parseMouseFields_result c e isM isU mi s with h | ⟨e', n, h⟩
    · exact h
    · exfalso
      have hc := hshape e' n h
      obtain ⟨f1, f2, f3, hf, n1, n2, n3, p1, p2, p3⟩ :=
        parseMouseFields_success c e e' isM isU mi n s h
      have hcount : g1.count 0x3B + g2.count 0x3B + g3.count 0x3B = 0 := by
        rw [hs] at hc
        simp only [List.count_append, List.count_singleton_self] at hc
        omega
      have m1 : 0x3B ∉ g1 := fun hm => by
        have := List.count_pos_iff.2 hm
        omega
      have m2 : 0x3B ∉ g2 := fun hm => by
        have := List.count_pos_iff.2 hm
        omega
      have heq : f1 ++ 0x3B :: (f2 ++ 0x3B :: f3) = g1 ++ 0x3B :: (g2 ++ 0x3B :: g3) := by
        have := hf.symm.trans hs
        simpa [List.append_assoc] using this
      obtain ⟨e1, r1⟩ := sep_unique 0x3B f1 g1 _ _ n1 m1 heq
      obtain ⟨e2, e3⟩ := sep_unique 0x3B f2 g2 _ _ n2 m2 r1
      subst e1 e2 e3
      rcases hbad with hb | hb | hb
      · rw [ParseInt_decimal _ p1] at hb
        exact Bool.noConfusion hb
      · rw [ParseInt_decimal _ p2] at hb
        exact Bool.noConfusion hb
      · rw [ParseInt_decimal _ p3] at hb
        exact Bool.noConfusion hb
/-- Outside the X10 branch, a buffer that starts with `ESC [` and whose first
`M` or `m` is at index `mi` is parsed from its field text. -/
theorem parse_mouse_event_ext (c : Consts) (e : Event) (buf : Bytes) (mi : Nat)
    (hx10 : ¬ isX10Report buf) (hpre : [0x1B, 0x5B] <+: buf)
    (hi : IndexAny buf [0x4D, 0x6D] = some mi) :
    ∃ isM isU, parse_mouse_event c e buf
      = parseMouseFields c e isM isU mi (mouseFieldText buf mi) := by
  have hc1 : (HasPrefix buf [0x1B, 0x5B, 0x4D] && decide (buf.length ≥ 6)) = false := by
    by_contra hne
    simp only [Bool.not_eq_false, Bool.and_eq_true, decide_eq_true_eq] at hne
    exact hx10 ⟨(HasPrefix_iff _ _).1 hne.1, hne.2⟩
  have hc2 : (HasPrefix buf [0x1B, 0x5B, 0x3C] || HasPrefix buf [0x1B, 0x5B]) = true := by
    rw [(HasPrefix_iff buf [0x1B, 0x5B]).2 hpre]
    simp
  obtain ⟨tl, htl⟩ := hpre
  obtain ⟨bmi, hbmi, hmem⟩ := IndexAny_spec buf _ mi hi
  have hmem' : bmi = 0x4D ∨ bmi = 0x6D := by simpa using hmem
  have hmi2 : 2 ≤ mi := by
    subst htl
    by_contra hlt
    have : mi = 0 ∨ mi = 1 := by omega
    rcases this with h | h
    · subst h
      simp at hbmi
      omega
    · subst h
      simp at hbmi
      omega
  have hlen : mi < buf.length := by
    by_contra hge
    rw [List.getElem?_eq_none (by omega)] at hbmi
    exact Option.noConfusion hbmi
  have h2 : 2 < buf.length := by omega
  unfold parse_mouse_event mouseFieldText
  rw [hc1, hc2, hi]
  simp only [Bool.false_eq_true, if_false, if_true, hbmi, List.getElem?_eq_getElem h2,
    Option.some.injEq]
  by_cases hb2 : buf[2] = 0x3C
  · have hmi3 : 3 ≤ mi := by
      by_contra hlt
      have hm : mi = 2 := by omega
      subst hm
      rw [List.getElem?_eq_getElem h2] at hbmi
      simp only [Option.some.injEq] at hbmi
      omega
    have hs : slice buf 3 mi = some ((buf.drop 3).take (mi - 3)) := by
      unfold slice
      rw [if_pos ⟨hmi3, by omega⟩]
    simp only [hb2, if_true, hs]
    exact ⟨_, _, rfl⟩
  · have hs : slice buf 2 mi = some ((buf.drop 2).take (mi - 2)) := by
      unfold slice
      rw [if_pos ⟨hmi2, by omega⟩]
    simp only [hb2, if_false, hs]
    exact ⟨_, _, rfl⟩

theorem parse_mouse_event_noprefix (c : Consts) (e : Event) (buf : Bytes)
    (hpre : ¬ [0x1B, 0x5B] <+: buf) : parse_mouse_event c e buf = some (e, 0, false) := by
  have h1 : HasPrefix buf [0x1B, 0x5B, 0x4D] = false := by
    by_contra hne
    simp only [Bool.not_eq_false] at hne
    exact hpre (List.IsPrefix.trans ⟨[0x4D], rfl⟩ ((HasPrefix_iff _ _).1 hne))
  have h2 : HasPrefix buf [0x1B, 0x5B, 0x3C] = false := by
    by_contra hne
    simp only [Bool.not_eq_false] at hne
    exact hpre (List.IsPrefix.trans ⟨[0x3C], rfl⟩ ((HasPrefix_iff _ _).1 hne))
  have h3 : HasPrefix buf [0x1B, 0x5B] = false := by
    by_contra hne
    simp only [Bool.not_eq_false] at hne
    exact hpre ((HasPrefix_iff _ _).1 hne)
  unfold parse_mouse_event
  rw [h1, h2, h3]
  simp

/-- C24: mouse-report parsing never crashes. For every byte string
`parse_mouse_event` returns, so that no index or slice expression of it is out
of range. It returns failure with 0 bytes consumed whenever the string holds no
terminator `M` or `m`, and, for a string that is not taken as an X10 report,
whenever the field text before the first terminator does not consist of three
fields separated by `;` or one of the three fields is not the text of a decimal
integer. -/
theorem parse_mouse_event_never_crashes (c : Consts) (e : Event) (buf : Bytes) :
    (∃ r, parse_mouse_event c e buf = some r)
      ∧ ((∀ b ∈ buf, b ≠ 0x4D ∧ b ≠ 0x6D) → parse_mouse_event c e buf = some (e, 0, false))
      ∧ (¬ isX10Report buf → ∀ mi, IndexAny buf [0x4D, 0x6D] = some mi →
          ((mouseFieldText buf mi).count 0x3B ≠ 2 →
              parse_mouse_event c e buf = some (e, 0, false))
          ∧ (∀ f1 f2 f3, mouseFieldText buf mi = f1 ++ [0x3B] ++ f2 ++ [0x3B] ++ f3 →
              (isDecimalInt f1 = false ∨ isDecimalInt f2 = false ∨ isDecimalInt f3 = false) →
              parse_mouse_event c e buf = some (e, 0, false))) := by
  refine ⟨?_, ?_, ?_⟩
  · cases h : parse_mouse_event c e buf with
    | none => exact absurd h (parse_mouse_event_isSome c e buf)
    | some r => exact ⟨r, rfl⟩
  · intro hno
    have hnone : IndexAny buf [0x4D, 0x6D] = none := by
      apply IndexAny_none
      intro b hb
      have := hno b hb
      simp only [List.mem_cons, List.mem_singleton, List.not_mem_nil, or_false, not_or]
      exact this
    by_cases hpre : [0x1B, 0x5B] <+: buf
    · have hc1 : HasPrefix buf [0x1B, 0x5B, 0x4D] = false := by
        by_contra hne
        simp only [Bool.not_eq_false] at hne
        obtain ⟨tl, htl⟩ := (HasPrefix_iff _ _).1 hne
        have := hno 0x4D (by rw [← htl]; simp)
        exact this.1 rfl
      have hc2 : (HasPrefix buf [0x1B, 0x5B, 0x3C] || HasPrefix buf [0x1B, 0x5B]) = true := by
        rw [(HasPrefix_iff buf [0x1B, 0x5B]).2 hpre]
        simp
      unfold parse_mouse_event
      rw [hc1, hc2, hnone]
      simp
    · exact parse_mouse_event_noprefix c e buf hpre
  · intro hx10 mi hi
    by_cases hpre : [0x1B, 0x5B] <+: buf
    · obtain ⟨isM, isU, hp⟩ := parse_mouse_event_ext c e buf mi hx10 hpre hi
      rw [hp]
      exact parseMouseFields_malformed c e isM isU mi _
    · have := parse_mouse_event_noprefix c e buf hpre
      exact ⟨fun _ => this, fun _ _ _ _ _ => this⟩

/-- Instances of C24: `ESC[<0;5M` (two fields) and `ESC[<0;x;3M` (a field that is
no number) fail with 0 bytes consumed. -/
theorem parse_mouse_event_never_crashes_witness :
    parse_mouse_event termboxConsts (Event.ofType EventType.EventKey)
        [0x1B, 0x5B, 0x3C, 0x30, 0x3B, 0x35, 0x4D]
        = some (Event.ofType EventType.EventKey, 0, false)
      ∧ parse_mouse_event termboxConsts (Event.ofType EventType.EventKey)
        [0x1B, 0x5B, 0x3C, 0x30, 0x3B, 0x78, 0x3B, 0x33, 0x4D]
        = some (Event.ofType EventType.EventKey, 0, false) :=
  ⟨((parse_mouse_event_never_crashes termboxConsts (Event.ofType EventType.EventKey)
      [0x1B, 0x5B, 0x3C, 0x30, 0x3B, 0x35, 0x4D]).2.2 (by unfold isX10Report; decide) 6
      (by decide)).1
      (by decide),
   ((parse_mouse_event_never_crashes termboxConsts (Event.ofType EventType.EventKey)
      [0x1B, 0x5B, 0x3C, 0x30, 0x3B, 0x78, 0x3B, 0x33, 0x4D]).2.2
      (by unfold isX10Report; decide) 8
      (by decide)).2 [0x30] [0x78] [0x33] (by decide) (by decide)⟩

/-! ## UTF-8 decode errors and the consumed count: claims C25 and C26 -/

theorem EncodeRune_nat (i : Nat) :
    EncodeRune (i : Int)
      = if i ≤ 0x7F then [i]
        else if i ≤ 0x7FF then [0xC0 + i / 64, 0x80 + i % 64]
        else if i > 0x10FFFF ∨ (0xD800 ≤ i ∧ i ≤ 0xDFFF) then [0xEF, 0xBF, 0xBD]
        else if i ≤ 0xFFFF then [0xE0 + i / 4096, 0x80 + i / 64 % 64, 0x80 + i % 64]
        else [0xF0 + i / 262144, 0x80 + i / 4096 % 64, 0x80 + i / 64 % 64, 0x80 + i % 64] := by
  unfold EncodeRune
  have h : ¬ ((i : Int) < 0) := by omega
  simp only [Int.toNat_ofNat, h, if_false]

theorem enc1 (p0 : Nat) (h : p0 < 0x80) :
    isScalar (p0 : Int) ∧ EncodeRune (p0 : Int) = [p0] := by
  refine ⟨⟨by omega, by omega, by omega⟩, ?_⟩
  rw [EncodeRune_nat, if_pos (by omega)]

theorem enc2 (p0 b1 : Nat) (h0 : 0xC2 ≤ p0) (h1 : p0 < 0xE0) (hc : isCont b1 = true) :
    isScalar ((p0 % 32 * 64 + b1 % 64 : Nat) : Int)
      ∧ EncodeRune ((p0 % 32 * 64 + b1 % 64 : Nat) : Int) = [p0, b1] := by
  simp only [isCont, decide_eq_true_eq] at hc
  refine ⟨⟨by omega, by omega, by omega⟩, ?_⟩
  rw [EncodeRune_nat, if_neg (by omega), if_pos (by omega)]
  congr 1
  · omega
  · congr 1
    omega

theorem enc3 (p0 b1 b2 : Nat) (h0 : 0xE0 ≤ p0) (h1 : p0 < 0xF0)
    (hlo : ¬ b1 < (if p0 = 0xE0 then 0xA0 else 0x80))
    (hhi : ¬ (if p0 = 0xED then 0x9F else 0xBF) < b1) (hc : isCont b2 = true) :
    isScalar ((p0 % 16 * 4096 + b1 % 64 * 64 + b2 % 64 : Nat) : Int)
      ∧ EncodeRune ((p0 % 16 * 4096 + b1 % 64 * 64 + b2 % 64 : Nat) : Int) = [p0, b1, b2] := by
  simp only [isCont, decide_eq_true_eq] at hc
  have hb1 : 0x80 ≤ b1 ∧ b1 ≤ 0xBF := by
    constructor
    · split at hlo <;> omega
    · split at hhi <;> omega
  have hge : 0x800 ≤ p0 % 16 * 4096 + b1 % 64 * 64 + b2 % 64 := by
    split at hlo <;> omega
  have hsur : ¬ (0xD800 ≤ p0 % 16 * 4096 + b1 % 64 * 64 + b2 % 64
      ∧ p0 % 16 * 4096 + b1 % 64 * 64 + b2 % 64 ≤ 0xDFFF) := by
    split at hhi <;> omega
  have hle : p0 % 16 * 4096 + b1 % 64 * 64 + b2 % 64 ≤ 0xFFFF := by omega
  refine ⟨⟨by omega, by omega, by omega⟩, ?_⟩
  rw [EncodeRune_nat, if_neg (by omega), if_neg (by omega), if_neg (by omega), if_pos hle]
  congr 1
  · omega
  · congr 1
    · omega
    · congr 1
      omega

theorem enc4 (p0 b1 b2 b3 : Nat) (h0 : 0xF0 ≤ p0) (h1 : p0 < 0xF5)
    (hlo : ¬ b1 < (if p0 = 0xF0 then 0x90 else 0x80))
    (hhi : ¬ (if p0 = 0xF4 then 0x8F else 0xBF) < b1) (hc2 : isCont b2 = true)
    (hc3 : isCont b3 = true) :
    isScalar ((p0 % 8 * 262144 + b1 % 64 * 4096 + b2 % 64 * 64 + b3 % 64 : Nat) : Int)
      ∧ EncodeRune ((p0 % 8 * 262144 + b1 % 64 * 4096 + b2 % 64 * 64 + b3 % 64 : Nat) : Int)
        = [p0, b1, b2, b3] := by
  simp only [isCont, decide_eq_true_eq] at hc2 hc3
  have hb1 : 0x80 ≤ b1 ∧ b1 ≤ 0xBF := by
    constructor
    · split at hlo <;> omega
    · split at hhi <;> omega
  have hge : 0x10000 ≤ p0 % 8 * 262144 + b1 % 64 * 4096 + b2 % 64 * 64 + b3 % 64 := by
    split at hlo <;> omega
  have hle : p0 % 8 * 262144 + b1 % 64 * 4096 + b2 % 64 * 64 + b3 % 64 ≤ 0x10FFFF := by
    split at hhi <;> omega
  refine ⟨⟨by omega, by omega, by omega⟩, ?_⟩
  rw [EncodeRune_nat, if_neg (by omega), if_neg (by omega), if_neg (by omega),
    if_neg (by omega)]
  congr 1
  · omega
  · congr 1
    · omega
    · congr 1
      · omega
      · congr 1
        omega

/-- A decode that does not give `RuneError` read the encoding of a scalar value
at the head of the buffer, and its width is the length of that encoding. -/
theorem DecodeRune_valid (buf : Bytes) (r : Int) (n : Nat) (h : DecodeRune buf = (r, n))
    (hr : r ≠ RuneError) :
    isScalar r ∧ EncodeRune r <+: buf ∧ n = (EncodeRune r).length ∧ 1 ≤ n ∧ n ≤ buf.length := by
  have fin : ∀ (x : Int) (k : Nat), (x, k) = (r, n) → x = RuneError → False := by
    intro x k hx hx'
    simp only [Prod.mk.injEq] at hx
    exact hr (hx.1 ▸ hx')
  cases buf with
  | nil => exact (fin _ _ h rfl).elim
  | cons p0 rest =>
    unfold DecodeRune at h
    dsimp only at h
    by_cases h80 : p0 < 0x80
    · rw [if_pos h80] at h
      simp only [Prod.mk.injEq] at h
      obtain ⟨h1, h2⟩ := h
      subst h1
      subst h2
      obtain ⟨hs, he⟩ := enc1 p0 h80
      rw [he]
      exact ⟨hs, by simp, rfl, by simp, by simp⟩
    rw [if_neg h80] at h
    by_cases hC2 : p0 < 0xC2
    · rw [if_pos hC2] at h
      exact (fin _ _ h rfl).elim
    rw [if_neg hC2] at h
    by_cases hE0 : p0 < 0xE0
    · rw [if_pos hE0] at h
      cases rest with
      | nil => exact (fin _ _ h rfl).elim
      | cons b1 tl =>
        try dsimp only at h
        by_cases hc : isCont b1 = true
        · rw [if_pos hc] at h
          simp only [Prod.mk.injEq] at h
          obtain ⟨h1, h2⟩ := h
          subst h1
          subst h2
          obtain ⟨hs, he⟩ := enc2 p0 b1 (by omega) hE0 hc
          rw [he]
          exact ⟨hs, by simp, rfl, by simp, by simp⟩
        · rw [if_neg hc] at h
          exact (fin _ _ h rfl).elim
    rw [if_neg hE0] at h
    by_cases hF0 : p0 < 0xF0
    · rw [if_pos hF0] at h
      match rest, h with
      | [], h => exact (fin _ _ h rfl).elim
      | [_], h => exact (fin _ _ h rfl).elim
      | b1 :: b2 :: tl, h =>
        try dsimp only at h
        by_cases hb : b1 < (if p0 = 0xE0 then 0xA0 else 0x80) ∨ (if p0 = 0xED then 0x9F else 0xBF) < b1
        · rw [if_pos hb] at h
          exact (fin _ _ h rfl).elim
        rw [if_neg hb] at h
        by_cases hc : isCont b2 = true
        · rw [if_neg (by simp [hc])] at h
          simp only [Prod.mk.injEq] at h
          obtain ⟨h1, h2⟩ := h
          subst h1
          subst h2
          simp only [not_or] at hb
          obtain ⟨hs, he⟩ := enc3 p0 b1 b2 (by omega) hF0 hb.1 hb.2 hc
          rw [he]
          exact ⟨hs, by simp, rfl, by simp, by simp⟩
        · rw [if_pos (by simp [hc])] at h
          exact (fin _ _ h rfl).elim
    rw [if_neg hF0] at h
    by_cases hF5 : p0 < 0xF5
    · rw [if_pos hF5] at h
      match rest, h with
      | [], h => exact (fin _ _ h rfl).elim
      | [_], h => exact (fin _ _ h rfl).elim
      | [_, _], h => exact (fin _ _ h rfl).elim
      | b1 :: b2 :: b3 :: tl, h =>
        try dsimp only at h
        by_cases hb : b1 < (if p0 = 0xF0 then 0x90 else 0x80) ∨ (if p0 = 0xF4 then 0x8F else 0xBF) < b1
        · rw [if_pos hb] at h
          exact (fin _ _ h rfl).elim
        rw [if_neg hb] at h
        by_cases hc2 : isCont b2 = true
        · rw [if_neg (by simp [hc2])] at h
          by_cases hc3 : isCont b3 = true
          · rw [if_neg (by simp [hc3])] at h
            simp only [Prod.mk.injEq] at h
            obtain ⟨h1, h2⟩ := h
            subst h1
            subst h2
            simp only [not_or] at hb
            obtain ⟨hs, he⟩ := enc4 p0 b1 b2 b3 (by omega) hF5 hb.1 hb.2 hc2 hc3
            rw [he]
            exact ⟨hs, by simp, rfl, by simp, by simp⟩
          · rw [if_pos (by simp [hc3])] at h
            exact (fin _ _ h rfl).elim
        · rw [if_pos (by simp [hc2])] at h
          exact (fin _ _ h rfl).elim
    rw [if_neg hF5] at h
    exact (fin _ _ h rfl).elim

/-- A decode of a buffer with no valid encoding at its head gives `RuneError`. -/
theorem DecodeRune_invalid (buf : Bytes) (h : ¬ validUtf8Head buf) :
    (DecodeRune buf).1 = RuneError := by
  by_contra hne
  obtain ⟨hs, hp, _⟩ := DecodeRune_valid buf (DecodeRune buf).1 (DecodeRune buf).2 rfl hne
  exact h ⟨_, hs, hp⟩

/-- A byte in `0x80..0xBF` or `0xF8..0xFF` at the head of a buffer decodes as
`RuneError` of width 1, whatever follows it. -/
theorem DecodeRune_badLead (b : Nat) (rest : Bytes)
    (hb : (0x80 ≤ b ∧ b ≤ 0xBF) ∨ (0xF8 ≤ b ∧ b ≤ 0xFF)) :
    DecodeRune (b :: rest) = (RuneError, 1) := by
  unfold DecodeRune
  dsimp only
  rcases hb with hb | hb
  · rw [if_neg (by omega), if_pos (by omega)]
  · rw [if_neg (by omega), if_neg (by omega), if_neg (by omega), if_neg (by omega),
      if_neg (by omega)]

theorem matchKeys_len (buf : Bytes) (keys : List Bytes) (s i n : Nat)
    (h : matchKeys buf keys s = some (i, n)) : n ≤ buf.length := by
  induction keys generalizing s with
  | nil => simp [matchKeys] at h
  | cons key rest ih =>
    unfold matchKeys at h
    split at h
    · rename_i hp
      simp only [Option.some.injEq, Prod.mk.injEq] at h
      rw [← h.2]
      exact ((HasPrefix_iff buf key).1 hp).length_le
    · exact ih (s + 1) h

theorem mouseOfFields_n (c : Consts) (e : Event) (isM : Bool) (mi : Nat) (n1 n2 n3 : Int) :
    (mouseOfFields c e isM mi n1 n2 n3).2.1 = mi + 1 := by
  unfold mouseOfFields
  split <;> rfl

theorem mouseOfX10_n (c : Consts) (e : Event) (b3 b4 b5 : Nat) :
    (mouseOfX10 c e b3 b4 b5).2.1 = 6 := by
  unfold mouseOfX10
  dsimp only
  split <;> rfl

theorem parseMouseFields_n (c : Consts) (e e' : Event) (isM isU : Bool) (mi : Nat)
    (buf : Bytes) (n : Nat) (ok : Bool)
    (h : parseMouseFields c e isM isU mi buf = some (e', n, ok)) : n = 0 ∨ n = mi + 1 := by
  unfold parseMouseFields at h
  repeat' split at h
  all_goals first
    | (solve | simp at h)
    | (solve
        | (simp only [Option.some.injEq] at h
           have h2 := congrArg (fun r => r.2.1) h
           simp only at h2
           rw [← h2]
           exact Or.inr (mouseOfFields_n _ _ _ _ _ _ _)))
    | (simp only [Option.some.injEq, Prod.mk.injEq] at h
       exact Or.inl h.2.1.symm)

/-- The byte count of `parse_mouse_event` is at most the length of the buffer. -/
theorem parse_mouse_event_len (c : Consts) (e e' : Event) (buf : Bytes) (n : Nat) (ok : Bool)
    (h : parse_mouse_event c e buf = some (e', n, ok)) : n ≤ buf.length := by
  unfold parse_mouse_event at h
  split at h
  · rename_i hx
    simp only [Bool.and_eq_true, decide_eq_true_eq] at hx
    repeat' split at h
    all_goals first
      | (solve | simp at h)
      | (simp only [Option.some.injEq] at h
         have h2 := congrArg (fun r => r.2.1) h
         simp only at h2
         rw [← h2, mouseOfX10_n]
         exact hx.2)
  · split at h
    · cases hi : IndexAny buf [0x4D, 0x6D] with
      | none =>
        simp only [hi, Option.some.injEq, Prod.mk.injEq] at h
        omega
      | some mi =>
        simp only [hi] at h
        obtain ⟨b, hb, _⟩ := IndexAny_spec buf _ mi hi
        have hlt : mi < buf.length := by
          by_contra hge
          rw [List.getElem?_eq_none (by omega)] at hb
          simp at hb
        repeat' split at h
        all_goals first
          | (solve | simp at h)
          | (have h3 := parseMouseFields_n _ _ _ _ _ _ _ _ _ h
             omega)
    · simp only [Option.some.injEq, Prod.mk.injEq] at h
      omega

theorem parse_escape_sequence_len (c : Consts) (keys : List Bytes) (e e' : Event)
    (buf : Bytes) (n : Nat) (ok : Bool)
    (h : parse_escape_sequence c keys e buf = some (e', n, ok)) : n ≤ buf.length := by
  unfold parse_escape_sequence at h
  split at h
  · rename_i i k hm
    simp only [Option.some.injEq, Prod.mk.injEq] at h
    rw [← h.2.1]
    exact matchKeys_len buf keys 0 i k hm
  · exact parse_mouse_event_len c e e' buf n ok h

/-- A successful `extract_event` sets a byte count between 1 and the length of
the buffer. -/
theorem extract_event_bound (c : Consts) (keys : List Bytes) (mode : InputMode)
    (buf : Bytes) :
    ∀ (e e' : Event), extract_event c keys mode buf e = some (e', true) →
      1 ≤ e'.N ∧ e'.N ≤ buf.length := by
  induction buf with
  | nil =>
    intro e e' h
    simp [extract_event] at h
  | cons b rest ih =>
    intro e e' h
    unfold extract_event at h
    split at h
    · cases hp : parse_escape_sequence c keys e (b :: rest) with
      | none => simp [hp] at h
      | some r =>
        obtain ⟨ev, n, okp⟩ := r
        simp only [hp] at h
        have hlen := parse_escape_sequence_len c keys e ev _ n okp hp
        split at h
        · rename_i hn
          simp only [Option.some.injEq, Prod.mk.injEq] at h
          rw [← h.1]
          exact ⟨Nat.pos_of_ne_zero hn, hlen⟩
        · split at h
          · simp only [Option.some.injEq, Prod.mk.injEq] at h
            rw [← h.1]
            exact ⟨Nat.le_refl 1, by simp⟩
          · split at h
            · cases hr : extract_event c keys mode rest { ev with Mod := c.ModAlt } with
              | none => simp [hr] at h
              | some r2 =>
                obtain ⟨ev2, ok2⟩ := r2
                simp only [hr] at h
                split at h
                · rename_i hok
                  subst hok
                  simp only [Option.some.injEq, Prod.mk.injEq] at h
                  rw [← h.1]
                  have := ih _ _ hr
                  simp only [List.length_cons]
                  omega
                · simp at h
            · simp at h
    · split at h
      · simp only [Option.some.injEq, Prod.mk.injEq] at h
        rw [← h.1]
        exact ⟨Nat.le_refl 1, by simp⟩
      · cases hd : DecodeRune (b :: rest) with
        | mk r n =>
          simp only [hd] at h
          split at h
          · rename_i hr
            simp only [Option.some.injEq, Prod.mk.injEq] at h
            rw [← h.1]
            obtain ⟨_, _, _, h1, h2⟩ := DecodeRune_valid _ r n hd hr
            exact ⟨h1, h2⟩
          · simp at h

/-! ## The consumed count: claim C26 -/

/-- The statements after `extract_event` in the poll functions, for a decode into
an event whose count was 0: the slice `inbuf[N:]` is in range, the buffer loses
`N` bytes, at least one on success and none on failure. -/
theorem consumeEvent_after_extract (c : Consts) (t : Termbox) (buf : Bytes) (e0 e : Event)
    (ok : Bool) (h0 : e0.N = 0)
    (h : extract_event c t.keys t.input_mode buf e0 = some (e, ok)) :
    (ok = true → 1 ≤ e.N ∧ e.N ≤ buf.length) ∧ (ok = false → e.N = 0)
      ∧ consumeEvent { t with inbuf := buf } e = some { t with inbuf := buf.drop e.N } := by
  cases ok with
  | true =>
    obtain ⟨h1, h2⟩ := extract_event_bound c _ _ buf e0 e h
    refine ⟨fun _ => ⟨h1, h2⟩, fun hf => by simp at hf, ?_⟩
    unfold consumeEvent
    rw [if_pos (by omega), if_pos h2]
  | false =>
    have hN := extract_event_fail_N c _ _ buf e0 e h0 h
    refine ⟨fun hf => by simp at hf, fun _ => hN, ?_⟩
    rw [consumeEvent_zero _ _ hN, hN]
    rfl

/-- With the Esc bit or the Alt bit set in the input mode, the loop of the poll
functions never reaches a panic. -/
theorem pollLoop_no_panic (c : Consts) (withCtx : Bool) :
    ∀ (ready : List Ready) (t : Termbox) (event : Event),
      (t.input_mode &&& c.InputEsc ≠ 0 ∨ t.input_mode &&& c.InputAlt ≠ 0) → event.N = 0 →
      pollLoop c withCtx ready t event ≠ PollOutcome.panicked := by
  intro ready
  induction ready with
  | nil =>
    intro t event _ _
    simp [pollLoop]
  | cons r rest ih =>
    intro t event hmode hN
    cases r with
    | input data err =>
      cases err with
      | some e => simp [pollLoop]
      | none =>
        simp only [pollLoop]
        cases hx : extract_event c t.keys t.input_mode (t.inbuf ++ data) event with
        | none => exact absurd hx (extract_event_isSome c _ _ hmode _ _)
        | some r2 =>
          obtain ⟨e2, ok⟩ := r2
          obtain ⟨_, a2, a3⟩ := consumeEvent_after_extract c t (t.inbuf ++ data) event e2 ok hN hx
          simp only [a3]
          cases ok with
          | true => simp
          | false =>
            simp only [Bool.false_eq_true, if_false]
            exact ih _ e2 hmode (a2 rfl)
    | interrupt => simp [pollLoop]
    | resize => simp [pollLoop]
    | cancel =>
      simp only [pollLoop]
      cases withCtx with
      | true => simp
      | false =>
        simp only [Bool.false_eq_true, if_false]
        exact ih t event hmode hN

theorem pollEventBody_no_panic (c : Consts) (withCtx : Bool) (t : Termbox) (ready : List Ready)
    (hmode : t.input_mode &&& c.InputEsc ≠ 0 ∨ t.input_mode &&& c.InputAlt ≠ 0) :
    pollEventBody c withCtx t ready ≠ PollOutcome.panicked := by
  unfold pollEventBody
  cases hx : extract_event c t.keys t.input_mode t.inbuf (Event.ofType EventType.EventKey) with
  | none => exact absurd hx (extract_event_isSome c _ _ hmode _ _)
  | some r2 =>
    obtain ⟨e2, ok⟩ := r2
    obtain ⟨_, a2, a3⟩ := consumeEvent_after_extract c t t.inbuf _ e2 ok rfl hx
    simp only [show ({ t with inbuf := t.inbuf } : Termbox) = t from rfl] at a3
    simp only [a3]
    cases ok with
    | true => simp
    | false =>
      simp only [Bool.false_eq_true, if_false]
      exact pollLoop_no_panic c withCtx ready _ e2 hmode (a2 rfl)

/-- C26: bounds of the consumed count. For every key table, every input mode
with the Esc or the Alt bit and every buffer, a decode into an event whose count
is 0 (the fresh event of `ParseEvent` and of the poll functions, and the event
of a poll loop after failed decodes) returns, with `1 ≤ N ≤ len(buffer)` on
success and `N = 0` on failure; `ParseEvent` returns an event that is not of
type None with `N > 0`; the trimming `inbuf[N:]` of the poll functions is in
range, removes exactly `N` bytes and strictly shortens the buffer on success;
and `PollEvent` and `PollEventWithContext` never panic. -/
theorem consumed_count_bounds (c : Consts) (t : Termbox) (buf : Bytes)
    (hmode : t.input_mode &&& c.InputEsc ≠ 0 ∨ t.input_mode &&& c.InputAlt ≠ 0) :
    (∀ e0 : Event, e0.N = 0 →
        ∃ e ok, extract_event c t.keys t.input_mode buf e0 = some (e, ok)
          ∧ (ok = true → 1 ≤ e.N ∧ e.N ≤ buf.length) ∧ (ok = false → e.N = 0)
          ∧ consumeEvent { t with inbuf := buf } e = some { t with inbuf := buf.drop e.N }
          ∧ (ok = true → (buf.drop e.N).length < buf.length))
      ∧ (∃ e ok, extract_event c t.keys t.input_mode buf (Event.ofType EventType.EventKey)
            = some (e, ok)
          ∧ (ok = true → 1 ≤ e.N ∧ e.N ≤ buf.length) ∧ (ok = false → e.N = 0))
      ∧ (∃ ev, ParseEvent c t.keys t.input_mode buf = some ev
          ∧ (ev.Type_ = EventType.EventNone → ev.N = 0) ∧ ev.N ≤ buf.length)
      ∧ (∀ ready, PollEvent c t ready ≠ PollOutcome.panicked
          ∧ PollEventWithContext c t ready ≠ PollOutcome.panicked) := by
  have key : ∀ e0 : Event, e0.N = 0 →
      ∃ e ok, extract_event c t.keys t.input_mode buf e0 = some (e, ok)
        ∧ (ok = true → 1 ≤ e.N ∧ e.N ≤ buf.length) ∧ (ok = false → e.N = 0)
        ∧ consumeEvent { t with inbuf := buf } e = some { t with inbuf := buf.drop e.N }
        ∧ (ok = true → (buf.drop e.N).length < buf.length) := by
    intro e0 h0
    cases hx : extract_event c t.keys t.input_mode buf e0 with
    | none => exact absurd hx (extract_event_isSome c _ _ hmode _ _)
    | some r =>
      obtain ⟨e, ok⟩ := r
      obtain ⟨a1, a2, a3⟩ := consumeEvent_after_extract c t buf e0 e ok h0 hx
      refine ⟨e, ok, rfl, a1, a2, a3, ?_⟩
      intro hok
      have := a1 hok
      rw [List.length_drop]
      omega
  refine ⟨key, ?_, ?_, ?_⟩
  · obtain ⟨e, ok, h1, h2, h3, _⟩ := key (Event.ofType EventType.EventKey) rfl
    exact ⟨e, ok, h1, h2, h3⟩
  · obtain ⟨e, ok, h1, h2, h3, _⟩ := key (Event.ofType EventType.EventKey) rfl
    unfold ParseEvent
    rw [h1]
    cases ok with
    | true =>
      refine ⟨e, by simp, ?_, (h2 rfl).2⟩
      intro hty
      rcases extract_event_type c _ _ _ _ e true h1 with h | h
      · rw [h] at hty
        exact EventType.noConfusion hty
      · rw [h] at hty
        exact EventType.noConfusion hty
    | false =>
      refine ⟨{ Event.ofType EventType.EventNone with N := e.N }, by simp, fun _ => h3 rfl, ?_⟩
      show e.N ≤ buf.length
      rw [h3 rfl]
      exact Nat.zero_le _
  · intro ready
    exact ⟨pollEventBody_no_panic c false t ready hmode, pollEventBody_no_panic c true t ready hmode⟩

/-- An instance of C26: the state `sampleTermbox` (Esc mode) and the buffer
`a b`. -/
theorem consumed_count_bounds_witness :
    (∀ e0 : Event, e0.N = 0 →
        ∃ e ok, extract_event termboxConsts sampleTermbox.keys sampleTermbox.input_mode
            [0x61, 0x62] e0 = some (e, ok)
          ∧ (ok = true → 1 ≤ e.N ∧ e.N ≤ 2) ∧ (ok = false → e.N = 0))
      ∧ ∀ ready, PollEvent termboxConsts sampleTermbox ready ≠ PollOutcome.panicked :=
  ⟨fun e0 h0 =>
      let ⟨e, ok, h1, h2, h3, _⟩ :=
        (consumed_count_bounds termboxConsts sampleTermbox [0x61, 0x62] (Or.inl (by decide))).1
          e0 h0
      ⟨e, ok, h1, h2, h3⟩,
   fun ready =>
      ((consumed_count_bounds termboxConsts sampleTermbox [0x61, 0x62]
        (Or.inl (by decide))).2.2.2 ready).1⟩

/-! ## UTF-8 decode errors: claim C25 -/

/-- No encoding of a scalar value starts with a byte in `0x80..0xBF` or
`0xF8..0xFF`. -/
theorem badLead_not_valid (b : Nat) (cont : Bytes)
    (hb : (0x80 ≤ b ∧ b ≤ 0xBF) ∨ (0xF8 ≤ b ∧ b ≤ 0xFF)) : ¬ validUtf8Head (b :: cont) := by
  rintro ⟨r, ⟨h0, h1, h2⟩, hp⟩
  obtain ⟨i, rfl⟩ := Int.eq_ofNat_of_zero_le h0
  rw [EncodeRune_nat] at hp
  have hi : i ≤ 0x10FFFF := by omega
  split at hp
  · rw [List.cons_prefix_cons] at hp
    omega
  · split at hp
    · rw [List.cons_prefix_cons] at hp
      omega
    · split at hp
      · rw [List.cons_prefix_cons] at hp
        omega
      · split at hp
        · rw [List.cons_prefix_cons] at hp
          omega
        · rw [List.cons_prefix_cons] at hp
          omega

/-- A buffer whose first byte is above Space, is not Backspace2 and does not
start a valid encoding is left undecoded: the event is untouched. -/
theorem extract_event_invalid (c : Consts) (keys : List Bytes) (mode : InputMode) (b : Nat)
    (rest : Bytes) (e : Event) (hS : c.KeySpace = 0x20) (hB : c.KeyBackspace2 = 0x7F)
    (hb : 0x20 < b) (hb' : b ≠ 0x7F) (hinv : ¬ validUtf8Head (b :: rest)) :
    extract_event c keys mode (b :: rest) e = some (e, false) := by
  unfold extract_event
  rw [if_neg (by omega), if_neg (by rw [hS, hB]; omega)]
  have hd := DecodeRune_invalid _ hinv
  cases hx : DecodeRune (b :: rest) with
  | mk r n =>
    rw [hx] at hd
    simp only at hd
    simp only [hd, ne_eq, not_true_eq_false, if_false]

/-- The loop of `PollEvent` on a buffer that starts with a byte that can never
start an encoding: the buffer only grows, and the loop returns no decoded
event. -/
theorem pollLoop_stuck (c : Consts) (b : Nat) (hS : c.KeySpace = 0x20)
    (hB : c.KeyBackspace2 = 0x7F)
    (hb : (0x80 ≤ b ∧ b ≤ 0xBF) ∨ (0xF8 ≤ b ∧ b ≤ 0xFF)) :
    ∀ (ready : List Ready) (t : Termbox) (event : Event) (cont : Bytes), event.N = 0 →
      event.Type_ = EventType.EventKey → t.inbuf = b :: cont →
      (∃ t', pollLoop c false ready t event = PollOutcome.waiting t' ∧ (b :: cont) <+: t'.inbuf)
        ∨ (∃ ev t', pollLoop c false ready t event = PollOutcome.returned ev t'
            ∧ (b :: cont) <+: t'.inbuf
            ∧ (ev.Type_ = EventType.EventError ∨ ev.Type_ = EventType.EventInterrupt
                ∨ ev.Type_ = EventType.EventResize)) := by
  intro ready
  induction ready with
  | nil =>
    intro t event cont _ _ hin
    exact Or.inl ⟨t, rfl, by rw [hin]⟩
  | cons r rest ih =>
    intro t event cont hN hT hin
    cases r with
    | input data err =>
      cases err with
      | some e =>
        refine Or.inr ⟨_, t, rfl, by rw [hin], Or.inl rfl⟩
      | none =>
        simp only [pollLoop]
        have hx : extract_event c t.keys t.input_mode (t.inbuf ++ data) event
            = some (event, false) := by
          rw [hin, List.cons_append]
          exact extract_event_invalid c _ _ b _ event hS hB (by omega) (by omega)
            (badLead_not_valid b _ hb)
        rw [hx]
        simp only [consumeEvent_zero _ _ hN, Bool.false_eq_true, if_false]
        have := ih { t with inbuf := t.inbuf ++ data } event (cont ++ data) hN hT
          (by simp [hin])
        have hpre : (b :: cont) <+: (b :: (cont ++ data)) := by
          rw [← List.cons_append]
          exact List.prefix_append _ _
        rcases this with ⟨t', h1, h2⟩ | ⟨ev, t', h1, h2, h3⟩
        · exact Or.inl ⟨t', h1, hpre.trans h2⟩
        · exact Or.inr ⟨ev, t', h1, hpre.trans h2, h3⟩
    | interrupt =>
      exact Or.inr ⟨_, t, rfl, by rw [hin], Or.inr (Or.inl rfl)⟩
    | resize =>
      exact Or.inr ⟨_, t, rfl, by rw [hin], Or.inr (Or.inr rfl)⟩
    | cancel =>
      simp only [pollLoop, Bool.false_eq_true, if_false]
      exact ih t event cont hN hT hin

/-- C25: UTF-8 decode errors consume nothing. With `KeySpace = 0x20` and
`KeyBackspace2 = 0x7F`, a buffer whose first byte is above `0x20` and not `0x7F`
and that does not start with the encoding of a scalar value is not decoded: the
fresh event comes back untouched, with `N = 0`, and `ParseEvent` gives an event
of type None with `N = 0`. When the first byte is in `0x80..0xBF` or
`0xF8..0xFF`, this is so for every continuation of the buffer, and `PollEvent`
from a state whose buffer starts with that byte either keeps waiting or returns
an Error, Interrupt or Resize event, with the old buffer still at the head of
the new one. -/
theorem utf8_error_consumes_nothing (c : Consts) (keys : List Bytes) (mode : InputMode)
    (b : Nat) (rest : Bytes) (hS : c.KeySpace = 0x20) (hB : c.KeyBackspace2 = 0x7F)
    (hb : 0x20 < b) (hb' : b ≠ 0x7F) (hinv : ¬ validUtf8Head (b :: rest)) :
    extract_event c keys mode (b :: rest) (Event.ofType EventType.EventKey)
        = some (Event.ofType EventType.EventKey, false)
      ∧ (Event.ofType EventType.EventKey).N = 0
      ∧ ParseEvent c keys mode (b :: rest) = some (Event.ofType EventType.EventNone)
      ∧ ((0x80 ≤ b ∧ b ≤ 0xBF) ∨ (0xF8 ≤ b ∧ b ≤ 0xFF) →
          (∀ cont : Bytes, ¬ validUtf8Head (b :: cont)
            ∧ extract_event c keys mode (b :: cont) (Event.ofType EventType.EventKey)
              = some (Event.ofType EventType.EventKey, false))
          ∧ ∀ (t : Termbox) (ready : List Ready), t.inbuf = b :: rest →
              (∃ t', PollEvent c t ready = PollOutcome.waiting t' ∧ (b :: rest) <+: t'.inbuf)
              ∨ (∃ ev t', PollEvent c t ready = PollOutcome.returned ev t'
                  ∧ (b :: rest) <+: t'.inbuf
                  ∧ (ev.Type_ = EventType.EventError ∨ ev.Type_ = EventType.EventInterrupt
                      ∨ ev.Type_ = EventType.EventResize))) := by
  have hx := extract_event_invalid c keys mode b rest (Event.ofType EventType.EventKey)
    hS hB hb hb' hinv
  refine ⟨hx, rfl, ?_, ?_⟩
  · unfold ParseEvent
    rw [hx]
    rfl
  · intro hbad
    refine ⟨fun cont => ⟨badLead_not_valid b cont hbad,
      extract_event_invalid c keys mode b cont _ hS hB hb hb' (badLead_not_valid b cont hbad)⟩,
      ?_⟩
    intro t ready hin
    unfold PollEvent pollEventBody
    have hx2 : extract_event c t.keys t.input_mode t.inbuf (Event.ofType EventType.EventKey)
        = some (Event.ofType EventType.EventKey, false) := by
      rw [hin]
      exact extract_event_invalid c _ _ b rest _ hS hB hb hb' hinv
    rw [hx2]
    simp only [consumeEvent_zero _ _ (rfl : (Event.ofType EventType.EventKey).N = 0),
      Bool.false_eq_true, if_false]
    exact pollLoop_stuck c b hS hB hbad ready t _ rest rfl rfl hin

/-- An instance of C25: the buffer `FF 41` is not decoded, and `PollEvent` from
a state that holds it keeps it. -/
theorem utf8_error_consumes_nothing_witness :
    extract_event termboxConsts sampleTermbox.keys 1 [0xFF, 0x41]
        (Event.ofType EventType.EventKey) = some (Event.ofType EventType.EventKey, false)
      ∧ ParseEvent termboxConsts sampleTermbox.keys 1 [0xFF, 0x41]
        = some (Event.ofType EventType.EventNone)
      ∧ ∀ ready : List Ready,
          (∃ t', PollEvent termboxConsts { sampleTermbox with inbuf := [0xFF, 0x41] } ready
              = PollOutcome.waiting t' ∧ [0xFF, 0x41] <+: t'.inbuf)
          ∨ (∃ ev t', PollEvent termboxConsts { sampleTermbox with inbuf := [0xFF, 0x41] } ready
              = PollOutcome.returned ev t' ∧ [0xFF, 0x41] <+: t'.inbuf
              ∧ (ev.Type_ = EventType.EventError ∨ ev.Type_ = EventType.EventInterrupt
                  ∨ ev.Type_ = EventType.EventResize)) :=
  have h := utf8_error_consumes_nothing termboxConsts sampleTermbox.keys 1 0xFF [0x41] rfl rfl
    (by decide) (by decide) (badLead_not_valid 0xFF [0x41] (Or.inr ⟨by decide, by decide⟩))
  ⟨h.1, h.2.2.1, fun ready =>
    (h.2.2.2 (Or.inr ⟨by decide, by decide⟩)).2 { sampleTermbox with inbuf := [0xFF, 0x41] }
      ready rfl⟩

end SSHTermbox
